import Mathlib

/-!
# gl-goodies: the OBJ mesh loader

A shallow embedding of `ObjLoader.cpp`, `ObjLoader.h`, `Vector.h`, `VertexBuffer.h` and
`IndexBuffer.h`, and the properties of the loader proved over it.

Conventions of the embedding.

* `std::string` is a list of characters (`Str`); the input file is the list of the successive
  values of `buffer` that `std::getline` produces.
* `float` and `double` are an exact ordered field `α` (the rationals for executable examples).
  The C library functions `atof` and `sqrt` are parameters.
* Record counts and write cursors are natural numbers.  The values read from the file by `atoi`
  are checked against the range of `int`, and are converted to `unsigned int` modulo `2 ^ 32`.
* A run that stops at a failed `assert`, or that leaves defined behaviour (an index outside a
  `std::vector`, an `atoi` result outside `int`), returns `Except.error` with the fault.
-/

namespace GlGoodies

/-- The text type `std::string`. -/
abbrev Str := List Char

/-- How a run can stop without a result. -/
inductive Fault where
  /-- `assert(index > 0)` in a setter or getter of `ObjTriangle`. -/
  | indexPositive
  /-- `assert(vertex >= 0 && vertex < 3)` in a setter or getter of `ObjTriangle`. -/
  | cornerRange
  /-- `assert(size > 0)` in the constructor of `VertexBuffer` or `IndexBuffer`. -/
  | bufferSize
  /-- `assert(index >= 0 && index < this->size)` of `VertexBuffer` or `IndexBuffer`. -/
  | bufferIndex
  /-- One of the six range assertions on a position component in the packing loop. -/
  | positionRange
  /-- `assert(normalIndex < normals.size())` in the packing loop. -/
  | normalIndex
  /-- `assert(this->distances.size() > 0)` in `WriteDepthAsTextureCoordinates`. -/
  | depthTable
  /-- `grouped[group]` with `group >= 3` in `tokenizeGroup`. -/
  | groupOverrun
  /-- `vertices[k]` beyond the fields of a face line. -/
  | missingField
  /-- An element access beyond the size of one of the record tables. -/
  | tableOverrun
  /-- The value of the text given to `atoi` is not representable in `int`. -/
  | atoiRange
  /-- `assert(this->distances.size() == vertices.size())` in `Calculate`. -/
  | depthCount
  /-- An access `m_Data[i]` of a `Vector<N,T>` with `i >= N`. -/
  | componentRange
  /-- An integer division by 0. -/
  | divideByZero
  deriving DecidableEq

deriving instance DecidableEq for Except

/-! ## Text helpers (`ObjLoader.cpp`) -/

/-- The loop of `SplitString`: `output` and `currentString` after the characters of `str`. -/
def SplitString.loop (splitCharacter : Char) : List Char → List Str → Str → List Str × Str
  | [], output, currentString => (output, currentString)
  | c :: rest, output, currentString =>
    if c ≠ splitCharacter then
      SplitString.loop splitCharacter rest output (currentString ++ [c])
    else
      SplitString.loop splitCharacter rest (output ++ [currentString]) []

/-- `SplitString(str, splitCharacter)`. -/
def SplitString (str : Str) (splitCharacter : Char) : List Str :=
  let r := SplitString.loop splitCharacter str [] []
  if r.2.length > 0 then r.1 ++ [r.2] else r.1

/-- The loop of `tokenizeGroup`: `grouped`, `currentString` and `group` after the characters of
`str`; writing `grouped[group]` outside the three entries is a fault. -/
def tokenizeGroup.loop : List Char → List Str → Str → Nat → Except Fault (List Str × Str × Nat)
  | [], grouped, currentString, group => .ok (grouped, currentString, group)
  | c :: rest, grouped, currentString, group =>
    if c ≠ '/' then
      tokenizeGroup.loop rest grouped (currentString ++ [c]) group
    else if group < grouped.length then
      tokenizeGroup.loop rest (grouped.set group currentString) [] (group + 1)
    else
      .error .groupOverrun

/-- `tokenizeGroup(str)`. -/
def tokenizeGroup (str : Str) : Except Fault (List Str) :=
  match tokenizeGroup.loop str [[], [], []] [] 0 with
  | .error e => .error e
  | .ok (grouped, currentString, group) =>
    if str.length > 0 then
      match grouped[group]? with
      | none => .error .groupOverrun
      | some g => if g.length = 0 then .ok (grouped.set group currentString) else .ok grouped
    else
      .ok grouped

/-- The C library predicate `isspace` in the "C" locale. -/
def isspace (c : Char) : Bool :=
  c = ' ' || c = '\t' || c = '\n' || c = '\x0b' || c = '\x0c' || c = '\r'

/-- The C library predicate `isdigit`. -/
def isdigit (c : Char) : Bool := '0' ≤ c && c ≤ '9'

/-- The value of the longest prefix of decimal digits, continuing from `acc`. -/
def atoi.digits : List Char → Nat → Nat
  | [], acc => acc
  | c :: rest, acc => if isdigit c then atoi.digits rest (10 * acc + (c.toNat - '0'.toNat)) else acc

/-- The sign and the digits of `atoi`, after the leading white space. -/
def atoi.signed : List Char → Int
  | '-' :: rest => - (atoi.digits rest 0 : Int)
  | '+' :: rest => (atoi.digits rest 0 : Int)
  | s => (atoi.digits s 0 : Int)

/-- The C library function `atoi`: leading white space, an optional sign, decimal digits.  The C
standard leaves the result undefined when the value is not representable in `int`. -/
def atoi (s : Str) : Except Fault Int :=
  let v := atoi.signed (s.dropWhile isspace)
  if -(2 : Int) ^ 31 ≤ v ∧ v < (2 : Int) ^ 31 then .ok v else .error .atoiRange

/-- The conversion of an `int` argument to an `unsigned int` parameter. -/
def toUnsigned (i : Int) : Nat := (i % (2 : Int) ^ 32).toNat

/-- The words that `operator>>` extracts in turn from a `std::istringstream` over the text: the
maximal runs of characters that are not white space. -/
def streamWords.loop : List Char → Str → List Str
  | [], word => if word.length > 0 then [word] else []
  | c :: rest, word =>
    if isspace c then
      if word.length > 0 then word :: streamWords.loop rest [] else streamWords.loop rest []
    else
      streamWords.loop rest (word ++ [c])

/-- The `k`-th string read by `line >> temp >> f1 >> ...`; a string for which the stream has no
word left stays empty. -/
def streamWord (buffer : Str) (k : Nat) : Str := (streamWords.loop buffer []).getD k []

/-! ## Records (`ObjLoader.h`, `Vector.h`) -/

/-- The type `Vector<3,T>`, with `x`, `y`, `z` for `m_Data[0]`, `m_Data[1]`, `m_Data[2]`. -/
structure Vector3 (α : Type) where
  x : α
  y : α
  z : α
  deriving DecidableEq

/-- The class `ObjVertex`. -/
structure ObjVertex (α : Type) where
  x : α
  y : α
  z : α
  normalX : α
  normalY : α
  normalZ : α
  deriving DecidableEq

/-- The class `ObjNormal`. -/
structure ObjNormal (α : Type) where
  x : α
  y : α
  z : α
  deriving DecidableEq

/-- The class `ObjTextureCoordinate`. -/
structure ObjTextureCoordinate (α : Type) where
  u : α
  v : α
  deriving DecidableEq

/-- An array `T a[3]`. -/
structure Array3 (β : Type) where
  e0 : β
  e1 : β
  e2 : β
  deriving DecidableEq

/-- The element `a[i]`, for `i < 3`. -/
def Array3.get {β : Type} (a : Array3 β) (i : Nat) : β :=
  match i with
  | 0 => a.e0
  | 1 => a.e1
  | _ => a.e2

/-- The array after `a[i] = v`, for `i < 3`. -/
def Array3.set {β : Type} (a : Array3 β) (i : Nat) (v : β) : Array3 β :=
  match i with
  | 0 => { a with e0 := v }
  | 1 => { a with e1 := v }
  | _ => { a with e2 := v }

/-- The class `ObjTriangle`. -/
structure ObjTriangle (α : Type) where
  vertexIndices : Array3 Nat
  normalIndices : Array3 Nat
  textureCoordinateIndices : Array3 Nat
  isFaceNormalComputedYet : Bool
  faceNormal : Vector3 α
  deriving DecidableEq

section Records

variable {α : Type} [LinearOrderedField α]

/-- The constructor `Vector<3,T>()`. -/
def Vector3.zero : Vector3 α := ⟨0, 0, 0⟩

/-- The constructor `ObjVertex()`. -/
def ObjVertex.new : ObjVertex α := ⟨0, 0, 0, 0, 0, 0⟩

/-- The constructor `ObjNormal()`. -/
def ObjNormal.new : ObjNormal α := ⟨0, 0, 0⟩

/-- The constructor `ObjTextureCoordinate()`. -/
def ObjTextureCoordinate.new : ObjTextureCoordinate α := ⟨0, 0⟩

/-- The constructor `ObjTriangle()`. -/
def ObjTriangle.new : ObjTriangle α := ⟨⟨0, 0, 0⟩, ⟨0, 0, 0⟩, ⟨0, 0, 0⟩, false, Vector3.zero⟩

/-- `ObjTriangle::GetVertexIndex`. -/
def ObjTriangle.GetVertexIndex (t : ObjTriangle α) (vertex : Nat) : Except Fault Nat :=
  if ¬ vertex < 3 then .error .cornerRange
  else
    let vertexIndex := t.vertexIndices.get vertex
    if ¬ vertexIndex > 0 then .error .indexPositive else .ok vertexIndex

/-- `ObjTriangle::GetNormalIndex`. -/
def ObjTriangle.GetNormalIndex (t : ObjTriangle α) (vertex : Nat) : Except Fault Nat :=
  if ¬ vertex < 3 then .error .cornerRange
  else
    let normalIndex := t.normalIndices.get vertex
    if ¬ normalIndex > 0 then .error .indexPositive else .ok normalIndex

/-- `ObjTriangle::GetTextureCoordinateIndex`. -/
def ObjTriangle.GetTextureCoordinateIndex (t : ObjTriangle α) (vertex : Nat) : Except Fault Nat :=
  if ¬ vertex < 3 then .error .cornerRange
  else
    let textureCoordinateIndex := t.textureCoordinateIndices.get vertex
    if ¬ textureCoordinateIndex > 0 then .error .indexPositive else .ok textureCoordinateIndex

/-- `ObjTriangle::SetVertexIndex`. -/
def ObjTriangle.SetVertexIndex (t : ObjTriangle α) (vertex : Nat) (index : Nat) :
    Except Fault (ObjTriangle α) :=
  if ¬ vertex < 3 then .error .cornerRange
  else if ¬ index > 0 then .error .indexPositive
  else .ok { t with vertexIndices := t.vertexIndices.set vertex index }

/-- `ObjTriangle::SetNormalIndex`. -/
def ObjTriangle.SetNormalIndex (t : ObjTriangle α) (vertex : Nat) (index : Nat) :
    Except Fault (ObjTriangle α) :=
  if ¬ vertex < 3 then .error .cornerRange
  else if ¬ index > 0 then .error .indexPositive
  else .ok { t with normalIndices := t.normalIndices.set vertex index }

/-- `ObjTriangle::SetTextureCoordinateIndex`. -/
def ObjTriangle.SetTextureCoordinateIndex (t : ObjTriangle α) (vertex : Nat) (index : Nat) :
    Except Fault (ObjTriangle α) :=
  if ¬ vertex < 3 then .error .cornerRange
  else if ¬ index > 0 then .error .indexPositive
  else .ok { t with textureCoordinateIndices := t.textureCoordinateIndices.set vertex index }

end Records

/-! ## The counting pass of `ObjLoader::LoadMesh` -/

/-- The four counters of the first scan. -/
structure Tally where
  numberOfTextureCoordinates : Nat
  numberOfNormals : Nat
  numberOfTriangles : Nat
  numberOfVertices : Nat
  deriving DecidableEq

/-- The body of the first `while` loop, for one line `buffer`. -/
def countLine (c : Tally) (buffer : Str) : Tally :=
  if buffer.take 2 = ['v', 'n'] then
    { c with numberOfNormals := c.numberOfNormals + 1 }
  else if buffer.take 2 = ['v', 't'] then
    { c with numberOfTextureCoordinates := c.numberOfTextureCoordinates + 1 }
  else if buffer.take 1 = ['v'] then
    { c with numberOfVertices := c.numberOfVertices + 1 }
  else if buffer.take 1 = ['f'] then
    let faceParts := SplitString buffer ' '
    let c := { c with numberOfTriangles := c.numberOfTriangles + 1 }
    if faceParts.length > 4 then
      { c with numberOfTriangles := c.numberOfTriangles + 1 }
    else
      c
  else
    c

/-- The first `while` loop over the lines of the file. -/
def countingPass (lines : List Str) : Tally :=
  lines.foldl countLine ⟨0, 0, 0, 0⟩

/-! ## The record pass of `ObjLoader::LoadMesh` -/

/-- The four tables and the four write cursors of the second scan. -/
structure RecordState (α : Type) where
  vertices : List (ObjVertex α)
  normals : List (ObjNormal α)
  textureCoordinates : List (ObjTextureCoordinate α)
  triangles : List (ObjTriangle α)
  normal : Nat
  textureCoordinate : Nat
  vertex : Nat
  triangle : Nat
  deriving DecidableEq

section RecordPass

variable {α : Type} [LinearOrderedField α]

/-- The tables as instantiated after the first scan, with all cursors at 0. -/
def RecordState.allocate (c : Tally) : RecordState α where
  vertices := List.replicate c.numberOfVertices ObjVertex.new
  normals := List.replicate (max 1 c.numberOfNormals) ObjNormal.new
  textureCoordinates := List.replicate (max 1 c.numberOfTextureCoordinates) ObjTextureCoordinate.new
  triangles := List.replicate c.numberOfTriangles ObjTriangle.new
  normal := 0
  textureCoordinate := 0
  vertex := 0
  triangle := 0

/-- The access `table[i]` of a record table followed by an update of that element. -/
def modifyAt {β : Type} (table : List β) (i : Nat) (f : β → Except Fault β) :
    Except Fault (List β) :=
  match table[i]? with
  | none => .error .tableOverrun
  | some x =>
    match f x with
    | .error e => .error e
    | .ok y => .ok (table.set i y)

/-- The field `vertices[k]` of a split face line. -/
def faceField (vertices : List Str) (k : Nat) : Except Fault Str :=
  match vertices[k]? with
  | none => .error .missingField
  | some g => .ok g

/-- The argument `(part.length() > threshold) ? atoi(part.c_str()) : 1`, converted to the
`unsigned int` parameter of a setter. -/
def indexArgument (threshold : Nat) (part : Str) : Except Fault Nat :=
  if part.length > threshold then
    match atoi part with
    | .error e => .error e
    | .ok i => .ok (toUnsigned i)
  else
    .ok (toUnsigned 1)

/-- The nine setter calls on `triangles[triangle]` for the first triangle of a face. -/
def firstTriangle (v1Parts v2Parts v3Parts : List Str) (t : ObjTriangle α) :
    Except Fault (ObjTriangle α) := do
  let t ← t.SetVertexIndex 0 (← indexArgument 0 (v1Parts.getD 0 []))
  let t ← t.SetVertexIndex 1 (← indexArgument 0 (v2Parts.getD 0 []))
  let t ← t.SetVertexIndex 2 (← indexArgument 0 (v3Parts.getD 0 []))
  let t ← t.SetTextureCoordinateIndex 0 (← indexArgument 0 (v1Parts.getD 1 []))
  let t ← t.SetTextureCoordinateIndex 1 (← indexArgument 1 (v2Parts.getD 1 []))
  let t ← t.SetTextureCoordinateIndex 2 (← indexArgument 1 (v3Parts.getD 1 []))
  let t ← t.SetNormalIndex 0 (← indexArgument 0 (v1Parts.getD 2 []))
  let t ← t.SetNormalIndex 1 (← indexArgument 0 (v2Parts.getD 2 []))
  let t ← t.SetNormalIndex 2 (← indexArgument 0 (v3Parts.getD 2 []))
  pure t

/-- The nine setter calls on `triangles[triangle]` for the second triangle of a quad. -/
def secondTriangle (v1Parts v3Parts v4Parts : List Str) (t : ObjTriangle α) :
    Except Fault (ObjTriangle α) := do
  let t ← t.SetVertexIndex 0 (← indexArgument 0 (v1Parts.getD 0 []))
  let t ← t.SetVertexIndex 1 (← indexArgument 0 (v3Parts.getD 0 []))
  let t ← t.SetVertexIndex 2 (← indexArgument 0 (v4Parts.getD 0 []))
  let t ← t.SetTextureCoordinateIndex 0 (← indexArgument 1 (v1Parts.getD 1 []))
  let t ← t.SetTextureCoordinateIndex 1 (← indexArgument 1 (v3Parts.getD 1 []))
  let t ← t.SetTextureCoordinateIndex 2 (← indexArgument 1 (v4Parts.getD 1 []))
  let t ← t.SetNormalIndex 0 (← indexArgument 0 (v1Parts.getD 2 []))
  let t ← t.SetNormalIndex 1 (← indexArgument 0 (v3Parts.getD 2 []))
  let t ← t.SetNormalIndex 2 (← indexArgument 0 (v4Parts.getD 2 []))
  pure t

/-- The branch of the second `while` loop for a face line. -/
def recordFace (buffer : Str) (st : RecordState α) : Except Fault (RecordState α) := do
  let vertices := SplitString buffer ' '
  let v1Parts ← tokenizeGroup (← faceField vertices 1)
  let v2Parts ← tokenizeGroup (← faceField vertices 2)
  let v3Parts ← tokenizeGroup (← faceField vertices 3)
  let triangles ← modifyAt st.triangles st.triangle (firstTriangle v1Parts v2Parts v3Parts)
  let st := { st with triangles := triangles, triangle := st.triangle + 1 }
  if vertices.length > 4 then
    let v4Parts ← tokenizeGroup (← faceField vertices 4)
    let triangles ← modifyAt st.triangles st.triangle (secondTriangle v1Parts v3Parts v4Parts)
    pure { st with triangles := triangles, triangle := st.triangle + 1 }
  else
    pure st

/-- The body of the second `while` loop, for one line `buffer`. -/
def recordLine (atof : Str → α) (st : RecordState α) (buffer : Str) :
    Except Fault (RecordState α) :=
  if buffer.take 2 = ['v', 'n'] then
    let x := atof (streamWord buffer 1)
    let y := atof (streamWord buffer 2)
    let z := atof (streamWord buffer 3)
    match modifyAt st.normals st.normal (fun _ => .ok ⟨x, y, z⟩) with
    | .error e => .error e
    | .ok normals => .ok { st with normals := normals, normal := st.normal + 1 }
  else if buffer.take 2 = ['v', 't'] then
    let u := atof (streamWord buffer 1)
    let v := atof (streamWord buffer 2)
    match modifyAt st.textureCoordinates st.textureCoordinate (fun _ => .ok ⟨u, v⟩) with
    | .error e => .error e
    | .ok textureCoordinates =>
      .ok { st with textureCoordinates := textureCoordinates,
                    textureCoordinate := st.textureCoordinate + 1 }
  else if buffer.take 1 = ['v'] then
    let x := atof (streamWord buffer 1)
    let y := atof (streamWord buffer 2)
    let z := atof (streamWord buffer 3)
    match modifyAt st.vertices st.vertex (fun p => .ok { p with x := x, y := y, z := z }) with
    | .error e => .error e
    | .ok vertices => .ok { st with vertices := vertices, vertex := st.vertex + 1 }
  else if buffer.take 1 = ['f'] then
    recordFace buffer st
  else
    .ok st

/-- The four write cursors, in the order of the four counters of the first scan. -/
def RecordState.cursors (st : RecordState α) : Tally :=
  ⟨st.textureCoordinate, st.normal, st.triangle, st.vertex⟩

/-- The sizes of the four tables, in the order of the four counters of the first scan. -/
def RecordState.sizes (st : RecordState α) : Tally :=
  ⟨st.textureCoordinates.length, st.normals.length, st.triangles.length, st.vertices.length⟩

/-- The second `while` loop over the lines of the file. -/
def recordPass (atof : Str → α) : List Str → RecordState α → Except Fault (RecordState α)
  | [], st => .ok st
  | buffer :: rest, st =>
    match recordLine atof st buffer with
    | .error e => .error e
    | .ok st => recordPass atof rest st

end RecordPass

/-! ## Vector algebra (`Vector.h`) -/

section VectorAlgebra

variable {α : Type} [LinearOrderedField α]

/-- `Vector<3,T>::operator-` (binary). -/
def Vector3.sub (a v : Vector3 α) : Vector3 α := ⟨a.x - v.x, a.y - v.y, a.z - v.z⟩

/-- `Vector<3,T>::operator+=`. -/
def Vector3.add (a v : Vector3 α) : Vector3 α := ⟨a.x + v.x, a.y + v.y, a.z + v.z⟩

/-- `Vector<3,T>::operator*(double)`. -/
def Vector3.mul (a : Vector3 α) (v : α) : Vector3 α := ⟨a.x * v, a.y * v, a.z * v⟩

/-- `Vector<3,T>::operator/(double)`. -/
def Vector3.div (a : Vector3 α) (v : α) : Vector3 α := ⟨a.x / v, a.y / v, a.z / v⟩

/-- `Vector<3,T>::dot`. -/
def Vector3.dot (a p : Vector3 α) : α := 0 + a.x * p.x + a.y * p.y + a.z * p.z

/-- `Vector<3,T>::length`, over the square root function `sqrt`. -/
def Vector3.length (sqrt : α → α) (a : Vector3 α) : α :=
  sqrt (0 + a.x * a.x + a.y * a.y + a.z * a.z)

/-- `Vector<3,T>::normalize`, over the square root function `sqrt`. -/
def Vector3.normalize (sqrt : α → α) (a : Vector3 α) : Vector3 α :=
  let len := a.length sqrt
  ⟨a.x / len, a.y / len, a.z / len⟩

/-- The cross product `cross(const Vector<3,T>&, const Vector<3,T>&)`. -/
def cross (v1 v2 : Vector3 α) : Vector3 α :=
  ⟨v1.y * v2.z - v1.z * v2.y, v1.z * v2.x - v1.x * v2.z, v1.x * v2.y - v1.y * v2.x⟩

/-- The class `Vector<2,T>`, with its array `m_Data[2]`. -/
structure Vector2 (α : Type) where
  x : α
  y : α
  deriving DecidableEq

/-- `Vector<2,T>::operator[]`, which does not check its index: an access beyond the two
elements of `m_Data` is a fault. -/
def Vector2.get (v : Vector2 α) (i : Nat) : Except Fault α :=
  match i with
  | 0 => .ok v.x
  | 1 => .ok v.y
  | _ => .error .componentRange

/-- The cross product `cross(const Vector<2,T>&, const Vector<2,T>&)`:
`(v1[0] * v2[1]) - (v1[2] * v2[0])`. -/
def Vector2.cross (v1 v2 : Vector2 α) : Except Fault α := do
  let a ← v1.get 0
  let b ← v2.get 1
  let c ← v1.get 2
  let d ← v2.get 0
  pure (a * b - c * d)

end VectorAlgebra

/-! ## Table access -/

/-- The subtraction `i - 1` on an `unsigned int`: `0 - 1` wraps to `2 ^ 32 - 1`. -/
def decrement (i : Nat) : Nat := if i = 0 then 2 ^ 32 - 1 else i - 1

/-- The read `table[i]` of a `std::vector`. -/
def elementAt {β : Type} (table : List β) (i : Nat) : Except Fault β :=
  match table[i]? with
  | none => .error .tableOverrun
  | some x => .ok x

/-- The call `assert(condition)`: the run stops with the fault `e` when the condition fails. -/
def assertThat (condition : Prop) [Decidable condition] (e : Fault) : Except Fault Unit :=
  if condition then .ok () else .error e

/-! ## Centering and scaling in `ObjLoader::LoadMesh` -/

section Normalizer

variable {α : Type} [LinearOrderedField α]

/-- The constant `std::numeric_limits<float>::min()`. -/
def FLT_MIN : α := 1 / 2 ^ 126

/-- The constant `std::numeric_limits<float>::max()`. -/
def FLT_MAX : α := (2 ^ 24 - 1) * 2 ^ 104

/-- The block "ATTEMPTING TO CENTER MODEL": the three sums over all vertices, the averages, and
the subtraction of the averages from every vertex.  The minima and maxima of that block are only
printed. -/
def centerModel (vertices : List (ObjVertex α)) : List (ObjVertex α) :=
  let xSum := vertices.foldl (fun s p => s + p.x) 0
  let ySum := vertices.foldl (fun s p => s + p.y) 0
  let zSum := vertices.foldl (fun s p => s + p.z) 0
  let aveX := xSum / (vertices.length : α)
  let aveY := ySum / (vertices.length : α)
  let aveZ := zSum / (vertices.length : α)
  vertices.map (fun p => { p with x := p.x - aveX, y := p.y - aveY, z := p.z - aveZ })

/-- The running maxima `width`, `height`, `depth`. -/
structure Extent (α : Type) where
  width : α
  height : α
  depth : α
  deriving DecidableEq

/-- The body of the inner extent loop, for corner `v` of triangle `t`. -/
def measureCorner (vertices : List (ObjVertex α)) (t : ObjTriangle α) (e : Extent α) (v : Nat) :
    Except Fault (Extent α) := do
  let px ← elementAt vertices (decrement (← t.GetVertexIndex v))
  let width := max e.width |px.x|
  let py ← elementAt vertices (decrement (← t.GetVertexIndex v))
  let height := max e.height |py.y|
  let pz ← elementAt vertices (decrement (← t.GetVertexIndex v))
  let z := |pz.z|
  let depth := max e.depth z
  pure ⟨width, height, depth⟩

/-- The inner extent loop, over the three corners of triangle `t`. -/
def measureTriangle (vertices : List (ObjVertex α)) (e : Extent α) (t : ObjTriangle α) :
    Except Fault (Extent α) := do
  let e ← measureCorner vertices t e 0
  let e ← measureCorner vertices t e 1
  let e ← measureCorner vertices t e 2
  pure e

/-- The outer extent loop, over the triangles. -/
def measureExtent.loop (vertices : List (ObjVertex α)) :
    List (ObjTriangle α) → Extent α → Except Fault (Extent α)
  | [], e => .ok e
  | t :: rest, e =>
    match measureTriangle vertices e t with
    | .error err => .error err
    | .ok e => measureExtent.loop vertices rest e

/-- The block "Figure out the scales": `width`, `height` and `depth` after the loops. -/
def measureExtent (vertices : List (ObjVertex α)) (triangles : List (ObjTriangle α)) :
    Except Fault (Extent α) :=
  measureExtent.loop vertices triangles ⟨FLT_MIN, FLT_MIN, FLT_MIN⟩

/-- The statement `float scale = std::max(0.5f, std::max(width, std::max(height, depth)))`. -/
def uniformScale (e : Extent α) : α := max (1 / 2) (max e.width (max e.height e.depth))

/-- The loop "Scale the vertices". -/
def scaleVertices (scale : α) (vertices : List (ObjVertex α)) : List (ObjVertex α) :=
  vertices.map (fun p =>
    let adjustedScale := 1 / (scale * 2)
    { p with x := p.x * adjustedScale, y := p.y * adjustedScale, z := p.z * adjustedScale })

end Normalizer

/-! ## Face and vertex normals (`ObjLoader.h`, `ObjLoader.cpp`) -/

section Normals

variable {α : Type} [LinearOrderedField α]

/-- The position `Vector3(x, y, z)` of the vertex `vertices[i]`. -/
def positionAt (vertices : List (ObjVertex α)) (i : Nat) : Except Fault (Vector3 α) :=
  match elementAt vertices i with
  | .error e => .error e
  | .ok p => .ok ⟨p.x, p.y, p.z⟩

/-- `ObjTriangle::GetFaceNormal`: the normal returned and the triangle with its cache. -/
def ObjTriangle.GetFaceNormal (t : ObjTriangle α) (vertices : List (ObjVertex α)) :
    Except Fault (Vector3 α × ObjTriangle α) :=
  if t.isFaceNormalComputedYet then
    .ok (t.faceNormal, t)
  else do
    let v0 ← positionAt vertices (decrement (t.vertexIndices.get 0))
    let v1 ← positionAt vertices (decrement (t.vertexIndices.get 1))
    let v2 ← positionAt vertices (decrement (t.vertexIndices.get 2))
    let ab := v1.sub v0
    let ac := v2.sub v0
    let faceNormal := cross ab ac
    pure (faceNormal, { t with faceNormal := faceNormal, isFaceNormalComputedYet := true })

/-- The condition of `CalculateVertexNormal`, with the short circuit of `||`. -/
def usesVertex (t : ObjTriangle α) (vertexIndex : Nat) : Except Fault Bool := do
  if decrement (← t.GetVertexIndex 0) = vertexIndex then
    pure true
  else if decrement (← t.GetVertexIndex 1) = vertexIndex then
    pure true
  else
    pure (decrement (← t.GetVertexIndex 2) = vertexIndex)

/-- The loop of `CalculateVertexNormal`: `aggregateFaceNormal`, `adjacentFaces` and the triangles
with their caches, after the triangles given. -/
def CalculateVertexNormal.loop (vertexIndex : Nat) (vertices : List (ObjVertex α)) :
    List (ObjTriangle α) → Vector3 α → Nat → Except Fault (Vector3 α × Nat × List (ObjTriangle α))
  | [], aggregateFaceNormal, adjacentFaces => .ok (aggregateFaceNormal, adjacentFaces, [])
  | t :: rest, aggregateFaceNormal, adjacentFaces => do
    if (← usesVertex t vertexIndex) then
      let (faceNormal, t) ← t.GetFaceNormal vertices
      let (aggregateFaceNormal, adjacentFaces, rest) ←
        CalculateVertexNormal.loop vertexIndex vertices rest (aggregateFaceNormal.add faceNormal)
          (adjacentFaces + 1)
      pure (aggregateFaceNormal, adjacentFaces, t :: rest)
    else
      let (aggregateFaceNormal, adjacentFaces, rest) ←
        CalculateVertexNormal.loop vertexIndex vertices rest aggregateFaceNormal adjacentFaces
      pure (aggregateFaceNormal, adjacentFaces, t :: rest)

/-- `CalculateVertexNormal`: the normal returned and the triangles with their caches. -/
def CalculateVertexNormal (sqrt : α → α) (vertexIndex : Nat) (vertices : List (ObjVertex α))
    (triangles : List (ObjTriangle α)) : Except Fault (Vector3 α × List (ObjTriangle α)) := do
  let (aggregateFaceNormal, adjacentFaces, triangles) ←
    CalculateVertexNormal.loop vertexIndex vertices triangles Vector3.zero 0
  pure ((aggregateFaceNormal.div (adjacentFaces : α)).normalize sqrt, triangles)

/-- The loop "Rebuild all the vertex normals" of `LoadMesh`, over the vertex numbers given. -/
def rebuildNormals (sqrt : α → α) :
    List Nat → List (ObjVertex α) → List (ObjTriangle α) →
      Except Fault (List (ObjVertex α) × List (ObjTriangle α))
  | [], vertices, triangles => .ok (vertices, triangles)
  | i :: rest, vertices, triangles => do
    let (vertexNormal, triangles) ← CalculateVertexNormal sqrt i vertices triangles
    let vertices ← modifyAt vertices i (fun p =>
      .ok { p with normalX := vertexNormal.x, normalY := vertexNormal.y,
                   normalZ := vertexNormal.z })
    rebuildNormals sqrt rest vertices triangles

end Normals

/-! ## Internal depth (`ObjLoader.cpp`) -/

/-- The class `TriangleMeshInternalDepth`. -/
structure TriangleMeshInternalDepth (α : Type) where
  distances : List α
  deriving DecidableEq

section Depth

variable {α : Type} [LinearOrderedField α]

/-- `RayTriangleCollision`: the value returned and the value of the reference parameter `t` on
return. -/
def RayTriangleCollision (rayOrigin rayDirection : Vector3 α)
    (triangleVertices : Array3 (Vector3 α)) (t : α) : Bool × α :=
  let e1 := (triangleVertices.get 1).sub (triangleVertices.get 0)
  let e2 := (triangleVertices.get 2).sub (triangleVertices.get 0)
  let h := cross rayDirection e2
  let a := e1.dot h
  if a > -(1 / 100000) ∧ a < 1 / 100000 then
    (false, t)
  else
    let f := 1 / a
    let s := rayOrigin.sub (triangleVertices.get 0)
    let u := f * s.dot h
    if u < 0 ∨ u > 1 then
      (false, t)
    else
      let q := cross s e1
      let v := f * rayDirection.dot q
      if v < 0 ∨ u + v > 1 then
        (false, t)
      else
        let t := f * e2.dot q
        if t > 1 / 100000 then (true, t) else (false, t)

/-- The array `triangleVertices` that `Calculate` fills for one triangle. -/
def cornerPositions (vertices : List (ObjVertex α)) (thisTriangle : ObjTriangle α) :
    Except Fault (Array3 (Vector3 α)) := do
  let v0 ← positionAt vertices (decrement (← thisTriangle.GetVertexIndex 0))
  let v1 ← positionAt vertices (decrement (← thisTriangle.GetVertexIndex 1))
  let v2 ← positionAt vertices (decrement (← thisTriangle.GetVertexIndex 2))
  pure ⟨v0, v1, v2⟩

/-- The inner loop of `Calculate`: `minimumDepth` after the triangles given. -/
def minimumDepthLoop (vertices : List (ObjVertex α)) (vertexPosition vertexNormalRay : Vector3 α) :
    List (ObjTriangle α) → α → Except Fault α
  | [], minimumDepth => .ok minimumDepth
  | thisTriangle :: rest, minimumDepth => do
    let triangleVertices ← cornerPositions vertices thisTriangle
    let hit := RayTriangleCollision vertexPosition vertexNormalRay triangleVertices 0
    if hit.1 then
      if hit.2 < minimumDepth then
        minimumDepthLoop vertices vertexPosition vertexNormalRay rest hit.2
      else
        minimumDepthLoop vertices vertexPosition vertexNormalRay rest minimumDepth
    else
      minimumDepthLoop vertices vertexPosition vertexNormalRay rest minimumDepth

/-- The outer loop of `Calculate`: `distances` after the vertices given. -/
def distancesLoop (sqrt : α → α) (triangles : List (ObjTriangle α))
    (vertices : List (ObjVertex α)) : List (ObjVertex α) → List α → Except Fault (List α)
  | [], distances => .ok distances
  | thisVertex :: rest, distances => do
    let vertexPosition : Vector3 α := ⟨thisVertex.x, thisVertex.y, thisVertex.z⟩
    let vertexNormalRay :=
      (Vector3.normalize sqrt ⟨thisVertex.normalX, thisVertex.normalY, thisVertex.normalZ⟩).mul (-1)
    let minimumDepth ← minimumDepthLoop vertices vertexPosition vertexNormalRay triangles FLT_MAX
    distancesLoop sqrt triangles vertices rest (distances ++ [minimumDepth])

/-- `TriangleMeshInternalDepth::Calculate`. -/
def TriangleMeshInternalDepth.Calculate (_self : TriangleMeshInternalDepth α) (sqrt : α → α)
    (triangles : List (ObjTriangle α)) (vertices : List (ObjVertex α)) :
    Except Fault (TriangleMeshInternalDepth α) := do
  let distances ← distancesLoop sqrt triangles vertices vertices []
  if ¬ distances.length = vertices.length then .error .depthCount
  else pure ⟨distances⟩

/-- `TriangleMeshInternalDepth::GetVertexInternalDistance`. -/
def TriangleMeshInternalDepth.GetVertexInternalDistance (self : TriangleMeshInternalDepth α)
    (vertexIndex : Nat) : Except Fault α :=
  elementAt self.distances vertexIndex

end Depth

/-! ## Buffers (`VertexBuffer.h`, `IndexBuffer.h`)

The calls to OpenGL are outside the embedding; the buffer handle it hands out is taken to be
valid. -/

/-- The enumeration `VertexFormat`. -/
inductive VertexFormat where
  | Vertex2
  | Vertex3
  | Vertex3Texture2Normal3
  | Vertex3Texture2Normal3Colour4
  | Vertex3Normal3Colour4
  deriving DecidableEq

/-- The class `VertexBuffer`. -/
structure VertexBuffer (α : Type) where
  format : VertexFormat
  rawStorage : List α
  size : Nat
  componentsPerVertex : Nat
  deriving DecidableEq

/-- The class `IndexBuffer`, with entries of the 16-bit `IndexType`. -/
structure IndexBuffer where
  size : Nat
  rawStorage : List Nat
  deriving DecidableEq

/-- The conversion of an `unsigned int` to `IndexType` (`unsigned short`). -/
def toIndexType (i : Nat) : Nat := i % 2 ^ 16

section Buffers

variable {α : Type} [LinearOrderedField α]

/-- The constructor `VertexBuffer(size, format)`. -/
def VertexBuffer.new (size : Nat) (format : VertexFormat) : Except Fault (VertexBuffer α) :=
  if ¬ size > 0 then .error .bufferSize
  else .ok ⟨format, List.replicate size 0, size, 1⟩

/-- `VertexBuffer::Set`, and the write through `VertexBuffer::operator[]`. -/
def VertexBuffer.Set (vb : VertexBuffer α) (index : Nat) (value : α) :
    Except Fault (VertexBuffer α) :=
  if ¬ index < vb.size then .error .bufferIndex
  else .ok { vb with rawStorage := vb.rawStorage.set index value }

/-- `VertexBuffer::GetVertexStride`. -/
def VertexBuffer.GetVertexStride (vb : VertexBuffer α) : Nat :=
  match vb.format with
  | .Vertex2 => 2
  | .Vertex3 => 3
  | .Vertex3Texture2Normal3 => 8
  | .Vertex3Texture2Normal3Colour4 => 12
  | _ => 0

/-- `VertexBuffer::GetVertexCount`: `size / GetVertexStride()`, an integer division. -/
def VertexBuffer.GetVertexCount (vb : VertexBuffer α) : Except Fault Nat :=
  if vb.GetVertexStride = 0 then .error .divideByZero
  else .ok (vb.size / vb.GetVertexStride)

/-- The stride, in floats, that `VertexBuffer::SetUpPointers` gives to `glVertexPointer` for a
format; 0 stands for tightly packed components. -/
def VertexBuffer.SetUpPointers.stride : VertexFormat → Nat
  | .Vertex2 => 0
  | .Vertex3 => 0
  | .Vertex3Texture2Normal3 => 8
  | .Vertex3Texture2Normal3Colour4 => 12
  | .Vertex3Normal3Colour4 => 10

/-- The constructor `IndexBuffer(size)`. -/
def IndexBuffer.new (size : Nat) : Except Fault IndexBuffer :=
  if ¬ size > 0 then .error .bufferSize
  else .ok ⟨size, List.replicate size 0⟩

/-- The write `ib[index] = value` through `IndexBuffer::operator[]`. -/
def IndexBuffer.Set (ib : IndexBuffer) (index : Nat) (value : Nat) : Except Fault IndexBuffer :=
  if ¬ index < ib.size then .error .bufferIndex
  else .ok { ib with rawStorage := ib.rawStorage.set index (toIndexType value) }

end Buffers

/-! ## Packing, and `ObjLoader::LoadMesh` as a whole -/

/-- The structure `MeshGeometry`; a null pointer is `none`, and so is a `scale` never assigned. -/
structure MeshGeometry (α : Type) where
  vertices : Option (VertexBuffer α)
  indices : Option IndexBuffer
  scale : Option α
  internalDepthInformation : TriangleMeshInternalDepth α
  deriving DecidableEq

section Packing

variable {α : Type} [LinearOrderedField α]

/-- `TriangleMeshInternalDepth::WriteDepthAsTextureCoordinates`, for corner `v` of triangle
number `t`. -/
def writeDepthCorner (self : TriangleMeshInternalDepth α) (vertexSize : Nat) (t : Nat)
    (thisTriangle : ObjTriangle α) (vertices : VertexBuffer α) (v : Nat) :
    Except Fault (VertexBuffer α) := do
  let baseAddress := t * vertexSize * 3
  let vertexIndex := decrement (← thisTriangle.GetVertexIndex v)
  let thisVertexDepth ← elementAt self.distances vertexIndex
  let vertexOffset := vertexSize * v
  let texCoordUOffset := 3
  vertices.Set (baseAddress + vertexOffset + texCoordUOffset) thisVertexDepth

/-- The outer loop of `WriteDepthAsTextureCoordinates`, from triangle number `t` on. -/
def writeDepthLoop (self : TriangleMeshInternalDepth α) (vertexSize : Nat) :
    List (ObjTriangle α) → Nat → VertexBuffer α → Except Fault (VertexBuffer α)
  | [], _, vertices => .ok vertices
  | thisTriangle :: rest, t, vertices => do
    let vertices ← writeDepthCorner self vertexSize t thisTriangle vertices 0
    let vertices ← writeDepthCorner self vertexSize t thisTriangle vertices 1
    let vertices ← writeDepthCorner self vertexSize t thisTriangle vertices 2
    writeDepthLoop self vertexSize rest (t + 1) vertices

/-- `TriangleMeshInternalDepth::WriteDepthAsTextureCoordinates`. -/
def TriangleMeshInternalDepth.WriteDepthAsTextureCoordinates (self : TriangleMeshInternalDepth α)
    (vertices : VertexBuffer α) (triangles : List (ObjTriangle α)) :
    Except Fault (VertexBuffer α) :=
  if ¬ self.distances.length > 0 then .error .depthTable
  else writeDepthLoop self vertices.GetVertexStride triangles 0 vertices

/-- The body of the inner packing loop of `LoadMesh`, for corner `v` of triangle number `i`.  The
three assertions that a position component is not a NaN hold of every element of an exact
field and are left out. -/
def packCorner (vertices : List (ObjVertex α)) (normals : List (ObjNormal α))
    (textureCoordinates : List (ObjTextureCoordinate α)) (i : Nat) (t : ObjTriangle α)
    (vb : VertexBuffer α) (v : Nat) : Except Fault (VertexBuffer α) := do
  let x := (← elementAt vertices (decrement (← t.GetVertexIndex v))).x
  let y := (← elementAt vertices (decrement (← t.GetVertexIndex v))).y
  let z := (← elementAt vertices (decrement (← t.GetVertexIndex v))).z
  assertThat (x ≤ 1) .positionRange
  assertThat (x ≥ -1) .positionRange
  assertThat (y ≤ 1) .positionRange
  assertThat (y ≥ -1) .positionRange
  assertThat (z ≤ 1) .positionRange
  assertThat (z ≥ -1) .positionRange
  let u := (← elementAt textureCoordinates (decrement (← t.GetTextureCoordinateIndex v))).u
  let tv := (← elementAt textureCoordinates (decrement (← t.GetTextureCoordinateIndex v))).v
  let normalIndex := decrement (← t.GetNormalIndex v)
  assertThat (normalIndex < normals.length) .normalIndex
  let normalX := (← elementAt vertices (decrement (← t.GetVertexIndex v))).normalX
  let normalY := (← elementAt vertices (decrement (← t.GetVertexIndex v))).normalY
  let normalZ := (← elementAt vertices (decrement (← t.GetVertexIndex v))).normalZ
  let vb ← vb.Set (i * 24 + (v * 8) + 0) x
  let vb ← vb.Set (i * 24 + (v * 8) + 1) y
  let vb ← vb.Set (i * 24 + (v * 8) + 2) z
  let vb ← vb.Set (i * 24 + (v * 8) + 3) u
  let vb ← vb.Set (i * 24 + (v * 8) + 4) tv
  let vb ← vb.Set (i * 24 + (v * 8) + 5) normalX
  let vb ← vb.Set (i * 24 + (v * 8) + 6) normalY
  let vb ← vb.Set (i * 24 + (v * 8) + 7) normalZ
  pure vb

/-- The outer packing loop of `LoadMesh`, from triangle number `i` on. -/
def packLoop (vertices : List (ObjVertex α)) (normals : List (ObjNormal α))
    (textureCoordinates : List (ObjTextureCoordinate α)) :
    List (ObjTriangle α) → Nat → VertexBuffer α → IndexBuffer →
      Except Fault (VertexBuffer α × IndexBuffer)
  | [], _, vb, ib => .ok (vb, ib)
  | t :: rest, i, vb, ib => do
    let vb ← packCorner vertices normals textureCoordinates i t vb 0
    let vb ← packCorner vertices normals textureCoordinates i t vb 1
    let vb ← packCorner vertices normals textureCoordinates i t vb 2
    let ib ← ib.Set (i * 3) (decrement (← t.GetVertexIndex 0))
    let ib ← ib.Set (i * 3 + 1) (decrement (← t.GetVertexIndex 1))
    let ib ← ib.Set (i * 3 + 2) (decrement (← t.GetVertexIndex 2))
    packLoop vertices normals textureCoordinates rest (i + 1) vb ib

/-- `ObjLoader::LoadMesh`.  The argument is `none` for a file that cannot be opened, and the
lines of the file otherwise; the stream stays open for the second scan. -/
def LoadMesh (atof : Str → α) (sqrt : α → α) (file : Option (List Str)) :
    Except Fault (MeshGeometry α) :=
  let output : MeshGeometry α := ⟨none, none, none, ⟨[]⟩⟩
  match file with
  | none => .ok output
  | some lines => do
    let tally := countingPass lines
    let st ← recordPass atof lines (RecordState.allocate tally)
    let vertices := centerModel st.vertices
    let extent ← measureExtent vertices st.triangles
    let vb ← VertexBuffer.new (tally.numberOfTriangles * 3 * 8) .Vertex3Texture2Normal3
    let ib ← IndexBuffer.new (tally.numberOfTriangles * 3)
    let scale := uniformScale extent
    let (vertices, triangles) ←
      rebuildNormals sqrt (List.range vertices.length) vertices st.triangles
    let vertices := scaleVertices scale vertices
    let internalDepthInformation ←
      output.internalDepthInformation.Calculate sqrt triangles vertices
    let (vb, ib) ← packLoop vertices st.normals st.textureCoordinates triangles 0 vb ib
    let vb ← internalDepthInformation.WriteDepthAsTextureCoordinates vb triangles
    pure ⟨some vb, some ib, some scale, internalDepthInformation⟩

end Packing

/-! ## The text of face lines

The face lines that the statements below range over are written from their fields, the way an
exporter writes them. -/

/-- The texts `ws` joined by the character `sep`. -/
def joinWith (sep : Char) : List Str → Str
  | [] => []
  | [w] => w
  | w :: ws => w ++ sep :: joinWith sep ws

/-- The text of one sub-field of a vertex-reference group: left empty, or a decimal numeral. -/
def fieldText : Option Nat → Str
  | none => []
  | some n => Nat.toDigits 10 n

/-- The text of a vertex-reference group: its sub-fields (vertex, texture coordinate, normal),
joined by `/`. -/
def groupText (fields : List (Option Nat)) : Str := joinWith '/' (fields.map fieldText)

/-- The text of a face line: the token `f` and the groups, separated by single spaces. -/
def faceText (groups : List (List (Option Nat))) : Str :=
  joinWith ' ' (['f'] :: groups.map groupText)

/-- A vertex-reference group as the file format has it: a vertex sub-field followed by at most
two more sub-fields, every sub-field that is present being a positive integer that fits `int`. -/
def ValidGroup (fields : List (Option Nat)) : Prop :=
  (∃ v rest, fields = some v :: rest ∧ rest.length ≤ 2) ∧
  ∀ n, some n ∈ fields → 0 < n ∧ n < 2 ^ 31

instance (fields : List (Option Nat)) : Decidable (ValidGroup fields) := by
  unfold ValidGroup
  have : Decidable (∃ v rest, fields = some v :: rest ∧ rest.length ≤ 2) :=
    match fields with
    | [] => isFalse (by simp)
    | none :: _ => isFalse (by simp)
    | some v :: rest =>
      if h : rest.length ≤ 2 then isTrue ⟨v, rest, rfl, h⟩
      else isFalse (by simpa using h)
  have : Decidable (∀ n, some n ∈ fields → 0 < n ∧ n < 2 ^ 31) :=
    decidable_of_iff (∀ f ∈ fields, ∀ n, f = some n → 0 < n ∧ n < 2 ^ 31)
      ⟨fun h n hn => h _ hn n rfl, fun h f hf n hfn => h n (hfn ▸ hf)⟩
  infer_instance

/-- The three sub-field texts that `tokenizeGroup` returns for a written group. -/
def groupParts (fields : List (Option Nat)) : List Str :=
  [fieldText (fields.getD 0 none), fieldText (fields.getD 1 none), fieldText (fields.getD 2 none)]

/-- The position, among the groups of a face line, of the group that gives corner `k` of the
`j`-th triangle of the face: groups 0, 1, 2 for the first triangle and 0, 2, 3 for the second. -/
def cornerGroup (j k : Nat) : Nat :=
  match j, k with
  | 0, k => k
  | _, 0 => 0
  | _, 1 => 2
  | _, _ => 3

/-- Corner `v` of triangle `t` refers to the entry `p` of the vertex table: the 1-based index
passes `GetVertexIndex` and, decremented, lies in the table. -/
def CornerAt {α : Type} (vertices : List (ObjVertex α)) (t : ObjTriangle α) (v : Nat)
    (p : ObjVertex α) : Prop :=
  ∃ idx, t.GetVertexIndex v = .ok idx ∧ vertices[decrement idx]? = some p

/-- The three vertex indices of triangle `t` are 1-based indices into a table of `n` vertices. -/
def IndicesWithin {α : Type} (n : Nat) (t : ObjTriangle α) : Prop :=
  ∀ v, v < 3 → 0 < t.vertexIndices.get v ∧ t.vertexIndices.get v ≤ n

instance {α : Type} (n : Nat) (t : ObjTriangle α) : Decidable (IndicesWithin n t) :=
  decidable_of_iff (∀ v ∈ List.range 3, 0 < t.vertexIndices.get v ∧ t.vertexIndices.get v ≤ n)
    ⟨fun h v hv => h v (List.mem_range.2 hv), fun h v hv => h v (List.mem_range.1 hv)⟩

/-- The absolute values of the coordinate `f` of the vertex that each corner of each triangle
refers to, in the order of the triangles and of their corners. -/
def cornerValues {α : Type} [LinearOrderedField α] (f : ObjVertex α → α)
    (vertices : List (ObjVertex α)) (triangles : List (ObjTriangle α)) : List α :=
  triangles.flatMap (fun t =>
    [0, 1, 2].filterMap (fun v => (vertices[t.vertexIndices.get v - 1]?).map (fun p => |f p|)))

/-- The maximum of a list of absolute values, 0 for the empty list. -/
def maximumOf {α : Type} [LinearOrderedField α] (values : List α) : α :=
  values.foldr max 0

/-- A file of one vertex and one face. -/
def pointFile : List Str := [("v 0 0 0").toList, ("f 1 1 1").toList]

/-- The position of a vertex record. -/
def ObjVertex.position {α : Type} (p : ObjVertex α) : α × α × α := (p.x, p.y, p.z)

/-- The fault is not the failure of a range assertion of the packing loop. -/
@[reducible] def NotPositionRange (e : Fault) : Prop := e ≠ .positionRange

/-- Every fault with which the run `x` can stop satisfies `P`. -/
def FaultsIn {β : Type} (P : Fault → Prop) (x : Except Fault β) : Prop :=
  ∀ e, x = .error e → P e

/-- The faults of reading a face line that do not come from the size of a table or from the
number of fields of the line. -/
def ParsingFault (e : Fault) : Prop :=
  e = .groupOverrun ∨ e = .atoiRange ∨ e = .indexPositive ∨ e = .cornerRange

/-- Each counter of `a` is at most the counter of `b`. -/
def Tally.le (a b : Tally) : Prop :=
  a.numberOfTextureCoordinates ≤ b.numberOfTextureCoordinates ∧
  a.numberOfNormals ≤ b.numberOfNormals ∧
  a.numberOfTriangles ≤ b.numberOfTriangles ∧
  a.numberOfVertices ≤ b.numberOfVertices

/-- The index that the file gives for a sub-field: its number, or the default 1 when it is left
empty or absent. -/
def fieldIndex (field : Option Nat) : Nat := field.getD 1

/-- The index that the loader stores for a sub-field whose text must be longer than `threshold`
characters to be converted. -/
def storedIndex (threshold : Nat) (field : Option Nat) : Nat :=
  if (fieldText field).length > threshold then fieldIndex field else 1

/-! ## Normals, depths and the vertex buffer

The vocabulary of the statements on face and vertex normals, on the depth table and on the
floats of the vertex buffer. -/

/-- The triangle after the calls of `GetFaceNormal` on it with the tables given, one after the
other. -/
def faceNormalCalls {α : Type} [LinearOrderedField α] (t : ObjTriangle α) :
    List (List (ObjVertex α)) → Except Fault (ObjTriangle α)
  | [] => .ok t
  | vertices :: rest =>
    match t.GetFaceNormal vertices with
    | .error e => .error e
    | .ok (_, t) => faceNormalCalls t rest

/-- The position of the vertex that corner `k` of triangle `t` refers to in the table
`vertices`, looked up at the 1-based index less 1. -/
def cornerPosition {α : Type} (vertices : List (ObjVertex α)) (t : ObjTriangle α) (k : Nat) :
    Option (Vector3 α) :=
  (vertices[t.vertexIndices.get k - 1]?).map (fun p => ⟨p.x, p.y, p.z⟩)

/-- The cross product `(p1 - p0) x (p2 - p0)` of the two edge vectors of three positions,
written out in coordinates: with `a = p1 - p0` and `b = p2 - p0` it is
`(a.y b.z - a.z b.y, a.z b.x - a.x b.z, a.x b.y - a.y b.x)`. -/
def edgeCross {α : Type} [LinearOrderedField α] (p0 p1 p2 : Vector3 α) : Vector3 α :=
  ⟨(p1.y - p0.y) * (p2.z - p0.z) - (p1.z - p0.z) * (p2.y - p0.y),
    (p1.z - p0.z) * (p2.x - p0.x) - (p1.x - p0.x) * (p2.z - p0.z),
    (p1.x - p0.x) * (p2.y - p0.y) - (p1.y - p0.y) * (p2.x - p0.x)⟩

/-- Triangle `t` has at least one corner whose 1-based vertex index less 1 is `i`. -/
def touches {α : Type} (i : Nat) (t : ObjTriangle α) : Bool :=
  decide (t.vertexIndices.get 0 - 1 = i ∨ t.vertexIndices.get 1 - 1 = i ∨
    t.vertexIndices.get 2 - 1 = i)

/-- The sum of a list of vectors, coordinate by coordinate. -/
def vectorSum {α : Type} [LinearOrderedField α] (vectors : List (Vector3 α)) : Vector3 α :=
  ⟨(vectors.map (fun n => n.x)).sum, (vectors.map (fun n => n.y)).sum,
    (vectors.map (fun n => n.z)).sum⟩

/-- The cross product of the two edge vectors of triangle `t` over the positions of the table
`vertices`; the zero vector when a corner is not in the table. -/
def faceNormalIn {α : Type} [LinearOrderedField α] (vertices : List (ObjVertex α))
    (t : ObjTriangle α) : Vector3 α :=
  match cornerPosition vertices t 0, cornerPosition vertices t 1, cornerPosition vertices t 2 with
  | some p0, some p1, some p2 => edgeCross p0 p1 p2
  | _, _, _ => Vector3.zero

/-- The normal derived for vertex `k` from the positions of the table and the triangles: the
mean of the face normals of the triangles that touch the vertex, normalized. -/
def derivedNormal {α : Type} [LinearOrderedField α] (sqrt : α → α)
    (vertices : List (ObjVertex α)) (triangles : List (ObjTriangle α)) (k : Nat) : Vector3 α :=
  ((vectorSum ((triangles.filter (touches k)).map (faceNormalIn vertices))).div
    (((triangles.filter (touches k)).length : Nat) : α)).normalize sqrt

/-- The vertex indices of triangle `t` lie within the table, and its cache, when filled, holds
its face normal over the positions of the table. -/
def Coherent {α : Type} [LinearOrderedField α] (vertices : List (ObjVertex α))
    (t : ObjTriangle α) : Prop :=
  IndicesWithin vertices.length t ∧
    (t.isFaceNormalComputedYet = true → t.faceNormal = faceNormalIn vertices t)

/-- The storage of the buffer has the size that the buffer records. -/
def VertexBuffer.WellSized {α : Type} (vb : VertexBuffer α) : Prop :=
  vb.size = vb.rawStorage.length

/-- The eight floats from offset `base` on hold the position of the vertex record `p` at
`+0..2` and its normal at `+5..7`. -/
def HoldsCorner {α : Type} (rawStorage : List α) (base : Nat) (p : ObjVertex α) : Prop :=
  rawStorage[base + 0]? = some p.x ∧ rawStorage[base + 1]? = some p.y ∧
  rawStorage[base + 2]? = some p.z ∧ rawStorage[base + 5]? = some p.normalX ∧
  rawStorage[base + 6]? = some p.normalY ∧ rawStorage[base + 7]? = some p.normalZ

/-- The number of float components of one vertex of a format, as the comments on the
enumeration `VertexFormat` describe the format. -/
def VertexFormat.components : VertexFormat → Nat
  | .Vertex2 => 2
  | .Vertex3 => 3
  | .Vertex3Texture2Normal3 => 3 + 2 + 3
  | .Vertex3Texture2Normal3Colour4 => 3 + 2 + 3 + 4
  | .Vertex3Normal3Colour4 => 3 + 3 + 4

/-- The fields of a text between its `/` characters, in order, empty fields included. -/
def slashFields : Str → List Str
  | [] => [[]]
  | c :: rest =>
    if c = '/' then [] :: slashFields rest
    else
      match slashFields rest with
      | [] => [[c]]
      | f :: fs => (c :: f) :: fs

/-- Every vertex, texture-coordinate and normal index of the triangle is at least 1. -/
def ObjTriangle.IndicesPositive {α : Type} (t : ObjTriangle α) : Prop :=
  ∀ k, k < 3 → 1 ≤ t.vertexIndices.get k ∧ 1 ≤ t.textureCoordinateIndices.get k ∧
    1 ≤ t.normalIndices.get k

/-- The storage of the index buffer has the size that the buffer records. -/
def IndexBuffer.WellSized (ib : IndexBuffer) : Prop :=
  ib.size = ib.rawStorage.length

/-- A file of four vertices and one face over the last three of them. -/
def cornerFile : List Str :=
  [("v 0 0 0").toList, ("v 0 0 0").toList, ("v 0 0 0").toList, ("v 0 0 0").toList,
    ("f 2 3 4").toList]

/-- The vertex table with every position multiplied by the factor `k`. -/
def scalePositions {α : Type} [LinearOrderedField α] (k : α) (vertices : List (ObjVertex α)) :
    List (ObjVertex α) :=
  vertices.map (fun p => { p with x := p.x * k, y := p.y * k, z := p.z * k })

/-- Two lines of a file are the same line, or are both normal records (`vn` lines). -/
def SameButNormal (a b : Str) : Prop :=
  a = b ∨ (a.take 2 = ['v', 'n'] ∧ b.take 2 = ['v', 'n'])

/-- Two states of the record pass agree in everything but the values in the table of the normal
records, of which they hold the same number. -/
def RecordState.AgreeButNormals {α : Type} (s s' : RecordState α) : Prop :=
  ∃ normals : List (ObjNormal α), normals.length = s.normals.length ∧
    s' = { s with normals := normals }

/-- The largest absolute coordinate over all triangle corners: the largest of the absolute values
of the `x`, `y` and `z` coordinates of the vertices that the corners of the triangles refer to,
0 when there is no corner. -/
def largestCoordinate {α : Type} [LinearOrderedField α] (vertices : List (ObjVertex α))
    (triangles : List (ObjTriangle α)) : α :=
  max (maximumOf (cornerValues (fun p => p.x) vertices triangles))
    (max (maximumOf (cornerValues (fun p => p.y) vertices triangles))
      (maximumOf (cornerValues (fun p => p.z) vertices triangles)))

/-- A file of three vertices and one face over them. -/
def triangleFile : List Str :=
  [("v 0 0 0").toList, ("v 4 0 0").toList, ("v 0 8 0").toList, ("f 1 2 3").toList]

end GlGoodies

/-! # Properties -/

namespace GlGoodies

/-! ## Decimal numerals and `atoi` -/

theorem digitChar_isdigit (k : Nat) (h : k < 10) :
    isdigit (Nat.digitChar k) = true ∧ (Nat.digitChar k).toNat - '0'.toNat = k := by
  interval_cases k <;> decide

theorem toDigitsCore_append (fuel n : Nat) (ds : List Char) :
    Nat.toDigitsCore 10 fuel n ds = Nat.toDigitsCore 10 fuel n [] ++ ds := by
  induction fuel generalizing n ds with
  | zero => simp [Nat.toDigitsCore]
  | succ f ih =>
    simp only [Nat.toDigitsCore]
    split
    · simp
    · rw [ih, ih (n / 10) [_]]; simp

theorem atoi_digits_snoc (l : List Char) (d : Char) (acc : Nat)
    (hl : ∀ c ∈ l, isdigit c = true) (hd : isdigit d = true) :
    atoi.digits (l ++ [d]) acc = 10 * atoi.digits l acc + (d.toNat - '0'.toNat) := by
  induction l generalizing acc with
  | nil => simp [atoi.digits, hd]
  | cons c l ih =>
    have hc := hl c (by simp)
    simp only [List.cons_append, atoi.digits, hc, if_true]
    exact ih _ (fun c hc => hl c (by simp [hc]))

theorem toDigitsCore_spec (fuel n : Nat) (h : n < fuel) :
    (∀ c ∈ Nat.toDigitsCore 10 fuel n [], isdigit c = true) ∧
    Nat.toDigitsCore 10 fuel n [] ≠ [] ∧
    atoi.digits (Nat.toDigitsCore 10 fuel n []) 0 = n := by
  induction fuel generalizing n with
  | zero => omega
  | succ f ih =>
    have hd := digitChar_isdigit (n % 10) (Nat.mod_lt _ (by norm_num))
    simp only [Nat.toDigitsCore]
    split
    · have : n < 10 := by omega
      refine ⟨by simpa using hd.1, by simp, ?_⟩
      simp only [atoi.digits, hd.1, if_true, hd.2]
      omega
    · have hlt : n / 10 < f := by omega
      obtain ⟨h1, _, h3⟩ := ih (n / 10) hlt
      rw [toDigitsCore_append]
      refine ⟨?_, by simp, ?_⟩
      · intro c hc
        rcases List.mem_append.1 hc with hc | hc
        · exact h1 c hc
        · simp at hc; rw [hc]; exact hd.1
      · rw [atoi_digits_snoc _ _ _ h1 hd.1, h3, hd.2]; omega

/-- Every character of a decimal numeral is a digit. -/
theorem toDigits_isdigit (n : Nat) : ∀ c ∈ Nat.toDigits 10 n, isdigit c = true :=
  (toDigitsCore_spec (n + 1) n (Nat.lt_succ_self n)).1

theorem toDigits_ne_nil (n : Nat) : Nat.toDigits 10 n ≠ [] :=
  (toDigitsCore_spec (n + 1) n (Nat.lt_succ_self n)).2.1

theorem toDigits_length_pos (n : Nat) : 0 < (Nat.toDigits 10 n).length :=
  List.length_pos.2 (toDigits_ne_nil n)

theorem isdigit_ne {c d : Char} (h : isdigit c = true) (hd : isdigit d = false) : c ≠ d := by
  intro hcd
  subst hcd
  simp [h] at hd

theorem isdigit_not_isspace {c : Char} (h : isdigit c = true) : isspace c = false := by
  have h1 : c ≠ ' ' := isdigit_ne h (by decide)
  have h2 : c ≠ '\t' := isdigit_ne h (by decide)
  have h3 : c ≠ '\n' := isdigit_ne h (by decide)
  have h4 : c ≠ '\x0b' := isdigit_ne h (by decide)
  have h5 : c ≠ '\x0c' := isdigit_ne h (by decide)
  have h6 : c ≠ '\r' := isdigit_ne h (by decide)
  simp [isspace, h1, h2, h3, h4, h5, h6]

/-- The function `atoi` reads a decimal numeral back as its number. -/
theorem atoi_toDigits (n : Nat) (h : n < 2 ^ 31) : atoi (Nat.toDigits 10 n) = .ok (n : Int) := by
  obtain ⟨hdig, hne, hval⟩ := toDigitsCore_spec (n + 1) n (Nat.lt_succ_self n)
  have hval2 : atoi.digits (Nat.toDigits 10 n) 0 = n := hval
  obtain ⟨c, rest, hcr⟩ := List.exists_cons_of_ne_nil hne
  have hcr2 : Nat.toDigits 10 n = c :: rest := hcr
  have hc : isdigit c = true := hdig c (by rw [hcr]; simp)
  have hsp := isdigit_not_isspace hc
  have hminus : c ≠ '-' := isdigit_ne hc (by decide)
  have hplus : c ≠ '+' := isdigit_ne hc (by decide)
  have hsigned : atoi.signed (c :: rest) = (atoi.digits (c :: rest) 0 : Int) := by
    unfold atoi.signed
    split
    · rename_i heq
      exact absurd (List.cons.inj heq).1 hminus
    · rename_i heq
      exact absurd (List.cons.inj heq).1 hplus
    · rfl
  have hv : atoi.signed ((Nat.toDigits 10 n).dropWhile isspace) = (n : Int) := by
    rw [hcr2, List.dropWhile_cons_of_neg (by simp [hsp]), hsigned, ← hcr2, hval2]
  unfold atoi
  simp only [hv]
  have h1 : -(2 : Int) ^ 31 ≤ (n : Int) := by
    have : (0 : Int) ≤ (n : Int) := Int.natCast_nonneg n
    omega
  have h2 : (n : Int) < (2 : Int) ^ 31 := by exact_mod_cast h
  rw [if_pos ⟨h1, h2⟩]

theorem toUnsigned_natCast (n : Nat) (h : n < 2 ^ 31) : toUnsigned (n : Int) = n := by
  unfold toUnsigned
  have h2 : (n : Int) < (2 : Int) ^ 32 := by
    have : (n : Int) < (2 : Int) ^ 31 := by exact_mod_cast h
    omega
  rw [Int.emod_eq_of_lt (Int.natCast_nonneg n) h2]
  simp

/-! ## Splitting joined text -/

theorem SplitString_loop_append (sc : Char) (w rest : Str) (output : List Str) (cur : Str)
    (hw : sc ∉ w) :
    SplitString.loop sc (w ++ rest) output cur = SplitString.loop sc rest output (cur ++ w) := by
  induction w generalizing cur with
  | nil => simp
  | cons c w ih =>
    have hc : c ≠ sc := fun h => hw (by simp [h])
    have hw2 : sc ∉ w := fun h => hw (by simp [h])
    rw [List.cons_append, SplitString.loop, if_pos hc, ih _ hw2]
    simp

theorem SplitString_loop_join (sc : Char) (w : Str) (ws : List Str) (output : List Str)
    (cur : Str) (hfree : ∀ x ∈ w :: ws, sc ∉ x) :
    SplitString.loop sc (joinWith sc (w :: ws)) output cur
      = (output ++ ((cur ++ w) :: ws).dropLast, ((cur ++ w) :: ws).getLastD []) := by
  induction ws generalizing w output cur with
  | nil =>
    have h := SplitString_loop_append sc w [] output cur (hfree w (by simp))
    simp only [List.append_nil] at h
    simp [joinWith, h, SplitString.loop]
  | cons w2 ws ih =>
    have hw : sc ∉ w := hfree w (by simp)
    have hrest : ∀ x ∈ w2 :: ws, sc ∉ x := fun x hx => hfree x (by simp [List.mem_cons.1 hx])
    simp only [joinWith]
    rw [SplitString_loop_append sc w _ output cur hw]
    simp only [SplitString.loop, ne_eq, not_true_eq_false, if_false]
    rw [ih w2 (output ++ [cur ++ w]) [] hrest]
    simp

/-- Splitting a text at `sc` gives back the `sc`-free pieces it was joined from; only a last piece
that is empty is dropped. -/
theorem SplitString_joinWith (sc : Char) (w : Str) (ws : List Str)
    (hfree : ∀ x ∈ w :: ws, sc ∉ x) :
    SplitString (joinWith sc (w :: ws)) sc
      = if (w :: ws).getLastD [] = [] then (w :: ws).dropLast else w :: ws := by
  unfold SplitString
  rw [SplitString_loop_join sc w ws [] [] hfree]
  simp only [List.nil_append]
  by_cases h : (w :: ws).getLastD [] = []
  · rw [h]
    simp
  · have hpos : 0 < ((w :: ws).getLastD []).length := List.length_pos.2 h
    rw [if_pos hpos, if_neg h]
    have hne : (w :: ws) ≠ [] := by simp
    have := List.dropLast_append_getLast hne
    rw [List.getLastD_eq_getLast?, List.getLast?_eq_getLast _ hne]
    simpa using this

theorem tokenizeGroup_loop_append (w rest : Str) (grouped : List Str) (cur : Str) (group : Nat)
    (hw : '/' ∉ w) :
    tokenizeGroup.loop (w ++ rest) grouped cur group
      = tokenizeGroup.loop rest grouped (cur ++ w) group := by
  induction w generalizing cur with
  | nil => simp
  | cons c w ih =>
    have hc : c ≠ '/' := fun h => hw (by simp [h])
    have hw2 : '/' ∉ w := fun h => hw (by simp [h])
    rw [List.cons_append, tokenizeGroup.loop, if_pos hc, ih _ hw2]
    simp

theorem tokenizeGroup_loop_slashfree (w : Str) (grouped : List Str) (cur : Str) (group : Nat)
    (hw : '/' ∉ w) :
    tokenizeGroup.loop w grouped cur group = .ok (grouped, cur ++ w, group) := by
  have h := tokenizeGroup_loop_append w [] grouped cur group hw
  simpa [tokenizeGroup.loop] using h

/-- A group of one sub-field. -/
theorem tokenizeGroup_one (a : Str) (ha : '/' ∉ a) : tokenizeGroup a = .ok [a, [], []] := by
  unfold tokenizeGroup
  rw [tokenizeGroup_loop_slashfree a _ _ _ ha]
  cases a with
  | nil => simp
  | cons c a => simp

/-- A group of two sub-fields. -/
theorem tokenizeGroup_two (a b : Str) (ha : '/' ∉ a) (hb : '/' ∉ b) :
    tokenizeGroup (a ++ '/' :: b) = .ok [a, b, []] := by
  unfold tokenizeGroup
  rw [tokenizeGroup_loop_append a _ _ _ _ ha]
  simp only [tokenizeGroup.loop, ne_eq, not_true_eq_false, if_false]
  simp only [List.length_cons, List.length_nil, Nat.zero_lt_succ, if_true, List.nil_append,
    List.set_cons_zero]
  rw [tokenizeGroup_loop_slashfree b _ _ _ hb]
  simp

/-- A group of three sub-fields. -/
theorem tokenizeGroup_three (a b c : Str) (ha : '/' ∉ a) (hb : '/' ∉ b) (hc : '/' ∉ c) :
    tokenizeGroup (a ++ '/' :: (b ++ '/' :: c)) = .ok [a, b, c] := by
  unfold tokenizeGroup
  rw [tokenizeGroup_loop_append a _ _ _ _ ha]
  simp only [tokenizeGroup.loop, ne_eq, not_true_eq_false, if_false]
  simp only [List.length_cons, List.length_nil, Nat.zero_lt_succ, if_true, List.nil_append,
    List.set_cons_zero]
  rw [tokenizeGroup_loop_append b _ _ _ _ hb]
  simp only [tokenizeGroup.loop, ne_eq, not_true_eq_false, if_false]
  have h13 : (1 : Nat) < [a, [], ([] : Str)].length := by simp
  rw [if_pos h13]
  rw [tokenizeGroup_loop_slashfree c _ _ _ hc]
  simp

/-! ## Face lines written from their fields -/

theorem fieldText_isdigit (f : Option Nat) : ∀ c ∈ fieldText f, isdigit c = true := by
  cases f with
  | none => simp [fieldText]
  | some n => exact toDigits_isdigit n

theorem fieldText_slashfree (f : Option Nat) : '/' ∉ fieldText f := fun h =>
  absurd (fieldText_isdigit f _ h) (by decide)

theorem fieldText_spacefree (f : Option Nat) : ' ' ∉ fieldText f := fun h =>
  absurd (fieldText_isdigit f _ h) (by decide)

theorem tokenizeGroup_groupText (fields : List (Option Nat))
    (h1 : 1 ≤ fields.length) (h3 : fields.length ≤ 3) :
    tokenizeGroup (groupText fields) = .ok (groupParts fields) := by
  match fields, h1, h3 with
  | [a], _, _ =>
    simpa [groupText, joinWith, groupParts, fieldText] using
      tokenizeGroup_one (fieldText a) (fieldText_slashfree a)
  | [a, b], _, _ =>
    simpa [groupText, joinWith, groupParts, fieldText] using
      tokenizeGroup_two (fieldText a) (fieldText b) (fieldText_slashfree a) (fieldText_slashfree b)
  | [a, b, c], _, _ =>
    simpa [groupText, joinWith, groupParts, fieldText] using
      tokenizeGroup_three (fieldText a) (fieldText b) (fieldText c) (fieldText_slashfree a)
        (fieldText_slashfree b) (fieldText_slashfree c)
  | [], h, _ => simp at h
  | _ :: _ :: _ :: _ :: _, _, h => simp at h

theorem ValidGroup.length_pos {fields : List (Option Nat)} (h : ValidGroup fields) :
    1 ≤ fields.length := by
  obtain ⟨⟨v, rest, rfl, _⟩, _⟩ := h
  simp

theorem ValidGroup.length_le {fields : List (Option Nat)} (h : ValidGroup fields) :
    fields.length ≤ 3 := by
  obtain ⟨⟨v, rest, rfl, hr⟩, _⟩ := h
  simp; omega

theorem ValidGroup.getD_range {fields : List (Option Nat)} (h : ValidGroup fields) (k n : Nat)
    (hk : fields.getD k none = some n) : 0 < n ∧ n < 2 ^ 31 := by
  apply h.2 n
  rw [← hk]
  by_cases hlt : k < fields.length
  · rw [List.getD_eq_getElem _ _ hlt]
    exact List.getElem_mem hlt
  · rw [List.getD_eq_default _ _ (by omega)] at hk
    cases hk

theorem groupText_spacefree (fields : List (Option Nat)) : ' ' ∉ groupText fields := by
  unfold groupText
  induction fields with
  | nil => simp [joinWith]
  | cons f fs ih =>
    cases fs with
    | nil => simpa [joinWith] using fieldText_spacefree f
    | cons g gs =>
      simp only [List.map_cons, joinWith, List.mem_append, List.mem_cons, not_or]
      refine ⟨fieldText_spacefree f, by decide, ?_⟩
      simpa [joinWith] using ih

theorem groupText_ne_nil {fields : List (Option Nat)} (h : ValidGroup fields) :
    groupText fields ≠ [] := by
  obtain ⟨⟨v, rest, rfl, _⟩, _⟩ := h
  have hv := toDigits_ne_nil v
  cases rest with
  | nil => simpa [groupText, joinWith, fieldText] using hv
  | cons g gs => simp [groupText, joinWith, fieldText, hv]

/-- The fields of a written face line, as `SplitString` returns them. -/
theorem SplitString_faceText (groups : List (List (Option Nat)))
    (hvalid : ∀ g ∈ groups, ValidGroup g) :
    SplitString (faceText groups) ' ' = ['f'] :: groups.map groupText := by
  unfold faceText
  rw [SplitString_joinWith]
  · rw [if_neg]
    intro hlast
    rcases List.eq_nil_or_concat groups with hnil | ⟨init, g, hg⟩
    · subst hnil
      simp at hlast
    · subst hg
      have hg : ValidGroup g := hvalid g (by simp)
      have hl : (['f'] :: List.map groupText (init.concat g)).getLast?
          = some (groupText g) := by
        rw [List.concat_eq_append, List.map_append, ← List.cons_append]
        exact List.getLast?_concat _
      rw [List.getLastD_eq_getLast?, hl] at hlast
      exact groupText_ne_nil hg hlast
  · intro x hx
    rcases List.mem_cons.1 hx with hx | hx
    · subst hx; decide
    · obtain ⟨g, _, rfl⟩ := List.mem_map.1 hx
      exact groupText_spacefree g

theorem indexArgument_fieldText (threshold : Nat) (f : Option Nat)
    (hf : ∀ n, f = some n → 0 < n ∧ n < 2 ^ 31) :
    indexArgument threshold (fieldText f) = .ok (storedIndex threshold f) := by
  unfold indexArgument storedIndex
  have h1 : toUnsigned 1 = 1 := by decide
  by_cases hlen : (fieldText f).length > threshold
  · rw [if_pos hlen, if_pos hlen]
    cases f with
    | none => simp [fieldText] at hlen
    | some n =>
      have hn := (hf n rfl).2
      simp only [fieldText, atoi_toDigits n hn, toUnsigned_natCast n hn, fieldIndex, Option.getD_some]
  · rw [if_neg hlen, if_neg hlen, h1]

theorem storedIndex_pos (threshold : Nat) (f : Option Nat)
    (hf : ∀ n, f = some n → 0 < n ∧ n < 2 ^ 31) : 0 < storedIndex threshold f := by
  unfold storedIndex
  split
  · cases f with
    | none => simp [fieldIndex]
    | some n => simpa [fieldIndex] using (hf n rfl).1
  · exact Nat.one_pos

theorem storedIndex_zero (f : Option Nat) : storedIndex 0 f = fieldIndex f := by
  unfold storedIndex
  cases f with
  | none => simp [fieldText, fieldIndex]
  | some n => simp [fieldText, toDigits_length_pos n]

/-! ## The triangles of a face line -/

section FaceLemmas

variable {α : Type}

theorem SetVertexIndex_ok (t : ObjTriangle α) (k index : Nat) (hk : k < 3) (hi : 0 < index) :
    t.SetVertexIndex k index = .ok { t with vertexIndices := t.vertexIndices.set k index } := by
  simp [ObjTriangle.SetVertexIndex, hk, hi]

theorem SetNormalIndex_ok (t : ObjTriangle α) (k index : Nat) (hk : k < 3) (hi : 0 < index) :
    t.SetNormalIndex k index = .ok { t with normalIndices := t.normalIndices.set k index } := by
  simp [ObjTriangle.SetNormalIndex, hk, hi]

theorem SetTextureCoordinateIndex_ok (t : ObjTriangle α) (k index : Nat) (hk : k < 3)
    (hi : 0 < index) :
    t.SetTextureCoordinateIndex k index
      = .ok { t with textureCoordinateIndices := t.textureCoordinateIndices.set k index } := by
  simp [ObjTriangle.SetTextureCoordinateIndex, hk, hi]

theorem indexArgument_groupParts (threshold k : Nat) (g : List (Option Nat)) (hg : ValidGroup g) :
    indexArgument threshold (fieldText (g.getD k none))
      = .ok (storedIndex threshold (g.getD k none)) :=
  indexArgument_fieldText threshold _ (fun n hn => hg.getD_range k n hn)

theorem storedIndex_groupParts_pos (threshold k : Nat) (g : List (Option Nat))
    (hg : ValidGroup g) : 0 < storedIndex threshold (g.getD k none) :=
  storedIndex_pos threshold _ (fun n hn => hg.getD_range k n hn)

/-- The first triangle of a written face, on a table entry `t`. -/
theorem firstTriangle_groupParts (g1 g2 g3 : List (Option Nat)) (h1 : ValidGroup g1)
    (h2 : ValidGroup g2) (h3 : ValidGroup g3) (t : ObjTriangle α) :
    firstTriangle (groupParts g1) (groupParts g2) (groupParts g3) t = .ok
      { t with
        vertexIndices := ⟨fieldIndex (g1.getD 0 none), fieldIndex (g2.getD 0 none),
          fieldIndex (g3.getD 0 none)⟩
        textureCoordinateIndices := ⟨fieldIndex (g1.getD 1 none), storedIndex 1 (g2.getD 1 none),
          storedIndex 1 (g3.getD 1 none)⟩
        normalIndices := ⟨fieldIndex (g1.getD 2 none), fieldIndex (g2.getD 2 none),
          fieldIndex (g3.getD 2 none)⟩ } := by
  simp only [firstTriangle, groupParts, List.getD_cons_zero, List.getD_cons_succ, bind,
    Except.bind, indexArgument_groupParts _ _ _ h1, indexArgument_groupParts _ _ _ h2,
    indexArgument_groupParts _ _ _ h3]
  simp only [SetVertexIndex_ok _ _ _ (by decide : (0:Nat) < 3) (storedIndex_groupParts_pos _ _ _ h1),
    SetVertexIndex_ok _ _ _ (by decide : (1:Nat) < 3) (storedIndex_groupParts_pos _ _ _ h2),
    SetVertexIndex_ok _ _ _ (by decide : (2:Nat) < 3) (storedIndex_groupParts_pos _ _ _ h3),
    SetTextureCoordinateIndex_ok _ _ _ (by decide : (0:Nat) < 3)
      (storedIndex_groupParts_pos _ _ _ h1),
    SetTextureCoordinateIndex_ok _ _ _ (by decide : (1:Nat) < 3)
      (storedIndex_groupParts_pos _ _ _ h2),
    SetTextureCoordinateIndex_ok _ _ _ (by decide : (2:Nat) < 3)
      (storedIndex_groupParts_pos _ _ _ h3),
    SetNormalIndex_ok _ _ _ (by decide : (0:Nat) < 3) (storedIndex_groupParts_pos _ _ _ h1),
    SetNormalIndex_ok _ _ _ (by decide : (1:Nat) < 3) (storedIndex_groupParts_pos _ _ _ h2),
    SetNormalIndex_ok _ _ _ (by decide : (2:Nat) < 3) (storedIndex_groupParts_pos _ _ _ h3)]
  simp [Array3.set, storedIndex_zero, pure, Except.pure]

/-- The second triangle of a written quad, on a table entry `t`. -/
theorem secondTriangle_groupParts (g1 g3 g4 : List (Option Nat)) (h1 : ValidGroup g1)
    (h3 : ValidGroup g3) (h4 : ValidGroup g4) (t : ObjTriangle α) :
    secondTriangle (groupParts g1) (groupParts g3) (groupParts g4) t = .ok
      { t with
        vertexIndices := ⟨fieldIndex (g1.getD 0 none), fieldIndex (g3.getD 0 none),
          fieldIndex (g4.getD 0 none)⟩
        textureCoordinateIndices := ⟨storedIndex 1 (g1.getD 1 none),
          storedIndex 1 (g3.getD 1 none), storedIndex 1 (g4.getD 1 none)⟩
        normalIndices := ⟨fieldIndex (g1.getD 2 none), fieldIndex (g3.getD 2 none),
          fieldIndex (g4.getD 2 none)⟩ } := by
  simp only [secondTriangle, groupParts, List.getD_cons_zero, List.getD_cons_succ, bind,
    Except.bind, indexArgument_groupParts _ _ _ h1, indexArgument_groupParts _ _ _ h3,
    indexArgument_groupParts _ _ _ h4]
  simp only [SetVertexIndex_ok _ _ _ (by decide : (0:Nat) < 3) (storedIndex_groupParts_pos _ _ _ h1),
    SetVertexIndex_ok _ _ _ (by decide : (1:Nat) < 3) (storedIndex_groupParts_pos _ _ _ h3),
    SetVertexIndex_ok _ _ _ (by decide : (2:Nat) < 3) (storedIndex_groupParts_pos _ _ _ h4),
    SetTextureCoordinateIndex_ok _ _ _ (by decide : (0:Nat) < 3)
      (storedIndex_groupParts_pos _ _ _ h1),
    SetTextureCoordinateIndex_ok _ _ _ (by decide : (1:Nat) < 3)
      (storedIndex_groupParts_pos _ _ _ h3),
    SetTextureCoordinateIndex_ok _ _ _ (by decide : (2:Nat) < 3)
      (storedIndex_groupParts_pos _ _ _ h4),
    SetNormalIndex_ok _ _ _ (by decide : (0:Nat) < 3) (storedIndex_groupParts_pos _ _ _ h1),
    SetNormalIndex_ok _ _ _ (by decide : (1:Nat) < 3) (storedIndex_groupParts_pos _ _ _ h3),
    SetNormalIndex_ok _ _ _ (by decide : (2:Nat) < 3) (storedIndex_groupParts_pos _ _ _ h4)]
  simp [Array3.set, storedIndex_zero, pure, Except.pure]

theorem modifyAt_ok {β : Type} (table : List β) (i : Nat) (f : β → Except Fault β) (x y : β)
    (hx : table[i]? = some x) (hy : f x = .ok y) :
    modifyAt table i f = .ok (table.set i y) := by
  simp [modifyAt, hx, hy]

theorem faceField_faceText (groups : List (List (Option Nat)))
    (hvalid : ∀ g ∈ groups, ValidGroup g) (k : Nat) (g : List (Option Nat))
    (hk : groups[k]? = some g) :
    faceField (SplitString (faceText groups) ' ') (k + 1) = .ok (groupText g) := by
  rw [SplitString_faceText groups hvalid]
  simp [faceField, hk]

/-- The face branch on a written triangle: the entry at the cursor is filled in and the cursor
moves on by one. -/
theorem recordFace_triangle (g1 g2 g3 : List (Option Nat)) (h1 : ValidGroup g1)
    (h2 : ValidGroup g2) (h3 : ValidGroup g3) (st : RecordState α) (t : ObjTriangle α)
    (ht : st.triangles[st.triangle]? = some t) :
    recordFace (faceText [g1, g2, g3]) st = .ok
      { st with
        triangles := st.triangles.set st.triangle
          { t with
            vertexIndices := ⟨fieldIndex (g1.getD 0 none), fieldIndex (g2.getD 0 none),
              fieldIndex (g3.getD 0 none)⟩
            textureCoordinateIndices := ⟨fieldIndex (g1.getD 1 none),
              storedIndex 1 (g2.getD 1 none), storedIndex 1 (g3.getD 1 none)⟩
            normalIndices := ⟨fieldIndex (g1.getD 2 none), fieldIndex (g2.getD 2 none),
              fieldIndex (g3.getD 2 none)⟩ }
        triangle := st.triangle + 1 } := by
  have hvalid : ∀ g ∈ [g1, g2, g3], ValidGroup g := by
    intro g hg
    simp at hg
    rcases hg with rfl | rfl | rfl <;> assumption
  have hlen : (SplitString (faceText [g1, g2, g3]) ' ').length = 4 := by
    rw [SplitString_faceText _ hvalid]; simp
  simp only [recordFace, bind, Except.bind,
    faceField_faceText _ hvalid 0 g1 rfl, faceField_faceText _ hvalid 1 g2 rfl,
    faceField_faceText _ hvalid 2 g3 rfl,
    tokenizeGroup_groupText g1 h1.length_pos h1.length_le,
    tokenizeGroup_groupText g2 h2.length_pos h2.length_le,
    tokenizeGroup_groupText g3 h3.length_pos h3.length_le,
    modifyAt_ok _ _ _ _ _ ht (firstTriangle_groupParts g1 g2 g3 h1 h2 h3 t), hlen]
  simp [pure, Except.pure]

/-- The face branch on a written quad: the two entries from the cursor on are filled in and the
cursor moves on by two. -/
theorem recordFace_quad (g1 g2 g3 g4 : List (Option Nat)) (h1 : ValidGroup g1)
    (h2 : ValidGroup g2) (h3 : ValidGroup g3) (h4 : ValidGroup g4) (st : RecordState α)
    (t u : ObjTriangle α) (ht : st.triangles[st.triangle]? = some t)
    (hu : st.triangles[st.triangle + 1]? = some u) :
    recordFace (faceText [g1, g2, g3, g4]) st = .ok
      { st with
        triangles := (st.triangles.set st.triangle
          { t with
            vertexIndices := ⟨fieldIndex (g1.getD 0 none), fieldIndex (g2.getD 0 none),
              fieldIndex (g3.getD 0 none)⟩
            textureCoordinateIndices := ⟨fieldIndex (g1.getD 1 none),
              storedIndex 1 (g2.getD 1 none), storedIndex 1 (g3.getD 1 none)⟩
            normalIndices := ⟨fieldIndex (g1.getD 2 none), fieldIndex (g2.getD 2 none),
              fieldIndex (g3.getD 2 none)⟩ }).set (st.triangle + 1)
          { u with
            vertexIndices := ⟨fieldIndex (g1.getD 0 none), fieldIndex (g3.getD 0 none),
              fieldIndex (g4.getD 0 none)⟩
            textureCoordinateIndices := ⟨storedIndex 1 (g1.getD 1 none),
              storedIndex 1 (g3.getD 1 none), storedIndex 1 (g4.getD 1 none)⟩
            normalIndices := ⟨fieldIndex (g1.getD 2 none), fieldIndex (g3.getD 2 none),
              fieldIndex (g4.getD 2 none)⟩ }
        triangle := st.triangle + 2 } := by
  have hvalid : ∀ g ∈ [g1, g2, g3, g4], ValidGroup g := by
    intro g hg
    simp at hg
    rcases hg with rfl | rfl | rfl | rfl <;> assumption
  have hlen : (SplitString (faceText [g1, g2, g3, g4]) ' ').length = 5 := by
    rw [SplitString_faceText _ hvalid]; simp
  have hu2 : (st.triangles.set st.triangle
      { t with
        vertexIndices := ⟨fieldIndex (g1.getD 0 none), fieldIndex (g2.getD 0 none),
          fieldIndex (g3.getD 0 none)⟩
        textureCoordinateIndices := ⟨fieldIndex (g1.getD 1 none),
          storedIndex 1 (g2.getD 1 none), storedIndex 1 (g3.getD 1 none)⟩
        normalIndices := ⟨fieldIndex (g1.getD 2 none), fieldIndex (g2.getD 2 none),
          fieldIndex (g3.getD 2 none)⟩ })[st.triangle + 1]? = some u := by
    rw [List.getElem?_set_ne (by omega)]
    exact hu
  simp only [recordFace, bind, Except.bind,
    faceField_faceText _ hvalid 0 g1 rfl, faceField_faceText _ hvalid 1 g2 rfl,
    faceField_faceText _ hvalid 2 g3 rfl, faceField_faceText _ hvalid 3 g4 rfl,
    tokenizeGroup_groupText g1 h1.length_pos h1.length_le,
    tokenizeGroup_groupText g2 h2.length_pos h2.length_le,
    tokenizeGroup_groupText g3 h3.length_pos h3.length_le,
    tokenizeGroup_groupText g4 h4.length_pos h4.length_le,
    modifyAt_ok _ _ _ _ _ ht (firstTriangle_groupParts g1 g2 g3 h1 h2 h3 t), hlen,
    modifyAt_ok _ _ _ _ _ hu2 (secondTriangle_groupParts g1 g3 g4 h1 h3 h4 u)]
  simp [pure, Except.pure]

/-- A written face line with at least one group is taken by the face branch of both loops. -/
theorem faceText_take (g : List (Option Nat)) (gs : List (List (Option Nat))) :
    (faceText (g :: gs)).take 2 = ['f', ' '] ∧ (faceText (g :: gs)).take 1 = ['f'] := by
  simp [faceText, joinWith]

theorem recordLine_faceText (atof : Str → α) (st : RecordState α) (g : List (Option Nat))
    (gs : List (List (Option Nat))) :
    recordLine atof st (faceText (g :: gs)) = recordFace (faceText (g :: gs)) st := by
  obtain ⟨h2, h1⟩ := faceText_take g gs
  unfold recordLine
  rw [h2, h1]
  simp

end FaceLemmas

/-! ## Face records: the claims -/

section FaceClaims

variable {α : Type}

/-- C1. For every quad face line `f g1 g2 g3 g4`, its groups separated by single spaces and their
vertex sub-fields the positive integers `a`, `b`, `c`, `d` (within the range of `int` that `atoi`
returns), the record pass writes two consecutive triangles at its cursor, with vertex indices
`(a, b, c)` and then `(a, c, d)`, and moves the cursor on by two. -/
theorem quad_vertex_indices (atof : Str → α) (a b c d : Nat) (r1 r2 r3 r4 : List (Option Nat))
    (st : RecordState α)
    (h1 : ValidGroup (some a :: r1)) (h2 : ValidGroup (some b :: r2))
    (h3 : ValidGroup (some c :: r3)) (h4 : ValidGroup (some d :: r4))
    (hroom : st.triangle + 1 < st.triangles.length) :
    ∃ st', recordLine atof st
        (faceText [some a :: r1, some b :: r2, some c :: r3, some d :: r4]) = .ok st' ∧
      st'.triangle = st.triangle + 2 ∧
      st'.triangles[st.triangle]?.map ObjTriangle.vertexIndices = some ⟨a, b, c⟩ ∧
      st'.triangles[st.triangle + 1]?.map ObjTriangle.vertexIndices = some ⟨a, c, d⟩ := by
  have hlt0 : st.triangle < st.triangles.length := by omega
  have ht : st.triangles[st.triangle]? = some st.triangles[st.triangle] :=
    List.getElem?_eq_getElem hlt0
  have hu : st.triangles[st.triangle + 1]? = some st.triangles[st.triangle + 1] :=
    List.getElem?_eq_getElem hroom
  rw [recordLine_faceText, recordFace_quad _ _ _ _ h1 h2 h3 h4 st _ _ ht hu]
  refine ⟨_, rfl, rfl, ?_, ?_⟩
  · simp only
    rw [List.getElem?_set_ne (by omega), List.getElem?_set_self (by simpa using hlt0)]
    simp [fieldIndex]
  · simp only
    rw [List.getElem?_set_self (by simpa using hroom)]
    simp [fieldIndex]

/-- Witness for C1: the line `f 1 2 3 4` on a table of two triangles. -/
theorem quad_vertex_indices_witness :
    ValidGroup [some 1] ∧ ValidGroup [some 2] ∧ ValidGroup [some 3] ∧ ValidGroup [some 4] ∧
    ∃ st', recordLine (fun _ => (0 : ℚ)) (RecordState.allocate ⟨0, 0, 2, 0⟩)
        (faceText [[some 1], [some 2], [some 3], [some 4]]) = .ok st' ∧
      st'.triangle = 0 + 2 ∧
      st'.triangles[0]?.map ObjTriangle.vertexIndices = some ⟨1, 2, 3⟩ ∧
      st'.triangles[0 + 1]?.map ObjTriangle.vertexIndices = some ⟨1, 3, 4⟩ :=
  ⟨by decide, by decide, by decide, by decide,
    quad_vertex_indices (fun _ => (0 : ℚ)) 1 2 3 4 [] [] [] [] (RecordState.allocate ⟨0, 0, 2, 0⟩)
      (by decide) (by decide) (by decide) (by decide) (by decide)⟩

/-- C2, evaluated on the quad `f 4/5/6 4/5/6 4/5/6 4/5/6`: the texture-coordinate index 5 is
stored for the first corner of the first triangle only; the five other corners store the
default 1. -/
theorem one_digit_texture_index_lost :
    (recordLine (fun _ => (0 : ℚ)) (RecordState.allocate ⟨0, 0, 2, 0⟩)
        ("f 4/5/6 4/5/6 4/5/6 4/5/6").toList).map
      (fun st => st.triangles.map ObjTriangle.textureCoordinateIndices)
      = .ok [⟨5, 1, 1⟩, ⟨1, 1, 1⟩] := by
  decide

theorem storedIndex_none (threshold : Nat) : storedIndex threshold none = 1 := by
  simp [storedIndex, fieldIndex]

/-- C3. For every face line of three or four vertex-reference groups, the record pass does not
fail, and every corner whose group leaves out the texture-coordinate sub-field (`v`, `v/`,
`v//n`) or the normal sub-field (`v`, `v/`, `v/t`, `v/t/`) is stored with index 1 for that
sub-field.  Index 1 is a valid entry of the normal table and of the texture-coordinate table,
which are allocated with `max(1, count)` entries. -/
theorem missing_subfield_is_index_one (atof : Str → α) [LinearOrderedField α]
    (gs : List (List (Option Nat)))
    (hlen : gs.length = 3 ∨ gs.length = 4) (hvalid : ∀ g ∈ gs, ValidGroup g)
    (st : RecordState α) (hroom : st.triangle + (gs.length - 2) ≤ st.triangles.length)
    (tally : Tally) :
    (∃ st', recordLine atof st (faceText gs) = .ok st' ∧
      ∀ j k, j + 3 ≤ gs.length → k < 3 →
        ∃ t, st'.triangles[st.triangle + j]? = some t ∧
          ((gs.getD (cornerGroup j k) []).getD 1 none = none →
            t.textureCoordinateIndices.get k = 1) ∧
          ((gs.getD (cornerGroup j k) []).getD 2 none = none →
            t.normalIndices.get k = 1)) ∧
    (RecordState.allocate tally : RecordState α).normals.length = max 1 tally.numberOfNormals ∧
    (RecordState.allocate tally : RecordState α).textureCoordinates.length
      = max 1 tally.numberOfTextureCoordinates ∧
    decrement 1 < (RecordState.allocate tally : RecordState α).normals.length ∧
    decrement 1 < (RecordState.allocate tally : RecordState α).textureCoordinates.length := by
  refine ⟨?_, by simp [RecordState.allocate], by simp [RecordState.allocate],
    by simp [RecordState.allocate, decrement], by simp [RecordState.allocate, decrement]⟩
  rcases hlen with hlen | hlen
  · match gs, hlen with
    | [g1, g2, g3], _ =>
      have h1 := hvalid g1 (by simp)
      have h2 := hvalid g2 (by simp)
      have h3 := hvalid g3 (by simp)
      have hlt0 : st.triangle < st.triangles.length := by simp at hroom; omega
      have ht : st.triangles[st.triangle]? = some st.triangles[st.triangle] :=
        List.getElem?_eq_getElem hlt0
      rw [recordLine_faceText, recordFace_triangle _ _ _ h1 h2 h3 st _ ht]
      refine ⟨_, rfl, ?_⟩
      intro j k hj hk
      have hj0 : j = 0 := by simp at hj; omega
      subst hj0
      refine ⟨_, by
        simp only [Nat.add_zero]
        exact List.getElem?_set_self (by simpa using hlt0), ?_, ?_⟩
      · interval_cases k <;> simp +contextual
          [cornerGroup, Array3.get, fieldIndex, storedIndex_none]
      · interval_cases k <;> simp +contextual
          [cornerGroup, Array3.get, fieldIndex, storedIndex_none]
  · match gs, hlen with
    | [g1, g2, g3, g4], _ =>
      have h1 := hvalid g1 (by simp)
      have h2 := hvalid g2 (by simp)
      have h3 := hvalid g3 (by simp)
      have h4 := hvalid g4 (by simp)
      have hlt0 : st.triangle < st.triangles.length := by simp at hroom; omega
      have hlt1 : st.triangle + 1 < st.triangles.length := by simp at hroom; omega
      have ht : st.triangles[st.triangle]? = some st.triangles[st.triangle] :=
        List.getElem?_eq_getElem hlt0
      have hu : st.triangles[st.triangle + 1]? = some st.triangles[st.triangle + 1] :=
        List.getElem?_eq_getElem hlt1
      rw [recordLine_faceText, recordFace_quad _ _ _ _ h1 h2 h3 h4 st _ _ ht hu]
      refine ⟨_, rfl, ?_⟩
      intro j k hj hk
      have hj01 : j = 0 ∨ j = 1 := by simp at hj; omega
      rcases hj01 with rfl | rfl
      · refine ⟨_, by
          simp only [Nat.add_zero]
          rw [List.getElem?_set_ne (by omega)]
          exact List.getElem?_set_self (by simpa using hlt0), ?_, ?_⟩
        · interval_cases k <;> simp +contextual
            [cornerGroup, Array3.get, fieldIndex, storedIndex_none]
        · interval_cases k <;> simp +contextual
            [cornerGroup, Array3.get, fieldIndex, storedIndex_none]
      · refine ⟨_, List.getElem?_set_self (by simpa using hlt1), ?_, ?_⟩
        · interval_cases k <;> simp +contextual
            [cornerGroup, Array3.get, fieldIndex, storedIndex_none]
        · interval_cases k <;> simp +contextual
            [cornerGroup, Array3.get, fieldIndex, storedIndex_none]

/-- Witness for C3: the line `f 1 2//3 3/4/` on a table of one triangle. -/
theorem missing_subfield_is_index_one_witness :
    ([[some 1], [some 2, none, some 3], [some 3, some 4, none]] : List (List (Option Nat))).length
      = 3 ∧
    (∀ g ∈ ([[some 1], [some 2, none, some 3], [some 3, some 4, none]] :
      List (List (Option Nat))), ValidGroup g) ∧
    (∃ st', recordLine (fun _ => (0 : ℚ)) (RecordState.allocate ⟨0, 0, 1, 0⟩)
        (faceText [[some 1], [some 2, none, some 3], [some 3, some 4, none]]) = .ok st' ∧
      ∀ j k, j + 3 ≤ 3 → k < 3 →
        ∃ t, st'.triangles[0 + j]? = some t ∧
          ((([[some 1], [some 2, none, some 3], [some 3, some 4, none]] :
              List (List (Option Nat))).getD (cornerGroup j k) []).getD 1 none = none →
            t.textureCoordinateIndices.get k = 1) ∧
          ((([[some 1], [some 2, none, some 3], [some 3, some 4, none]] :
              List (List (Option Nat))).getD (cornerGroup j k) []).getD 2 none = none →
            t.normalIndices.get k = 1)) :=
  ⟨rfl, by decide,
    (missing_subfield_is_index_one (fun _ => (0 : ℚ))
      [[some 1], [some 2, none, some 3], [some 3, some 4, none]] (Or.inl rfl) (by decide)
      (RecordState.allocate ⟨0, 0, 1, 0⟩) (by decide) ⟨0, 0, 0, 0⟩).1⟩

end FaceClaims

/-! ## The two passes agree -/

section Passes

variable {α : Type}

theorem faultsIn_bind {β γ : Type} {P : Fault → Prop} {x : Except Fault β}
    {f : β → Except Fault γ} (hx : FaultsIn P x) (hf : ∀ a, FaultsIn P (f a)) :
    FaultsIn P (x >>= f) := by
  intro e he
  cases x with
  | error e' =>
    have : e' = e := by simpa [bind, Except.bind] using he
    exact this ▸ hx e' rfl
  | ok a => exact hf a e (by simpa [bind, Except.bind] using he)

theorem faultsIn_pure {β : Type} {P : Fault → Prop} (b : β) :
    FaultsIn P (pure b : Except Fault β) := by
  intro e he
  cases he

theorem faultsIn_ok {β : Type} {P : Fault → Prop} (b : β) :
    FaultsIn P (.ok b : Except Fault β) := by
  intro e he
  cases he

theorem tokenizeGroup_loop_faults (str : Str) (grouped : List Str) (cur : Str) (group : Nat) :
    FaultsIn ParsingFault (tokenizeGroup.loop str grouped cur group) := by
  induction str generalizing grouped cur group with
  | nil => exact faultsIn_ok _
  | cons c rest ih =>
    unfold tokenizeGroup.loop
    split
    · exact ih _ _ _
    · split
      · exact ih _ _ _
      · intro e he
        cases he
        exact Or.inl rfl

theorem tokenizeGroup_faults (str : Str) : FaultsIn ParsingFault (tokenizeGroup str) := by
  unfold tokenizeGroup
  split
  · rename_i e h
    intro e' he'
    cases he'
    exact tokenizeGroup_loop_faults _ _ _ _ e h
  · split
    · split
      · intro e he; cases he; exact Or.inl rfl
      · split
        · exact faultsIn_ok _
        · exact faultsIn_ok _
    · exact faultsIn_ok _

theorem indexArgument_faults (threshold : Nat) (part : Str) :
    FaultsIn ParsingFault (indexArgument threshold part) := by
  unfold indexArgument
  split
  · unfold atoi
    simp only
    split
    · rename_i e h
      split at h
      · cases h
      · cases h
        intro e' he'
        cases he'
        exact Or.inr (Or.inl rfl)
    · exact faultsIn_ok _
  · exact faultsIn_ok _

theorem SetVertexIndex_faults (t : ObjTriangle α) (k index : Nat) :
    FaultsIn ParsingFault (t.SetVertexIndex k index) := by
  unfold ObjTriangle.SetVertexIndex
  split
  · intro e he; cases he; exact Or.inr (Or.inr (Or.inr rfl))
  · split
    · intro e he; cases he; exact Or.inr (Or.inr (Or.inl rfl))
    · exact faultsIn_ok _

theorem SetNormalIndex_faults (t : ObjTriangle α) (k index : Nat) :
    FaultsIn ParsingFault (t.SetNormalIndex k index) := by
  unfold ObjTriangle.SetNormalIndex
  split
  · intro e he; cases he; exact Or.inr (Or.inr (Or.inr rfl))
  · split
    · intro e he; cases he; exact Or.inr (Or.inr (Or.inl rfl))
    · exact faultsIn_ok _

theorem SetTextureCoordinateIndex_faults (t : ObjTriangle α) (k index : Nat) :
    FaultsIn ParsingFault (t.SetTextureCoordinateIndex k index) := by
  unfold ObjTriangle.SetTextureCoordinateIndex
  split
  · intro e he; cases he; exact Or.inr (Or.inr (Or.inr rfl))
  · split
    · intro e he; cases he; exact Or.inr (Or.inr (Or.inl rfl))
    · exact faultsIn_ok _

theorem firstTriangle_faults (p1 p2 p3 : List Str) (t : ObjTriangle α) :
    FaultsIn ParsingFault (firstTriangle p1 p2 p3 t) := by
  unfold firstTriangle
  repeat' first
    | exact faultsIn_pure _
    | exact indexArgument_faults _ _
    | exact SetVertexIndex_faults _ _ _
    | exact SetNormalIndex_faults _ _ _
    | exact SetTextureCoordinateIndex_faults _ _ _
    | apply faultsIn_bind
    | intro _

theorem secondTriangle_faults (p1 p3 p4 : List Str) (t : ObjTriangle α) :
    FaultsIn ParsingFault (secondTriangle p1 p3 p4 t) := by
  unfold secondTriangle
  repeat' first
    | exact faultsIn_pure _
    | exact indexArgument_faults _ _
    | exact SetVertexIndex_faults _ _ _
    | exact SetNormalIndex_faults _ _ _
    | exact SetTextureCoordinateIndex_faults _ _ _
    | apply faultsIn_bind
    | intro _

theorem modifyAt_shape {β : Type} {P : Fault → Prop} (table : List β) (i : Nat)
    (f : β → Except Fault β) (hi : i < table.length) (hf : ∀ x, FaultsIn P (f x)) :
    match modifyAt table i f with
    | .error e => P e
    | .ok table' => table'.length = table.length := by
  unfold modifyAt
  rw [List.getElem?_eq_getElem hi]
  simp only
  cases h : f table[i] with
  | error e => exact hf _ e h
  | ok y => simp

/-- The face branch on a line of at least four fields, with room in the triangle table: it stops
only at a fault of parsing, and otherwise moves the triangle cursor by one, or by two for more
than four fields, leaving every other cursor and every table size as it was. -/
theorem recordFace_shape (buffer : Str) (st : RecordState α)
    (h4 : 4 ≤ (SplitString buffer ' ').length)
    (hroom : st.triangle + (if (SplitString buffer ' ').length > 4 then 2 else 1)
      ≤ st.triangles.length) :
    match recordFace buffer st with
    | .error e => ParsingFault e
    | .ok st' =>
      st'.cursors = { st.cursors with
        numberOfTriangles :=
          st.triangle + (if (SplitString buffer ' ').length > 4 then 2 else 1) } ∧
      st'.sizes = st.sizes := by
  obtain ⟨f, g1, g2, g3, rest, hsplit⟩ :
      ∃ f g1 g2 g3 rest, SplitString buffer ' ' = f :: g1 :: g2 :: g3 :: rest := by
    match hs : SplitString buffer ' ', h4 with
    | f :: g1 :: g2 :: g3 :: rest, _ => exact ⟨f, g1, g2, g3, rest, rfl⟩
    | [], h => simp at h
    | [_], h => simp at h
    | [_, _], h => simp at h
    | [_, _, _], h => simp at h
  rw [hsplit] at hroom
  simp only [recordFace, hsplit, faceField, bind, Except.bind, List.getElem?_cons_succ,
    List.getElem?_cons_zero, List.length_cons]
  cases h1 : tokenizeGroup g1 with
  | error e => exact tokenizeGroup_faults _ e h1
  | ok p1 =>
  cases h2 : tokenizeGroup g2 with
  | error e => exact tokenizeGroup_faults _ e h2
  | ok p2 =>
  cases h3 : tokenizeGroup g3 with
  | error e => exact tokenizeGroup_faults _ e h3
  | ok p3 =>
  simp only
  have hlt0 : st.triangle < st.triangles.length := by
    split at hroom <;> omega
  have hm := modifyAt_shape (P := ParsingFault) st.triangles st.triangle (firstTriangle p1 p2 p3)
    hlt0 (firstTriangle_faults p1 p2 p3)
  cases hm1 : modifyAt st.triangles st.triangle (firstTriangle p1 p2 p3) with
  | error e => rw [hm1] at hm; exact hm
  | ok triangles1 =>
  rw [hm1] at hm
  simp only at hm
  simp only
  cases rest with
  | nil =>
    simp [pure, Except.pure, RecordState.cursors, RecordState.sizes, hm]
  | cons g4 rest =>
    have hgt : (f :: g1 :: g2 :: g3 :: g4 :: rest).length > 4 := by simp
    rw [if_pos hgt] at hroom
    simp only [List.length_cons, List.getElem?_cons_zero]
    have hgt2 : rest.length + 1 + 1 + 1 + 1 + 1 > 4 := by omega
    rw [if_pos hgt2, if_pos hgt2]
    cases h4 : tokenizeGroup g4 with
    | error e => exact tokenizeGroup_faults _ e h4
    | ok p4 =>
    simp only
    have hlt1 : st.triangle + 1 < triangles1.length := by omega
    have hm' := modifyAt_shape (P := ParsingFault) triangles1 (st.triangle + 1)
      (secondTriangle p1 p3 p4) hlt1 (secondTriangle_faults p1 p3 p4)
    cases hm2 : modifyAt triangles1 (st.triangle + 1) (secondTriangle p1 p3 p4) with
    | error e => rw [hm2] at hm'; exact hm'
    | ok triangles2 =>
    rw [hm2] at hm'
    simp only at hm'
    simp [pure, Except.pure, RecordState.cursors, RecordState.sizes, hm', hm]

/-- One line of the second scan against one line of the first: with room in the tables for the
records counted so far, the line stops the scan only at a fault of parsing, and otherwise moves
the cursors exactly as the first scan moved its counters. -/
theorem recordLine_shape (atof : Str → α) (st : RecordState α) (buffer : Str)
    (hface : buffer.take 1 = ['f'] → 4 ≤ (SplitString buffer ' ').length)
    (hroom : Tally.le (countLine st.cursors buffer) st.sizes) :
    match recordLine atof st buffer with
    | .error e => ParsingFault e ∧ buffer.take 1 = ['f']
    | .ok st' => st'.cursors = countLine st.cursors buffer ∧ st'.sizes = st.sizes := by
  unfold recordLine
  unfold countLine at hroom ⊢
  by_cases hvn : buffer.take 2 = ['v', 'n']
  · rw [if_pos hvn] at hroom ⊢
    rw [if_pos hvn]
    have hlt : st.normal < st.normals.length := by
      have := hroom.2.1
      simp only [RecordState.cursors, RecordState.sizes] at this
      omega
    simp only [modifyAt, List.getElem?_eq_getElem hlt]
    simp [RecordState.cursors, RecordState.sizes]
  · rw [if_neg hvn] at hroom ⊢
    rw [if_neg hvn]
    by_cases hvt : buffer.take 2 = ['v', 't']
    · rw [if_pos hvt] at hroom ⊢
      rw [if_pos hvt]
      have hlt : st.textureCoordinate < st.textureCoordinates.length := by
        have := hroom.1
        simp only [RecordState.cursors, RecordState.sizes] at this
        omega
      simp only [modifyAt, List.getElem?_eq_getElem hlt]
      simp [RecordState.cursors, RecordState.sizes]
    · rw [if_neg hvt] at hroom ⊢
      rw [if_neg hvt]
      by_cases hv : buffer.take 1 = ['v']
      · rw [if_pos hv] at hroom ⊢
        rw [if_pos hv]
        have hlt : st.vertex < st.vertices.length := by
          have := hroom.2.2.2
          simp only [RecordState.cursors, RecordState.sizes] at this
          omega
        simp only [modifyAt, List.getElem?_eq_getElem hlt]
        simp [RecordState.cursors, RecordState.sizes]
      · rw [if_neg hv] at hroom ⊢
        rw [if_neg hv]
        by_cases hf : buffer.take 1 = ['f']
        · rw [if_pos hf] at hroom ⊢
          rw [if_pos hf]
          have h4 := hface hf
          have hroom2 : st.triangle + (if (SplitString buffer ' ').length > 4 then 2 else 1)
              ≤ st.triangles.length := by
            have := hroom.2.2.1
            simp only [RecordState.cursors, RecordState.sizes] at this
            split at this <;> rename_i hc
            · rw [if_pos hc]; simpa [Nat.add_assoc] using this
            · rw [if_neg hc]; simpa using this
          have hs := recordFace_shape buffer st h4 hroom2
          cases hr : recordFace buffer st with
          | error e => rw [hr] at hs; exact ⟨hs, hf⟩
          | ok st' =>
            rw [hr] at hs
            simp only at hs ⊢
            refine ⟨?_, hs.2⟩
            rw [hs.1]
            split <;> simp [RecordState.cursors, Nat.add_assoc]
        · rw [if_neg hf]
          rw [if_neg hf]
          exact ⟨rfl, rfl⟩

theorem Tally.le_refl (a : Tally) : Tally.le a a :=
  ⟨Nat.le_refl _, Nat.le_refl _, Nat.le_refl _, Nat.le_refl _⟩

theorem Tally.le_trans {a b c : Tally} (hab : Tally.le a b) (hbc : Tally.le b c) :
    Tally.le a c :=
  ⟨Nat.le_trans hab.1 hbc.1, Nat.le_trans hab.2.1 hbc.2.1, Nat.le_trans hab.2.2.1 hbc.2.2.1,
    Nat.le_trans hab.2.2.2 hbc.2.2.2⟩

theorem countLine_le (c : Tally) (buffer : Str) : Tally.le c (countLine c buffer) := by
  unfold countLine
  split
  · exact ⟨Nat.le_refl _, Nat.le_succ _, Nat.le_refl _, Nat.le_refl _⟩
  · split
    · exact ⟨Nat.le_succ _, Nat.le_refl _, Nat.le_refl _, Nat.le_refl _⟩
    · split
      · exact ⟨Nat.le_refl _, Nat.le_refl _, Nat.le_refl _, Nat.le_succ _⟩
      · split
        · simp only
          split
          · exact ⟨Nat.le_refl _, Nat.le_refl _, by simp only; omega, Nat.le_refl _⟩
          · exact ⟨Nat.le_refl _, Nat.le_refl _, Nat.le_succ _, Nat.le_refl _⟩
        · exact Tally.le_refl c

theorem foldl_countLine_le (lines : List Str) (c : Tally) :
    Tally.le c (lines.foldl countLine c) := by
  induction lines generalizing c with
  | nil => exact Tally.le_refl c
  | cons l rest ih => exact Tally.le_trans (countLine_le c l) (ih _)

/-- The second scan against the first, from any state with room in the tables for all the
records the first scan counts in the lines still to come. -/
theorem recordPass_shape (atof : Str → α) (rest : List Str) (st : RecordState α)
    (hfaces : ∀ buffer ∈ rest, buffer.take 1 = ['f'] → 4 ≤ (SplitString buffer ' ').length)
    (hroom : Tally.le (rest.foldl countLine st.cursors) st.sizes) :
    match recordPass atof rest st with
    | .error e => ParsingFault e
    | .ok st' => st'.cursors = rest.foldl countLine st.cursors ∧ st'.sizes = st.sizes := by
  induction rest generalizing st with
  | nil => exact ⟨rfl, rfl⟩
  | cons l rest ih =>
    have hroom1 : Tally.le (countLine st.cursors l) st.sizes :=
      Tally.le_trans (foldl_countLine_le rest _) hroom
    have hstep := recordLine_shape atof st l (hfaces l (by simp)) hroom1
    unfold recordPass
    cases hr : recordLine atof st l with
    | error e => rw [hr] at hstep; exact hstep.1
    | ok st1 =>
      rw [hr] at hstep
      simp only at hstep ⊢
      have hih := ih st1 (fun b hb => hfaces b (by simp [hb]))
        (by rw [hstep.1, hstep.2]; exact hroom)
      cases hr2 : recordPass atof rest st1 with
      | error e => rw [hr2] at hih; exact hih
      | ok st2 =>
        rw [hr2] at hih
        simp only at hih ⊢
        rw [hih.1, hih.2, hstep.1, hstep.2]
        exact ⟨rfl, rfl⟩

/-- A face line written from three or four valid groups is read without a fault when the
triangle table has room for it. -/
theorem recordFace_written_ok (gs : List (List (Option Nat)))
    (hlen : gs.length = 3 ∨ gs.length = 4) (hvalid : ∀ g ∈ gs, ValidGroup g)
    (st : RecordState α) (hroom : st.triangle + (gs.length - 2) ≤ st.triangles.length) :
    ∃ st', recordFace (faceText gs) st = .ok st' := by
  rcases hlen with hlen | hlen
  · match gs, hlen with
    | [g1, g2, g3], _ =>
      have hlt0 : st.triangle < st.triangles.length := by simp at hroom; omega
      exact ⟨_, recordFace_triangle _ _ _ (hvalid g1 (by simp)) (hvalid g2 (by simp))
        (hvalid g3 (by simp)) st _ (List.getElem?_eq_getElem hlt0)⟩
  · match gs, hlen with
    | [g1, g2, g3, g4], _ =>
      have hlt0 : st.triangle < st.triangles.length := by simp at hroom; omega
      have hlt1 : st.triangle + 1 < st.triangles.length := by simp at hroom; omega
      exact ⟨_, recordFace_quad _ _ _ _ (hvalid g1 (by simp)) (hvalid g2 (by simp))
        (hvalid g3 (by simp)) (hvalid g4 (by simp)) st _ _ (List.getElem?_eq_getElem hlt0)
        (List.getElem?_eq_getElem hlt1)⟩

theorem SplitString_faceText_length (gs : List (List (Option Nat)))
    (hvalid : ∀ g ∈ gs, ValidGroup g) :
    (SplitString (faceText gs) ' ').length = gs.length + 1 := by
  rw [SplitString_faceText gs hvalid]
  simp

/-- The second scan runs to its end when every face line is written from three or four valid
groups. -/
theorem recordPass_written_ok (atof : Str → α) (rest : List Str) (st : RecordState α)
    (hwritten : ∀ buffer ∈ rest, buffer.take 1 = ['f'] →
      ∃ gs : List (List (Option Nat)), (gs.length = 3 ∨ gs.length = 4) ∧
        (∀ g ∈ gs, ValidGroup g) ∧ buffer = faceText gs)
    (hroom : Tally.le (rest.foldl countLine st.cursors) st.sizes) :
    ∃ st', recordPass atof rest st = .ok st' := by
  induction rest generalizing st with
  | nil => exact ⟨st, rfl⟩
  | cons l rest ih =>
    have hroom1 : Tally.le (countLine st.cursors l) st.sizes :=
      Tally.le_trans (foldl_countLine_le rest _) hroom
    have hface : l.take 1 = ['f'] → 4 ≤ (SplitString l ' ').length := by
      intro hf
      obtain ⟨gs, hlen, hvalid, rfl⟩ := hwritten l (by simp) hf
      rw [SplitString_faceText_length gs hvalid]
      omega
    have hstep := recordLine_shape atof st l hface hroom1
    unfold recordPass
    cases hr : recordLine atof st l with
    | error e =>
      exfalso
      rw [hr] at hstep
      obtain ⟨gs, hlen, hvalid, rfl⟩ := hwritten l (by simp) hstep.2
      have hroomf : st.triangle + (gs.length - 2) ≤ st.triangles.length := by
        have h := hroom1.2.2.1
        unfold countLine at h
        have h2 : (faceText gs).take 2 = ['f', ' '] := by
          rcases hlen with hl | hl
          · match gs, hl with
            | [g1, g2, g3], _ => exact (faceText_take _ _).1
          · match gs, hl with
            | [g1, g2, g3, g4], _ => exact (faceText_take _ _).1
        rw [h2, hstep.2] at h
        simp only [SplitString_faceText_length gs hvalid, RecordState.cursors,
          RecordState.sizes] at h
        simp at h
        rcases hlen with hl | hl
        · rw [hl] at h ⊢
          simp at h
          omega
        · rw [hl] at h ⊢
          simp at h
          omega
      obtain ⟨st', hok⟩ := recordFace_written_ok gs hlen hvalid st hroomf
      have heq : recordLine atof st (faceText gs) = recordFace (faceText gs) st := by
        rcases hlen with hl | hl
        · match gs, hl with
          | [g1, g2, g3], _ => exact recordLine_faceText atof st _ _
        · match gs, hl with
          | [g1, g2, g3, g4], _ => exact recordLine_faceText atof st _ _
      rw [heq, hok] at hr
      cases hr
    | ok st1 =>
      rw [hr] at hstep
      simp only at hstep ⊢
      exact ih st1 (fun b hb => hwritten b (by simp [hb]))
        (by rw [hstep.1, hstep.2]; exact hroom)

theorem allocate_sizes [LinearOrderedField α] (c : Tally) :
    (RecordState.allocate c : RecordState α).sizes
      = ⟨max 1 c.numberOfTextureCoordinates, max 1 c.numberOfNormals, c.numberOfTriangles,
          c.numberOfVertices⟩ := by
  simp [RecordState.allocate, RecordState.sizes]

theorem allocate_room [LinearOrderedField α] (c : Tally) :
    Tally.le c (RecordState.allocate c : RecordState α).sizes := by
  rw [allocate_sizes]
  exact ⟨Nat.le_max_right _ _, Nat.le_max_right _ _, Nat.le_refl _, Nat.le_refl _⟩

/-- C4. For every input in which each face line has at least three vertex-reference groups
(at least four fields with the `f` token), the record pass on the tables allocated from the
tallies of the counting pass never accesses a table at or beyond its size and never misses a
field; when it runs to its end, its four write cursors are exactly the four tallies, so the slots
written are the slots `0 .. count - 1`, and the tables still have the sizes allocated.  It runs to
its end whenever every face line is written from three or four valid groups. -/
theorem tallies_equal_cursors [LinearOrderedField α] (atof : Str → α) (lines : List Str)
    (h3 : ∀ buffer ∈ lines, buffer.take 1 = ['f'] → 4 ≤ (SplitString buffer ' ').length) :
    recordPass atof lines (RecordState.allocate (countingPass lines)) ≠ .error .tableOverrun ∧
    recordPass atof lines (RecordState.allocate (countingPass lines)) ≠ .error .missingField ∧
    (∀ st, recordPass atof lines (RecordState.allocate (countingPass lines)) = .ok st →
      st.cursors = countingPass lines ∧
      st.sizes = ⟨max 1 (countingPass lines).numberOfTextureCoordinates,
        max 1 (countingPass lines).numberOfNormals, (countingPass lines).numberOfTriangles,
        (countingPass lines).numberOfVertices⟩) ∧
    ((∀ buffer ∈ lines, buffer.take 1 = ['f'] →
        ∃ gs : List (List (Option Nat)), (gs.length = 3 ∨ gs.length = 4) ∧
          (∀ g ∈ gs, ValidGroup g) ∧ buffer = faceText gs) →
      ∃ st, recordPass atof lines (RecordState.allocate (countingPass lines)) = .ok st) := by
  have hroom : Tally.le
      (lines.foldl countLine (RecordState.allocate (countingPass lines) : RecordState α).cursors)
      (RecordState.allocate (countingPass lines) : RecordState α).sizes :=
    allocate_room (countingPass lines)
  have hshape := recordPass_shape atof lines (RecordState.allocate (countingPass lines)) h3 hroom
  refine ⟨?_, ?_, ?_, ?_⟩
  · intro h
    rw [h] at hshape
    rcases hshape with h | h | h | h <;> cases h
  · intro h
    rw [h] at hshape
    rcases hshape with h | h | h | h <;> cases h
  · intro st h
    rw [h] at hshape
    refine ⟨hshape.1, ?_⟩
    rw [hshape.2, allocate_sizes]
  · intro hwritten
    exact recordPass_written_ok atof lines _ hwritten hroom

/-- Witness for C4: three vertices and the triangle `f 1 2 3`; the record pass runs to its end
with its cursors at the tallies. -/
theorem tallies_equal_cursors_witness :
    (∀ buffer ∈ [("v 0 0 0").toList, ("v 1 0 0").toList, ("v 0 1 0").toList,
        ("f 1 2 3").toList], buffer.take 1 = ['f'] → 4 ≤ (SplitString buffer ' ').length) ∧
    ∃ st, recordPass (fun _ => (0 : ℚ))
        [("v 0 0 0").toList, ("v 1 0 0").toList, ("v 0 1 0").toList, ("f 1 2 3").toList]
        (RecordState.allocate (countingPass
          [("v 0 0 0").toList, ("v 1 0 0").toList, ("v 0 1 0").toList, ("f 1 2 3").toList]))
        = .ok st ∧
      st.cursors = countingPass
        [("v 0 0 0").toList, ("v 1 0 0").toList, ("v 0 1 0").toList, ("f 1 2 3").toList] :=
  have h := tallies_equal_cursors (fun _ => (0 : ℚ))
    [("v 0 0 0").toList, ("v 1 0 0").toList, ("v 0 1 0").toList, ("f 1 2 3").toList]
    (by decide)
  have hwritten : ∀ buffer ∈ [("v 0 0 0").toList, ("v 1 0 0").toList, ("v 0 1 0").toList,
      ("f 1 2 3").toList], buffer.take 1 = ['f'] →
      ∃ gs : List (List (Option Nat)), (gs.length = 3 ∨ gs.length = 4) ∧
        (∀ g ∈ gs, ValidGroup g) ∧ buffer = faceText gs := by
    intro buffer hb hf
    simp only [List.mem_cons, List.mem_singleton, List.not_mem_nil, or_false] at hb
    rcases hb with rfl | rfl | rfl | rfl
    · exact absurd hf (by decide)
    · exact absurd hf (by decide)
    · exact absurd hf (by decide)
    · exact ⟨[[some 1], [some 2], [some 3]], Or.inl rfl, by decide, by decide⟩
  ⟨by decide,
    let ⟨st, hst⟩ := h.2.2.2 hwritten
    ⟨st, hst, (h.2.2.1 st hst).1⟩⟩

/-! ## Counting faces (C5) -/

/-- C6 fails on its own example `vp 0 0 0`: the leading token is `vp`, the counting pass counts
the line as a vertex, and the record pass stores it in the vertex table. -/
theorem vp_line_is_a_vertex :
    streamWord ("vp 0 0 0").toList 0 = ("vp").toList ∧
    countLine ⟨0, 0, 0, 0⟩ ("vp 0 0 0").toList = ⟨0, 0, 0, 1⟩ ∧
    (recordLine (fun _ => (1 : ℚ)) (RecordState.allocate ⟨0, 0, 0, 1⟩)
        ("vp 0 0 0").toList).map (fun st => (st.vertex, st.vertices))
      = .ok (1, [⟨1, 1, 1, 0, 0, 0⟩]) := by
  decide

theorem take_one_of_take_two (buffer : Str) (x : Char) (h : buffer.take 2 = ['v', x]) :
    buffer.take 1 = ['v'] := by
  have : (buffer.take 2).take 1 = ['v'] := by rw [h]; rfl
  simpa [List.take_take] using this

theorem recordLine_ignored (atof : Str → α) (st : RecordState α) (buffer : Str)
    (hv : buffer.take 1 ≠ ['v']) (hf : buffer.take 1 ≠ ['f']) :
    recordLine atof st buffer = .ok st := by
  unfold recordLine
  rw [if_neg (fun h => hv (take_one_of_take_two _ _ h)),
    if_neg (fun h => hv (take_one_of_take_two _ _ h)), if_neg hv, if_neg hf]

/-- C6, amended.  For every line that does not begin with the character `v` or `f`, the counting
pass leaves all four tallies unchanged and the record pass leaves the tables and the cursors
unchanged. -/
theorem other_lines_are_ignored (atof : Str → α) (c : Tally) (st : RecordState α) (buffer : Str)
    (hv : buffer.take 1 ≠ ['v']) (hf : buffer.take 1 ≠ ['f']) :
    countLine c buffer = c ∧ recordLine atof st buffer = .ok st := by
  have hvn : buffer.take 2 ≠ ['v', 'n'] := fun h => hv (take_one_of_take_two _ _ h)
  have hvt : buffer.take 2 ≠ ['v', 't'] := fun h => hv (take_one_of_take_two _ _ h)
  constructor
  · unfold countLine
    rw [if_neg hvn, if_neg hvt, if_neg hv, if_neg hf]
  · unfold recordLine
    rw [if_neg hvn, if_neg hvt, if_neg hv, if_neg hf]

/-- Witness for C6, amended: the line `usemtl m`. -/
theorem other_lines_are_ignored_witness :
    ("usemtl m").toList.take 1 ≠ ['v'] ∧ ("usemtl m").toList.take 1 ≠ ['f'] ∧
    countLine ⟨1, 2, 3, 4⟩ ("usemtl m").toList = ⟨1, 2, 3, 4⟩ ∧
    recordLine (fun _ => (0 : ℚ)) (RecordState.allocate ⟨1, 2, 3, 4⟩) ("usemtl m").toList
      = .ok (RecordState.allocate ⟨1, 2, 3, 4⟩) :=
  ⟨by decide, by decide,
    other_lines_are_ignored (fun _ => (0 : ℚ)) ⟨1, 2, 3, 4⟩ (RecordState.allocate ⟨1, 2, 3, 4⟩)
      ("usemtl m").toList (by decide) (by decide)⟩

/-! ## A file without records (C7) -/

theorem countingPass_no_records (lines : List Str) (c : Tally)
    (h : ∀ l ∈ lines, l.take 1 ≠ ['v'] ∧ l.take 1 ≠ ['f']) :
    lines.foldl countLine c = c := by
  induction lines with
  | nil => rfl
  | cons l rest ih =>
    have hl := h l (by simp)
    have hc : countLine c l = c := by
      unfold countLine
      rw [if_neg (fun h => hl.1 (take_one_of_take_two _ _ h)),
        if_neg (fun h => hl.1 (take_one_of_take_two _ _ h)), if_neg hl.1, if_neg hl.2]
    rw [List.foldl_cons, hc]
    exact ih (fun l hl => h l (by simp [hl]))

theorem recordPass_no_records (atof : Str → α) (lines : List Str) (st : RecordState α)
    (h : ∀ l ∈ lines, l.take 1 ≠ ['v'] ∧ l.take 1 ≠ ['f']) :
    recordPass atof lines st = .ok st := by
  induction lines with
  | nil => rfl
  | cons l rest ih =>
    have hl := h l (by simp)
    unfold recordPass
    rw [recordLine_ignored atof st l hl.1 hl.2]
    exact ih (fun l hl => h l (by simp [hl]))

/-- C7, as the code has it.  For a file that opens and holds no line beginning with `v` or `f`
(the empty file among them), the four counts are zero and `LoadMesh` stops at the assertion
`size > 0` of the `VertexBuffer` constructor; it does not return. -/
theorem no_records_stops_at_buffer_assertion [LinearOrderedField α] (atof : Str → α)
    (sqrt : α → α) (lines : List Str)
    (h : ∀ l ∈ lines, l.take 1 ≠ ['v'] ∧ l.take 1 ≠ ['f']) :
    countingPass lines = ⟨0, 0, 0, 0⟩ ∧
    LoadMesh atof sqrt (some lines) = .error .bufferSize := by
  have hc : countingPass lines = ⟨0, 0, 0, 0⟩ := countingPass_no_records lines _ h
  refine ⟨hc, ?_⟩
  unfold LoadMesh
  simp only [hc, recordPass_no_records atof lines _ h, bind, Except.bind]
  simp [RecordState.allocate, centerModel, measureExtent, measureExtent.loop, VertexBuffer.new]

/-- Witness for C7: the empty file, read as one empty line. -/
theorem no_records_stops_at_buffer_assertion_witness :
    (∀ l ∈ [([] : Str)], l.take 1 ≠ ['v'] ∧ l.take 1 ≠ ['f']) ∧
    countingPass [([] : Str)] = ⟨0, 0, 0, 0⟩ ∧
    LoadMesh (fun _ => (0 : ℚ)) (fun x => x) (some [[]]) = .error .bufferSize :=
  ⟨by decide, no_records_stops_at_buffer_assertion (fun _ => (0 : ℚ)) (fun x => x) [[]]
    (by decide)⟩

end Passes

/-! ## Centering and scaling -/

section NormalizerLemmas

variable {α : Type} [LinearOrderedField α]

theorem bind_eq_ok {β γ : Type} {x : Except Fault β} {f : β → Except Fault γ} {c : γ}
    (h : x >>= f = .ok c) : ∃ a, x = .ok a ∧ f a = .ok c := by
  cases x with
  | error e => simp [bind, Except.bind] at h
  | ok a => exact ⟨a, rfl, by simpa [bind, Except.bind] using h⟩

omit [LinearOrderedField α] in
theorem GetVertexIndex_eq_ok {t : ObjTriangle α} {v idx : Nat} :
    t.GetVertexIndex v = .ok idx ↔ v < 3 ∧ 0 < idx ∧ t.vertexIndices.get v = idx := by
  unfold ObjTriangle.GetVertexIndex
  by_cases hv : v < 3
  · by_cases hi : t.vertexIndices.get v > 0
    · simp only [hv, hi, not_true_eq_false, if_false, Except.ok.injEq, true_and]
      constructor
      · intro h; subst h; exact ⟨hi, rfl⟩
      · intro h; exact h.2
    · simp only [hv, hi, not_true_eq_false, not_false_eq_true, if_true, if_false, true_and]
      constructor
      · intro h; cases h
      · intro h; rw [h.2] at hi; exact absurd h.1 hi
  · simp [hv]

theorem decrement_pos {i : Nat} (h : 0 < i) : decrement i = i - 1 := by
  unfold decrement
  rw [if_neg (by omega)]

theorem elementAt_eq_ok {β : Type} {table : List β} {i : Nat} {x : β} :
    elementAt table i = .ok x ↔ table[i]? = some x := by
  unfold elementAt
  cases h : table[i]? with
  | none => simp
  | some y => simp

omit [LinearOrderedField α] in
theorem cornerAt_of_indicesWithin (vertices : List (ObjVertex α)) (t : ObjTriangle α)
    (h : IndicesWithin vertices.length t) (v : Nat) (hv : v < 3) :
    ∃ p, CornerAt vertices t v p := by
  obtain ⟨hpos, hle⟩ := h v hv
  have hlt : decrement (t.vertexIndices.get v) < vertices.length := by
    rw [decrement_pos hpos]; omega
  exact ⟨vertices[decrement (t.vertexIndices.get v)], t.vertexIndices.get v,
    GetVertexIndex_eq_ok.2 ⟨hv, hpos, rfl⟩, List.getElem?_eq_getElem hlt⟩

theorem measureCorner_of_cornerAt (vertices : List (ObjVertex α)) (t : ObjTriangle α)
    (e : Extent α) (v : Nat) (p : ObjVertex α) (h : CornerAt vertices t v p) :
    measureCorner vertices t e v
      = .ok ⟨max e.width |p.x|, max e.height |p.y|, max e.depth |p.z|⟩ := by
  obtain ⟨idx, hidx, hp⟩ := h
  simp [measureCorner, hidx, elementAt, hp, bind, Except.bind, pure, Except.pure]

theorem measureCorner_eq_ok (vertices : List (ObjVertex α)) (t : ObjTriangle α)
    (e e' : Extent α) (v : Nat) (h : measureCorner vertices t e v = .ok e') :
    ∃ p, CornerAt vertices t v p ∧
      e' = ⟨max e.width |p.x|, max e.height |p.y|, max e.depth |p.z|⟩ := by
  unfold measureCorner at h
  obtain ⟨idx, hidx, h⟩ := bind_eq_ok h
  obtain ⟨p, hp, h⟩ := bind_eq_ok h
  have hc : CornerAt vertices t v p := ⟨idx, hidx, elementAt_eq_ok.1 hp⟩
  refine ⟨p, hc, ?_⟩
  have h2 := measureCorner_of_cornerAt vertices t e v p hc
  unfold measureCorner at h2
  simp only [hidx, hp, bind, Except.bind] at h h2
  rw [h2] at h
  exact (Except.ok.inj h).symm

/-- The corners that a triangle adds to the running maxima. -/
theorem measureTriangle_eq_ok (vertices : List (ObjVertex α)) (t : ObjTriangle α)
    (e e' : Extent α) (h : measureTriangle vertices e t = .ok e') :
    ∃ p0 p1 p2, CornerAt vertices t 0 p0 ∧ CornerAt vertices t 1 p1 ∧ CornerAt vertices t 2 p2 ∧
      e' = ⟨max (max (max e.width |p0.x|) |p1.x|) |p2.x|,
            max (max (max e.height |p0.y|) |p1.y|) |p2.y|,
            max (max (max e.depth |p0.z|) |p1.z|) |p2.z|⟩ := by
  unfold measureTriangle at h
  obtain ⟨e0, h0, h⟩ := bind_eq_ok h
  obtain ⟨e1, h1, h⟩ := bind_eq_ok h
  obtain ⟨e2, h2, h⟩ := bind_eq_ok h
  obtain ⟨p0, hc0, rfl⟩ := measureCorner_eq_ok _ _ _ _ _ h0
  obtain ⟨p1, hc1, rfl⟩ := measureCorner_eq_ok _ _ _ _ _ h1
  obtain ⟨p2, hc2, rfl⟩ := measureCorner_eq_ok _ _ _ _ _ h2
  refine ⟨p0, p1, p2, hc0, hc1, hc2, ?_⟩
  exact (Except.ok.inj h).symm

theorem measureTriangle_of_cornerAt (vertices : List (ObjVertex α)) (t : ObjTriangle α)
    (e : Extent α) (p0 p1 p2 : ObjVertex α) (h0 : CornerAt vertices t 0 p0)
    (h1 : CornerAt vertices t 1 p1) (h2 : CornerAt vertices t 2 p2) :
    measureTriangle vertices e t
      = .ok ⟨max (max (max e.width |p0.x|) |p1.x|) |p2.x|,
            max (max (max e.height |p0.y|) |p1.y|) |p2.y|,
            max (max (max e.depth |p0.z|) |p1.z|) |p2.z|⟩ := by
  unfold measureTriangle
  simp only [measureCorner_of_cornerAt _ _ _ _ _ h0, measureCorner_of_cornerAt _ _ _ _ _ h1,
    measureCorner_of_cornerAt _ _ _ _ _ h2, bind, Except.bind, pure, Except.pure]

/-- The extent loop only raises the running maxima, and raises them to at least the absolute
coordinates of every corner it passes. -/
theorem measureExtent_loop_bounds (vertices : List (ObjVertex α))
    (triangles : List (ObjTriangle α)) (e0 e : Extent α)
    (h : measureExtent.loop vertices triangles e0 = .ok e) :
    (e0.width ≤ e.width ∧ e0.height ≤ e.height ∧ e0.depth ≤ e.depth) ∧
    ∀ t ∈ triangles, ∀ v, v < 3 → ∃ p, CornerAt vertices t v p ∧
      |p.x| ≤ e.width ∧ |p.y| ≤ e.height ∧ |p.z| ≤ e.depth := by
  induction triangles generalizing e0 with
  | nil =>
    unfold measureExtent.loop at h
    cases h
    exact ⟨⟨le_refl _, le_refl _, le_refl _⟩, fun t ht => absurd ht (List.not_mem_nil t)⟩
  | cons t rest ih =>
    unfold measureExtent.loop at h
    cases hm : measureTriangle vertices e0 t with
    | error err => rw [hm] at h; cases h
    | ok e1 =>
      rw [hm] at h
      simp only at h
      obtain ⟨p0, p1, p2, hc0, hc1, hc2, he1⟩ := measureTriangle_eq_ok _ _ _ _ hm
      obtain ⟨⟨hw, hh, hd⟩, hrest⟩ := ih e1 h
      subst he1
      simp only at hw hh hd
      refine ⟨⟨?_, ?_, ?_⟩, ?_⟩
      · exact le_trans (le_trans (le_trans (le_max_left _ _) (le_max_left _ _))
          (le_max_left _ _)) hw
      · exact le_trans (le_trans (le_trans (le_max_left _ _) (le_max_left _ _))
          (le_max_left _ _)) hh
      · exact le_trans (le_trans (le_trans (le_max_left _ _) (le_max_left _ _))
          (le_max_left _ _)) hd
      · intro t' ht' v hv
        rcases List.mem_cons.1 ht' with rfl | ht'
        · interval_cases v
          · exact ⟨p0, hc0,
              le_trans (le_trans (le_trans (le_max_right _ _) (le_max_left _ _))
                (le_max_left _ _)) hw,
              le_trans (le_trans (le_trans (le_max_right _ _) (le_max_left _ _))
                (le_max_left _ _)) hh,
              le_trans (le_trans (le_trans (le_max_right _ _) (le_max_left _ _))
                (le_max_left _ _)) hd⟩
          · exact ⟨p1, hc1,
              le_trans (le_trans (le_max_right _ _) (le_max_left _ _)) hw,
              le_trans (le_trans (le_max_right _ _) (le_max_left _ _)) hh,
              le_trans (le_trans (le_max_right _ _) (le_max_left _ _)) hd⟩
          · exact ⟨p2, hc2, le_trans (le_max_right _ _) hw, le_trans (le_max_right _ _) hh,
              le_trans (le_max_right _ _) hd⟩
        · exact hrest t' ht' v hv

/-- The extent loop runs to its end when every vertex index lies within the vertex table. -/
theorem measureExtent_loop_ok (vertices : List (ObjVertex α))
    (triangles : List (ObjTriangle α)) (e0 : Extent α)
    (hin : ∀ t ∈ triangles, IndicesWithin vertices.length t) :
    ∃ e, measureExtent.loop vertices triangles e0 = .ok e := by
  induction triangles generalizing e0 with
  | nil => exact ⟨e0, rfl⟩
  | cons t rest ih =>
    have ht := hin t (by simp)
    obtain ⟨p0, h0⟩ := cornerAt_of_indicesWithin vertices t ht 0 (by decide)
    obtain ⟨p1, h1⟩ := cornerAt_of_indicesWithin vertices t ht 1 (by decide)
    obtain ⟨p2, h2⟩ := cornerAt_of_indicesWithin vertices t ht 2 (by decide)
    unfold measureExtent.loop
    rw [measureTriangle_of_cornerAt vertices t e0 p0 p1 p2 h0 h1 h2]
    exact ih _ (fun t ht => hin t (by simp [ht]))

theorem uniformScale_ge_half (e : Extent α) : (1 / 2 : α) ≤ uniformScale e :=
  le_max_left _ _

theorem uniformScale_bounds (e : Extent α) :
    e.width ≤ uniformScale e ∧ e.height ≤ uniformScale e ∧ e.depth ≤ uniformScale e :=
  ⟨le_trans (le_max_left _ _) (le_max_right _ _),
    le_trans (le_trans (le_max_left _ _) (le_max_right _ _)) (le_max_right _ _),
    le_trans (le_trans (le_max_right _ _) (le_max_right _ _)) (le_max_right _ _)⟩

/-- A coordinate of absolute value at most `scale` is scaled into `[-1/2, 1/2]`. -/
theorem abs_scaled_le_half (x scale : α) (hs : (1 / 2 : α) ≤ scale) (hx : |x| ≤ scale) :
    |x * (1 / (scale * 2))| ≤ 1 / 2 := by
  have hpos : (0 : α) < scale := lt_of_lt_of_le (by norm_num) hs
  have h2 : (0 : α) < scale * 2 := by linarith
  rw [abs_mul, abs_of_pos (by positivity : (0 : α) < 1 / (scale * 2)), mul_one_div,
    div_le_iff₀ h2]
  linarith

theorem scaleVertices_getElem? (scale : α) (vertices : List (ObjVertex α)) (i : Nat) :
    (scaleVertices scale vertices)[i]? = (vertices[i]?).map (fun p =>
      { p with x := p.x * (1 / (scale * 2)), y := p.y * (1 / (scale * 2)),
               z := p.z * (1 / (scale * 2)) }) := by
  simp [scaleVertices, List.getElem?_map]

theorem FLT_MIN_pos : (0 : α) < FLT_MIN := by
  unfold FLT_MIN
  positivity

theorem FLT_MIN_le_half : (FLT_MIN : α) ≤ 1 / 2 := by
  unfold FLT_MIN
  apply one_div_le_one_div_of_le (by norm_num)
  norm_num

theorem cornerValues_cons (f : ObjVertex α → α) (vertices : List (ObjVertex α))
    (t : ObjTriangle α) (rest : List (ObjTriangle α)) (p0 p1 p2 : ObjVertex α)
    (h0 : CornerAt vertices t 0 p0) (h1 : CornerAt vertices t 1 p1)
    (h2 : CornerAt vertices t 2 p2) :
    cornerValues f vertices (t :: rest)
      = |f p0| :: |f p1| :: |f p2| :: cornerValues f vertices rest := by
  have key : ∀ v p, CornerAt vertices t v p → vertices[t.vertexIndices.get v - 1]? = some p := by
    intro v p ⟨idx, hidx, hp⟩
    obtain ⟨_, hpos, heq⟩ := GetVertexIndex_eq_ok.1 hidx
    rw [heq, ← decrement_pos hpos]
    exact hp
  simp [cornerValues, List.flatMap_cons, List.filterMap_cons, key 0 p0 h0, key 1 p1 h1,
    key 2 p2 h2]

theorem maximumOf_cons (a : α) (l : List α) : maximumOf (a :: l) = max a (maximumOf l) := rfl

/-- The running maxima after the extent loop are the maxima over all corners, taken with the
starting values. -/
theorem measureExtent_loop_value (vertices : List (ObjVertex α))
    (triangles : List (ObjTriangle α)) (e0 e : Extent α)
    (hw : 0 ≤ e0.width) (hh : 0 ≤ e0.height) (hd : 0 ≤ e0.depth)
    (h : measureExtent.loop vertices triangles e0 = .ok e) :
    e.width = max e0.width (maximumOf (cornerValues (fun p => p.x) vertices triangles)) ∧
    e.height = max e0.height (maximumOf (cornerValues (fun p => p.y) vertices triangles)) ∧
    e.depth = max e0.depth (maximumOf (cornerValues (fun p => p.z) vertices triangles)) := by
  induction triangles generalizing e0 with
  | nil =>
    unfold measureExtent.loop at h
    cases h
    simp [cornerValues, maximumOf, hw, hh, hd]
  | cons t rest ih =>
    unfold measureExtent.loop at h
    cases hm : measureTriangle vertices e0 t with
    | error err => rw [hm] at h; cases h
    | ok e1 =>
      rw [hm] at h
      simp only at h
      obtain ⟨p0, p1, p2, hc0, hc1, hc2, he1⟩ := measureTriangle_eq_ok _ _ _ _ hm
      subst he1
      obtain ⟨h1, h2, h3⟩ := ih _ (le_trans hw (le_trans (le_trans (le_max_left _ _)
        (le_max_left _ _)) (le_max_left _ _))) (le_trans hh (le_trans (le_trans (le_max_left _ _)
        (le_max_left _ _)) (le_max_left _ _))) (le_trans hd (le_trans (le_trans (le_max_left _ _)
        (le_max_left _ _)) (le_max_left _ _))) h
      rw [cornerValues_cons _ _ _ _ p0 p1 p2 hc0 hc1 hc2,
        cornerValues_cons _ _ _ _ p0 p1 p2 hc0 hc1 hc2,
        cornerValues_cons _ _ _ _ p0 p1 p2 hc0 hc1 hc2]
      simp only [maximumOf_cons]
      refine ⟨?_, ?_, ?_⟩
      · rw [h1]; simp only [max_assoc]
      · rw [h2]; simp only [max_assoc]
      · rw [h3]; simp only [max_assoc]

theorem max_floor_absorb (h F a b c : α) (hF : F ≤ h) :
    max h (max (max F a) (max (max F b) (max F c))) = max h (max a (max b c)) := by
  apply le_antisymm
  · refine max_le (le_max_left _ _) (max_le (max_le (le_trans hF (le_max_left _ _)) ?_)
      (max_le (max_le (le_trans hF (le_max_left _ _)) ?_)
        (max_le (le_trans hF (le_max_left _ _)) ?_)))
    · exact le_trans (le_max_left _ _) (le_max_right _ _)
    · exact le_trans (le_trans (le_max_left _ _) (le_max_right _ _)) (le_max_right _ _)
    · exact le_trans (le_trans (le_max_right _ _) (le_max_right _ _)) (le_max_right _ _)
  · refine max_le (le_max_left _ _) (max_le ?_ (max_le ?_ ?_))
    · exact le_trans (le_trans (le_max_right _ _) (le_max_left _ _)) (le_max_right _ _)
    · exact le_trans (le_trans (le_trans (le_max_right _ _) (le_max_left _ _))
        (le_max_right _ _)) (le_max_right _ _)
    · exact le_trans (le_trans (le_trans (le_max_right _ _) (le_max_right _ _))
        (le_max_right _ _)) (le_max_right _ _)

/-- The scale computed from the running maxima is the scale of the maxima over all corners. -/
theorem uniformScale_value (vertices : List (ObjVertex α)) (triangles : List (ObjTriangle α))
    (e : Extent α) (h : measureExtent vertices triangles = .ok e) :
    uniformScale e = max (1 / 2)
      (max (maximumOf (cornerValues (fun p => p.x) vertices triangles))
        (max (maximumOf (cornerValues (fun p => p.y) vertices triangles))
          (maximumOf (cornerValues (fun p => p.z) vertices triangles)))) := by
  obtain ⟨h1, h2, h3⟩ := measureExtent_loop_value vertices triangles _ e
    (le_of_lt FLT_MIN_pos) (le_of_lt FLT_MIN_pos) (le_of_lt FLT_MIN_pos) h
  unfold uniformScale
  rw [h1, h2, h3]
  exact max_floor_absorb _ _ _ _ _ FLT_MIN_le_half

theorem measureCorner_congr (vertices vertices' : List (ObjVertex α)) (t : ObjTriangle α)
    (e : Extent α) (v : Nat)
    (h : vertices'[decrement (t.vertexIndices.get v)]?
      = vertices[decrement (t.vertexIndices.get v)]?) :
    measureCorner vertices' t e v = measureCorner vertices t e v := by
  unfold measureCorner
  cases hidx : t.GetVertexIndex v with
  | error err => rfl
  | ok idx =>
    obtain ⟨_, _, heq⟩ := GetVertexIndex_eq_ok.1 hidx
    subst heq
    simp only [bind, Except.bind, elementAt, h]

/-- The extent loop reads the vertex table only at the entries that the triangles refer to. -/
theorem measureExtent_congr (vertices vertices' : List (ObjVertex α))
    (triangles : List (ObjTriangle α))
    (h : ∀ t ∈ triangles, ∀ v, v < 3 →
      vertices'[decrement (t.vertexIndices.get v)]?
        = vertices[decrement (t.vertexIndices.get v)]?) :
    measureExtent vertices' triangles = measureExtent vertices triangles := by
  unfold measureExtent
  generalize (⟨FLT_MIN, FLT_MIN, FLT_MIN⟩ : Extent α) = e0
  induction triangles generalizing e0 with
  | nil => rfl
  | cons t rest ih =>
    have ht := h t (by simp)
    unfold measureExtent.loop
    have hm : measureTriangle vertices' e0 t = measureTriangle vertices e0 t := by
      unfold measureTriangle
      simp only [measureCorner_congr vertices vertices' t _ 0 (ht 0 (by decide)),
        measureCorner_congr vertices vertices' t _ 1 (ht 1 (by decide)),
        measureCorner_congr vertices vertices' t _ 2 (ht 2 (by decide))]
    rw [hm]
    cases measureTriangle vertices e0 t with
    | error err => rfl
    | ok e1 => exact ih (fun t ht => h t (by simp [ht])) e1

/-- What a successful `LoadMesh` went through: the record pass and the extent loop succeeded, and
the scale returned is the scale computed from the extent. -/
theorem LoadMesh_eq_ok (atof : Str → α) (sqrt : α → α) (lines : List Str) (g : MeshGeometry α)
    (h : LoadMesh atof sqrt (some lines) = .ok g) :
    ∃ st e, recordPass atof lines (RecordState.allocate (countingPass lines)) = .ok st ∧
      measureExtent (centerModel st.vertices) st.triangles = .ok e ∧
      g.scale = some (uniformScale e) := by
  unfold LoadMesh at h
  simp only at h
  obtain ⟨st, hst, h⟩ := bind_eq_ok h
  obtain ⟨e, he, h⟩ := bind_eq_ok h
  obtain ⟨vb, hvb, h⟩ := bind_eq_ok h
  obtain ⟨ib, hib, h⟩ := bind_eq_ok h
  obtain ⟨⟨vs, ts⟩, hrb, h⟩ := bind_eq_ok h
  simp only at h
  obtain ⟨depth, hdepth, h⟩ := bind_eq_ok h
  obtain ⟨⟨vb2, ib2⟩, hpack, h⟩ := bind_eq_ok h
  simp only at h
  obtain ⟨vb3, hwd, h⟩ := bind_eq_ok h
  refine ⟨st, e, hst, he, ?_⟩
  cases h
  rfl

end NormalizerLemmas

/-! ## The faults of the stages of `LoadMesh` -/

section StageFaults

variable {α : Type} [LinearOrderedField α]

theorem faultsIn_error {β : Type} {P : Fault → Prop} {e : Fault} (h : P e) :
    FaultsIn P (.error e : Except Fault β) := by
  intro e' he'
  cases he'
  exact h

theorem faultsIn_ite {β : Type} {P : Fault → Prop} {c : Prop} [Decidable c]
    {x y : Except Fault β} (hx : FaultsIn P x) (hy : FaultsIn P y) :
    FaultsIn P (if c then x else y) := by
  split
  · exact hx
  · exact hy

theorem faultsIn_bind_ok {β γ : Type} {P : Fault → Prop} {x : Except Fault β}
    {f : β → Except Fault γ} (hx : FaultsIn P x) (hf : ∀ a, x = .ok a → FaultsIn P (f a)) :
    FaultsIn P (x >>= f) := by
  intro e he
  cases x with
  | error e' =>
    have : e' = e := by simpa [bind, Except.bind] using he
    exact this ▸ hx e' rfl
  | ok a => exact hf a rfl e (by simpa [bind, Except.bind] using he)

theorem faultsIn_mono {β : Type} {P Q : Fault → Prop} {x : Except Fault β}
    (h : FaultsIn P x) (hPQ : ∀ e, P e → Q e) : FaultsIn Q x :=
  fun e he => hPQ e (h e he)

theorem parsingFault_notPositionRange (e : Fault) (h : ParsingFault e) : NotPositionRange e := by
  rcases h with h | h | h | h <;> subst h <;> decide

theorem elementAt_faults {β : Type} (table : List β) (i : Nat) :
    FaultsIn NotPositionRange (elementAt table i) := by
  unfold elementAt
  split
  · exact faultsIn_error (by decide)
  · exact faultsIn_ok _

omit [LinearOrderedField α] in
theorem positionAt_faults (vertices : List (ObjVertex α)) (i : Nat) :
    FaultsIn NotPositionRange (positionAt vertices i) := by
  unfold positionAt
  intro e he
  split at he
  · rename_i e' h
    cases he
    exact elementAt_faults _ _ _ h
  · cases he

omit [LinearOrderedField α] in
theorem GetVertexIndex_faults (t : ObjTriangle α) (v : Nat) :
    FaultsIn NotPositionRange (t.GetVertexIndex v) := by
  unfold ObjTriangle.GetVertexIndex
  repeat' first
    | exact faultsIn_ok _
    | exact faultsIn_error (by decide)
    | apply faultsIn_ite

omit [LinearOrderedField α] in
theorem GetNormalIndex_faults (t : ObjTriangle α) (v : Nat) :
    FaultsIn NotPositionRange (t.GetNormalIndex v) := by
  unfold ObjTriangle.GetNormalIndex
  repeat' first
    | exact faultsIn_ok _
    | exact faultsIn_error (by decide)
    | apply faultsIn_ite

omit [LinearOrderedField α] in
theorem GetTextureCoordinateIndex_faults (t : ObjTriangle α) (v : Nat) :
    FaultsIn NotPositionRange (t.GetTextureCoordinateIndex v) := by
  unfold ObjTriangle.GetTextureCoordinateIndex
  repeat' first
    | exact faultsIn_ok _
    | exact faultsIn_error (by decide)
    | apply faultsIn_ite

theorem modifyAt_faults {β : Type} (table : List β) (i : Nat) (f : β → Except Fault β)
    (hf : ∀ x, FaultsIn NotPositionRange (f x)) :
    FaultsIn NotPositionRange (modifyAt table i f) := by
  unfold modifyAt
  split
  · exact faultsIn_error (by decide)
  · intro e he
    split at he
    · rename_i e' h
      cases he
      exact hf _ _ h
    · cases he

theorem faceField_faults (vertices : List Str) (k : Nat) :
    FaultsIn NotPositionRange (faceField vertices k) := by
  unfold faceField
  split
  · exact faultsIn_error (by decide)
  · exact faultsIn_ok _

theorem VertexBuffer_new_faults (size : Nat) (format : VertexFormat) :
    FaultsIn NotPositionRange (VertexBuffer.new size format : Except Fault (VertexBuffer α)) := by
  unfold VertexBuffer.new
  exact faultsIn_ite (faultsIn_error (by decide)) (faultsIn_ok _)

omit [LinearOrderedField α] in
theorem VertexBuffer_Set_faults (vb : VertexBuffer α) (index : Nat) (value : α) :
    FaultsIn NotPositionRange (vb.Set index value) := by
  unfold VertexBuffer.Set
  exact faultsIn_ite (faultsIn_error (by decide)) (faultsIn_ok _)

theorem IndexBuffer_new_faults (size : Nat) :
    FaultsIn NotPositionRange (IndexBuffer.new size) := by
  unfold IndexBuffer.new
  exact faultsIn_ite (faultsIn_error (by decide)) (faultsIn_ok _)

theorem IndexBuffer_Set_faults (ib : IndexBuffer) (index value : Nat) :
    FaultsIn NotPositionRange (ib.Set index value) := by
  unfold IndexBuffer.Set
  exact faultsIn_ite (faultsIn_error (by decide)) (faultsIn_ok _)

omit [LinearOrderedField α] in
theorem recordFace_faults (buffer : Str) (st : RecordState α) :
    FaultsIn NotPositionRange (recordFace buffer st) := by
  have htok : ∀ s, FaultsIn NotPositionRange (tokenizeGroup s) := fun s =>
    faultsIn_mono (tokenizeGroup_faults s) parsingFault_notPositionRange
  unfold recordFace
  refine faultsIn_bind (faceField_faults _ _) (fun _ => ?_)
  refine faultsIn_bind (htok _) (fun _ => ?_)
  refine faultsIn_bind (faceField_faults _ _) (fun _ => ?_)
  refine faultsIn_bind (htok _) (fun _ => ?_)
  refine faultsIn_bind (faceField_faults _ _) (fun _ => ?_)
  refine faultsIn_bind (htok _) (fun _ => ?_)
  refine faultsIn_bind (modifyAt_faults _ _ _
    (fun x => faultsIn_mono (firstTriangle_faults _ _ _ x) parsingFault_notPositionRange))
    (fun _ => ?_)
  refine faultsIn_ite ?_ (faultsIn_pure _)
  refine faultsIn_bind (faceField_faults _ _) (fun _ => ?_)
  refine faultsIn_bind (htok _) (fun _ => ?_)
  refine faultsIn_bind (modifyAt_faults _ _ _
    (fun x => faultsIn_mono (secondTriangle_faults _ _ _ x) parsingFault_notPositionRange))
    (fun _ => ?_)
  exact faultsIn_pure _

omit [LinearOrderedField α] in
theorem recordLine_faults (atof : Str → α) (st : RecordState α) (buffer : Str) :
    FaultsIn NotPositionRange (recordLine atof st buffer) := by
  unfold recordLine
  refine faultsIn_ite ?_ (faultsIn_ite ?_ (faultsIn_ite ?_ (faultsIn_ite ?_ (faultsIn_ok _))))
  · intro e he
    simp only at he
    split at he
    · rename_i e' h
      cases he
      exact modifyAt_faults _ _ _ (fun _ => faultsIn_ok _) _ h
    · cases he
  · intro e he
    simp only at he
    split at he
    · rename_i e' h
      cases he
      exact modifyAt_faults _ _ _ (fun _ => faultsIn_ok _) _ h
    · cases he
  · intro e he
    simp only at he
    split at he
    · rename_i e' h
      cases he
      exact modifyAt_faults _ _ _ (fun _ => faultsIn_ok _) _ h
    · cases he
  · exact recordFace_faults _ _

omit [LinearOrderedField α] in
theorem recordPass_faults (atof : Str → α) (lines : List Str) (st : RecordState α) :
    FaultsIn NotPositionRange (recordPass atof lines st) := by
  induction lines generalizing st with
  | nil => exact faultsIn_ok _
  | cons l rest ih =>
    unfold recordPass
    intro e he
    split at he
    · rename_i e' h
      cases he
      exact recordLine_faults atof st l _ h
    · exact ih _ _ he

theorem measureCorner_faults (vertices : List (ObjVertex α)) (t : ObjTriangle α) (e : Extent α)
    (v : Nat) : FaultsIn NotPositionRange (measureCorner vertices t e v) := by
  unfold measureCorner
  refine faultsIn_bind (GetVertexIndex_faults _ _) (fun _ => ?_)
  refine faultsIn_bind (elementAt_faults _ _) (fun _ => ?_)
  refine faultsIn_bind (GetVertexIndex_faults _ _) (fun _ => ?_)
  refine faultsIn_bind (elementAt_faults _ _) (fun _ => ?_)
  refine faultsIn_bind (GetVertexIndex_faults _ _) (fun _ => ?_)
  refine faultsIn_bind (elementAt_faults _ _) (fun _ => ?_)
  exact faultsIn_pure _

theorem measureExtent_faults (vertices : List (ObjVertex α)) (triangles : List (ObjTriangle α)) :
    FaultsIn NotPositionRange (measureExtent vertices triangles) := by
  unfold measureExtent
  generalize (⟨FLT_MIN, FLT_MIN, FLT_MIN⟩ : Extent α) = e0
  induction triangles generalizing e0 with
  | nil => exact faultsIn_ok _
  | cons t rest ih =>
    have hm : FaultsIn NotPositionRange (measureTriangle vertices e0 t) := by
      unfold measureTriangle
      refine faultsIn_bind (measureCorner_faults _ _ _ _) (fun _ => ?_)
      refine faultsIn_bind (measureCorner_faults _ _ _ _) (fun _ => ?_)
      refine faultsIn_bind (measureCorner_faults _ _ _ _) (fun _ => ?_)
      exact faultsIn_pure _
    unfold measureExtent.loop
    intro e he
    split at he
    · rename_i e' h
      cases he
      exact hm _ h
    · exact ih _ _ he

theorem GetFaceNormal_faults (t : ObjTriangle α) (vertices : List (ObjVertex α)) :
    FaultsIn NotPositionRange (t.GetFaceNormal vertices) := by
  unfold ObjTriangle.GetFaceNormal
  refine faultsIn_ite (faultsIn_ok _) ?_
  refine faultsIn_bind (positionAt_faults _ _) (fun _ => ?_)
  refine faultsIn_bind (positionAt_faults _ _) (fun _ => ?_)
  refine faultsIn_bind (positionAt_faults _ _) (fun _ => ?_)
  exact faultsIn_pure _

omit [LinearOrderedField α] in
theorem usesVertex_faults (t : ObjTriangle α) (vertexIndex : Nat) :
    FaultsIn NotPositionRange (usesVertex t vertexIndex) := by
  unfold usesVertex
  refine faultsIn_bind (GetVertexIndex_faults _ _) (fun _ => ?_)
  refine faultsIn_ite (faultsIn_pure _) ?_
  refine faultsIn_bind (GetVertexIndex_faults _ _) (fun _ => ?_)
  refine faultsIn_ite (faultsIn_pure _) ?_
  refine faultsIn_bind (GetVertexIndex_faults _ _) (fun _ => ?_)
  exact faultsIn_pure _

theorem CalculateVertexNormal_loop_faults (vertexIndex : Nat) (vertices : List (ObjVertex α))
    (triangles : List (ObjTriangle α)) (agg : Vector3 α) (adj : Nat) :
    FaultsIn NotPositionRange (CalculateVertexNormal.loop vertexIndex vertices triangles agg adj) := by
  induction triangles generalizing agg adj with
  | nil => exact faultsIn_ok _
  | cons t rest ih =>
    unfold CalculateVertexNormal.loop
    refine faultsIn_bind (usesVertex_faults _ _) (fun _ => ?_)
    refine faultsIn_ite ?_ ?_
    · refine faultsIn_bind (GetFaceNormal_faults _ _) (fun _ => ?_)
      refine faultsIn_bind (ih _ _) (fun _ => ?_)
      exact faultsIn_pure _
    · refine faultsIn_bind (ih _ _) (fun _ => ?_)
      exact faultsIn_pure _

theorem CalculateVertexNormal_faults (sqrt : α → α) (vertexIndex : Nat)
    (vertices : List (ObjVertex α)) (triangles : List (ObjTriangle α)) :
    FaultsIn NotPositionRange (CalculateVertexNormal sqrt vertexIndex vertices triangles) := by
  unfold CalculateVertexNormal
  refine faultsIn_bind (CalculateVertexNormal_loop_faults _ _ _ _ _) (fun _ => ?_)
  exact faultsIn_pure _

theorem rebuildNormals_faults (sqrt : α → α) (indices : List Nat)
    (vertices : List (ObjVertex α)) (triangles : List (ObjTriangle α)) :
    FaultsIn NotPositionRange (rebuildNormals sqrt indices vertices triangles) := by
  induction indices generalizing vertices triangles with
  | nil => exact faultsIn_ok _
  | cons i rest ih =>
    unfold rebuildNormals
    refine faultsIn_bind (CalculateVertexNormal_faults _ _ _ _) (fun _ => ?_)
    refine faultsIn_bind (modifyAt_faults _ _ _ (fun _ => faultsIn_ok _)) (fun _ => ?_)
    exact ih _ _

omit [LinearOrderedField α] in
theorem cornerPositions_faults (vertices : List (ObjVertex α)) (t : ObjTriangle α) :
    FaultsIn NotPositionRange (cornerPositions vertices t) := by
  unfold cornerPositions
  refine faultsIn_bind (GetVertexIndex_faults _ _) (fun _ => ?_)
  refine faultsIn_bind (positionAt_faults _ _) (fun _ => ?_)
  refine faultsIn_bind (GetVertexIndex_faults _ _) (fun _ => ?_)
  refine faultsIn_bind (positionAt_faults _ _) (fun _ => ?_)
  refine faultsIn_bind (GetVertexIndex_faults _ _) (fun _ => ?_)
  refine faultsIn_bind (positionAt_faults _ _) (fun _ => ?_)
  exact faultsIn_pure _

theorem minimumDepthLoop_faults (vertices : List (ObjVertex α)) (o d : Vector3 α)
    (triangles : List (ObjTriangle α)) (m : α) :
    FaultsIn NotPositionRange (minimumDepthLoop vertices o d triangles m) := by
  induction triangles generalizing m with
  | nil => exact faultsIn_ok _
  | cons t rest ih =>
    unfold minimumDepthLoop
    refine faultsIn_bind (cornerPositions_faults _ _) (fun _ => ?_)
    exact faultsIn_ite (faultsIn_ite (ih _) (ih _)) (ih _)

theorem distancesLoop_faults (sqrt : α → α) (triangles : List (ObjTriangle α))
    (vertices rest : List (ObjVertex α)) (distances : List α) :
    FaultsIn NotPositionRange (distancesLoop sqrt triangles vertices rest distances) := by
  induction rest generalizing distances with
  | nil => exact faultsIn_ok _
  | cons p rest ih =>
    unfold distancesLoop
    refine faultsIn_bind (minimumDepthLoop_faults _ _ _ _ _) (fun _ => ?_)
    exact ih _

theorem Calculate_faults (self : TriangleMeshInternalDepth α) (sqrt : α → α)
    (triangles : List (ObjTriangle α)) (vertices : List (ObjVertex α)) :
    FaultsIn NotPositionRange (self.Calculate sqrt triangles vertices) := by
  unfold TriangleMeshInternalDepth.Calculate
  refine faultsIn_bind (distancesLoop_faults _ _ _ _ _) (fun _ => ?_)
  exact faultsIn_ite (faultsIn_error (by decide)) (faultsIn_pure _)

omit [LinearOrderedField α] in
theorem writeDepthCorner_faults (self : TriangleMeshInternalDepth α) (vertexSize t : Nat)
    (thisTriangle : ObjTriangle α) (vertices : VertexBuffer α) (v : Nat) :
    FaultsIn NotPositionRange (writeDepthCorner self vertexSize t thisTriangle vertices v) := by
  unfold writeDepthCorner
  refine faultsIn_bind (GetVertexIndex_faults _ _) (fun _ => ?_)
  refine faultsIn_bind (elementAt_faults _ _) (fun _ => ?_)
  exact VertexBuffer_Set_faults _ _ _

omit [LinearOrderedField α] in
theorem writeDepthLoop_faults (self : TriangleMeshInternalDepth α) (vertexSize : Nat)
    (triangles : List (ObjTriangle α)) (t : Nat) (vertices : VertexBuffer α) :
    FaultsIn NotPositionRange (writeDepthLoop self vertexSize triangles t vertices) := by
  induction triangles generalizing t vertices with
  | nil => exact faultsIn_ok _
  | cons x rest ih =>
    unfold writeDepthLoop
    refine faultsIn_bind (writeDepthCorner_faults _ _ _ _ _ _) (fun _ => ?_)
    refine faultsIn_bind (writeDepthCorner_faults _ _ _ _ _ _) (fun _ => ?_)
    refine faultsIn_bind (writeDepthCorner_faults _ _ _ _ _ _) (fun _ => ?_)
    exact ih _ _

omit [LinearOrderedField α] in
theorem WriteDepthAsTextureCoordinates_faults (self : TriangleMeshInternalDepth α)
    (vertices : VertexBuffer α) (triangles : List (ObjTriangle α)) :
    FaultsIn NotPositionRange (self.WriteDepthAsTextureCoordinates vertices triangles) := by
  unfold TriangleMeshInternalDepth.WriteDepthAsTextureCoordinates
  exact faultsIn_ite (faultsIn_error (by decide)) (writeDepthLoop_faults _ _ _ _ _)

theorem assertThat_faults (condition : Prop) [Decidable condition] (e : Fault)
    (h : condition ∨ NotPositionRange e) : FaultsIn NotPositionRange (assertThat condition e) := by
  unfold assertThat
  split
  · exact faultsIn_ok _
  · rename_i hc
    exact faultsIn_error (h.resolve_left hc)

/-- The packing of a corner whose position lies in the range asserted does not stop at a range
assertion. -/
theorem packCorner_faults (vertices : List (ObjVertex α)) (normals : List (ObjNormal α))
    (textureCoordinates : List (ObjTextureCoordinate α)) (i : Nat) (t : ObjTriangle α)
    (vb : VertexBuffer α) (v : Nat)
    (hb : ∀ p, CornerAt vertices t v p →
      (-1 ≤ p.x ∧ p.x ≤ 1) ∧ (-1 ≤ p.y ∧ p.y ≤ 1) ∧ (-1 ≤ p.z ∧ p.z ≤ 1)) :
    FaultsIn NotPositionRange (packCorner vertices normals textureCoordinates i t vb v) := by
  unfold packCorner
  refine faultsIn_bind_ok (GetVertexIndex_faults _ _) (fun i1 hi1 => ?_)
  refine faultsIn_bind_ok (elementAt_faults _ _) (fun p1 hp1 => ?_)
  refine faultsIn_bind_ok (GetVertexIndex_faults _ _) (fun i2 hi2 => ?_)
  refine faultsIn_bind_ok (elementAt_faults _ _) (fun p2 hp2 => ?_)
  refine faultsIn_bind_ok (GetVertexIndex_faults _ _) (fun i3 hi3 => ?_)
  refine faultsIn_bind_ok (elementAt_faults _ _) (fun p3 hp3 => ?_)
  have h1 := hb p1 ⟨i1, hi1, elementAt_eq_ok.1 hp1⟩
  have h2 := hb p2 ⟨i2, hi2, elementAt_eq_ok.1 hp2⟩
  have h3 := hb p3 ⟨i3, hi3, elementAt_eq_ok.1 hp3⟩
  refine faultsIn_bind (assertThat_faults _ _ (Or.inl h1.1.2)) (fun _ => ?_)
  refine faultsIn_bind (assertThat_faults _ _ (Or.inl h1.1.1)) (fun _ => ?_)
  refine faultsIn_bind (assertThat_faults _ _ (Or.inl h2.2.1.2)) (fun _ => ?_)
  refine faultsIn_bind (assertThat_faults _ _ (Or.inl h2.2.1.1)) (fun _ => ?_)
  refine faultsIn_bind (assertThat_faults _ _ (Or.inl h3.2.2.2)) (fun _ => ?_)
  refine faultsIn_bind (assertThat_faults _ _ (Or.inl h3.2.2.1)) (fun _ => ?_)
  refine faultsIn_bind (GetTextureCoordinateIndex_faults _ _) (fun _ => ?_)
  refine faultsIn_bind (elementAt_faults _ _) (fun _ => ?_)
  refine faultsIn_bind (GetTextureCoordinateIndex_faults _ _) (fun _ => ?_)
  refine faultsIn_bind (elementAt_faults _ _) (fun _ => ?_)
  refine faultsIn_bind (GetNormalIndex_faults _ _) (fun _ => ?_)
  refine faultsIn_bind (assertThat_faults _ _ (Or.inr (by decide))) (fun _ => ?_)
  refine faultsIn_bind (GetVertexIndex_faults _ _) (fun _ => ?_)
  refine faultsIn_bind (elementAt_faults _ _) (fun _ => ?_)
  refine faultsIn_bind (GetVertexIndex_faults _ _) (fun _ => ?_)
  refine faultsIn_bind (elementAt_faults _ _) (fun _ => ?_)
  refine faultsIn_bind (GetVertexIndex_faults _ _) (fun _ => ?_)
  refine faultsIn_bind (elementAt_faults _ _) (fun _ => ?_)
  refine faultsIn_bind (VertexBuffer_Set_faults _ _ _) (fun _ => ?_)
  refine faultsIn_bind (VertexBuffer_Set_faults _ _ _) (fun _ => ?_)
  refine faultsIn_bind (VertexBuffer_Set_faults _ _ _) (fun _ => ?_)
  refine faultsIn_bind (VertexBuffer_Set_faults _ _ _) (fun _ => ?_)
  refine faultsIn_bind (VertexBuffer_Set_faults _ _ _) (fun _ => ?_)
  refine faultsIn_bind (VertexBuffer_Set_faults _ _ _) (fun _ => ?_)
  refine faultsIn_bind (VertexBuffer_Set_faults _ _ _) (fun _ => ?_)
  refine faultsIn_bind (VertexBuffer_Set_faults _ _ _) (fun _ => ?_)
  exact faultsIn_pure _

/-- The packing loop over triangles whose corner positions lie in the range asserted does not
stop at a range assertion. -/
theorem packLoop_faults (vertices : List (ObjVertex α)) (normals : List (ObjNormal α))
    (textureCoordinates : List (ObjTextureCoordinate α)) (triangles : List (ObjTriangle α))
    (i : Nat) (vb : VertexBuffer α) (ib : IndexBuffer)
    (hb : ∀ t ∈ triangles, ∀ v p, CornerAt vertices t v p →
      (-1 ≤ p.x ∧ p.x ≤ 1) ∧ (-1 ≤ p.y ∧ p.y ≤ 1) ∧ (-1 ≤ p.z ∧ p.z ≤ 1)) :
    FaultsIn NotPositionRange
      (packLoop vertices normals textureCoordinates triangles i vb ib) := by
  induction triangles generalizing i vb ib with
  | nil => exact faultsIn_ok _
  | cons t rest ih =>
    have ht := hb t (by simp)
    unfold packLoop
    refine faultsIn_bind (packCorner_faults _ _ _ _ _ _ _ (ht 0)) (fun _ => ?_)
    refine faultsIn_bind (packCorner_faults _ _ _ _ _ _ _ (ht 1)) (fun _ => ?_)
    refine faultsIn_bind (packCorner_faults _ _ _ _ _ _ _ (ht 2)) (fun _ => ?_)
    refine faultsIn_bind (GetVertexIndex_faults _ _) (fun _ => ?_)
    refine faultsIn_bind (IndexBuffer_Set_faults _ _ _) (fun _ => ?_)
    refine faultsIn_bind (GetVertexIndex_faults _ _) (fun _ => ?_)
    refine faultsIn_bind (IndexBuffer_Set_faults _ _ _) (fun _ => ?_)
    refine faultsIn_bind (GetVertexIndex_faults _ _) (fun _ => ?_)
    refine faultsIn_bind (IndexBuffer_Set_faults _ _ _) (fun _ => ?_)
    exact ih _ _ _ (fun t ht => hb t (by simp [ht]))

theorem GetFaceNormal_vertexIndices (t t' : ObjTriangle α) (vertices : List (ObjVertex α))
    (n : Vector3 α) (h : t.GetFaceNormal vertices = .ok (n, t')) :
    t'.vertexIndices = t.vertexIndices := by
  unfold ObjTriangle.GetFaceNormal at h
  split at h
  · cases h; rfl
  · obtain ⟨v0, _, h⟩ := bind_eq_ok h
    obtain ⟨v1, _, h⟩ := bind_eq_ok h
    obtain ⟨v2, _, h⟩ := bind_eq_ok h
    cases h
    rfl

theorem CalculateVertexNormal_loop_vertexIndices (vertexIndex : Nat)
    (vertices : List (ObjVertex α)) (triangles triangles' : List (ObjTriangle α))
    (agg agg' : Vector3 α) (adj adj' : Nat)
    (h : CalculateVertexNormal.loop vertexIndex vertices triangles agg adj
      = .ok (agg', adj', triangles')) :
    triangles'.map ObjTriangle.vertexIndices = triangles.map ObjTriangle.vertexIndices := by
  induction triangles generalizing agg adj agg' adj' triangles' with
  | nil =>
    unfold CalculateVertexNormal.loop at h
    cases h
    rfl
  | cons t rest ih =>
    unfold CalculateVertexNormal.loop at h
    obtain ⟨b, _, h⟩ := bind_eq_ok h
    split at h
    · obtain ⟨⟨n, t'⟩, hn, h⟩ := bind_eq_ok h
      simp only at h
      obtain ⟨⟨a1, a2, r⟩, hr, h⟩ := bind_eq_ok h
      simp only at h
      cases h
      simp [ih _ _ _ _ _ hr, GetFaceNormal_vertexIndices _ _ _ _ hn]
    · obtain ⟨⟨a1, a2, r⟩, hr, h⟩ := bind_eq_ok h
      simp only at h
      cases h
      simp [ih _ _ _ _ _ hr]

theorem modifyAt_eq_ok {β : Type} {table table' : List β} {i : Nat} {f : β → Except Fault β}
    (h : modifyAt table i f = .ok table') :
    ∃ x y, table[i]? = some x ∧ f x = .ok y ∧ table' = table.set i y := by
  unfold modifyAt at h
  split at h
  · cases h
  · rename_i x hx
    split at h
    · cases h
    · rename_i y hy
      cases h
      exact ⟨x, y, hx, hy, rfl⟩

/-- The loop that rebuilds the normals leaves every position and every vertex index as it
was. -/
theorem rebuildNormals_preserves (sqrt : α → α) (indices : List Nat)
    (vertices vertices' : List (ObjVertex α)) (triangles triangles' : List (ObjTriangle α))
    (h : rebuildNormals sqrt indices vertices triangles = .ok (vertices', triangles')) :
    vertices'.map ObjVertex.position = vertices.map ObjVertex.position ∧
    triangles'.map ObjTriangle.vertexIndices = triangles.map ObjTriangle.vertexIndices := by
  induction indices generalizing vertices triangles with
  | nil =>
    unfold rebuildNormals at h
    cases h
    exact ⟨rfl, rfl⟩
  | cons i rest ih =>
    unfold rebuildNormals at h
    obtain ⟨⟨n, ts1⟩, hn, h⟩ := bind_eq_ok h
    simp only at h
    obtain ⟨vs1, hvs1, h⟩ := bind_eq_ok h
    obtain ⟨h1, h2⟩ := ih _ _ h
    unfold CalculateVertexNormal at hn
    obtain ⟨⟨agg, adj, ts2⟩, hloop, hn⟩ := bind_eq_ok hn
    simp only at hn
    cases hn
    have hts := CalculateVertexNormal_loop_vertexIndices _ _ _ _ _ _ _ _ hloop
    obtain ⟨x, y, hx, hy, rfl⟩ := modifyAt_eq_ok hvs1
    cases hy
    refine ⟨?_, h2.trans hts⟩
    rw [h1]
    apply List.ext_getElem?
    intro k
    simp only [List.getElem?_map]
    by_cases hk : i = k
    · subst hk
      by_cases hlt : i < vertices.length
      · rw [List.getElem?_set_self hlt, hx]
        rfl
      · rw [List.getElem?_eq_none (by simpa using hlt)] at hx
        cases hx
    · rw [List.getElem?_set_ne hk]

omit [LinearOrderedField α] in
theorem cornerAt_of_vertexIndices_eq {vertices : List (ObjVertex α)} {t t' : ObjTriangle α}
    {v : Nat} {p : ObjVertex α} (h : t'.vertexIndices = t.vertexIndices)
    (hc : CornerAt vertices t' v p) : CornerAt vertices t v p := by
  obtain ⟨idx, hidx, hp⟩ := hc
  refine ⟨idx, ?_, hp⟩
  rw [GetVertexIndex_eq_ok] at hidx ⊢
  rw [← h]
  exact hidx

/-- After centering and scaling, the position of every corner of every triangle lies in
`[-1/2, 1/2]`; this holds for the tables as they reach the packing loop, where the normals have
been rebuilt in between. -/
theorem scaled_corner_bounds (vertices vertices' : List (ObjVertex α))
    (triangles triangles' : List (ObjTriangle α)) (e : Extent α)
    (he : measureExtent vertices triangles = .ok e)
    (hv : vertices'.map ObjVertex.position = vertices.map ObjVertex.position)
    (ht : triangles'.map ObjTriangle.vertexIndices = triangles.map ObjTriangle.vertexIndices)
    (t' : ObjTriangle α) (ht' : t' ∈ triangles') (v : Nat) (p : ObjVertex α)
    (hc : CornerAt (scaleVertices (uniformScale e) vertices') t' v p) :
    |p.x| ≤ 1 / 2 ∧ |p.y| ≤ 1 / 2 ∧ |p.z| ≤ 1 / 2 := by
  have hmem : t'.vertexIndices ∈ triangles.map ObjTriangle.vertexIndices := by
    rw [← ht]
    exact List.mem_map.2 ⟨t', ht', rfl⟩
  obtain ⟨t, htmem, hteq⟩ := List.mem_map.1 hmem
  have hc2 : CornerAt (scaleVertices (uniformScale e) vertices') t v p :=
    cornerAt_of_vertexIndices_eq hteq.symm hc
  obtain ⟨idx, hidx, hp⟩ := hc2
  have hv3 : v < 3 := (GetVertexIndex_eq_ok.1 hidx).1
  obtain ⟨_, hbounds⟩ := measureExtent_loop_bounds vertices triangles _ e he
  obtain ⟨q, ⟨idx2, hidx2, hq⟩, hx, hy, hz⟩ := hbounds t htmem v hv3
  rw [hidx] at hidx2
  cases hidx2
  rw [scaleVertices_getElem?] at hp
  cases hr : vertices'[decrement idx]? with
  | none => rw [hr] at hp; cases hp
  | some r =>
    rw [hr] at hp
    have hpos : r.position = q.position := by
      have h1 : (vertices'.map ObjVertex.position)[decrement idx]? = some r.position := by
        rw [List.getElem?_map, hr]; rfl
      have h2 : (vertices.map ObjVertex.position)[decrement idx]? = some q.position := by
        rw [List.getElem?_map, hq]; rfl
      rw [hv, h2] at h1
      exact (Option.some.inj h1).symm
    have hrx : r.x = q.x := congrArg (fun a => a.1) hpos
    have hry : r.y = q.y := congrArg (fun a => a.2.1) hpos
    have hrz : r.z = q.z := congrArg (fun a => a.2.2) hpos
    have hs := uniformScale_ge_half e
    obtain ⟨hw, hh, hd⟩ := uniformScale_bounds e
    cases hp
    simp only [hrx, hry, hrz]
    exact ⟨abs_scaled_le_half _ _ hs (le_trans hx hw), abs_scaled_le_half _ _ hs (le_trans hy hh),
      abs_scaled_le_half _ _ hs (le_trans hz hd)⟩

theorem unit_range_of_abs_le_half (x : α) (h : |x| ≤ 1 / 2) : -1 ≤ x ∧ x ≤ 1 := by
  obtain ⟨h1, h2⟩ := abs_le.1 h
  constructor <;> linarith

/-- No input makes `LoadMesh` stop at one of the range assertions of the packing loop. -/
theorem LoadMesh_faults (atof : Str → α) (sqrt : α → α) (file : Option (List Str)) :
    FaultsIn NotPositionRange (LoadMesh atof sqrt file) := by
  unfold LoadMesh
  cases file with
  | none => exact faultsIn_ok _
  | some lines =>
    simp only
    refine faultsIn_bind (recordPass_faults _ _ _) (fun st => ?_)
    refine faultsIn_bind_ok (measureExtent_faults _ _) (fun e he => ?_)
    refine faultsIn_bind (VertexBuffer_new_faults _ _) (fun vb => ?_)
    refine faultsIn_bind (IndexBuffer_new_faults _) (fun ib => ?_)
    refine faultsIn_bind_ok (rebuildNormals_faults _ _ _ _) (fun r hr => ?_)
    obtain ⟨vs, ts⟩ := r
    simp only
    obtain ⟨hvs, hts⟩ := rebuildNormals_preserves _ _ _ _ _ _ hr
    refine faultsIn_bind (Calculate_faults _ _ _ _) (fun depth => ?_)
    refine faultsIn_bind (packLoop_faults _ _ _ _ _ _ _ ?_) (fun r2 => ?_)
    · intro t' ht' v p hc
      obtain ⟨hx, hy, hz⟩ := scaled_corner_bounds _ _ _ _ e he hvs hts t' ht' v p hc
      exact ⟨unit_range_of_abs_le_half _ hx, unit_range_of_abs_le_half _ hy,
        unit_range_of_abs_le_half _ hz⟩
    · refine faultsIn_bind (WriteDepthAsTextureCoordinates_faults _ _ _) (fun _ => ?_)
      exact faultsIn_pure _

end StageFaults

/-! ## Centering and scaling: the claims -/

section NormalizerClaims

variable {α : Type} [LinearOrderedField α]

theorem pointFile_count : countingPass pointFile = ⟨0, 0, 1, 1⟩ := by decide

theorem pointFile_record :
    recordPass (fun _ => (0 : ℚ)) pointFile (RecordState.allocate ⟨0, 0, 1, 1⟩)
      = .ok ⟨[⟨0, 0, 0, 0, 0, 0⟩], [⟨0, 0, 0⟩], [⟨0, 0⟩],
          [⟨⟨1, 1, 1⟩, ⟨1, 1, 1⟩, ⟨1, 1, 1⟩, false, ⟨0, 0, 0⟩⟩], 0, 0, 1, 1⟩ := by
  decide

theorem pointFile_extent :
    measureExtent (centerModel [(⟨0, 0, 0, 0, 0, 0⟩ : ObjVertex ℚ)])
      [⟨⟨1, 1, 1⟩, ⟨1, 1, 1⟩, ⟨1, 1, 1⟩, false, ⟨0, 0, 0⟩⟩] = .ok ⟨FLT_MIN, FLT_MIN, FLT_MIN⟩ := by
  have h : (0 : ℚ) ≤ FLT_MIN := le_of_lt FLT_MIN_pos
  simp [centerModel, measureExtent, measureExtent.loop, measureTriangle, measureCorner,
    ObjTriangle.GetVertexIndex, Array3.get, decrement, elementAt, bind, Except.bind, pure,
    Except.pure, h]

theorem pointFile_scale : uniformScale (⟨FLT_MIN, FLT_MIN, FLT_MIN⟩ : Extent ℚ) = 1 / 2 := by
  have h : (FLT_MIN : ℚ) ≤ 2⁻¹ := by simpa using (FLT_MIN_le_half : (FLT_MIN : ℚ) ≤ 1 / 2)
  simp [uniformScale, h]

/-- The file of one vertex and one face is loaded without a fault. -/
theorem pointFile_loads :
    ∃ g, LoadMesh (fun _ => (0 : ℚ)) (fun x => x) (some pointFile) = .ok g := by
  unfold LoadMesh
  simp only [pointFile_count, pointFile_record, pointFile_extent, pointFile_scale, bind,
    Except.bind]
  simp [centerModel, VertexBuffer.new, IndexBuffer.new, rebuildNormals,
    CalculateVertexNormal, CalculateVertexNormal.loop,
    usesVertex, ObjTriangle.GetFaceNormal, positionAt, modifyAt, cross, Vector3.sub, Vector3.add,
    Vector3.div, ObjTriangle.GetVertexIndex, Array3.get, decrement, elementAt,
    Vector3.normalize, Vector3.length, Vector3.zero, scaleVertices,
    TriangleMeshInternalDepth.Calculate,
    distancesLoop, minimumDepthLoop, cornerPositions, RayTriangleCollision, Vector3.dot,
    Vector3.mul, packLoop, packCorner, ObjTriangle.GetTextureCoordinateIndex,
    ObjTriangle.GetNormalIndex, VertexBuffer.Set, IndexBuffer.Set,
    TriangleMeshInternalDepth.WriteDepthAsTextureCoordinates, assertThat,
    writeDepthLoop, writeDepthCorner, VertexBuffer.GetVertexStride, toIndexType, bind, Except.bind, pure,
    Except.pure]

theorem centerModel_length (vertices : List (ObjVertex α)) :
    (centerModel vertices).length = vertices.length := by
  simp [centerModel]

theorem scaleVertices_length (scale : α) (vertices : List (ObjVertex α)) :
    (scaleVertices scale vertices).length = vertices.length := by
  simp [scaleVertices]

/-- C8. For every mesh whose triangles have all their vertex indices within the vertex table,
the extent loop succeeds on the recentered table and, after the rescale, every position component
of every triangle corner lies in `[-1, 1]`; and for every input file whatever, `LoadMesh` never
stops at one of the six range assertions of the packing loop. -/
theorem positions_within_unit_range (vertices : List (ObjVertex α))
    (triangles : List (ObjTriangle α))
    (hin : ∀ t ∈ triangles, IndicesWithin vertices.length t)
    (atof : Str → α) (sqrt : α → α) (file : Option (List Str)) :
    (∃ e, measureExtent (centerModel vertices) triangles = .ok e ∧
      ∀ t ∈ triangles, ∀ v, v < 3 →
        ∃ p, CornerAt (scaleVertices (uniformScale e) (centerModel vertices)) t v p ∧
          (-1 ≤ p.x ∧ p.x ≤ 1) ∧ (-1 ≤ p.y ∧ p.y ≤ 1) ∧ (-1 ≤ p.z ∧ p.z ≤ 1)) ∧
    LoadMesh atof sqrt file ≠ .error .positionRange := by
  constructor
  · have hin2 : ∀ t ∈ triangles, IndicesWithin (centerModel vertices).length t := by
      intro t ht
      rw [centerModel_length]
      exact hin t ht
    obtain ⟨e, he⟩ := measureExtent_loop_ok (centerModel vertices) triangles
      ⟨FLT_MIN, FLT_MIN, FLT_MIN⟩ hin2
    refine ⟨e, he, ?_⟩
    intro t ht v hv
    have hin3 : IndicesWithin (scaleVertices (uniformScale e) (centerModel vertices)).length t := by
      rw [scaleVertices_length]
      exact hin2 t ht
    obtain ⟨p, hp⟩ := cornerAt_of_indicesWithin _ t hin3 v hv
    obtain ⟨hx, hy, hz⟩ := scaled_corner_bounds (centerModel vertices) (centerModel vertices)
      triangles triangles e he rfl rfl t ht v p hp
    exact ⟨p, hp, unit_range_of_abs_le_half _ hx, unit_range_of_abs_le_half _ hy,
      unit_range_of_abs_le_half _ hz⟩
  · intro h
    exact LoadMesh_faults atof sqrt file _ h rfl

/-- Witness for C8: a triangle over three vertices. -/
theorem positions_within_unit_range_witness :
    (∀ t ∈ [(⟨⟨1, 2, 3⟩, ⟨1, 1, 1⟩, ⟨1, 1, 1⟩, false, ⟨0, 0, 0⟩⟩ : ObjTriangle ℚ)],
      IndicesWithin
        [(⟨0, 0, 0, 0, 0, 0⟩ : ObjVertex ℚ), ⟨4, 0, 0, 0, 0, 0⟩, ⟨0, 8, 0, 0, 0, 0⟩].length t) ∧
    ∃ e, measureExtent
        (centerModel [(⟨0, 0, 0, 0, 0, 0⟩ : ObjVertex ℚ), ⟨4, 0, 0, 0, 0, 0⟩, ⟨0, 8, 0, 0, 0, 0⟩])
        [⟨⟨1, 2, 3⟩, ⟨1, 1, 1⟩, ⟨1, 1, 1⟩, false, ⟨0, 0, 0⟩⟩] = .ok e ∧
      ∀ t ∈ [(⟨⟨1, 2, 3⟩, ⟨1, 1, 1⟩, ⟨1, 1, 1⟩, false, ⟨0, 0, 0⟩⟩ : ObjTriangle ℚ)],
        ∀ v, v < 3 →
        ∃ p, CornerAt (scaleVertices (uniformScale e) (centerModel
            [(⟨0, 0, 0, 0, 0, 0⟩ : ObjVertex ℚ), ⟨4, 0, 0, 0, 0, 0⟩, ⟨0, 8, 0, 0, 0, 0⟩])) t v p ∧
          (-1 ≤ p.x ∧ p.x ≤ 1) ∧ (-1 ≤ p.y ∧ p.y ≤ 1) ∧ (-1 ≤ p.z ∧ p.z ≤ 1) :=
  ⟨by decide,
    (positions_within_unit_range
      [(⟨0, 0, 0, 0, 0, 0⟩ : ObjVertex ℚ), ⟨4, 0, 0, 0, 0, 0⟩, ⟨0, 8, 0, 0, 0, 0⟩]
      [⟨⟨1, 2, 3⟩, ⟨1, 1, 1⟩, ⟨1, 1, 1⟩, false, ⟨0, 0, 0⟩⟩] (by decide)
      (fun _ => 0) (fun x => x) none).1⟩

/-- C9. The scale that `LoadMesh` returns is `max(0.5, max(width, height, depth))` of the
maxima, over every corner of every triangle, of the absolute recentered coordinates of the vertex
the corner refers to; on every mesh with its vertex indices within the table that scale is
computed, is at least 0.5, and is the same for every other vertex table that has the same entries
at the places the corners refer to. -/
theorem scale_is_floored_corner_maximum (vertices : List (ObjVertex α))
    (triangles : List (ObjTriangle α))
    (hin : ∀ t ∈ triangles, IndicesWithin vertices.length t)
    (atof : Str → α) (sqrt : α → α) (lines : List Str) :
    (∀ g, LoadMesh atof sqrt (some lines) = .ok g →
      ∃ st, recordPass atof lines (RecordState.allocate (countingPass lines)) = .ok st ∧
        g.scale = some (max (1 / 2)
          (max (maximumOf (cornerValues (fun p => p.x) (centerModel st.vertices) st.triangles))
            (max (maximumOf (cornerValues (fun p => p.y) (centerModel st.vertices) st.triangles))
              (maximumOf (cornerValues (fun p => p.z) (centerModel st.vertices)
                st.triangles)))))) ∧
    (∃ e, measureExtent (centerModel vertices) triangles = .ok e ∧
      uniformScale e = max (1 / 2)
        (max (maximumOf (cornerValues (fun p => p.x) (centerModel vertices) triangles))
          (max (maximumOf (cornerValues (fun p => p.y) (centerModel vertices) triangles))
            (maximumOf (cornerValues (fun p => p.z) (centerModel vertices) triangles)))) ∧
      1 / 2 ≤ uniformScale e ∧
      ∀ vertices' : List (ObjVertex α),
        (∀ t ∈ triangles, ∀ v, v < 3 →
          vertices'[t.vertexIndices.get v - 1]? = (centerModel vertices)[t.vertexIndices.get v - 1]?) →
        measureExtent vertices' triangles = .ok e) := by
  constructor
  · intro g hg
    obtain ⟨st, e, hst, he, hscale⟩ := LoadMesh_eq_ok atof sqrt lines g hg
    exact ⟨st, hst, by rw [hscale, uniformScale_value _ _ e he]⟩
  · have hin2 : ∀ t ∈ triangles, IndicesWithin (centerModel vertices).length t := by
      intro t ht
      rw [centerModel_length]
      exact hin t ht
    obtain ⟨e, he⟩ := measureExtent_loop_ok (centerModel vertices) triangles
      ⟨FLT_MIN, FLT_MIN, FLT_MIN⟩ hin2
    refine ⟨e, he, uniformScale_value _ _ e he, uniformScale_ge_half e, ?_⟩
    intro vertices' hagree
    rw [← he]
    apply measureExtent_congr
    intro t ht v hv
    have hpos := (hin t ht v hv).1
    rw [decrement_pos hpos]
    exact hagree t ht v hv

/-- Witness for C9: a triangle over the first three of four vertices, and the file of one vertex
and one face, which `LoadMesh` loads. -/
theorem scale_is_floored_corner_maximum_witness :
    (∀ t ∈ [(⟨⟨1, 2, 3⟩, ⟨1, 1, 1⟩, ⟨1, 1, 1⟩, false, ⟨0, 0, 0⟩⟩ : ObjTriangle ℚ)],
      IndicesWithin
        [(⟨0, 0, 0, 0, 0, 0⟩ : ObjVertex ℚ), ⟨4, 0, 0, 0, 0, 0⟩, ⟨0, 8, 0, 0, 0, 0⟩,
          ⟨90, 0, 0, 0, 0, 0⟩].length t) ∧
    (∃ g st, LoadMesh (fun _ => (0 : ℚ)) (fun x => x) (some pointFile) = .ok g ∧
      recordPass (fun _ => (0 : ℚ)) pointFile (RecordState.allocate (countingPass pointFile))
        = .ok st ∧
      g.scale = some (max (1 / 2)
        (max (maximumOf (cornerValues (fun p => p.x) (centerModel st.vertices) st.triangles))
          (max (maximumOf (cornerValues (fun p => p.y) (centerModel st.vertices) st.triangles))
            (maximumOf (cornerValues (fun p => p.z) (centerModel st.vertices)
              st.triangles)))))) ∧
    ∃ e, measureExtent
        (centerModel [(⟨0, 0, 0, 0, 0, 0⟩ : ObjVertex ℚ), ⟨4, 0, 0, 0, 0, 0⟩,
          ⟨0, 8, 0, 0, 0, 0⟩, ⟨90, 0, 0, 0, 0, 0⟩])
        [⟨⟨1, 2, 3⟩, ⟨1, 1, 1⟩, ⟨1, 1, 1⟩, false, ⟨0, 0, 0⟩⟩] = .ok e ∧
      1 / 2 ≤ uniformScale e :=
  have h := scale_is_floored_corner_maximum
    [(⟨0, 0, 0, 0, 0, 0⟩ : ObjVertex ℚ), ⟨4, 0, 0, 0, 0, 0⟩, ⟨0, 8, 0, 0, 0, 0⟩,
      ⟨90, 0, 0, 0, 0, 0⟩]
    [⟨⟨1, 2, 3⟩, ⟨1, 1, 1⟩, ⟨1, 1, 1⟩, false, ⟨0, 0, 0⟩⟩] (by decide)
    (fun _ => 0) (fun x => x) pointFile
  ⟨by decide,
    let ⟨g, hg⟩ := pointFile_loads
    let ⟨st, hst, hscale⟩ := h.1 g hg
    ⟨g, st, hg, hst, hscale⟩,
    let ⟨e, he, _, hhalf, _⟩ := h.2
    ⟨e, he, hhalf⟩⟩

end NormalizerClaims

/-! ## Recentering (C11) -/

section Centering

variable {α : Type} [LinearOrderedField α]

theorem foldl_add_eq_sum (f : ObjVertex α → α) (vertices : List (ObjVertex α)) (a : α) :
    vertices.foldl (fun s p => s + f p) a = a + (vertices.map f).sum := by
  induction vertices generalizing a with
  | nil => simp
  | cons p rest ih =>
    rw [List.foldl_cons, ih, List.map_cons, List.sum_cons]
    ring

theorem sum_map_sub_const (f : ObjVertex α → α) (c : α) (vertices : List (ObjVertex α)) :
    (vertices.map (fun p => f p - c)).sum = (vertices.map f).sum - (vertices.length : α) * c := by
  induction vertices with
  | nil => simp
  | cons p rest ih =>
    rw [List.map_cons, List.sum_cons, ih, List.map_cons, List.sum_cons, List.length_cons]
    push_cast
    ring

theorem sum_sub_mean (f : ObjVertex α → α) (vertices : List (ObjVertex α))
    (h : vertices ≠ []) :
    (vertices.map (fun p => f p - (vertices.map f).sum / (vertices.length : α))).sum = 0 := by
  have hn : (vertices.length : α) ≠ 0 := by
    have : vertices.length ≠ 0 := fun h0 => h (List.length_eq_zero.1 h0)
    exact_mod_cast this
  rw [sum_map_sub_const, mul_div_cancel₀ _ hn, sub_self]

/-- C11. For every non-empty vertex table, the recentering block of `LoadMesh` subtracts from
every vertex, whether a triangle refers to it or not, the arithmetic mean of each coordinate over
all the vertices of the table, and afterwards the x coordinates, the y coordinates and the z
coordinates of the table each sum to 0. -/
theorem centering_subtracts_the_mean (vertices : List (ObjVertex α)) (h : vertices ≠ []) :
    centerModel vertices = vertices.map (fun p =>
      { p with x := p.x - (vertices.map (fun q => q.x)).sum / (vertices.length : α),
               y := p.y - (vertices.map (fun q => q.y)).sum / (vertices.length : α),
               z := p.z - (vertices.map (fun q => q.z)).sum / (vertices.length : α) }) ∧
    ((centerModel vertices).map (fun q => q.x)).sum = 0 ∧
    ((centerModel vertices).map (fun q => q.y)).sum = 0 ∧
    ((centerModel vertices).map (fun q => q.z)).sum = 0 := by
  have hc : centerModel vertices = vertices.map (fun p =>
      { p with x := p.x - (vertices.map (fun q => q.x)).sum / (vertices.length : α),
               y := p.y - (vertices.map (fun q => q.y)).sum / (vertices.length : α),
               z := p.z - (vertices.map (fun q => q.z)).sum / (vertices.length : α) }) := by
    unfold centerModel
    simp only [foldl_add_eq_sum, zero_add]
  refine ⟨hc, ?_, ?_, ?_⟩
  · rw [hc, List.map_map]
    exact sum_sub_mean (fun q => q.x) vertices h
  · rw [hc, List.map_map]
    exact sum_sub_mean (fun q => q.y) vertices h
  · rw [hc, List.map_map]
    exact sum_sub_mean (fun q => q.z) vertices h

/-- Witness for C11: three vertices, none of them referenced by a triangle. -/
theorem centering_subtracts_the_mean_witness :
    [(⟨0, 0, 0, 0, 0, 0⟩ : ObjVertex ℚ), ⟨4, 0, 0, 0, 0, 0⟩, ⟨0, 8, 0, 0, 0, 0⟩] ≠ [] ∧
    ((centerModel [(⟨0, 0, 0, 0, 0, 0⟩ : ObjVertex ℚ), ⟨4, 0, 0, 0, 0, 0⟩,
      ⟨0, 8, 0, 0, 0, 0⟩]).map (fun q => q.x)).sum = 0 :=
  ⟨by simp,
    (centering_subtracts_the_mean
      [(⟨0, 0, 0, 0, 0, 0⟩ : ObjVertex ℚ), ⟨4, 0, 0, 0, 0, 0⟩, ⟨0, 8, 0, 0, 0, 0⟩]
      (by simp)).2.1⟩

end Centering

/-! ## Face normals (C12, C13) -/

section FaceNormals

variable {α : Type} [LinearOrderedField α]

omit [LinearOrderedField α] in
theorem positionAt_of_cornerPosition (vertices : List (ObjVertex α)) (t : ObjTriangle α)
    (k : Nat) (p : Vector3 α) (hpos : 0 < t.vertexIndices.get k)
    (h : cornerPosition vertices t k = some p) :
    positionAt vertices (decrement (t.vertexIndices.get k)) = .ok p := by
  unfold cornerPosition at h
  rw [decrement_pos hpos]
  unfold positionAt elementAt
  cases hv : vertices[t.vertexIndices.get k - 1]? with
  | none => rw [hv] at h; cases h
  | some q =>
    rw [hv] at h
    simp only [Option.map_some', Option.some.injEq] at h
    simp [h]

theorem GetFaceNormal_fresh (t : ObjTriangle α) (vertices : List (ObjVertex α))
    (p0 p1 p2 : Vector3 α) (hfresh : t.isFaceNormalComputedYet = false)
    (hpos : ∀ k, k < 3 → 0 < t.vertexIndices.get k)
    (h0 : cornerPosition vertices t 0 = some p0) (h1 : cornerPosition vertices t 1 = some p1)
    (h2 : cornerPosition vertices t 2 = some p2) :
    t.GetFaceNormal vertices = .ok (edgeCross p0 p1 p2,
      { t with faceNormal := edgeCross p0 p1 p2, isFaceNormalComputedYet := true }) := by
  unfold ObjTriangle.GetFaceNormal
  rw [hfresh, positionAt_of_cornerPosition vertices t 0 p0 (hpos 0 (by omega)) h0,
    positionAt_of_cornerPosition vertices t 1 p1 (hpos 1 (by omega)) h1,
    positionAt_of_cornerPosition vertices t 2 p2 (hpos 2 (by omega)) h2]
  rfl

theorem GetFaceNormal_cached (t : ObjTriangle α) (vertices : List (ObjVertex α))
    (h : t.isFaceNormalComputedYet = true) : t.GetFaceNormal vertices = .ok (t.faceNormal, t) := by
  unfold ObjTriangle.GetFaceNormal
  rw [if_pos h]

theorem faceNormalCalls_cached (t : ObjTriangle α) (tables : List (List (ObjVertex α)))
    (h : t.isFaceNormalComputedYet = true) : faceNormalCalls t tables = .ok t := by
  induction tables with
  | nil => rfl
  | cons vertices rest ih =>
    unfold faceNormalCalls
    rw [GetFaceNormal_cached t vertices h]
    exact ih

theorem edgeCross_orthogonal (p0 p1 p2 : Vector3 α) :
    (edgeCross p0 p1 p2).dot (p1.sub p0) = 0 ∧ (edgeCross p0 p1 p2).dot (p2.sub p0) = 0 := by
  unfold edgeCross Vector3.dot Vector3.sub
  constructor <;> simp only <;> ring

/-- C12. For every triangle on which `GetFaceNormal` has not been called yet and whose three
vertex indices lie within the vertex table, the first call of `GetFaceNormal` returns the cross
product `(p1 - p0) x (p2 - p0)` of the positions of its three corners, looked up at the index
less 1, without normalizing it: with `a = p1 - p0` and `b = p2 - p0` the vector returned is
`(a.y b.z - a.z b.y, a.z b.x - a.x b.z, a.x b.y - a.y b.x)`.  The sum of the products of its
coordinates with those of `p1 - p0` is 0, and so is that with `p2 - p0`: it is orthogonal to both
edges.  The call stores the vector in the triangle and sets the flag. -/
theorem first_face_normal_is_edge_cross (t : ObjTriangle α) (vertices : List (ObjVertex α))
    (p0 p1 p2 : ObjVertex α) (hfresh : t.isFaceNormalComputedYet = false)
    (hin : IndicesWithin vertices.length t)
    (h0 : vertices[t.vertexIndices.get 0 - 1]? = some p0)
    (h1 : vertices[t.vertexIndices.get 1 - 1]? = some p1)
    (h2 : vertices[t.vertexIndices.get 2 - 1]? = some p2) :
    ∃ n t', t.GetFaceNormal vertices = .ok (n, t') ∧
      n.x = (p1.y - p0.y) * (p2.z - p0.z) - (p1.z - p0.z) * (p2.y - p0.y) ∧
      n.y = (p1.z - p0.z) * (p2.x - p0.x) - (p1.x - p0.x) * (p2.z - p0.z) ∧
      n.z = (p1.x - p0.x) * (p2.y - p0.y) - (p1.y - p0.y) * (p2.x - p0.x) ∧
      n.x * (p1.x - p0.x) + n.y * (p1.y - p0.y) + n.z * (p1.z - p0.z) = 0 ∧
      n.x * (p2.x - p0.x) + n.y * (p2.y - p0.y) + n.z * (p2.z - p0.z) = 0 ∧
      t'.faceNormal = n ∧ t'.isFaceNormalComputedYet = true := by
  have h := GetFaceNormal_fresh t vertices ⟨p0.x, p0.y, p0.z⟩ ⟨p1.x, p1.y, p1.z⟩
    ⟨p2.x, p2.y, p2.z⟩ hfresh (fun k hk => (hin k hk).1)
    (by simp [cornerPosition, h0]) (by simp [cornerPosition, h1]) (by simp [cornerPosition, h2])
  refine ⟨_, _, h, rfl, rfl, rfl, ?_, ?_, rfl, rfl⟩
  · simp only [edgeCross]
    ring
  · simp only [edgeCross]
    ring

/-- Witness for C12: the triangle over the vertices (0,0,0), (4,0,0), (0,8,0) of a table of
three; its first face normal is (0,0,32). -/
theorem first_face_normal_is_edge_cross_witness :
    ∃ t', (⟨⟨1, 2, 3⟩, ⟨1, 1, 1⟩, ⟨1, 1, 1⟩, false, ⟨0, 0, 0⟩⟩ : ObjTriangle ℚ).GetFaceNormal
        [⟨0, 0, 0, 0, 0, 0⟩, ⟨4, 0, 0, 0, 0, 0⟩, ⟨0, 8, 0, 0, 0, 0⟩] = .ok (⟨0, 0, 32⟩, t') := by
  obtain ⟨n, t', h, hx, hy, hz, _⟩ := first_face_normal_is_edge_cross
    (⟨⟨1, 2, 3⟩, ⟨1, 1, 1⟩, ⟨1, 1, 1⟩, false, ⟨0, 0, 0⟩⟩ : ObjTriangle ℚ)
    [⟨0, 0, 0, 0, 0, 0⟩, ⟨4, 0, 0, 0, 0, 0⟩, ⟨0, 8, 0, 0, 0, 0⟩]
    ⟨0, 0, 0, 0, 0, 0⟩ ⟨4, 0, 0, 0, 0, 0⟩ ⟨0, 8, 0, 0, 0, 0⟩ rfl (by decide) rfl rfl rfl
  have hn : n = ⟨0, 0, 32⟩ := by
    cases n
    simp only at hx hy hz
    rw [hx, hy, hz]
    norm_num
  rw [hn] at h
  exact ⟨t', h⟩

/-- C13, counterexample. A triangle over the vertices 1, 2, 3 is first asked for its face normal
with a table holding the positions (0,0,0), (1,0,0), (0,1,0), and then with a table holding
(0,0,0), (2,0,0), (0,2,0): the second call returns (0,0,1), the normal of the first table, while
the cross product of the edge vectors in the table passed to it is (0,0,4). -/
theorem cached_face_normal_ignores_the_table :
    (faceNormalCalls (⟨⟨1, 2, 3⟩, ⟨1, 1, 1⟩, ⟨1, 1, 1⟩, false, ⟨0, 0, 0⟩⟩ : ObjTriangle ℚ)
        [[⟨0, 0, 0, 0, 0, 0⟩, ⟨1, 0, 0, 0, 0, 0⟩, ⟨0, 1, 0, 0, 0, 0⟩]] >>= fun t =>
      (t.GetFaceNormal [⟨0, 0, 0, 0, 0, 0⟩, ⟨2, 0, 0, 0, 0, 0⟩, ⟨0, 2, 0, 0, 0, 0⟩]).map
        Prod.fst) = .ok ⟨0, 0, 1⟩ ∧
    edgeCross (⟨0, 0, 0⟩ : Vector3 ℚ) ⟨2, 0, 0⟩ ⟨0, 2, 0⟩ = ⟨0, 0, 4⟩ ∧
    (⟨0, 0, 1⟩ : Vector3 ℚ) ≠ ⟨0, 0, 4⟩ := by
  refine ⟨?_, ?_, ?_⟩
  · have h := GetFaceNormal_fresh
      (⟨⟨1, 2, 3⟩, ⟨1, 1, 1⟩, ⟨1, 1, 1⟩, false, ⟨0, 0, 0⟩⟩ : ObjTriangle ℚ)
      [⟨0, 0, 0, 0, 0, 0⟩, ⟨1, 0, 0, 0, 0, 0⟩, ⟨0, 1, 0, 0, 0, 0⟩]
      ⟨0, 0, 0⟩ ⟨1, 0, 0⟩ ⟨0, 1, 0⟩ rfl (by decide) rfl rfl rfl
    have hc : edgeCross (⟨0, 0, 0⟩ : Vector3 ℚ) ⟨1, 0, 0⟩ ⟨0, 1, 0⟩ = ⟨0, 0, 1⟩ := by
      simp [edgeCross]
    rw [hc] at h
    simp only [faceNormalCalls, h]
    rfl
  · simp [edgeCross]
    norm_num
  · intro h
    have hz := congrArg Vector3.z h
    norm_num at hz

/-- C13, amended. For every triangle on which `GetFaceNormal` has not been called yet, every
sequence of earlier calls of `GetFaceNormal` on it and every vertex table passed to the present
call, when the table passed to the first of all these calls holds the three corners of the
triangle, the present call returns the cross product of the two edge vectors of the three
positions in the table of that first call: the tables of the later calls, the present one
included unless it is the first, have no part in the result.  When the table of the present call
holds the same three positions as the table of the first call, this is also what the direct
computation, the call on the triangle without any earlier call, returns for the table of the
present call. -/
theorem face_normal_is_that_of_the_first_call (t : ObjTriangle α)
    (earlier : List (List (ObjVertex α))) (vertices first : List (ObjVertex α))
    (p0 p1 p2 : Vector3 α) (hfresh : t.isFaceNormalComputedYet = false)
    (hin : IndicesWithin first.length t)
    (hfirst : (earlier ++ [vertices]).head? = some first)
    (h0 : cornerPosition first t 0 = some p0) (h1 : cornerPosition first t 1 = some p1)
    (h2 : cornerPosition first t 2 = some p2) :
    ∃ t1 t2, faceNormalCalls t earlier = .ok t1 ∧
      t1.GetFaceNormal vertices = .ok (edgeCross p0 p1 p2, t2) ∧
      ((∀ k, k < 3 → cornerPosition vertices t k = cornerPosition first t k) →
        ∃ t3, t.GetFaceNormal vertices = .ok (edgeCross p0 p1 p2, t3)) := by
  have hcall := GetFaceNormal_fresh t first p0 p1 p2 hfresh (fun k hk => (hin k hk).1) h0 h1 h2
  have hdirect : (∀ k, k < 3 → cornerPosition vertices t k = cornerPosition first t k) →
      ∃ t3, t.GetFaceNormal vertices = .ok (edgeCross p0 p1 p2, t3) := fun hsame =>
    ⟨_, GetFaceNormal_fresh t vertices p0 p1 p2 hfresh (fun k hk => (hin k hk).1)
      ((hsame 0 (by omega)).trans h0) ((hsame 1 (by omega)).trans h1)
      ((hsame 2 (by omega)).trans h2)⟩
  cases earlier with
  | nil =>
    simp only [List.nil_append, List.head?_cons, Option.some.injEq] at hfirst
    subst hfirst
    exact ⟨t, _, rfl, hcall, hdirect⟩
  | cons a rest =>
    simp only [List.cons_append, List.head?_cons, Option.some.injEq] at hfirst
    subst hfirst
    refine ⟨{ t with faceNormal := edgeCross p0 p1 p2, isFaceNormalComputedYet := true }, _, ?_,
      GetFaceNormal_cached
        { t with faceNormal := edgeCross p0 p1 p2, isFaceNormalComputedYet := true } vertices rfl,
      hdirect⟩
    unfold faceNormalCalls
    rw [hcall]
    exact faceNormalCalls_cached _ rest rfl

/-- Witness for C13, amended: the two calls of the counterexample. -/
theorem face_normal_is_that_of_the_first_call_witness :
    ∃ t1 t2, faceNormalCalls
        (⟨⟨1, 2, 3⟩, ⟨1, 1, 1⟩, ⟨1, 1, 1⟩, false, ⟨0, 0, 0⟩⟩ : ObjTriangle ℚ)
        [[⟨0, 0, 0, 0, 0, 0⟩, ⟨1, 0, 0, 0, 0, 0⟩, ⟨0, 1, 0, 0, 0, 0⟩]] = .ok t1 ∧
      t1.GetFaceNormal [⟨0, 0, 0, 0, 0, 0⟩, ⟨2, 0, 0, 0, 0, 0⟩, ⟨0, 2, 0, 0, 0, 0⟩] =
        .ok (edgeCross ⟨0, 0, 0⟩ ⟨1, 0, 0⟩ ⟨0, 1, 0⟩, t2) :=
  (face_normal_is_that_of_the_first_call
    (⟨⟨1, 2, 3⟩, ⟨1, 1, 1⟩, ⟨1, 1, 1⟩, false, ⟨0, 0, 0⟩⟩ : ObjTriangle ℚ)
    [[⟨0, 0, 0, 0, 0, 0⟩, ⟨1, 0, 0, 0, 0, 0⟩, ⟨0, 1, 0, 0, 0, 0⟩]]
    [⟨0, 0, 0, 0, 0, 0⟩, ⟨2, 0, 0, 0, 0, 0⟩, ⟨0, 2, 0, 0, 0, 0⟩]
    [⟨0, 0, 0, 0, 0, 0⟩, ⟨1, 0, 0, 0, 0, 0⟩, ⟨0, 1, 0, 0, 0, 0⟩]
    ⟨0, 0, 0⟩ ⟨1, 0, 0⟩ ⟨0, 1, 0⟩ rfl (by decide) rfl rfl rfl rfl).imp
    (fun _ h => h.imp (fun _ h2 => ⟨h2.1, h2.2.1⟩))

end FaceNormals

/-! ## Vertex normals (C14, C15) -/

section VertexNormals

variable {α : Type} [LinearOrderedField α]

omit [LinearOrderedField α] in
theorem usesVertex_touches (t : ObjTriangle α) (i : Nat)
    (hpos : ∀ k, k < 3 → 0 < t.vertexIndices.get k) : usesVertex t i = .ok (touches i t) := by
  have g0 := GetVertexIndex_eq_ok.2 ⟨(by omega : 0 < 3), hpos 0 (by omega), rfl⟩
  have g1 := GetVertexIndex_eq_ok.2 ⟨(by omega : 1 < 3), hpos 1 (by omega), rfl⟩
  have g2 := GetVertexIndex_eq_ok.2 ⟨(by omega : 2 < 3), hpos 2 (by omega), rfl⟩
  unfold usesVertex touches
  rw [g0]
  simp only [bind, Except.bind, decrement_pos (hpos 0 (by omega))]
  by_cases h0 : t.vertexIndices.get 0 - 1 = i
  · simp [h0, pure, Except.pure]
  · rw [if_neg h0, g1]
    simp only [decrement_pos (hpos 1 (by omega))]
    by_cases h1 : t.vertexIndices.get 1 - 1 = i
    · simp [h1, pure, Except.pure]
    · rw [if_neg h1, g2]
      simp [h0, h1, pure, Except.pure, decrement_pos (hpos 2 (by omega))]

theorem vectorSum_nil : vectorSum ([] : List (Vector3 α)) = Vector3.zero := by
  simp [vectorSum, Vector3.zero]

theorem add_vectorSum_cons (a n : Vector3 α) (l : List (Vector3 α)) :
    (a.add n).add (vectorSum l) = a.add (vectorSum (n :: l)) := by
  simp only [Vector3.add, vectorSum, List.map_cons, List.sum_cons, add_assoc]

theorem add_zero_vector (a : Vector3 α) : a.add Vector3.zero = a := by
  simp [Vector3.add, Vector3.zero]

theorem zero_add_vector (a : Vector3 α) : (Vector3.zero : Vector3 α).add a = a := by
  simp [Vector3.add, Vector3.zero]

/-- The loop of `CalculateVertexNormal` adds to the aggregate the face normals of the triangles
that touch the vertex, and to the count their number. -/
theorem CalculateVertexNormal_loop_value (i : Nat) (vertices : List (ObjVertex α))
    (normalOf : ObjTriangle α → Vector3 α) (triangles : List (ObjTriangle α))
    (hpos : ∀ t ∈ triangles, ∀ k, k < 3 → 0 < t.vertexIndices.get k)
    (hnormal : ∀ t ∈ triangles, touches i t = true →
      ∃ t', t.GetFaceNormal vertices = .ok (normalOf t, t'))
    (agg : Vector3 α) (adj : Nat) :
    ∃ triangles', CalculateVertexNormal.loop i vertices triangles agg adj =
      .ok (agg.add (vectorSum ((triangles.filter (touches i)).map normalOf)),
        adj + (triangles.filter (touches i)).length, triangles') := by
  induction triangles generalizing agg adj with
  | nil =>
    refine ⟨[], ?_⟩
    unfold CalculateVertexNormal.loop
    simp [vectorSum_nil, add_zero_vector]
  | cons t rest ih =>
    have hrest := ih (fun s hs => hpos s (by simp [hs])) (fun s hs => hnormal s (by simp [hs]))
    unfold CalculateVertexNormal.loop
    rw [usesVertex_touches t i (hpos t (by simp))]
    by_cases ht : touches i t = true
    · obtain ⟨t', hn⟩ := hnormal t (by simp) ht
      obtain ⟨ts', hl⟩ := hrest (agg.add (normalOf t)) (adj + 1)
      refine ⟨t' :: ts', ?_⟩
      simp only [bind, Except.bind, ht, if_true, hn, hl, pure, Except.pure, List.filter_cons,
        List.map_cons, List.length_cons, add_vectorSum_cons]
      congr 2
      simp only [Prod.mk.injEq, and_true]
      omega
    · obtain ⟨ts', hl⟩ := hrest agg adj
      refine ⟨t :: ts', ?_⟩
      simp only [Bool.not_eq_true] at ht
      simp [bind, Except.bind, ht, hl, pure, Except.pure, List.filter_cons]

theorem CalculateVertexNormal_value (sqrt : α → α) (i : Nat) (vertices : List (ObjVertex α))
    (normalOf : ObjTriangle α → Vector3 α) (triangles : List (ObjTriangle α))
    (hpos : ∀ t ∈ triangles, ∀ k, k < 3 → 0 < t.vertexIndices.get k)
    (hnormal : ∀ t ∈ triangles, touches i t = true →
      ∃ t', t.GetFaceNormal vertices = .ok (normalOf t, t')) :
    ∃ triangles', CalculateVertexNormal sqrt i vertices triangles =
      .ok (((vectorSum ((triangles.filter (touches i)).map normalOf)).div
        (((triangles.filter (touches i)).length : Nat) : α)).normalize sqrt, triangles') := by
  obtain ⟨ts', hl⟩ := CalculateVertexNormal_loop_value i vertices normalOf triangles hpos hnormal
    Vector3.zero 0
  refine ⟨ts', ?_⟩
  unfold CalculateVertexNormal
  rw [hl]
  simp [bind, Except.bind, pure, Except.pure, zero_add_vector]

/-- C14. For every 0-based vertex index `i` and every triangle table with positive vertex
indices, where `normalOf t` is the face normal that `GetFaceNormal` returns for triangle `t`,
`CalculateVertexNormal` returns `normalize(S / n)`: `S` is the sum of the face normals of exactly
the triangles with at least one corner whose vertex index less 1 is `i`, and `n` is the number of
those triangles, so that a triangle with two or three such corners enters `S` and `n` once. -/
theorem vertex_normal_is_normalized_mean (sqrt : α → α) (i : Nat)
    (vertices : List (ObjVertex α)) (normalOf : ObjTriangle α → Vector3 α)
    (triangles : List (ObjTriangle α))
    (hpos : ∀ t ∈ triangles, ∀ k, k < 3 → 0 < t.vertexIndices.get k)
    (hnormal : ∀ t ∈ triangles, touches i t = true →
      ∃ t', t.GetFaceNormal vertices = .ok (normalOf t, t')) :
    ∃ triangles', CalculateVertexNormal sqrt i vertices triangles =
      .ok (((vectorSum ((triangles.filter (touches i)).map normalOf)).div
        (((triangles.filter (touches i)).length : Nat) : α)).normalize sqrt, triangles') :=
  CalculateVertexNormal_value sqrt i vertices normalOf triangles hpos hnormal

/-- Witness for C14: vertex 0 of a table of three, with one triangle that refers to it in two
corners and one triangle that does not refer to it, both with their face normals computed. -/
theorem vertex_normal_is_normalized_mean_witness :
    ∃ triangles', CalculateVertexNormal (fun x => x) 0
        [(⟨0, 0, 0, 0, 0, 0⟩ : ObjVertex ℚ), ⟨4, 0, 0, 0, 0, 0⟩, ⟨0, 8, 0, 0, 0, 0⟩]
        [⟨⟨1, 2, 1⟩, ⟨1, 1, 1⟩, ⟨1, 1, 1⟩, true, ⟨0, 0, 2⟩⟩,
          ⟨⟨2, 3, 2⟩, ⟨1, 1, 1⟩, ⟨1, 1, 1⟩, true, ⟨0, 0, 3⟩⟩] =
      .ok (((vectorSum [(⟨0, 0, 2⟩ : Vector3 ℚ)]).div ((1 : Nat) : ℚ)).normalize (fun x => x),
        triangles') :=
  vertex_normal_is_normalized_mean (fun x => x) 0
    [(⟨0, 0, 0, 0, 0, 0⟩ : ObjVertex ℚ), ⟨4, 0, 0, 0, 0, 0⟩, ⟨0, 8, 0, 0, 0, 0⟩]
    (fun t => t.faceNormal)
    [⟨⟨1, 2, 1⟩, ⟨1, 1, 1⟩, ⟨1, 1, 1⟩, true, ⟨0, 0, 2⟩⟩,
      ⟨⟨2, 3, 2⟩, ⟨1, 1, 1⟩, ⟨1, 1, 1⟩, true, ⟨0, 0, 3⟩⟩]
    (by decide)
    (fun t ht _ => ⟨t, by
      simp only [List.mem_cons, List.mem_singleton, List.not_mem_nil, or_false] at ht
      rcases ht with rfl | rfl <;> rfl⟩)

theorem sqrt_one_eq_one (sqrt : α → α)
    (hsqrt : ∀ x, 0 ≤ x → 0 ≤ sqrt x ∧ sqrt x * sqrt x = x) : sqrt 1 = 1 := by
  obtain ⟨h0, h1⟩ := hsqrt 1 zero_le_one
  have h2 : (sqrt 1 - 1) * (sqrt 1 + 1) = 0 := by
    have : (sqrt 1 - 1) * (sqrt 1 + 1) = sqrt 1 * sqrt 1 - 1 := by ring
    rw [this, h1, sub_self]
  rcases mul_eq_zero.1 h2 with h | h
  · exact sub_eq_zero.1 h
  · have : (0 : α) < sqrt 1 + 1 := add_pos_of_nonneg_of_pos h0 zero_lt_one
    rw [h] at this
    exact absurd this (lt_irrefl _)

/-- Over a square root that is exact on the non-negative numbers, `normalize` makes every
vector other than the zero vector a vector of length 1. -/
theorem normalize_length (sqrt : α → α)
    (hsqrt : ∀ x, 0 ≤ x → 0 ≤ sqrt x ∧ sqrt x * sqrt x = x) (a : Vector3 α)
    (ha : a ≠ Vector3.zero) : (a.normalize sqrt).length sqrt = 1 := by
  have hnn : (0 : α) ≤ 0 + a.x * a.x + a.y * a.y + a.z * a.z := by
    nlinarith [mul_self_nonneg a.x, mul_self_nonneg a.y, mul_self_nonneg a.z]
  have hpos : (0 : α) < 0 + a.x * a.x + a.y * a.y + a.z * a.z := by
    rcases lt_or_eq_of_le hnn with h | h
    · exact h
    · exfalso
      apply ha
      have hx : a.x = 0 := by
        nlinarith [mul_self_nonneg a.x, mul_self_nonneg a.y, mul_self_nonneg a.z]
      have hy : a.y = 0 := by
        nlinarith [mul_self_nonneg a.x, mul_self_nonneg a.y, mul_self_nonneg a.z]
      have hz : a.z = 0 := by
        nlinarith [mul_self_nonneg a.x, mul_self_nonneg a.y, mul_self_nonneg a.z]
      cases a
      simp only at hx hy hz
      simp [Vector3.zero, hx, hy, hz]
  obtain ⟨hl0, hl⟩ := hsqrt _ hnn
  have hlen : sqrt (0 + a.x * a.x + a.y * a.y + a.z * a.z) ≠ 0 := by
    intro h
    rw [h, mul_zero] at hl
    rw [← hl] at hpos
    exact lt_irrefl _ hpos
  unfold Vector3.length Vector3.normalize Vector3.length
  simp only
  generalize sqrt (0 + a.x * a.x + a.y * a.y + a.z * a.z) = len at hl hlen
  have hone : 0 + a.x / len * (a.x / len) + a.y / len * (a.y / len) + a.z / len * (a.z / len)
      = 1 := by
    have h1 : 0 + a.x / len * (a.x / len) + a.y / len * (a.y / len) + a.z / len * (a.z / len)
        = (0 + a.x * a.x + a.y * a.y + a.z * a.z) / (len * len) := by
      field_simp
    rw [h1, ← hl, div_self (mul_ne_zero hlen hlen)]
  rw [hone]
  exact sqrt_one_eq_one sqrt hsqrt

theorem div_ne_zero_vector (a : Vector3 α) (c : α) (ha : a ≠ Vector3.zero) (hc : c ≠ 0) :
    a.div c ≠ Vector3.zero := by
  intro h
  apply ha
  unfold Vector3.div Vector3.zero at h
  simp only [Vector3.mk.injEq, div_eq_zero_iff, hc, or_false] at h
  cases a
  simp only at h
  simp [Vector3.zero, h.1, h.2.1, h.2.2]

/-- Over a square root that is exact on the non-negative numbers, the squares of the components
of the `normalize` of a vector other than the zero vector add up to 1. -/
theorem normalize_sum_squares (sqrt : α → α)
    (hsqrt : ∀ x, 0 ≤ x → 0 ≤ sqrt x ∧ sqrt x * sqrt x = x) (a : Vector3 α)
    (ha : a ≠ Vector3.zero) :
    (a.normalize sqrt).x * (a.normalize sqrt).x + (a.normalize sqrt).y * (a.normalize sqrt).y
      + (a.normalize sqrt).z * (a.normalize sqrt).z = 1 := by
  have hnn : (0 : α) ≤ 0 + a.x * a.x + a.y * a.y + a.z * a.z := by
    nlinarith [mul_self_nonneg a.x, mul_self_nonneg a.y, mul_self_nonneg a.z]
  have hpos : (0 : α) < 0 + a.x * a.x + a.y * a.y + a.z * a.z := by
    rcases lt_or_eq_of_le hnn with h | h
    · exact h
    · exfalso
      apply ha
      have hx : a.x = 0 := by
        nlinarith [mul_self_nonneg a.x, mul_self_nonneg a.y, mul_self_nonneg a.z]
      have hy : a.y = 0 := by
        nlinarith [mul_self_nonneg a.x, mul_self_nonneg a.y, mul_self_nonneg a.z]
      have hz : a.z = 0 := by
        nlinarith [mul_self_nonneg a.x, mul_self_nonneg a.y, mul_self_nonneg a.z]
      cases a
      simp only at hx hy hz
      simp [Vector3.zero, hx, hy, hz]
  obtain ⟨_, hl⟩ := hsqrt _ hnn
  have hlen : sqrt (0 + a.x * a.x + a.y * a.y + a.z * a.z) ≠ 0 := by
    intro h
    rw [h, mul_zero] at hl
    rw [← hl] at hpos
    exact lt_irrefl _ hpos
  unfold Vector3.normalize Vector3.length
  simp only
  generalize sqrt (0 + a.x * a.x + a.y * a.y + a.z * a.z) = len at hl hlen
  have h1 : a.x / len * (a.x / len) + a.y / len * (a.y / len) + a.z / len * (a.z / len)
      = (0 + a.x * a.x + a.y * a.y + a.z * a.z) / (len * len) := by
    field_simp
  rw [h1, ← hl, div_self (mul_ne_zero hlen hlen)]

/-- C15. Over a square root that is exact on the non-negative numbers, as the real one is, for
every vertex that at least one triangle refers to and whose sum of face normals is not the zero
vector, `CalculateVertexNormal` returns a vector of Euclidean length exactly 1: the squares of
its three components add up to 1, and `length` of it, the square root of that sum, is 1. -/
theorem vertex_normal_has_unit_length (sqrt : α → α)
    (hsqrt : ∀ x, 0 ≤ x → 0 ≤ sqrt x ∧ sqrt x * sqrt x = x) (i : Nat)
    (vertices : List (ObjVertex α)) (normalOf : ObjTriangle α → Vector3 α)
    (triangles : List (ObjTriangle α))
    (hpos : ∀ t ∈ triangles, ∀ k, k < 3 → 0 < t.vertexIndices.get k)
    (hnormal : ∀ t ∈ triangles, touches i t = true →
      ∃ t', t.GetFaceNormal vertices = .ok (normalOf t, t'))
    (hreferenced : 0 < (triangles.filter (touches i)).length)
    (hsum : vectorSum ((triangles.filter (touches i)).map normalOf) ≠ Vector3.zero) :
    ∃ normal triangles', CalculateVertexNormal sqrt i vertices triangles = .ok (normal, triangles') ∧
      normal.x * normal.x + normal.y * normal.y + normal.z * normal.z = 1 ∧
      normal.length sqrt = 1 := by
  obtain ⟨ts', h⟩ := CalculateVertexNormal_value sqrt i vertices normalOf triangles hpos hnormal
  have hne : (vectorSum ((triangles.filter (touches i)).map normalOf)).div
      ((triangles.filter (touches i)).length : α) ≠ Vector3.zero := by
    refine div_ne_zero_vector _ _ hsum ?_
    exact_mod_cast (Nat.pos_iff_ne_zero.1 hreferenced)
  exact ⟨_, ts', h, normalize_sum_squares sqrt hsqrt _ hne, normalize_length sqrt hsqrt _ hne⟩

/-- Witness for C15: over the real numbers and their square root, vertex 0 of a table of three
with one triangle that refers to it. -/
theorem vertex_normal_has_unit_length_witness :
    ∃ normal triangles', CalculateVertexNormal Real.sqrt 0
        [(⟨0, 0, 0, 0, 0, 0⟩ : ObjVertex ℝ), ⟨4, 0, 0, 0, 0, 0⟩, ⟨0, 8, 0, 0, 0, 0⟩]
        [⟨⟨1, 2, 3⟩, ⟨1, 1, 1⟩, ⟨1, 1, 1⟩, true, ⟨0, 0, 2⟩⟩,
          ⟨⟨2, 3, 2⟩, ⟨1, 1, 1⟩, ⟨1, 1, 1⟩, true, ⟨0, 0, 3⟩⟩] = .ok (normal, triangles') ∧
      normal.x * normal.x + normal.y * normal.y + normal.z * normal.z = 1 ∧
      normal.length Real.sqrt = 1 :=
  vertex_normal_has_unit_length Real.sqrt
    (fun x hx => ⟨Real.sqrt_nonneg x, Real.mul_self_sqrt hx⟩) 0
    [(⟨0, 0, 0, 0, 0, 0⟩ : ObjVertex ℝ), ⟨4, 0, 0, 0, 0, 0⟩, ⟨0, 8, 0, 0, 0, 0⟩]
    (fun t => t.faceNormal)
    [⟨⟨1, 2, 3⟩, ⟨1, 1, 1⟩, ⟨1, 1, 1⟩, true, ⟨0, 0, 2⟩⟩,
      ⟨⟨2, 3, 2⟩, ⟨1, 1, 1⟩, ⟨1, 1, 1⟩, true, ⟨0, 0, 3⟩⟩]
    (by decide)
    (fun t ht _ => ⟨t, by
      simp only [List.mem_cons, List.mem_singleton, List.not_mem_nil, or_false] at ht
      rcases ht with rfl | rfl <;> rfl⟩)
    (by decide)
    (by
      intro h
      have hz := congrArg Vector3.z h
      simp [vectorSum, touches, Array3.get, Vector3.zero] at hz)

end VertexNormals

/-! ## The ray-triangle test (C16, C17, C18) -/

section RayTriangle

variable {α : Type} [LinearOrderedField α]

/-- What `RayTriangleCollision` has computed when it returns true: the determinant `a` is not 0,
the coordinates `u` and `v` passed the range checks, and the output is `t`. -/
theorem RayTriangleCollision_true (o d v0 v1 v2 : Vector3 α) (t0 : α)
    (h : (RayTriangleCollision o d ⟨v0, v1, v2⟩ t0).1 = true) :
    (v1.sub v0).dot (cross d (v2.sub v0)) ≠ 0 ∧
    0 ≤ 1 / (v1.sub v0).dot (cross d (v2.sub v0)) * (o.sub v0).dot (cross d (v2.sub v0)) ∧
    0 ≤ 1 / (v1.sub v0).dot (cross d (v2.sub v0)) * d.dot (cross (o.sub v0) (v1.sub v0)) ∧
    1 / (v1.sub v0).dot (cross d (v2.sub v0)) * (o.sub v0).dot (cross d (v2.sub v0)) +
      1 / (v1.sub v0).dot (cross d (v2.sub v0)) * d.dot (cross (o.sub v0) (v1.sub v0)) ≤ 1 ∧
    (RayTriangleCollision o d ⟨v0, v1, v2⟩ t0).2 =
      1 / (v1.sub v0).dot (cross d (v2.sub v0)) * (v2.sub v0).dot (cross (o.sub v0) (v1.sub v0)) ∧
    (RayTriangleCollision o d ⟨v0, v1, v2⟩ t0).2 > 1 / 100000 := by
  unfold RayTriangleCollision at h ⊢
  simp only [Array3.get] at h ⊢
  split_ifs at h ⊢ with ha hu hv ht
  refine ⟨?_, ?_, ?_, ?_, rfl, ht⟩
  · intro h0
    apply ha
    rw [h0]
    constructor <;> norm_num
  · exact le_of_not_lt (fun hlt => hu (Or.inl hlt))
  · exact le_of_not_lt (fun hlt => hv (Or.inl hlt))
  · exact le_of_not_lt (fun hlt => hv (Or.inr hlt))

/-- The identity behind the test: with `a` not 0, the point `o + t d` is the point
`v0 + u (v1 - v0) + v (v2 - v0)` for the `u`, `v` and `t` that the function computes. -/
theorem ray_point_identity (o d v0 v1 v2 : Vector3 α)
    (ha : (v1.sub v0).dot (cross d (v2.sub v0)) ≠ 0) :
    o.add (d.mul (1 / (v1.sub v0).dot (cross d (v2.sub v0)) *
        (v2.sub v0).dot (cross (o.sub v0) (v1.sub v0)))) =
      (v0.add ((v1.sub v0).mul (1 / (v1.sub v0).dot (cross d (v2.sub v0)) *
        (o.sub v0).dot (cross d (v2.sub v0))))).add
      ((v2.sub v0).mul (1 / (v1.sub v0).dot (cross d (v2.sub v0)) *
        d.dot (cross (o.sub v0) (v1.sub v0)))) := by
  generalize hdet : (v1.sub v0).dot (cross d (v2.sub v0)) = a at ha ⊢
  obtain ⟨ox, oy, oz⟩ := o
  obtain ⟨dx, dy, dz⟩ := d
  obtain ⟨x0, y0, z0⟩ := v0
  obtain ⟨x1, y1, z1⟩ := v1
  obtain ⟨x2, y2, z2⟩ := v2
  simp only [Vector3.sub, Vector3.dot, cross, Vector3.add, Vector3.mul, Vector3.mk.injEq] at hdet ⊢
  refine ⟨?_, ?_, ?_⟩
  · field_simp
    rw [← hdet]
    ring
  · field_simp
    rw [← hdet]
    ring
  · field_simp
    rw [← hdet]
    ring

/-- C16. For every ray origin `o`, direction `d` and triangle `(v0, v1, v2)`, in exact
arithmetic, when `RayTriangleCollision` returns true with the output `t`, then `t > 0.00001` and
there are `u >= 0` and `v >= 0` with `u + v <= 1` such that
`o + t d = v0 + u (v1 - v0) + v (v2 - v0)`: the hit point lies on the ray, strictly in front of
the origin, and inside the triangle. -/
theorem ray_hit_is_sound (o d v0 v1 v2 : Vector3 α) (t0 : α)
    (h : (RayTriangleCollision o d ⟨v0, v1, v2⟩ t0).1 = true) :
    (RayTriangleCollision o d ⟨v0, v1, v2⟩ t0).2 > 1 / 100000 ∧
    ∃ u v, 0 ≤ u ∧ 0 ≤ v ∧ u + v ≤ 1 ∧
      o.add (d.mul (RayTriangleCollision o d ⟨v0, v1, v2⟩ t0).2) =
        (v0.add ((v1.sub v0).mul u)).add ((v2.sub v0).mul v) := by
  obtain ⟨ha, hu, hv, huv, ht, hfront⟩ := RayTriangleCollision_true o d v0 v1 v2 t0 h
  refine ⟨hfront, _, _, hu, hv, huv, ?_⟩
  rw [ht]
  exact ray_point_identity o d v0 v1 v2 ha

/-- Witness for C16: the ray from (1/4, 1/4, 1) along (0, 0, -1) hits the triangle (0,0,0),
(1,0,0), (0,1,0). -/
theorem ray_hit_is_sound_witness :
    (RayTriangleCollision (⟨1 / 4, 1 / 4, 1⟩ : Vector3 ℚ) ⟨0, 0, -1⟩
      ⟨⟨0, 0, 0⟩, ⟨1, 0, 0⟩, ⟨0, 1, 0⟩⟩ 0).1 = true ∧
    (RayTriangleCollision (⟨1 / 4, 1 / 4, 1⟩ : Vector3 ℚ) ⟨0, 0, -1⟩
      ⟨⟨0, 0, 0⟩, ⟨1, 0, 0⟩, ⟨0, 1, 0⟩⟩ 0).2 > 1 / 100000 :=
  have h : (RayTriangleCollision (⟨1 / 4, 1 / 4, 1⟩ : Vector3 ℚ) ⟨0, 0, -1⟩
      ⟨⟨0, 0, 0⟩, ⟨1, 0, 0⟩, ⟨0, 1, 0⟩⟩ 0).1 = true := by
    norm_num [RayTriangleCollision, cross, Vector3.dot, Vector3.sub, Array3.get]
  ⟨h, (ray_hit_is_sound ⟨1 / 4, 1 / 4, 1⟩ ⟨0, 0, -1⟩ ⟨0, 0, 0⟩ ⟨1, 0, 0⟩ ⟨0, 1, 0⟩ 0 h).1⟩

/-- C18. For the triangle with the vertices (0,0,0), (1,0,0), (0,1,0) and the ray with origin
(0.25, 0.25, 0) and direction (0, 0, -1), `RayTriangleCollision` passes the parallel check and
the two range checks, computes `t = 0` whatever the output parameter held before, and returns
false, since `t > 0.00001` fails. -/
theorem ray_from_the_triangle_is_no_hit (t0 : α) :
    RayTriangleCollision (⟨1 / 4, 1 / 4, 0⟩ : Vector3 α) ⟨0, 0, -1⟩
      ⟨⟨0, 0, 0⟩, ⟨1, 0, 0⟩, ⟨0, 1, 0⟩⟩ t0 = (false, 0) := by
  norm_num [RayTriangleCollision, cross, Vector3.dot, Vector3.sub, Array3.get]

end RayTriangle

/-! ## The depth table (C19) -/

section DepthTable

variable {α : Type} [LinearOrderedField α]

omit [LinearOrderedField α] in
theorem cornerPosition_of_within (vertices : List (ObjVertex α)) (t : ObjTriangle α)
    (hin : IndicesWithin vertices.length t) (k : Nat) (hk : k < 3) :
    ∃ p, cornerPosition vertices t k = some p ∧
      positionAt vertices (decrement (t.vertexIndices.get k)) = .ok p := by
  obtain ⟨hpos, hle⟩ := hin k hk
  have hlt : t.vertexIndices.get k - 1 < vertices.length := by omega
  refine ⟨⟨vertices[t.vertexIndices.get k - 1].x, vertices[t.vertexIndices.get k - 1].y,
    vertices[t.vertexIndices.get k - 1].z⟩, ?_, ?_⟩
  · simp [cornerPosition, List.getElem?_eq_getElem hlt]
  · exact positionAt_of_cornerPosition vertices t k _ hpos
      (by simp [cornerPosition, List.getElem?_eq_getElem hlt])

end DepthTable

/-! ## The triangles that the record pass leaves -/

section FreshTriangles

variable {α : Type} [LinearOrderedField α]

omit [LinearOrderedField α] in
theorem SetVertexIndex_flag {t t' : ObjTriangle α} {k index : Nat}
    (h : t.SetVertexIndex k index = .ok t') :
    t'.isFaceNormalComputedYet = t.isFaceNormalComputedYet := by
  unfold ObjTriangle.SetVertexIndex at h
  split at h
  · cases h
  · split at h
    · cases h
    · cases h; rfl

omit [LinearOrderedField α] in
theorem SetNormalIndex_flag {t t' : ObjTriangle α} {k index : Nat}
    (h : t.SetNormalIndex k index = .ok t') :
    t'.isFaceNormalComputedYet = t.isFaceNormalComputedYet := by
  unfold ObjTriangle.SetNormalIndex at h
  split at h
  · cases h
  · split at h
    · cases h
    · cases h; rfl

omit [LinearOrderedField α] in
theorem SetTextureCoordinateIndex_flag {t t' : ObjTriangle α} {k index : Nat}
    (h : t.SetTextureCoordinateIndex k index = .ok t') :
    t'.isFaceNormalComputedYet = t.isFaceNormalComputedYet := by
  unfold ObjTriangle.SetTextureCoordinateIndex at h
  split at h
  · cases h
  · split at h
    · cases h
    · cases h; rfl

omit [LinearOrderedField α] in
theorem firstTriangle_flag {p1 p2 p3 : List Str} {t t' : ObjTriangle α}
    (h : firstTriangle p1 p2 p3 t = .ok t') :
    t'.isFaceNormalComputedYet = t.isFaceNormalComputedYet := by
  unfold firstTriangle at h
  obtain ⟨_, _, h⟩ := bind_eq_ok h
  obtain ⟨t1, h1, h⟩ := bind_eq_ok h
  obtain ⟨_, _, h⟩ := bind_eq_ok h
  obtain ⟨t2, h2, h⟩ := bind_eq_ok h
  obtain ⟨_, _, h⟩ := bind_eq_ok h
  obtain ⟨t3, h3, h⟩ := bind_eq_ok h
  obtain ⟨_, _, h⟩ := bind_eq_ok h
  obtain ⟨t4, h4, h⟩ := bind_eq_ok h
  obtain ⟨_, _, h⟩ := bind_eq_ok h
  obtain ⟨t5, h5, h⟩ := bind_eq_ok h
  obtain ⟨_, _, h⟩ := bind_eq_ok h
  obtain ⟨t6, h6, h⟩ := bind_eq_ok h
  obtain ⟨_, _, h⟩ := bind_eq_ok h
  obtain ⟨t7, h7, h⟩ := bind_eq_ok h
  obtain ⟨_, _, h⟩ := bind_eq_ok h
  obtain ⟨t8, h8, h⟩ := bind_eq_ok h
  obtain ⟨_, _, h⟩ := bind_eq_ok h
  obtain ⟨t9, h9, h⟩ := bind_eq_ok h
  cases h
  rw [SetNormalIndex_flag h9, SetNormalIndex_flag h8, SetNormalIndex_flag h7,
    SetTextureCoordinateIndex_flag h6, SetTextureCoordinateIndex_flag h5,
    SetTextureCoordinateIndex_flag h4, SetVertexIndex_flag h3, SetVertexIndex_flag h2,
    SetVertexIndex_flag h1]

omit [LinearOrderedField α] in
theorem secondTriangle_flag {p1 p3 p4 : List Str} {t t' : ObjTriangle α}
    (h : secondTriangle p1 p3 p4 t = .ok t') :
    t'.isFaceNormalComputedYet = t.isFaceNormalComputedYet := by
  unfold secondTriangle at h
  obtain ⟨_, _, h⟩ := bind_eq_ok h
  obtain ⟨t1, h1, h⟩ := bind_eq_ok h
  obtain ⟨_, _, h⟩ := bind_eq_ok h
  obtain ⟨t2, h2, h⟩ := bind_eq_ok h
  obtain ⟨_, _, h⟩ := bind_eq_ok h
  obtain ⟨t3, h3, h⟩ := bind_eq_ok h
  obtain ⟨_, _, h⟩ := bind_eq_ok h
  obtain ⟨t4, h4, h⟩ := bind_eq_ok h
  obtain ⟨_, _, h⟩ := bind_eq_ok h
  obtain ⟨t5, h5, h⟩ := bind_eq_ok h
  obtain ⟨_, _, h⟩ := bind_eq_ok h
  obtain ⟨t6, h6, h⟩ := bind_eq_ok h
  obtain ⟨_, _, h⟩ := bind_eq_ok h
  obtain ⟨t7, h7, h⟩ := bind_eq_ok h
  obtain ⟨_, _, h⟩ := bind_eq_ok h
  obtain ⟨t8, h8, h⟩ := bind_eq_ok h
  obtain ⟨_, _, h⟩ := bind_eq_ok h
  obtain ⟨t9, h9, h⟩ := bind_eq_ok h
  cases h
  rw [SetNormalIndex_flag h9, SetNormalIndex_flag h8, SetNormalIndex_flag h7,
    SetTextureCoordinateIndex_flag h6, SetTextureCoordinateIndex_flag h5,
    SetTextureCoordinateIndex_flag h4, SetVertexIndex_flag h3, SetVertexIndex_flag h2,
    SetVertexIndex_flag h1]

theorem modifyAt_forall {β : Type} {P : β → Prop} {table table' : List β} {i : Nat}
    {f : β → Except Fault β} (h : modifyAt table i f = .ok table')
    (hf : ∀ x y, P x → f x = .ok y → P y) (hP : ∀ x ∈ table, P x) : ∀ y ∈ table', P y := by
  obtain ⟨x, y, hx, hy, rfl⟩ := modifyAt_eq_ok h
  intro z hz
  rcases List.mem_or_eq_of_mem_set hz with hz | rfl
  · exact hP z hz
  · exact hf x z (hP x (List.getElem?_mem hx)) hy

omit [LinearOrderedField α] in
theorem recordFace_fresh {buffer : Str} {st st' : RecordState α}
    (h : recordFace buffer st = .ok st')
    (hP : ∀ t ∈ st.triangles, t.isFaceNormalComputedYet = false) :
    ∀ t ∈ st'.triangles, t.isFaceNormalComputedYet = false := by
  unfold recordFace at h
  simp only at h
  obtain ⟨_, _, h⟩ := bind_eq_ok h
  obtain ⟨p1, _, h⟩ := bind_eq_ok h
  obtain ⟨_, _, h⟩ := bind_eq_ok h
  obtain ⟨p2, _, h⟩ := bind_eq_ok h
  obtain ⟨_, _, h⟩ := bind_eq_ok h
  obtain ⟨p3, _, h⟩ := bind_eq_ok h
  obtain ⟨ts1, h1, h⟩ := bind_eq_ok h
  have hP1 := modifyAt_forall h1 (fun x y hx hy => (firstTriangle_flag hy).trans hx) hP
  split at h
  · obtain ⟨_, _, h⟩ := bind_eq_ok h
    obtain ⟨p4, _, h⟩ := bind_eq_ok h
    obtain ⟨ts2, h2, h⟩ := bind_eq_ok h
    cases h
    exact modifyAt_forall h2 (fun x y hx hy => (secondTriangle_flag hy).trans hx) hP1
  · cases h
    exact hP1

omit [LinearOrderedField α] in
theorem recordLine_fresh {atof : Str → α} {buffer : Str} {st st' : RecordState α}
    (h : recordLine atof st buffer = .ok st')
    (hP : ∀ t ∈ st.triangles, t.isFaceNormalComputedYet = false) :
    ∀ t ∈ st'.triangles, t.isFaceNormalComputedYet = false := by
  unfold recordLine at h
  split at h
  · simp only at h
    split at h
    · cases h
    · cases h; exact hP
  · split at h
    · simp only at h
      split at h
      · cases h
      · cases h; exact hP
    · split at h
      · simp only at h
        split at h
        · cases h
        · cases h; exact hP
      · split at h
        · exact recordFace_fresh h hP
        · cases h; exact hP

omit [LinearOrderedField α] in
theorem recordPass_fresh {atof : Str → α} {lines : List Str} {st st' : RecordState α}
    (h : recordPass atof lines st = .ok st')
    (hP : ∀ t ∈ st.triangles, t.isFaceNormalComputedYet = false) :
    ∀ t ∈ st'.triangles, t.isFaceNormalComputedYet = false := by
  induction lines generalizing st with
  | nil =>
    unfold recordPass at h
    cases h
    exact hP
  | cons buffer rest ih =>
    unfold recordPass at h
    split at h
    · cases h
    · rename_i st1 h1
      exact ih h (recordLine_fresh h1 hP)

theorem allocate_fresh (c : Tally) :
    ∀ t ∈ (RecordState.allocate c : RecordState α).triangles,
      t.isFaceNormalComputedYet = false := by
  intro t ht
  have := List.eq_of_mem_replicate ht
  rw [this]
  rfl

end FreshTriangles

/-! ## The normals that the rebuild loop derives -/

section DerivedNormals

variable {α : Type} [LinearOrderedField α]

theorem GetFaceNormal_coherent (vertices : List (ObjVertex α)) (t : ObjTriangle α)
    (h : Coherent vertices t) :
    ∃ t', t.GetFaceNormal vertices = .ok (faceNormalIn vertices t, t') ∧ Coherent vertices t' ∧
      t'.vertexIndices = t.vertexIndices := by
  by_cases hc : t.isFaceNormalComputedYet = true
  · refine ⟨t, ?_, h, rfl⟩
    rw [GetFaceNormal_cached t vertices hc, h.2 hc]
  · simp only [Bool.not_eq_true] at hc
    obtain ⟨p0, h0, _⟩ := cornerPosition_of_within vertices t h.1 0 (by omega)
    obtain ⟨p1, h1, _⟩ := cornerPosition_of_within vertices t h.1 1 (by omega)
    obtain ⟨p2, h2, _⟩ := cornerPosition_of_within vertices t h.1 2 (by omega)
    have hn : faceNormalIn vertices t = edgeCross p0 p1 p2 := by
      unfold faceNormalIn
      rw [h0, h1, h2]
    refine ⟨{ t with faceNormal := edgeCross p0 p1 p2, isFaceNormalComputedYet := true },
      ?_, ?_, ?_⟩
    · rw [hn]
      exact GetFaceNormal_fresh t vertices p0 p1 p2 hc (fun k hk => (h.1 k hk).1) h0 h1 h2
    · refine ⟨h.1, fun _ => ?_⟩
      exact hn.symm
    · rfl

theorem CalculateVertexNormal_loop_coherent (vertexIndex : Nat)
    (vertices : List (ObjVertex α)) (triangles triangles' : List (ObjTriangle α))
    (agg agg' : Vector3 α) (adj adj' : Nat)
    (hco : ∀ t ∈ triangles, Coherent vertices t)
    (h : CalculateVertexNormal.loop vertexIndex vertices triangles agg adj
      = .ok (agg', adj', triangles')) :
    ∀ t ∈ triangles', Coherent vertices t := by
  induction triangles generalizing agg adj agg' adj' triangles' with
  | nil =>
    unfold CalculateVertexNormal.loop at h
    cases h
    intro t ht
    cases ht
  | cons t rest ih =>
    have hrest : ∀ s ∈ rest, Coherent vertices s := fun s hs => hco s (by simp [hs])
    unfold CalculateVertexNormal.loop at h
    obtain ⟨b, _, h⟩ := bind_eq_ok h
    split at h
    · obtain ⟨⟨n, t'⟩, hn, h⟩ := bind_eq_ok h
      simp only at h
      obtain ⟨⟨a1, a2, r⟩, hr, h⟩ := bind_eq_ok h
      simp only at h
      cases h
      obtain ⟨t'', hn', hco', _⟩ := GetFaceNormal_coherent vertices t (hco t (by simp))
      rw [hn'] at hn
      cases hn
      intro s hs
      rcases List.mem_cons.1 hs with rfl | hs
      · exact hco'
      · exact ih _ _ _ _ _ hrest hr s hs
    · obtain ⟨⟨a1, a2, r⟩, hr, h⟩ := bind_eq_ok h
      simp only at h
      cases h
      intro s hs
      rcases List.mem_cons.1 hs with rfl | hs
      · exact hco s (by simp)
      · exact ih _ _ _ _ _ hrest hr s hs

/-- On triangles whose caches agree with the table, `CalculateVertexNormal` returns the derived
normal and leaves such triangles, with the vertex indices as they were. -/
theorem CalculateVertexNormal_coherent (sqrt : α → α) (k : Nat) (vertices : List (ObjVertex α))
    (triangles : List (ObjTriangle α)) (hco : ∀ t ∈ triangles, Coherent vertices t) :
    ∃ triangles', CalculateVertexNormal sqrt k vertices triangles =
        .ok (derivedNormal sqrt vertices triangles k, triangles') ∧
      (∀ t ∈ triangles', Coherent vertices t) ∧
      triangles'.map ObjTriangle.vertexIndices = triangles.map ObjTriangle.vertexIndices := by
  obtain ⟨ts', h⟩ := CalculateVertexNormal_value sqrt k vertices (faceNormalIn vertices) triangles
    (fun t ht k hk => ((hco t ht).1 k hk).1)
    (fun t ht _ => (GetFaceNormal_coherent vertices t (hco t ht)).imp (fun _ h => h.1))
  refine ⟨ts', h, ?_, ?_⟩
  · unfold CalculateVertexNormal at h
    obtain ⟨⟨agg, adj, ts2⟩, hloop, hn⟩ := bind_eq_ok h
    simp only [pure, Except.pure, Except.ok.injEq, Prod.mk.injEq] at hn
    obtain ⟨_, rfl⟩ := hn
    exact CalculateVertexNormal_loop_coherent _ _ _ _ _ _ _ _ hco hloop
  · unfold CalculateVertexNormal at h
    obtain ⟨⟨agg, adj, ts2⟩, hloop, hn⟩ := bind_eq_ok h
    simp only [pure, Except.pure, Except.ok.injEq, Prod.mk.injEq] at hn
    obtain ⟨_, rfl⟩ := hn
    exact CalculateVertexNormal_loop_vertexIndices _ _ _ _ _ _ _ _ hloop

omit [LinearOrderedField α] in
theorem cornerPosition_congr {vertices vertices0 : List (ObjVertex α)} {t t0 : ObjTriangle α}
    (hv : vertices.map ObjVertex.position = vertices0.map ObjVertex.position)
    (ht : t.vertexIndices = t0.vertexIndices) (k : Nat) :
    cornerPosition vertices t k = cornerPosition vertices0 t0 k := by
  unfold cornerPosition
  rw [ht]
  have h := congrArg (fun l => l[t0.vertexIndices.get k - 1]?) hv
  simp only [List.getElem?_map] at h
  cases h1 : vertices[t0.vertexIndices.get k - 1]? with
  | none =>
    rw [h1] at h
    cases h2 : vertices0[t0.vertexIndices.get k - 1]? with
    | none => rfl
    | some q => rw [h2] at h; cases h
  | some p =>
    rw [h1] at h
    cases h2 : vertices0[t0.vertexIndices.get k - 1]? with
    | none => rw [h2] at h; cases h
    | some q =>
      rw [h2] at h
      simp only [Option.map_some', Option.some.injEq, ObjVertex.position, Prod.mk.injEq] at h
      simp [h.1, h.2.1, h.2.2]

theorem faceNormalIn_congr {vertices vertices0 : List (ObjVertex α)} {t t0 : ObjTriangle α}
    (hv : vertices.map ObjVertex.position = vertices0.map ObjVertex.position)
    (ht : t.vertexIndices = t0.vertexIndices) :
    faceNormalIn vertices t = faceNormalIn vertices0 t0 := by
  unfold faceNormalIn
  rw [cornerPosition_congr hv ht 0, cornerPosition_congr hv ht 1, cornerPosition_congr hv ht 2]

omit [LinearOrderedField α] in
theorem touches_congr {t t0 : ObjTriangle α} (ht : t.vertexIndices = t0.vertexIndices)
    (k : Nat) : touches k t = touches k t0 := by
  unfold touches
  rw [ht]

theorem filter_map_congr {vertices vertices0 : List (ObjVertex α)}
    (hv : vertices.map ObjVertex.position = vertices0.map ObjVertex.position) (k : Nat)
    (triangles triangles0 : List (ObjTriangle α))
    (ht : triangles.map ObjTriangle.vertexIndices = triangles0.map ObjTriangle.vertexIndices) :
    (triangles.filter (touches k)).map (faceNormalIn vertices) =
      (triangles0.filter (touches k)).map (faceNormalIn vertices0) := by
  induction triangles generalizing triangles0 with
  | nil =>
    cases triangles0 with
    | nil => rfl
    | cons t0 rest0 => simp at ht
  | cons t rest ih =>
    cases triangles0 with
    | nil => simp at ht
    | cons t0 rest0 =>
      simp only [List.map_cons, List.cons.injEq] at ht
      simp only [List.filter_cons, touches_congr ht.1 k]
      split
      · simp only [List.map_cons, faceNormalIn_congr hv ht.1, ih rest0 ht.2]
      · exact ih rest0 ht.2

theorem derivedNormal_congr (sqrt : α → α) {vertices vertices0 : List (ObjVertex α)}
    (hv : vertices.map ObjVertex.position = vertices0.map ObjVertex.position) (k : Nat)
    (triangles triangles0 : List (ObjTriangle α))
    (ht : triangles.map ObjTriangle.vertexIndices = triangles0.map ObjTriangle.vertexIndices) :
    derivedNormal sqrt vertices triangles k = derivedNormal sqrt vertices0 triangles0 k := by
  have h := filter_map_congr hv k triangles triangles0 ht
  have hl := congrArg List.length h
  simp only [List.length_map] at hl
  unfold derivedNormal
  rw [h, hl]

theorem Coherent_congr {vertices vertices0 : List (ObjVertex α)} {t : ObjTriangle α}
    (hv : vertices.map ObjVertex.position = vertices0.map ObjVertex.position)
    (h : Coherent vertices0 t) : Coherent vertices t := by
  have hl : vertices.length = vertices0.length := by
    have := congrArg List.length hv
    simpa using this
  refine ⟨?_, fun hc => ?_⟩
  · rw [hl]; exact h.1
  · rw [h.2 hc]
    exact (faceNormalIn_congr hv rfl).symm

theorem rebuildNormals_frame (sqrt : α → α) (indices : List Nat)
    (vertices vertices' : List (ObjVertex α)) (triangles triangles' : List (ObjTriangle α))
    (h : rebuildNormals sqrt indices vertices triangles = .ok (vertices', triangles'))
    (j : Nat) (hj : j ∉ indices) : vertices'[j]? = vertices[j]? := by
  induction indices generalizing vertices triangles with
  | nil =>
    unfold rebuildNormals at h
    cases h
    rfl
  | cons i rest ih =>
    unfold rebuildNormals at h
    obtain ⟨⟨n, ts1⟩, hn, h⟩ := bind_eq_ok h
    simp only at h
    obtain ⟨vs1, hvs1, h⟩ := bind_eq_ok h
    obtain ⟨x, y, hx, hy, rfl⟩ := modifyAt_eq_ok hvs1
    rw [ih _ _ h (fun hmem => hj (List.mem_cons_of_mem _ hmem))]
    exact List.getElem?_set_ne (fun hij => hj (by simp [hij]))

/-- The rebuild loop leaves in the record of each vertex it visits the normal derived for that
vertex. -/
theorem rebuildNormals_normals (sqrt : α → α) (indices : List Nat)
    (vertices vertices' : List (ObjVertex α)) (triangles triangles' : List (ObjTriangle α))
    (hco : ∀ t ∈ triangles, Coherent vertices t) (hnodup : indices.Nodup)
    (h : rebuildNormals sqrt indices vertices triangles = .ok (vertices', triangles')) :
    ∀ j ∈ indices, ∀ p, vertices'[j]? = some p →
      (⟨p.normalX, p.normalY, p.normalZ⟩ : Vector3 α) =
        derivedNormal sqrt vertices triangles j := by
  induction indices generalizing vertices triangles with
  | nil =>
    intro j hj
    cases hj
  | cons i rest ih =>
    unfold rebuildNormals at h
    obtain ⟨⟨n, ts1⟩, hn, h⟩ := bind_eq_ok h
    simp only at h
    obtain ⟨vs1, hvs1, h⟩ := bind_eq_ok h
    obtain ⟨ts1', hn', hco1, hidx1⟩ := CalculateVertexNormal_coherent sqrt i vertices triangles hco
    rw [hn'] at hn
    simp only [Except.ok.injEq, Prod.mk.injEq] at hn
    obtain ⟨rfl, rfl⟩ := hn
    obtain ⟨x, y, hx, hy, rfl⟩ := modifyAt_eq_ok hvs1
    simp only [Except.ok.injEq] at hy
    subst hy
    have hpos : (vertices.set i { x with
          normalX := (derivedNormal sqrt vertices triangles i).x,
          normalY := (derivedNormal sqrt vertices triangles i).y,
          normalZ := (derivedNormal sqrt vertices triangles i).z }).map ObjVertex.position =
        vertices.map ObjVertex.position := by
      apply List.ext_getElem?
      intro k
      simp only [List.getElem?_map]
      by_cases hk : i = k
      · subst hk
        rw [List.getElem?_set_self (List.getElem?_eq_some_iff.1 hx).1, hx]
        rfl
      · rw [List.getElem?_set_ne hk]
    obtain ⟨hni, hnd⟩ := List.nodup_cons.1 hnodup
    intro j hj p hp
    rcases List.mem_cons.1 hj with rfl | hj
    · rw [rebuildNormals_frame sqrt rest _ _ _ _ h j hni,
        List.getElem?_set_self (List.getElem?_eq_some_iff.1 hx).1] at hp
      cases hp
      rfl
    · rw [ih _ _ (fun t ht => Coherent_congr hpos (hco1 t ht)) hnd h j hj p hp]
      exact derivedNormal_congr sqrt hpos j _ _ hidx1

end DerivedNormals

/-! ## The packing loop and the depth write -/

section PackingLemmas

variable {α : Type} [LinearOrderedField α]

omit [LinearOrderedField α] in
theorem indicesWithin_of_cornerAt (vertices : List (ObjVertex α)) (t : ObjTriangle α)
    (h : ∀ v, v < 3 → ∃ p, CornerAt vertices t v p) : IndicesWithin vertices.length t := by
  intro v hv
  obtain ⟨p, idx, hidx, hp⟩ := h v hv
  obtain ⟨_, hpos, hget⟩ := GetVertexIndex_eq_ok.1 hidx
  rw [hget]
  refine ⟨hpos, ?_⟩
  have hlt := (List.getElem?_eq_some_iff.1 hp).1
  rw [decrement_pos hpos] at hlt
  omega

theorem measureExtent_loop_within (vertices : List (ObjVertex α))
    (triangles : List (ObjTriangle α)) (e0 e : Extent α)
    (h : measureExtent.loop vertices triangles e0 = .ok e) :
    ∀ t ∈ triangles, IndicesWithin vertices.length t := by
  induction triangles generalizing e0 with
  | nil => intro t ht; cases ht
  | cons t rest ih =>
    unfold measureExtent.loop at h
    split at h
    · cases h
    · rename_i e1 h1
      obtain ⟨p0, p1, p2, c0, c1, c2, _⟩ := measureTriangle_eq_ok _ _ _ _ h1
      intro s hs
      rcases List.mem_cons.1 hs with rfl | hs
      · apply indicesWithin_of_cornerAt
        intro v hv
        have : v = 0 ∨ v = 1 ∨ v = 2 := by omega
        rcases this with rfl | rfl | rfl
        · exact ⟨p0, c0⟩
        · exact ⟨p1, c1⟩
        · exact ⟨p2, c2⟩
      · exact ih e1 h s hs

theorem ok_bind {β γ : Type} (a : β) (f : β → Except Fault γ) :
    (Except.ok a >>= f) = f a := rfl

omit [LinearOrderedField α] in
theorem VertexBuffer_Set_eq_ok {vb vb' : VertexBuffer α} {index : Nat} {value : α}
    (h : vb.Set index value = .ok vb') :
    index < vb.size ∧ vb' = { vb with rawStorage := vb.rawStorage.set index value } := by
  unfold VertexBuffer.Set at h
  split at h
  · cases h
  · rename_i hlt
    cases h
    exact ⟨not_not.1 hlt, rfl⟩

theorem assertThat_eq_ok {condition : Prop} [Decidable condition] {e : Fault} {u : Unit}
    (h : assertThat condition e = .ok u) : condition := by
  unfold assertThat at h
  split at h
  · assumption
  · cases h

omit [LinearOrderedField α] in
theorem VertexBuffer_Set_spec {vb vb' : VertexBuffer α} {index : Nat} {value : α}
    (h : vb.Set index value = .ok vb') (hw : vb.WellSized) :
    vb'.WellSized ∧ vb'.size = vb.size ∧ vb'.format = vb.format ∧
    vb'.rawStorage[index]? = some value ∧
    ∀ off, off ≠ index → vb'.rawStorage[off]? = vb.rawStorage[off]? := by
  obtain ⟨hlt, rfl⟩ := VertexBuffer_Set_eq_ok h
  unfold VertexBuffer.WellSized at hw ⊢
  refine ⟨by simp [hw], rfl, rfl, ?_, ?_⟩
  · exact List.getElem?_set_self (by omega)
  · intro off hoff
    exact List.getElem?_set_ne (fun h => hoff h.symm)

/-- What one pass of the body of the inner packing loop leaves in the buffer. -/
theorem packCorner_spec (vertices : List (ObjVertex α)) (normals : List (ObjNormal α))
    (textureCoordinates : List (ObjTextureCoordinate α)) (i : Nat) (t : ObjTriangle α)
    (vb vb' : VertexBuffer α) (v : Nat) (hw : vb.WellSized)
    (h : packCorner vertices normals textureCoordinates i t vb v = .ok vb') :
    vb'.WellSized ∧ vb'.size = vb.size ∧ vb'.format = vb.format ∧
    (∀ off, off < i * 24 + v * 8 ∨ i * 24 + v * 8 + 8 ≤ off →
      vb'.rawStorage[off]? = vb.rawStorage[off]?) ∧
    ∃ p, CornerAt vertices t v p ∧ HoldsCorner vb'.rawStorage (i * 24 + v * 8) p := by
  unfold packCorner at h
  obtain ⟨idx, hidx, h⟩ := bind_eq_ok h
  obtain ⟨p, hp, h⟩ := bind_eq_ok h
  simp only [hidx, hp, ok_bind] at h
  obtain ⟨_, _, h⟩ := bind_eq_ok h
  obtain ⟨_, _, h⟩ := bind_eq_ok h
  obtain ⟨_, _, h⟩ := bind_eq_ok h
  obtain ⟨_, _, h⟩ := bind_eq_ok h
  obtain ⟨_, _, h⟩ := bind_eq_ok h
  obtain ⟨_, _, h⟩ := bind_eq_ok h
  obtain ⟨tidx, htidx, h⟩ := bind_eq_ok h
  obtain ⟨tc, htc, h⟩ := bind_eq_ok h
  simp only [htidx, htc, ok_bind] at h
  obtain ⟨nidx, _, h⟩ := bind_eq_ok h
  obtain ⟨_, _, h⟩ := bind_eq_ok h
  obtain ⟨vb0, h0, h⟩ := bind_eq_ok h
  obtain ⟨vb1, h1, h⟩ := bind_eq_ok h
  obtain ⟨vb2, h2, h⟩ := bind_eq_ok h
  obtain ⟨vb3, h3, h⟩ := bind_eq_ok h
  obtain ⟨vb4, h4, h⟩ := bind_eq_ok h
  obtain ⟨vb5, h5, h⟩ := bind_eq_ok h
  obtain ⟨vb6, h6, h⟩ := bind_eq_ok h
  obtain ⟨vb7, h7, h⟩ := bind_eq_ok h
  cases h
  obtain ⟨w0, z0, f0, r0, q0⟩ := VertexBuffer_Set_spec h0 hw
  obtain ⟨w1, z1, f1, r1, q1⟩ := VertexBuffer_Set_spec h1 w0
  obtain ⟨w2, z2, f2, r2, q2⟩ := VertexBuffer_Set_spec h2 w1
  obtain ⟨w3, z3, f3, r3, q3⟩ := VertexBuffer_Set_spec h3 w2
  obtain ⟨w4, z4, f4, r4, q4⟩ := VertexBuffer_Set_spec h4 w3
  obtain ⟨w5, z5, f5, r5, q5⟩ := VertexBuffer_Set_spec h5 w4
  obtain ⟨w6, z6, f6, r6, q6⟩ := VertexBuffer_Set_spec h6 w5
  obtain ⟨w7, z7, f7, r7, q7⟩ := VertexBuffer_Set_spec h7 w6
  refine ⟨w7, ?_, ?_, ?_, p, ⟨idx, hidx, elementAt_eq_ok.1 hp⟩, ?_, ?_, ?_, ?_, ?_, ?_⟩
  · rw [z7, z6, z5, z4, z3, z2, z1, z0]
  · rw [f7, f6, f5, f4, f3, f2, f1, f0]
  · intro off hoff
    rw [q7 off (by omega), q6 off (by omega), q5 off (by omega), q4 off (by omega),
      q3 off (by omega), q2 off (by omega), q1 off (by omega), q0 off (by omega)]
  · rw [q7 _ (by omega), q6 _ (by omega), q5 _ (by omega), q4 _ (by omega),
      q3 _ (by omega), q2 _ (by omega), q1 _ (by omega)]
    exact r0
  · rw [q7 _ (by omega), q6 _ (by omega), q5 _ (by omega), q4 _ (by omega),
      q3 _ (by omega), q2 _ (by omega)]
    exact r1
  · rw [q7 _ (by omega), q6 _ (by omega), q5 _ (by omega), q4 _ (by omega),
      q3 _ (by omega)]
    exact r2
  · rw [q7 _ (by omega), q6 _ (by omega)]
    exact r5
  · rw [q7 _ (by omega)]
    exact r6
  · exact r7

omit [LinearOrderedField α] in
theorem HoldsCorner_of_frame {raw raw' : List α} {base : Nat} {p : ObjVertex α}
    (hframe : ∀ off, base ≤ off → off < base + 8 → off ≠ base + 3 → raw'[off]? = raw[off]?)
    (h : HoldsCorner raw base p) : HoldsCorner raw' base p := by
  obtain ⟨h0, h1, h2, h5, h6, h7⟩ := h
  refine ⟨?_, ?_, ?_, ?_, ?_, ?_⟩
  · rw [hframe _ (by omega) (by omega) (by omega)]; exact h0
  · rw [hframe _ (by omega) (by omega) (by omega)]; exact h1
  · rw [hframe _ (by omega) (by omega) (by omega)]; exact h2
  · rw [hframe _ (by omega) (by omega) (by omega)]; exact h5
  · rw [hframe _ (by omega) (by omega) (by omega)]; exact h6
  · rw [hframe _ (by omega) (by omega) (by omega)]; exact h7

/-- What the packing loop leaves in the vertex buffer: the block of every triangle it passes
holds the records of its three corners, and the floats below the first block are as before. -/
theorem packLoop_spec (vertices : List (ObjVertex α)) (normals : List (ObjNormal α))
    (textureCoordinates : List (ObjTextureCoordinate α)) (triangles : List (ObjTriangle α))
    (i : Nat) (vb vb' : VertexBuffer α) (ib ib' : IndexBuffer) (hw : vb.WellSized)
    (h : packLoop vertices normals textureCoordinates triangles i vb ib = .ok (vb', ib')) :
    vb'.WellSized ∧ vb'.size = vb.size ∧ vb'.format = vb.format ∧
    (∀ off, off < i * 24 → vb'.rawStorage[off]? = vb.rawStorage[off]?) ∧
    ∀ j t, triangles[j]? = some t → ∀ v, v < 3 →
      ∃ p, CornerAt vertices t v p ∧ HoldsCorner vb'.rawStorage ((i + j) * 24 + v * 8) p := by
  induction triangles generalizing i vb ib with
  | nil =>
    unfold packLoop at h
    cases h
    refine ⟨hw, rfl, rfl, fun _ _ => rfl, ?_⟩
    intro j t ht
    simp at ht
  | cons t rest ih =>
    unfold packLoop at h
    obtain ⟨vb1, h1, h⟩ := bind_eq_ok h
    obtain ⟨vb2, h2, h⟩ := bind_eq_ok h
    obtain ⟨vb3, h3, h⟩ := bind_eq_ok h
    obtain ⟨_, _, h⟩ := bind_eq_ok h
    obtain ⟨_, _, h⟩ := bind_eq_ok h
    obtain ⟨_, _, h⟩ := bind_eq_ok h
    obtain ⟨_, _, h⟩ := bind_eq_ok h
    obtain ⟨_, _, h⟩ := bind_eq_ok h
    obtain ⟨_, _, h⟩ := bind_eq_ok h
    obtain ⟨w1, z1, f1, q1, p0, c0, k0⟩ := packCorner_spec _ _ _ _ _ _ _ _ hw h1
    obtain ⟨w2, z2, f2, q2, p1, c1, k1⟩ := packCorner_spec _ _ _ _ _ _ _ _ w1 h2
    obtain ⟨w3, z3, f3, q3, p2, c2, k2⟩ := packCorner_spec _ _ _ _ _ _ _ _ w2 h3
    obtain ⟨w4, z4, f4, q4, hrest⟩ := ih (i + 1) vb3 _ w3 h
    refine ⟨w4, by rw [z4, z3, z2, z1], by rw [f4, f3, f2, f1], ?_, ?_⟩
    · intro off hoff
      rw [q4 off (by omega), q3 off (by omega), q2 off (by omega), q1 off (by omega)]
    · intro j s hs v hv
      cases j with
      | zero =>
        simp only [List.getElem?_cons_zero, Option.some.injEq] at hs
        subst hs
        have hv3 : v = 0 ∨ v = 1 ∨ v = 2 := by omega
        rcases hv3 with rfl | rfl | rfl
        · refine ⟨p0, c0, HoldsCorner_of_frame (fun off h1 h2 _ => ?_) k0⟩
          rw [q4 off (by omega), q3 off (by omega), q2 off (by omega)]
        · refine ⟨p1, c1, HoldsCorner_of_frame (fun off h1 h2 _ => ?_) k1⟩
          rw [q4 off (by omega), q3 off (by omega)]
        · refine ⟨p2, c2, HoldsCorner_of_frame (fun off h1 h2 _ => ?_) k2⟩
          rw [q4 off (by omega)]
      | succ j =>
        simp only [List.getElem?_cons_succ] at hs
        obtain ⟨p, cp, kp⟩ := hrest j s hs v hv
        have hij : i + 1 + j = i + (j + 1) := by omega
        rw [hij] at kp
        exact ⟨p, cp, kp⟩

omit [LinearOrderedField α] in
theorem writeDepthCorner_spec (self : TriangleMeshInternalDepth α) (ti : Nat)
    (t : ObjTriangle α) (vb vb' : VertexBuffer α) (v : Nat) (hw : vb.WellSized)
    (h : writeDepthCorner self 8 ti t vb v = .ok vb') :
    vb'.WellSized ∧
    (∀ off, off ≠ ti * 24 + v * 8 + 3 → vb'.rawStorage[off]? = vb.rawStorage[off]?) ∧
    ∃ idx d, t.GetVertexIndex v = .ok idx ∧ self.distances[decrement idx]? = some d ∧
      vb'.rawStorage[ti * 24 + v * 8 + 3]? = some d := by
  unfold writeDepthCorner at h
  obtain ⟨idx, hidx, h⟩ := bind_eq_ok h
  obtain ⟨d, hd, h⟩ := bind_eq_ok h
  have hoffset : ti * 8 * 3 + 8 * v + 3 = ti * 24 + v * 8 + 3 := by omega
  simp only [hoffset] at h
  obtain ⟨w, _, _, r, q⟩ := VertexBuffer_Set_spec h hw
  exact ⟨w, q, idx, d, hidx, elementAt_eq_ok.1 hd, r⟩

omit [LinearOrderedField α] in
/-- What the loop of `WriteDepthAsTextureCoordinates` leaves in a buffer of stride 8: the fourth
float of every corner it passes holds the depth of the vertex of that corner, and no other float
of the buffer changes. -/
theorem writeDepthLoop_spec (self : TriangleMeshInternalDepth α)
    (triangles : List (ObjTriangle α)) (ti : Nat) (vb vb' : VertexBuffer α) (hw : vb.WellSized)
    (h : writeDepthLoop self 8 triangles ti vb = .ok vb') :
    vb'.WellSized ∧
    (∀ off, off % 8 ≠ 3 ∨ off < ti * 24 → vb'.rawStorage[off]? = vb.rawStorage[off]?) ∧
    ∀ j t, triangles[j]? = some t → ∀ v, v < 3 →
      ∃ idx d, t.GetVertexIndex v = .ok idx ∧ self.distances[decrement idx]? = some d ∧
        vb'.rawStorage[(ti + j) * 24 + v * 8 + 3]? = some d := by
  induction triangles generalizing ti vb with
  | nil =>
    unfold writeDepthLoop at h
    cases h
    refine ⟨hw, fun _ _ => rfl, ?_⟩
    intro j t ht
    simp at ht
  | cons t rest ih =>
    unfold writeDepthLoop at h
    obtain ⟨vb1, h1, h⟩ := bind_eq_ok h
    obtain ⟨vb2, h2, h⟩ := bind_eq_ok h
    obtain ⟨vb3, h3, h⟩ := bind_eq_ok h
    obtain ⟨w1, q1, i0, d0, g0, e0, r0⟩ := writeDepthCorner_spec _ _ _ _ _ _ hw h1
    obtain ⟨w2, q2, i1, d1, g1, e1, r1⟩ := writeDepthCorner_spec _ _ _ _ _ _ w1 h2
    obtain ⟨w3, q3, i2, d2, g2, e2, r2⟩ := writeDepthCorner_spec _ _ _ _ _ _ w2 h3
    obtain ⟨w4, q4, hrest⟩ := ih (ti + 1) vb3 w3 h
    refine ⟨w4, ?_, ?_⟩
    · intro off hoff
      rw [q4 off (by omega), q3 off (by omega), q2 off (by omega), q1 off (by omega)]
    · intro j s hs v hv
      cases j with
      | zero =>
        simp only [List.getElem?_cons_zero, Option.some.injEq] at hs
        subst hs
        have hv3 : v = 0 ∨ v = 1 ∨ v = 2 := by omega
        rcases hv3 with rfl | rfl | rfl
        · refine ⟨i0, d0, g0, e0, ?_⟩
          rw [q4 _ (by omega), q3 _ (by omega), q2 _ (by omega)]
          exact r0
        · refine ⟨i1, d1, g1, e1, ?_⟩
          rw [q4 _ (by omega), q3 _ (by omega)]
          exact r1
        · refine ⟨i2, d2, g2, e2, ?_⟩
          rw [q4 _ (by omega)]
          exact r2
      | succ j =>
        simp only [List.getElem?_cons_succ] at hs
        obtain ⟨idx, d, g, e, r⟩ := hrest j s hs v hv
        have hij : ti + 1 + j = ti + (j + 1) := by omega
        rw [hij] at r
        exact ⟨idx, d, g, e, r⟩

end PackingLemmas

/-! ## The vertex buffer that `LoadMesh` returns (C20) -/

section BufferLayout

variable {α : Type} [LinearOrderedField α]

/-- The stages that a successful `LoadMesh` went through. -/
theorem LoadMesh_stages (atof : Str → α) (sqrt : α → α) (lines : List Str) (g : MeshGeometry α)
    (h : LoadMesh atof sqrt (some lines) = .ok g) :
    ∃ st e vb0 ib0 rebuilt ts depth vb1 ib1 vb2,
      recordPass atof lines (RecordState.allocate (countingPass lines)) = .ok st ∧
      measureExtent (centerModel st.vertices) st.triangles = .ok e ∧
      VertexBuffer.new ((countingPass lines).numberOfTriangles * 3 * 8)
        .Vertex3Texture2Normal3 = .ok vb0 ∧
      rebuildNormals sqrt (List.range (centerModel st.vertices).length)
        (centerModel st.vertices) st.triangles = .ok (rebuilt, ts) ∧
      (⟨[]⟩ : TriangleMeshInternalDepth α).Calculate sqrt ts
        (scaleVertices (uniformScale e) rebuilt) = .ok depth ∧
      packLoop (scaleVertices (uniformScale e) rebuilt) st.normals st.textureCoordinates ts 0
        vb0 ib0 = .ok (vb1, ib1) ∧
      depth.WriteDepthAsTextureCoordinates vb1 ts = .ok vb2 ∧
      g = ⟨some vb2, some ib1, some (uniformScale e), depth⟩ := by
  unfold LoadMesh at h
  simp only at h
  obtain ⟨st, hst, h⟩ := bind_eq_ok h
  obtain ⟨e, he, h⟩ := bind_eq_ok h
  obtain ⟨vb0, hvb, h⟩ := bind_eq_ok h
  obtain ⟨ib0, hib, h⟩ := bind_eq_ok h
  obtain ⟨⟨vs, ts⟩, hrb, h⟩ := bind_eq_ok h
  simp only at h
  obtain ⟨depth, hdepth, h⟩ := bind_eq_ok h
  obtain ⟨⟨vb1, ib1⟩, hpack, h⟩ := bind_eq_ok h
  simp only at h
  obtain ⟨vb2, hwd, h⟩ := bind_eq_ok h
  refine ⟨st, e, vb0, ib0, vs, ts, depth, vb1, ib1, vb2, hst, he, hvb, hrb, hdepth, hpack, hwd, ?_⟩
  cases h
  rfl

theorem VertexBuffer_new_eq_ok {size : Nat} {format : VertexFormat} {vb : VertexBuffer α}
    (h : VertexBuffer.new size format = .ok vb) : vb.WellSized ∧ vb.format = format := by
  unfold VertexBuffer.new at h
  split at h
  · cases h
  · cases h
    exact ⟨by simp [VertexBuffer.WellSized], rfl⟩

omit [LinearOrderedField α] in
theorem getElem?_of_map_eq {β γ : Type} (f : β → γ) {l l0 : List β} (h : l.map f = l0.map f)
    {i : Nat} {x0 : β} (hx : l0[i]? = some x0) : ∃ x, l[i]? = some x ∧ f x = f x0 := by
  have hi := congrArg (fun m => m[i]?) h
  simp only [List.getElem?_map, hx, Option.map_some'] at hi
  cases hl : l[i]? with
  | none => rw [hl] at hi; cases hi
  | some x =>
    rw [hl] at hi
    simp only [Option.map_some', Option.some.injEq] at hi
    exact ⟨x, rfl, hi⟩

/-- C20. For every successfully loaded mesh, every triangle `i` and every corner `v` of it, with
`k` the vertex index of the corner less 1, the vertex buffer that `LoadMesh` returns holds at the
offsets `24 i + 8 v + 0..2` the position of vertex `k` after the recentering and the rescale, at
the offset `24 i + 8 v + 3` the internal depth of vertex `k`, the value that
`GetVertexInternalDistance(k)` returns, and at the offsets `24 i + 8 v + 5..7` the normal derived
for vertex `k` from the triangles around it, not a normal record of the file and not the face
normal of the triangle. -/
theorem vertex_buffer_layout (atof : Str → α) (sqrt : α → α) (lines : List Str)
    (g : MeshGeometry α) (h : LoadMesh atof sqrt (some lines) = .ok g) :
    ∃ st e vb, recordPass atof lines (RecordState.allocate (countingPass lines)) = .ok st ∧
      measureExtent (centerModel st.vertices) st.triangles = .ok e ∧
      g.vertices = some vb ∧
      ∀ i t, st.triangles[i]? = some t → ∀ v, v < 3 →
        0 < t.vertexIndices.get v ∧
        ∃ p depth,
          (scaleVertices (uniformScale e) (centerModel st.vertices))[t.vertexIndices.get v - 1]?
            = some p ∧
          g.internalDepthInformation.GetVertexInternalDistance (t.vertexIndices.get v - 1)
            = .ok depth ∧
          vb.rawStorage[24 * i + 8 * v + 0]? = some p.x ∧
          vb.rawStorage[24 * i + 8 * v + 1]? = some p.y ∧
          vb.rawStorage[24 * i + 8 * v + 2]? = some p.z ∧
          vb.rawStorage[24 * i + 8 * v + 3]? = some depth ∧
          vb.rawStorage[24 * i + 8 * v + 5]? = some (derivedNormal sqrt
            (centerModel st.vertices) st.triangles (t.vertexIndices.get v - 1)).x ∧
          vb.rawStorage[24 * i + 8 * v + 6]? = some (derivedNormal sqrt
            (centerModel st.vertices) st.triangles (t.vertexIndices.get v - 1)).y ∧
          vb.rawStorage[24 * i + 8 * v + 7]? = some (derivedNormal sqrt
            (centerModel st.vertices) st.triangles (t.vertexIndices.get v - 1)).z := by
  obtain ⟨st, e, vb0, ib0, rebuilt, ts, depth, vb1, ib1, vb2, hst, he, hvb, hrb, hdepth, hpack,
    hwd, rfl⟩ := LoadMesh_stages atof sqrt lines g h
  have hfresh := recordPass_fresh hst (allocate_fresh _)
  have hwithin := measureExtent_loop_within _ _ _ _ he
  have hco : ∀ t ∈ st.triangles, Coherent (centerModel st.vertices) t := fun t ht =>
    ⟨hwithin t ht, fun hc => by rw [hfresh t ht] at hc; cases hc⟩
  obtain ⟨hposmap, hidxmap⟩ := rebuildNormals_preserves sqrt _ _ _ _ _ hrb
  have hnormals := rebuildNormals_normals sqrt _ _ _ _ _ hco (List.nodup_range _) hrb
  obtain ⟨hw0, hf0⟩ := VertexBuffer_new_eq_ok hvb
  obtain ⟨hw1, _, hf1, _, hpacked⟩ := packLoop_spec _ _ _ _ _ _ _ _ _ hw0 hpack
  unfold TriangleMeshInternalDepth.WriteDepthAsTextureCoordinates at hwd
  split at hwd
  · cases hwd
  have hstride : vb1.GetVertexStride = 8 := by
    unfold VertexBuffer.GetVertexStride
    rw [hf1, hf0]
  rw [hstride] at hwd
  obtain ⟨hw2, hframe, hdepths⟩ := writeDepthLoop_spec _ _ _ _ _ hw1 hwd
  refine ⟨st, e, vb2, hst, he, rfl, ?_⟩
  intro i t ht v hv
  obtain ⟨t', ht', hidx⟩ := getElem?_of_map_eq ObjTriangle.vertexIndices hidxmap ht
  obtain ⟨pf, ⟨idx, hgi, hpf⟩, hholds⟩ := hpacked i t' ht' v hv
  obtain ⟨idx2, d, hgi2, hd, hraw3⟩ := hdepths i t' ht' v hv
  rw [hgi] at hgi2
  cases hgi2
  obtain ⟨_, hpos, hget⟩ := GetVertexIndex_eq_ok.1 hgi
  rw [hidx] at hget
  subst hget
  rw [decrement_pos hpos] at hpf hd
  rw [scaleVertices_getElem?] at hpf
  cases hq : rebuilt[t.vertexIndices.get v - 1]? with
  | none => rw [hq] at hpf; cases hpf
  | some q =>
    rw [hq] at hpf
    simp only [Option.map_some', Option.some.injEq] at hpf
    subst hpf
    obtain ⟨c, hc, hcq⟩ := getElem?_of_map_eq ObjVertex.position hposmap.symm hq
    simp only [ObjVertex.position, Prod.mk.injEq] at hcq
    have hk : t.vertexIndices.get v - 1 ∈ List.range (centerModel st.vertices).length :=
      List.mem_range.2 (List.getElem?_eq_some_iff.1 hc).1
    have hn := hnormals _ hk q hq
    have hbase : (0 + i) * 24 + v * 8 = 24 * i + 8 * v := by omega
    rw [hbase] at hholds hraw3
    have hholds2 := HoldsCorner_of_frame
      (fun off h1 h2 h3 => hframe off (Or.inl (by omega))) hholds
    obtain ⟨k0, k1, k2, k5, k6, k7⟩ := hholds2
    simp only at k0 k1 k2 k5 k6 k7
    have hsc := scaleVertices_getElem? (uniformScale e) (centerModel st.vertices)
      (t.vertexIndices.get v - 1)
    rw [hc, Option.map_some'] at hsc
    refine ⟨hpos, _, d, hsc, elementAt_eq_ok.2 hd, ?_, ?_, ?_, hraw3, ?_, ?_, ?_⟩
    · rw [k0, hcq.1]
    · rw [k1, hcq.2.1]
    · rw [k2, hcq.2.2]
    · rw [k5, ← hn]
    · rw [k6, ← hn]
    · rw [k7, ← hn]

/-- Witness for C20: the file of one vertex and one face loads. -/
theorem vertex_buffer_layout_witness :
    ∃ g, LoadMesh (fun _ => (0 : ℚ)) (fun x => x) (some pointFile) = .ok g ∧
      ∃ st e vb, recordPass (fun _ => (0 : ℚ)) pointFile
          (RecordState.allocate (countingPass pointFile)) = .ok st ∧
        measureExtent (centerModel st.vertices) st.triangles = .ok e ∧
        g.vertices = some vb :=
  pointFile_loads.imp (fun g hg =>
    ⟨hg, (vertex_buffer_layout (fun _ => (0 : ℚ)) (fun x => x) pointFile g hg).imp
      (fun _ h1 => h1.imp (fun _ h2 => h2.imp (fun _ h3 => ⟨h3.1, h3.2.1, h3.2.2.1⟩)))⟩)

end BufferLayout

/-! ## The stride of a vertex format (C24) and the cross product of 2-vectors (C25) -/

section StrideAndCross

variable {α : Type} [LinearOrderedField α]

omit [LinearOrderedField α] in
/-- C24. For the formats `Vertex2`, `Vertex3`, `Vertex3Texture2Normal3` and
`Vertex3Texture2Normal3Colour4`, `GetVertexStride` returns the number of float components that
the enumeration documents; for `Vertex3Normal3Colour4`, documented with 3 + 3 + 4 = 10 components
and given the stride 10 by `SetUpPointers`, it falls to the default branch and returns 0, so
that `GetVertexCount` divides by zero. -/
theorem stride_of_Vertex3Normal3Colour4_is_zero (rawStorage : List α)
    (size componentsPerVertex : Nat) :
    (∀ format, format ≠ VertexFormat.Vertex3Normal3Colour4 →
      (⟨format, rawStorage, size, componentsPerVertex⟩ : VertexBuffer α).GetVertexStride =
        format.components) ∧
    (⟨.Vertex3Normal3Colour4, rawStorage, size, componentsPerVertex⟩ :
      VertexBuffer α).GetVertexStride = 0 ∧
    VertexFormat.components .Vertex3Normal3Colour4 = 10 ∧
    VertexBuffer.SetUpPointers.stride .Vertex3Normal3Colour4 = 10 ∧
    (⟨.Vertex3Normal3Colour4, rawStorage, size, componentsPerVertex⟩ :
      VertexBuffer α).GetVertexCount = .error .divideByZero := by
  refine ⟨?_, rfl, rfl, rfl, rfl⟩
  intro format hf
  cases format <;> first | rfl | exact absurd rfl hf

/-- Witness for C24: a buffer of 24 floats of the format `Vertex3Texture2Normal3`. -/
theorem stride_of_Vertex3Normal3Colour4_is_zero_witness :
    VertexFormat.Vertex3Texture2Normal3 ≠ VertexFormat.Vertex3Normal3Colour4 ∧
    (⟨.Vertex3Texture2Normal3, List.replicate 24 0, 24, 1⟩ : VertexBuffer ℚ).GetVertexStride =
      VertexFormat.components .Vertex3Texture2Normal3 :=
  ⟨by decide,
    (stride_of_Vertex3Normal3Colour4_is_zero (List.replicate 24 (0 : ℚ)) 24 1).1
      .Vertex3Texture2Normal3 (by decide)⟩

/-- C25. For every pair of 2-component vectors, `cross` does not return
`v1.x * v2.y - v1.y * v2.x`, the value of its comment: it reads `v1[2]`, beyond the two
components of `v1`, where the comment has `v1.y`. -/
theorem cross_of_2_vectors_reads_component_2 (v1 v2 : Vector2 α) :
    Vector2.cross v1 v2 = .error .componentRange ∧
    Vector2.cross v1 v2 ≠ .ok (v1.x * v2.y - v1.y * v2.x) ∧
    v1.get 2 = .error .componentRange := by
  have h : Vector2.cross v1 v2 = .error .componentRange := rfl
  refine ⟨h, ?_, rfl⟩
  rw [h]
  intro hne
  cases hne

end StrideAndCross

/-! ## The three parts of a group (C29) -/

theorem slashFields_slashfree (a : Str) (ha : '/' ∉ a) : slashFields a = [a] := by
  induction a with
  | nil => rfl
  | cons c rest ih =>
    have hc : c ≠ '/' := fun h => ha (by simp [h])
    have hrest : '/' ∉ rest := fun h => ha (List.mem_cons_of_mem _ h)
    unfold slashFields
    rw [if_neg hc, ih hrest]

theorem slashFields_append (a r : Str) (ha : '/' ∉ a) :
    slashFields (a ++ '/' :: r) = a :: slashFields r := by
  induction a with
  | nil =>
    simp only [List.nil_append]
    conv_lhs => unfold slashFields
    rw [if_pos rfl]
  | cons c rest ih =>
    have hc : c ≠ '/' := fun h => ha (by simp [h])
    have hrest : '/' ∉ rest := fun h => ha (List.mem_cons_of_mem _ h)
    rw [List.cons_append]
    conv_lhs => unfold slashFields
    rw [if_neg hc, ih hrest]

/-- A text with a `/` splits at its first `/`. -/
theorem split_at_first_slash (s : Str) (h : 0 < s.count '/') :
    ∃ a r, s = a ++ '/' :: r ∧ '/' ∉ a ∧ s.count '/' = r.count '/' + 1 := by
  induction s with
  | nil => simp at h
  | cons c rest ih =>
    by_cases hc : c = '/'
    · subst hc
      exact ⟨[], rest, rfl, by simp, by simp⟩
    · have hcount : (c :: rest).count '/' = rest.count '/' := by
        rw [List.count_cons]
        simp [hc]
      rw [hcount] at h ⊢
      obtain ⟨a, r, hs, ha, hn⟩ := ih h
      refine ⟨c :: a, r, by rw [hs]; rfl, ?_, hn⟩
      intro hmem
      rcases List.mem_cons.1 hmem with h1 | h1
      · exact hc h1.symm
      · exact ha h1

theorem tokenizeGroup_loop_count (s : Str) (grouped : List Str) (cur : Str) (group : Nat)
    (hlen : grouped.length = 3) :
    match tokenizeGroup.loop s grouped cur group with
    | .error e => e = .groupOverrun
    | .ok (grouped', _, group') => grouped'.length = 3 ∧ group' = group + s.count '/' := by
  induction s generalizing grouped cur group with
  | nil =>
    unfold tokenizeGroup.loop
    exact ⟨hlen, by simp⟩
  | cons c rest ih =>
    unfold tokenizeGroup.loop
    by_cases hc : c = '/'
    · subst hc
      simp only [ne_eq, not_true_eq_false, if_false]
      by_cases hg : group < grouped.length
      · rw [if_pos hg]
        have h := ih (grouped.set group cur) [] (group + 1) (by simp [hlen])
        split at h
        · exact h
        · refine ⟨h.1, ?_⟩
          rw [h.2, List.count_cons_self]
          omega
      · rw [if_neg hg]
    · rw [if_pos hc]
      have h := ih grouped (cur ++ [c]) group hlen
      have hcount : (c :: rest).count '/' = rest.count '/' := by
        rw [List.count_cons]
        simp [hc]
      rw [hcount]
      exact h

/-- C29. For every text with at most two `/` characters, `tokenizeGroup` returns exactly three
strings: the fields of the text between its `/` characters, in order, followed by empty strings
for the fields that are absent.  For every text with three or more `/` characters it accesses
`grouped` at position 3 or beyond, outside the three entries, and has no result. -/
theorem tokenizeGroup_pads_to_three (s : Str) :
    (s.count '/' ≤ 2 → tokenizeGroup s = .ok ((slashFields s ++ [[], [], []]).take 3)) ∧
    (3 ≤ s.count '/' → tokenizeGroup s = .error .groupOverrun) := by
  constructor
  · intro h
    by_cases h0 : s.count '/' = 0
    · have hs : '/' ∉ s := List.count_eq_zero.1 h0
      rw [tokenizeGroup_one s hs, slashFields_slashfree s hs]
      rfl
    · obtain ⟨a, r, rfl, ha, hn⟩ := split_at_first_slash s (by omega)
      by_cases h1 : r.count '/' = 0
      · have hr : '/' ∉ r := List.count_eq_zero.1 h1
        rw [tokenizeGroup_two a r ha hr, slashFields_append a r ha, slashFields_slashfree r hr]
        rfl
      · obtain ⟨b, c, rfl, hb, hm⟩ := split_at_first_slash r (by omega)
        have hc : '/' ∉ c := List.count_eq_zero.1 (by omega)
        rw [tokenizeGroup_three a b c ha hb hc, slashFields_append a _ ha,
          slashFields_append b c hb, slashFields_slashfree c hc]
        rfl
  · intro h
    have hloop := tokenizeGroup_loop_count s [[], [], []] [] 0 rfl
    unfold tokenizeGroup
    cases he : tokenizeGroup.loop s [[], [], []] [] 0 with
    | error e =>
      rw [he] at hloop
      simp only at hloop ⊢
      rw [hloop]
    | ok r =>
      obtain ⟨g', c', n'⟩ := r
      rw [he] at hloop
      simp only at hloop ⊢
      have hpos : s.length > 0 := by
        cases s with
        | nil => simp at h
        | cons c rest => simp
      rw [if_pos hpos]
      have hnone : g'[n']? = none := by
        rw [List.getElem?_eq_none]
        omega
      rw [hnone]

/-- Witness for C29: the text `7//9`. -/
theorem tokenizeGroup_pads_to_three_witness :
    ("7//9").toList.count '/' ≤ 2 ∧
    tokenizeGroup ("7//9").toList = .ok [("7").toList, [], ("9").toList] :=
  ⟨by decide, (tokenizeGroup_pads_to_three ("7//9").toList).1 (by decide)⟩

/-! ## The corners that the two triangles of a quad share (C26) -/

/-- C26, evaluated on the quad `f 1/5/1 2/6/1 3/7/1 4/8/1`: corner 0 of the first triangle
stores the indices 1, 5, 1 of the first group, and corner 0 of the second triangle, set from the
same group, stores 1, 1, 1: its texture-coordinate index is converted under `length() > 1`
where the first triangle has `length() > 0`.  Corner 2 of the first triangle and corner 1 of the
second triangle store the same three indices. -/
theorem quad_corner_0_texture_index_differs :
    (recordLine (fun _ => (0 : ℚ)) (RecordState.allocate ⟨0, 0, 2, 0⟩)
        ("f 1/5/1 2/6/1 3/7/1 4/8/1").toList).map
      (fun st => st.triangles.map (fun t =>
        (t.vertexIndices.get 0, t.textureCoordinateIndices.get 0, t.normalIndices.get 0)))
      = .ok [(1, 5, 1), (1, 1, 1)] ∧
    (recordLine (fun _ => (0 : ℚ)) (RecordState.allocate ⟨0, 0, 2, 0⟩)
        ("f 1/5/1 2/6/1 3/7/1 4/8/1").toList).map
      (fun st => (st.triangles[0]?.map (fun t =>
          (t.vertexIndices.get 2, t.textureCoordinateIndices.get 2, t.normalIndices.get 2)),
        st.triangles[1]?.map (fun t =>
          (t.vertexIndices.get 1, t.textureCoordinateIndices.get 1, t.normalIndices.get 1))))
      = .ok (some (3, 1, 1), some (3, 1, 1)) := by
  decide

/-! ## Index 0 never occurs, and the sub-fields that convert to 0 (C23) -/

section IndexZero

variable {α : Type} [LinearOrderedField α]

omit [LinearOrderedField α] in
theorem SetVertexIndex_eq_ok {t t' : ObjTriangle α} {k index : Nat}
    (h : t.SetVertexIndex k index = .ok t') :
    k < 3 ∧ 0 < index ∧ t' = { t with vertexIndices := t.vertexIndices.set k index } := by
  unfold ObjTriangle.SetVertexIndex at h
  split at h
  · cases h
  · split at h
    · cases h
    · cases h
      exact ⟨by omega, by omega, rfl⟩

omit [LinearOrderedField α] in
theorem SetNormalIndex_eq_ok {t t' : ObjTriangle α} {k index : Nat}
    (h : t.SetNormalIndex k index = .ok t') :
    k < 3 ∧ 0 < index ∧ t' = { t with normalIndices := t.normalIndices.set k index } := by
  unfold ObjTriangle.SetNormalIndex at h
  split at h
  · cases h
  · split at h
    · cases h
    · cases h
      exact ⟨by omega, by omega, rfl⟩

omit [LinearOrderedField α] in
theorem SetTextureCoordinateIndex_eq_ok {t t' : ObjTriangle α} {k index : Nat}
    (h : t.SetTextureCoordinateIndex k index = .ok t') :
    k < 3 ∧ 0 < index ∧
      t' = { t with textureCoordinateIndices := t.textureCoordinateIndices.set k index } := by
  unfold ObjTriangle.SetTextureCoordinateIndex at h
  split at h
  · cases h
  · split at h
    · cases h
    · cases h
      exact ⟨by omega, by omega, rfl⟩

omit [LinearOrderedField α] in
theorem nine_setters_positive (t : ObjTriangle α) (a b c d e f g h i : Nat)
    (ha : 0 < a) (hb : 0 < b) (hc : 0 < c) (hd : 0 < d) (he : 0 < e) (hf : 0 < f)
    (hg : 0 < g) (hh : 0 < h) (hi : 0 < i) :
    ({ t with
      vertexIndices := ((t.vertexIndices.set 0 a).set 1 b).set 2 c
      textureCoordinateIndices := ((t.textureCoordinateIndices.set 0 d).set 1 e).set 2 f
      normalIndices := ((t.normalIndices.set 0 g).set 1 h).set 2 i } :
      ObjTriangle α).IndicesPositive := by
  intro k hk
  have hk3 : k = 0 ∨ k = 1 ∨ k = 2 := by omega
  rcases hk3 with rfl | rfl | rfl <;> simp only [Array3.get, Array3.set] <;> omega

omit [LinearOrderedField α] in
theorem firstTriangle_positive {p1 p2 p3 : List Str} {t t' : ObjTriangle α}
    (h : firstTriangle p1 p2 p3 t = .ok t') : t'.IndicesPositive := by
  unfold firstTriangle at h
  obtain ⟨_, _, h⟩ := bind_eq_ok h
  obtain ⟨t1, h1, h⟩ := bind_eq_ok h
  obtain ⟨_, _, h⟩ := bind_eq_ok h
  obtain ⟨t2, h2, h⟩ := bind_eq_ok h
  obtain ⟨_, _, h⟩ := bind_eq_ok h
  obtain ⟨t3, h3, h⟩ := bind_eq_ok h
  obtain ⟨_, _, h⟩ := bind_eq_ok h
  obtain ⟨t4, h4, h⟩ := bind_eq_ok h
  obtain ⟨_, _, h⟩ := bind_eq_ok h
  obtain ⟨t5, h5, h⟩ := bind_eq_ok h
  obtain ⟨_, _, h⟩ := bind_eq_ok h
  obtain ⟨t6, h6, h⟩ := bind_eq_ok h
  obtain ⟨_, _, h⟩ := bind_eq_ok h
  obtain ⟨t7, h7, h⟩ := bind_eq_ok h
  obtain ⟨_, _, h⟩ := bind_eq_ok h
  obtain ⟨t8, h8, h⟩ := bind_eq_ok h
  obtain ⟨_, _, h⟩ := bind_eq_ok h
  obtain ⟨t9, h9, h⟩ := bind_eq_ok h
  cases h
  obtain ⟨_, q1, rfl⟩ := SetVertexIndex_eq_ok h1
  obtain ⟨_, q2, rfl⟩ := SetVertexIndex_eq_ok h2
  obtain ⟨_, q3, rfl⟩ := SetVertexIndex_eq_ok h3
  obtain ⟨_, q4, rfl⟩ := SetTextureCoordinateIndex_eq_ok h4
  obtain ⟨_, q5, rfl⟩ := SetTextureCoordinateIndex_eq_ok h5
  obtain ⟨_, q6, rfl⟩ := SetTextureCoordinateIndex_eq_ok h6
  obtain ⟨_, q7, rfl⟩ := SetNormalIndex_eq_ok h7
  obtain ⟨_, q8, rfl⟩ := SetNormalIndex_eq_ok h8
  obtain ⟨_, q9, rfl⟩ := SetNormalIndex_eq_ok h9
  exact nine_setters_positive t _ _ _ _ _ _ _ _ _ q1 q2 q3 q4 q5 q6 q7 q8 q9

omit [LinearOrderedField α] in
theorem secondTriangle_positive {p1 p3 p4 : List Str} {t t' : ObjTriangle α}
    (h : secondTriangle p1 p3 p4 t = .ok t') : t'.IndicesPositive := by
  unfold secondTriangle at h
  obtain ⟨_, _, h⟩ := bind_eq_ok h
  obtain ⟨t1, h1, h⟩ := bind_eq_ok h
  obtain ⟨_, _, h⟩ := bind_eq_ok h
  obtain ⟨t2, h2, h⟩ := bind_eq_ok h
  obtain ⟨_, _, h⟩ := bind_eq_ok h
  obtain ⟨t3, h3, h⟩ := bind_eq_ok h
  obtain ⟨_, _, h⟩ := bind_eq_ok h
  obtain ⟨t4, h4, h⟩ := bind_eq_ok h
  obtain ⟨_, _, h⟩ := bind_eq_ok h
  obtain ⟨t5, h5, h⟩ := bind_eq_ok h
  obtain ⟨_, _, h⟩ := bind_eq_ok h
  obtain ⟨t6, h6, h⟩ := bind_eq_ok h
  obtain ⟨_, _, h⟩ := bind_eq_ok h
  obtain ⟨t7, h7, h⟩ := bind_eq_ok h
  obtain ⟨_, _, h⟩ := bind_eq_ok h
  obtain ⟨t8, h8, h⟩ := bind_eq_ok h
  obtain ⟨_, _, h⟩ := bind_eq_ok h
  obtain ⟨t9, h9, h⟩ := bind_eq_ok h
  cases h
  obtain ⟨_, q1, rfl⟩ := SetVertexIndex_eq_ok h1
  obtain ⟨_, q2, rfl⟩ := SetVertexIndex_eq_ok h2
  obtain ⟨_, q3, rfl⟩ := SetVertexIndex_eq_ok h3
  obtain ⟨_, q4, rfl⟩ := SetTextureCoordinateIndex_eq_ok h4
  obtain ⟨_, q5, rfl⟩ := SetTextureCoordinateIndex_eq_ok h5
  obtain ⟨_, q6, rfl⟩ := SetTextureCoordinateIndex_eq_ok h6
  obtain ⟨_, q7, rfl⟩ := SetNormalIndex_eq_ok h7
  obtain ⟨_, q8, rfl⟩ := SetNormalIndex_eq_ok h8
  obtain ⟨_, q9, rfl⟩ := SetNormalIndex_eq_ok h9
  exact nine_setters_positive t _ _ _ _ _ _ _ _ _ q1 q2 q3 q4 q5 q6 q7 q8 q9

omit [LinearOrderedField α] in
theorem written_set {triangles : List (ObjTriangle α)} {n : Nat} {y : ObjTriangle α}
    (hw : ∀ j t, triangles[j]? = some t → j < n → t.IndicesPositive) (hy : y.IndicesPositive) :
    ∀ j t, (triangles.set n y)[j]? = some t → j < n + 1 → t.IndicesPositive := by
  intro j t ht hj
  by_cases hjn : n = j
  · subst hjn
    have hmem := List.getElem?_mem ht
    rcases List.mem_or_eq_of_mem_set hmem with hm | rfl
    · by_cases hlt : n < triangles.length
      · rw [List.getElem?_set_self hlt] at ht
        cases ht
        exact hy
      · rw [List.getElem?_eq_none (by simpa using hlt)] at ht
        cases ht
    · exact hy
  · rw [List.getElem?_set_ne hjn] at ht
    exact hw j t ht (by omega)

omit [LinearOrderedField α] in
/-- A face line that is recorded writes all nine indices of one or two triangles at the cursor,
each index positive, and advances the cursor past them. -/
theorem recordFace_written {buffer : Str} {st st' : RecordState α}
    (h : recordFace buffer st = .ok st')
    (hw : ∀ j t, st.triangles[j]? = some t → j < st.triangle → t.IndicesPositive) :
    (∀ j t, st'.triangles[j]? = some t → j < st'.triangle → t.IndicesPositive) ∧
    st'.triangles.length = st.triangles.length ∧
    st'.triangle = st.triangle + (if (SplitString buffer ' ').length > 4 then 2 else 1) := by
  unfold recordFace at h
  simp only at h
  obtain ⟨_, _, h⟩ := bind_eq_ok h
  obtain ⟨p1, _, h⟩ := bind_eq_ok h
  obtain ⟨_, _, h⟩ := bind_eq_ok h
  obtain ⟨p2, _, h⟩ := bind_eq_ok h
  obtain ⟨_, _, h⟩ := bind_eq_ok h
  obtain ⟨p3, _, h⟩ := bind_eq_ok h
  obtain ⟨ts1, h1, h⟩ := bind_eq_ok h
  obtain ⟨x, y, hx, hy, rfl⟩ := modifyAt_eq_ok h1
  have hw1 := written_set hw (firstTriangle_positive hy)
  split at h
  · rename_i hlen
    obtain ⟨_, _, h⟩ := bind_eq_ok h
    obtain ⟨p4, _, h⟩ := bind_eq_ok h
    obtain ⟨ts2, h2, h⟩ := bind_eq_ok h
    obtain ⟨x2, y2, hx2, hy2, rfl⟩ := modifyAt_eq_ok h2
    cases h
    refine ⟨written_set hw1 (secondTriangle_positive hy2), by simp, ?_⟩
    simp only
    rw [if_pos hlen]
  · rename_i hlen
    cases h
    refine ⟨hw1, by simp, ?_⟩
    simp only
    rw [if_neg hlen]

omit [LinearOrderedField α] in
theorem recordLine_written {atof : Str → α} {buffer : Str} {st st' : RecordState α}
    (h : recordLine atof st buffer = .ok st')
    (hw : ∀ j t, st.triangles[j]? = some t → j < st.triangle → t.IndicesPositive) :
    (∀ j t, st'.triangles[j]? = some t → j < st'.triangle → t.IndicesPositive) ∧
    st'.triangles.length = st.triangles.length ∧
    ∀ c : Tally, c.numberOfTriangles = st.triangle →
      (countLine c buffer).numberOfTriangles = st'.triangle := by
  unfold recordLine at h
  unfold countLine
  split at h
  · rename_i hvn
    simp only at h
    split at h
    · cases h
    · cases h
      exact ⟨hw, rfl, fun c hc => by rw [if_pos hvn]; exact hc⟩
  · rename_i hvn
    split at h
    · rename_i hvt
      simp only at h
      split at h
      · cases h
      · cases h
        exact ⟨hw, rfl, fun c hc => by rw [if_neg hvn, if_pos hvt]; exact hc⟩
    · rename_i hvt
      split at h
      · rename_i hv
        simp only at h
        split at h
        · cases h
        · cases h
          exact ⟨hw, rfl, fun c hc => by rw [if_neg hvn, if_neg hvt, if_pos hv]; exact hc⟩
      · rename_i hv
        split at h
        · rename_i hf
          obtain ⟨h1, h2, h3⟩ := recordFace_written h hw
          refine ⟨h1, h2, fun c hc => ?_⟩
          rw [if_neg hvn, if_neg hvt, if_neg hv, if_pos hf, h3]
          simp only
          split <;> simp only [hc]
        · rename_i hf
          cases h
          exact ⟨hw, rfl, fun c hc => by
            rw [if_neg hvn, if_neg hvt, if_neg hv, if_neg hf]; exact hc⟩

omit [LinearOrderedField α] in
theorem recordPass_written {atof : Str → α} {lines : List Str} {st st' : RecordState α}
    (h : recordPass atof lines st = .ok st')
    (hw : ∀ j t, st.triangles[j]? = some t → j < st.triangle → t.IndicesPositive) :
    (∀ j t, st'.triangles[j]? = some t → j < st'.triangle → t.IndicesPositive) ∧
    st'.triangles.length = st.triangles.length ∧
    ∀ c : Tally, c.numberOfTriangles = st.triangle →
      (lines.foldl countLine c).numberOfTriangles = st'.triangle := by
  induction lines generalizing st with
  | nil =>
    unfold recordPass at h
    cases h
    exact ⟨hw, rfl, fun c hc => hc⟩
  | cons buffer rest ih =>
    unfold recordPass at h
    split at h
    · cases h
    · rename_i st1 h1
      obtain ⟨w1, l1, c1⟩ := recordLine_written h1 hw
      obtain ⟨w2, l2, c2⟩ := ih h w1
      exact ⟨w2, l2.trans l1, fun c hc => by
        rw [List.foldl_cons]; exact c2 _ (c1 c hc)⟩

/-- After a record pass that runs to its end on the tables allocated from the counting pass,
every triangle of the table has been written, with all its nine indices positive. -/
theorem recordPass_indices_positive {atof : Str → α} {lines : List Str} {st : RecordState α}
    (h : recordPass atof lines (RecordState.allocate (countingPass lines)) = .ok st) :
    ∀ t ∈ st.triangles, t.IndicesPositive := by
  obtain ⟨hw, hl, hc⟩ := recordPass_written h (fun j t _ hj => by
    simp [RecordState.allocate] at hj)
  have hcount := hc ⟨0, 0, 0, 0⟩ rfl
  intro t ht
  obtain ⟨j, hj, hjt⟩ := List.getElem_of_mem ht
  refine hw j t (by rw [List.getElem?_eq_getElem hj, hjt]) ?_
  rw [← hcount]
  have : st.triangles.length = (countingPass lines).numberOfTriangles := by
    rw [hl]
    simp [RecordState.allocate]
  unfold countingPass at this
  omega

/-- The invariant that no index is 0.  After a record pass that runs to its end without an
assertion failure, on any input, every corner of every triangle of the triangle table has a
vertex index, a texture-coordinate index and a normal index of at least 1; and the three setters
given the index 0, the value to which for example the texts `0` and `x` convert, stop at their
assertion and store nothing. -/
theorem index_zero_never_occurs (atof : Str → α) (lines : List Str) (st : RecordState α)
    (h : recordPass atof lines (RecordState.allocate (countingPass lines)) = .ok st) :
    (∀ t ∈ st.triangles, ∀ k, k < 3 →
      1 ≤ t.vertexIndices.get k ∧ 1 ≤ t.textureCoordinateIndices.get k ∧
        1 ≤ t.normalIndices.get k) ∧
    (∀ (t : ObjTriangle α) (k : Nat), k < 3 →
      t.SetVertexIndex k 0 = .error .indexPositive ∧
      t.SetTextureCoordinateIndex k 0 = .error .indexPositive ∧
      t.SetNormalIndex k 0 = .error .indexPositive) ∧
    indexArgument 0 ['0'] = .ok 0 ∧ indexArgument 0 ['x'] = .ok 0 := by
  refine ⟨fun t ht => recordPass_indices_positive h t ht, ?_, by decide, by decide⟩
  intro t k hk
  simp [ObjTriangle.SetVertexIndex, ObjTriangle.SetTextureCoordinateIndex,
    ObjTriangle.SetNormalIndex, hk]

/-- The invariant that no index is 0, on the file of one vertex and one face. -/
theorem index_zero_never_occurs_witness :
    ∃ st, recordPass (fun _ => (0 : ℚ)) pointFile
        (RecordState.allocate (countingPass pointFile)) = .ok st ∧
      ∀ t ∈ st.triangles, ∀ k, k < 3 →
        1 ≤ t.vertexIndices.get k ∧ 1 ≤ t.textureCoordinateIndices.get k ∧
          1 ≤ t.normalIndices.get k :=
  ⟨_, by rw [pointFile_count]; exact pointFile_record,
    (index_zero_never_occurs (fun _ => (0 : ℚ)) pointFile _
      (by rw [pointFile_count]; exact pointFile_record)).1⟩

/-- C23. The texts `0` and `x` convert to 0, and yet the face lines `f 1 2/0 3` and `f 1 2/x 3`,
which have such a text as the texture sub-field of their second corner, are recorded without a
failure of `SetTextureCoordinateIndex`: the sub-field is shorter than the two characters that
`length() > 1` asks for, it is not converted, and the corner stores the default 1.  The same text
where the sub-field is tested with `length() > 0` stops at `assert(index > 0)` of the setter: as
the texture sub-field of the first corner (`f 1/0 2 3`), as a normal sub-field (`f 1 2//0 3`) and
as a vertex sub-field (`f 1 0 3`); and so does the two-character texture sub-field `00` of the
second corner (`f 1 2/00 3`). -/
theorem zero_texture_field_is_not_converted :
    atoi ['0'] = .ok 0 ∧ atoi ['x'] = .ok 0 ∧
    (recordLine (fun _ => (0 : ℚ)) (RecordState.allocate ⟨0, 0, 1, 3⟩)
        ("f 1 2/0 3").toList).map
      (fun st => st.triangles.map ObjTriangle.textureCoordinateIndices) = .ok [⟨1, 1, 1⟩] ∧
    (recordLine (fun _ => (0 : ℚ)) (RecordState.allocate ⟨0, 0, 1, 3⟩)
        ("f 1 2/x 3").toList).map
      (fun st => st.triangles.map ObjTriangle.textureCoordinateIndices) = .ok [⟨1, 1, 1⟩] ∧
    recordLine (fun _ => (0 : ℚ)) (RecordState.allocate ⟨0, 0, 1, 3⟩) ("f 1/0 2 3").toList
      = .error .indexPositive ∧
    recordLine (fun _ => (0 : ℚ)) (RecordState.allocate ⟨0, 0, 1, 3⟩) ("f 1 2//0 3").toList
      = .error .indexPositive ∧
    recordLine (fun _ => (0 : ℚ)) (RecordState.allocate ⟨0, 0, 1, 3⟩) ("f 1 0 3").toList
      = .error .indexPositive ∧
    recordLine (fun _ => (0 : ℚ)) (RecordState.allocate ⟨0, 0, 1, 3⟩) ("f 1 2/00 3").toList
      = .error .indexPositive := by
  decide

end IndexZero

/-! ## The frame of the depth write (C28) -/

section DepthWrite

variable {α : Type} [LinearOrderedField α]

omit [LinearOrderedField α] in
theorem VertexBuffer_Set_ok (vb : VertexBuffer α) (index : Nat) (value : α)
    (h : index < vb.size) :
    vb.Set index value = .ok { vb with rawStorage := vb.rawStorage.set index value } := by
  unfold VertexBuffer.Set
  rw [if_neg (not_not.2 h)]

omit [LinearOrderedField α] in
theorem writeDepthCorner_exact (self : TriangleMeshInternalDepth α) (ti : Nat)
    (t : ObjTriangle α) (vb : VertexBuffer α) (v : Nat) (hv : v < 3) (hw : vb.WellSized)
    (hroom : ti * 24 + v * 8 + 3 < vb.size) (hin : IndicesWithin self.distances.length t) :
    ∃ vb' d, writeDepthCorner self 8 ti t vb v = .ok vb' ∧
      self.distances[t.vertexIndices.get v - 1]? = some d ∧
      vb'.WellSized ∧ vb'.size = vb.size ∧ vb'.format = vb.format ∧
      vb'.rawStorage[ti * 24 + v * 8 + 3]? = some d ∧
      ∀ off, off ≠ ti * 24 + v * 8 + 3 → vb'.rawStorage[off]? = vb.rawStorage[off]? := by
  obtain ⟨hpos, hle⟩ := hin v hv
  have hlt : t.vertexIndices.get v - 1 < self.distances.length := by omega
  have hd : self.distances[t.vertexIndices.get v - 1]? =
      some self.distances[t.vertexIndices.get v - 1] := List.getElem?_eq_getElem hlt
  have hoffset : ti * 8 * 3 + 8 * v + 3 = ti * 24 + v * 8 + 3 := by omega
  have hcall : writeDepthCorner self 8 ti t vb v =
      vb.Set (ti * 24 + v * 8 + 3) self.distances[t.vertexIndices.get v - 1] := by
    unfold writeDepthCorner
    rw [GetVertexIndex_eq_ok.2 ⟨hv, hpos, rfl⟩]
    simp only [ok_bind, decrement_pos hpos, elementAt_eq_ok.2 hd, hoffset]
  rw [hcall, VertexBuffer_Set_ok vb _ _ hroom]
  obtain ⟨w, z, f, r, q⟩ := VertexBuffer_Set_spec (VertexBuffer_Set_ok vb _
    self.distances[t.vertexIndices.get v - 1] hroom) hw
  exact ⟨_, _, rfl, hd, w, z, f, r, q⟩

omit [LinearOrderedField α] in
/-- The loop of `WriteDepthAsTextureCoordinates` on a buffer of stride 8 with room for the
triangles: it runs to its end, writes the depth of the vertex of each corner to the fourth
float of the corner, and changes no other float. -/
theorem writeDepthLoop_exact (self : TriangleMeshInternalDepth α)
    (triangles : List (ObjTriangle α)) (ti : Nat) (vb : VertexBuffer α) (hw : vb.WellSized)
    (hroom : (ti + triangles.length) * 24 ≤ vb.size)
    (hin : ∀ t ∈ triangles, IndicesWithin self.distances.length t) :
    ∃ vb', writeDepthLoop self 8 triangles ti vb = .ok vb' ∧
      vb'.WellSized ∧ vb'.size = vb.size ∧ vb'.format = vb.format ∧
      (∀ off, (∀ j v, j < triangles.length → v < 3 → off ≠ (ti + j) * 24 + v * 8 + 3) →
        vb'.rawStorage[off]? = vb.rawStorage[off]?) ∧
      ∀ j t, triangles[j]? = some t → ∀ v, v < 3 →
        ∃ d, self.distances[t.vertexIndices.get v - 1]? = some d ∧
          vb'.rawStorage[(ti + j) * 24 + v * 8 + 3]? = some d := by
  induction triangles generalizing ti vb with
  | nil =>
    refine ⟨vb, rfl, hw, rfl, rfl, fun _ _ => rfl, ?_⟩
    intro j t ht
    simp at ht
  | cons t rest ih =>
    have hlen : (t :: rest).length = rest.length + 1 := rfl
    rw [hlen] at hroom
    have hint := hin t (by simp)
    obtain ⟨vb1, d0, h1, e0, w1, z1, f1, r0, q1⟩ :=
      writeDepthCorner_exact self ti t vb 0 (by omega) hw (by omega) hint
    obtain ⟨vb2, d1, h2, e1, w2, z2, f2, r1, q2⟩ :=
      writeDepthCorner_exact self ti t vb1 1 (by omega) w1 (by omega) hint
    obtain ⟨vb3, d2, h3, e2, w3, z3, f3, r2, q3⟩ :=
      writeDepthCorner_exact self ti t vb2 2 (by omega) w2 (by omega) hint
    obtain ⟨vb4, h4, w4, z4, f4, q4, hrest⟩ := ih (ti + 1) vb3 w3 (by omega)
      (fun s hs => hin s (by simp [hs]))
    refine ⟨vb4, ?_, w4, by omega, by rw [f4, f3, f2, f1], ?_, ?_⟩
    · unfold writeDepthLoop
      simp only [h1, h2, h3, ok_bind]
      exact h4
    · intro off hoff
      have o0 := hoff 0 0 (by simp) (by omega)
      have o1 := hoff 0 1 (by simp) (by omega)
      have o2 := hoff 0 2 (by simp) (by omega)
      rw [q4 off (fun j v hj hv => by
          have := hoff (j + 1) v (by simp; omega) hv
          omega),
        q3 off (by omega), q2 off (by omega), q1 off (by omega)]
    · intro j s hs v hv
      cases j with
      | zero =>
        simp only [List.getElem?_cons_zero, Option.some.injEq] at hs
        subst hs
        have hv3 : v = 0 ∨ v = 1 ∨ v = 2 := by omega
        rcases hv3 with rfl | rfl | rfl
        · refine ⟨d0, e0, ?_⟩
          rw [q4 _ (fun j v hj hv => by omega), q3 _ (by omega), q2 _ (by omega)]
          exact r0
        · refine ⟨d1, e1, ?_⟩
          rw [q4 _ (fun j v hj hv => by omega), q3 _ (by omega)]
          exact r1
        · refine ⟨d2, e2, ?_⟩
          rw [q4 _ (fun j v hj hv => by omega)]
          exact r2
      | succ j =>
        simp only [List.getElem?_cons_succ] at hs
        obtain ⟨d, e, r⟩ := hrest j s hs v hv
        have hij : ti + 1 + j = ti + (j + 1) := by omega
        rw [hij] at r
        exact ⟨d, e, r⟩

omit [LinearOrderedField α] in
/-- C28. For a vertex buffer of the format `Vertex3Texture2Normal3` that holds 24 floats for
each triangle, a depth table that is not empty and triangles with their vertex indices within
it, `WriteDepthAsTextureCoordinates` runs to its end; every offset `24 t + 8 v + 3` of a corner
is within the buffer and afterwards holds the depth of the vertex of that corner; and every
float at another offset, the positions at `+0..2`, the texture `v` at `+4` and the normals at
`+5..7` among them, is as before. -/
theorem depth_write_changes_only_the_u_slots (self : TriangleMeshInternalDepth α)
    (vb : VertexBuffer α) (triangles : List (ObjTriangle α))
    (hformat : vb.format = .Vertex3Texture2Normal3) (hw : vb.WellSized)
    (hsize : vb.size = 24 * triangles.length) (hdepth : 0 < self.distances.length)
    (hin : ∀ t ∈ triangles, IndicesWithin self.distances.length t) :
    ∃ vb', self.WriteDepthAsTextureCoordinates vb triangles = .ok vb' ∧
      vb'.size = vb.size ∧ vb'.rawStorage.length = vb.rawStorage.length ∧
      (∀ t tri, triangles[t]? = some tri → ∀ v, v < 3 →
        24 * t + 8 * v + 3 < vb.size ∧
        ∃ d, self.GetVertexInternalDistance (tri.vertexIndices.get v - 1) = .ok d ∧
          vb'.rawStorage[24 * t + 8 * v + 3]? = some d) ∧
      ∀ off, (∀ t v, t < triangles.length → v < 3 → off ≠ 24 * t + 8 * v + 3) →
        vb'.rawStorage[off]? = vb.rawStorage[off]? := by
  obtain ⟨vb', h, w, z, _, q, hd⟩ := writeDepthLoop_exact self triangles 0 vb hw (by omega) hin
  have hstride : vb.GetVertexStride = 8 := by
    unfold VertexBuffer.GetVertexStride
    rw [hformat]
  refine ⟨vb', ?_, z, ?_, ?_, ?_⟩
  · unfold TriangleMeshInternalDepth.WriteDepthAsTextureCoordinates
    rw [if_neg (not_not.2 hdepth), hstride]
    exact h
  · unfold VertexBuffer.WellSized at w hw
    omega
  · intro t tri ht v hv
    have hlt : t < triangles.length := (List.getElem?_eq_some_iff.1 ht).1
    obtain ⟨d, e, r⟩ := hd t tri ht v hv
    have hoff : (0 + t) * 24 + v * 8 + 3 = 24 * t + 8 * v + 3 := by omega
    rw [hoff] at r
    exact ⟨by omega, d, elementAt_eq_ok.2 e, r⟩
  · intro off hoff
    exact q off (fun j v hj hv => by
      have := hoff j v hj hv
      omega)

/-- Witness for C28: one triangle over three vertices in a buffer of 24 floats. -/
theorem depth_write_changes_only_the_u_slots_witness :
    ∃ vb', (⟨[5, 6, 7]⟩ : TriangleMeshInternalDepth ℚ).WriteDepthAsTextureCoordinates
        ⟨.Vertex3Texture2Normal3, List.replicate 24 0, 24, 1⟩
        [⟨⟨1, 2, 3⟩, ⟨1, 1, 1⟩, ⟨1, 1, 1⟩, false, ⟨0, 0, 0⟩⟩] = .ok vb' ∧
      vb'.size = 24 :=
  (depth_write_changes_only_the_u_slots (⟨[5, 6, 7]⟩ : TriangleMeshInternalDepth ℚ)
    ⟨.Vertex3Texture2Normal3, List.replicate 24 0, 24, 1⟩
    [⟨⟨1, 2, 3⟩, ⟨1, 1, 1⟩, ⟨1, 1, 1⟩, false, ⟨0, 0, 0⟩⟩] rfl
    (by simp [VertexBuffer.WellSized]) rfl (by decide) (by decide)).imp
    (fun _ h => ⟨h.1, h.2.1⟩)

end DepthWrite

/-! ## The index buffer (C21, C22) -/

section IndexBufferLemmas

variable {α : Type} [LinearOrderedField α]

theorem IndexBuffer_Set_spec {ib ib' : IndexBuffer} {index value : Nat}
    (h : ib.Set index value = .ok ib') (hw : ib.WellSized) :
    ib'.WellSized ∧ ib'.size = ib.size ∧
    ib'.rawStorage[index]? = some (toIndexType value) ∧
    ∀ off, off ≠ index → ib'.rawStorage[off]? = ib.rawStorage[off]? := by
  unfold IndexBuffer.Set at h
  split at h
  · cases h
  · rename_i hlt
    cases h
    unfold IndexBuffer.WellSized at hw ⊢
    refine ⟨by simp [hw], rfl, ?_, ?_⟩
    · exact List.getElem?_set_self (by omega)
    · intro off hoff
      exact List.getElem?_set_ne (fun h => hoff h.symm)

theorem IndexBuffer_new_eq_ok {size : Nat} {ib : IndexBuffer}
    (h : IndexBuffer.new size = .ok ib) : ib.WellSized ∧ ib.size = size := by
  unfold IndexBuffer.new at h
  split at h
  · cases h
  · cases h
    exact ⟨by simp [IndexBuffer.WellSized], rfl⟩

/-- What the packing loop leaves in the index buffer: for every triangle it passes, the three
entries of the triangle hold its vertex indices less 1, converted to `IndexType`. -/
theorem packLoop_indices (vertices : List (ObjVertex α)) (normals : List (ObjNormal α))
    (textureCoordinates : List (ObjTextureCoordinate α)) (triangles : List (ObjTriangle α))
    (i : Nat) (vb vb' : VertexBuffer α) (ib ib' : IndexBuffer) (hw : ib.WellSized)
    (h : packLoop vertices normals textureCoordinates triangles i vb ib = .ok (vb', ib')) :
    ib'.WellSized ∧ ib'.size = ib.size ∧
    (∀ off, off < i * 3 → ib'.rawStorage[off]? = ib.rawStorage[off]?) ∧
    ∀ j t, triangles[j]? = some t → ∀ v, v < 3 →
      ∃ idx, t.GetVertexIndex v = .ok idx ∧
        ib'.rawStorage[(i + j) * 3 + v]? = some (toIndexType (decrement idx)) := by
  induction triangles generalizing i vb ib with
  | nil =>
    unfold packLoop at h
    cases h
    refine ⟨hw, rfl, fun _ _ => rfl, ?_⟩
    intro j t ht
    simp at ht
  | cons t rest ih =>
    unfold packLoop at h
    obtain ⟨vb1, _, h⟩ := bind_eq_ok h
    obtain ⟨vb2, _, h⟩ := bind_eq_ok h
    obtain ⟨vb3, _, h⟩ := bind_eq_ok h
    obtain ⟨i0, g0, h⟩ := bind_eq_ok h
    obtain ⟨ib1, s0, h⟩ := bind_eq_ok h
    obtain ⟨i1, g1, h⟩ := bind_eq_ok h
    obtain ⟨ib2, s1, h⟩ := bind_eq_ok h
    obtain ⟨i2, g2, h⟩ := bind_eq_ok h
    obtain ⟨ib3, s2, h⟩ := bind_eq_ok h
    obtain ⟨w1, z1, r0, q1⟩ := IndexBuffer_Set_spec s0 hw
    obtain ⟨w2, z2, r1, q2⟩ := IndexBuffer_Set_spec s1 w1
    obtain ⟨w3, z3, r2, q3⟩ := IndexBuffer_Set_spec s2 w2
    obtain ⟨w4, z4, q4, hrest⟩ := ih (i + 1) vb3 ib3 w3 h
    refine ⟨w4, by omega, ?_, ?_⟩
    · intro off hoff
      rw [q4 off (by omega), q3 off (by omega), q2 off (by omega), q1 off (by omega)]
    · intro j s hs v hv
      cases j with
      | zero =>
        simp only [List.getElem?_cons_zero, Option.some.injEq] at hs
        subst hs
        have hv3 : v = 0 ∨ v = 1 ∨ v = 2 := by omega
        rcases hv3 with rfl | rfl | rfl
        · refine ⟨i0, g0, ?_⟩
          rw [q4 _ (by omega), q3 _ (by omega), q2 _ (by omega)]
          exact r0
        · refine ⟨i1, g1, ?_⟩
          rw [q4 _ (by omega), q3 _ (by omega)]
          exact r1
        · refine ⟨i2, g2, ?_⟩
          rw [q4 _ (by omega)]
          exact r2
      | succ j =>
        simp only [List.getElem?_cons_succ] at hs
        obtain ⟨idx, g, r⟩ := hrest j s hs v hv
        have hij : i + 1 + j = i + (j + 1) := by omega
        rw [hij] at r
        exact ⟨idx, g, r⟩

omit [LinearOrderedField α] in
theorem writeDepthLoop_spec_sized (self : TriangleMeshInternalDepth α) (vertexSize : Nat)
    (triangles : List (ObjTriangle α)) (ti : Nat) (vb vb' : VertexBuffer α) (hw : vb.WellSized)
    (h : writeDepthLoop self vertexSize triangles ti vb = .ok vb') : vb'.WellSized := by
  induction triangles generalizing ti vb with
  | nil =>
    unfold writeDepthLoop at h
    cases h
    exact hw
  | cons t rest ih =>
    have hcorner : ∀ (a b : VertexBuffer α) (v : Nat), a.WellSized →
        writeDepthCorner self vertexSize ti t a v = .ok b → b.WellSized := by
      intro a b v ha hc
      unfold writeDepthCorner at hc
      obtain ⟨_, _, hc⟩ := bind_eq_ok hc
      obtain ⟨_, _, hc⟩ := bind_eq_ok hc
      exact (VertexBuffer_Set_spec hc ha).1
    unfold writeDepthLoop at h
    obtain ⟨vb1, h1, h⟩ := bind_eq_ok h
    obtain ⟨vb2, h2, h⟩ := bind_eq_ok h
    obtain ⟨vb3, h3, h⟩ := bind_eq_ok h
    exact ih _ _ (hcorner _ _ _ (hcorner _ _ _ (hcorner _ _ _ hw h1) h2) h3) h

omit [LinearOrderedField α] in
theorem writeDepthLoop_size (self : TriangleMeshInternalDepth α) (vertexSize : Nat)
    (triangles : List (ObjTriangle α)) (ti : Nat) (vb vb' : VertexBuffer α)
    (h : writeDepthLoop self vertexSize triangles ti vb = .ok vb') : vb'.size = vb.size := by
  induction triangles generalizing ti vb with
  | nil =>
    unfold writeDepthLoop at h
    cases h
    rfl
  | cons t rest ih =>
    have hcorner : ∀ (a b : VertexBuffer α) (v : Nat),
        writeDepthCorner self vertexSize ti t a v = .ok b → b.size = a.size := by
      intro a b v hc
      unfold writeDepthCorner at hc
      obtain ⟨_, _, hc⟩ := bind_eq_ok hc
      obtain ⟨_, _, hc⟩ := bind_eq_ok hc
      obtain ⟨_, rfl⟩ := VertexBuffer_Set_eq_ok hc
      rfl
    unfold writeDepthLoop at h
    obtain ⟨vb1, h1, h⟩ := bind_eq_ok h
    obtain ⟨vb2, h2, h⟩ := bind_eq_ok h
    obtain ⟨vb3, h3, h⟩ := bind_eq_ok h
    rw [ih _ _ h, hcorner _ _ _ h3, hcorner _ _ _ h2, hcorner _ _ _ h1]

/-- The stages that a successful `LoadMesh` went through, the two constructors included. -/
theorem LoadMesh_all_stages (atof : Str → α) (sqrt : α → α) (lines : List Str)
    (g : MeshGeometry α) (h : LoadMesh atof sqrt (some lines) = .ok g) :
    ∃ st e vb0 ib0 rebuilt ts depth vb1 ib1 vb2,
      recordPass atof lines (RecordState.allocate (countingPass lines)) = .ok st ∧
      measureExtent (centerModel st.vertices) st.triangles = .ok e ∧
      VertexBuffer.new ((countingPass lines).numberOfTriangles * 3 * 8)
        .Vertex3Texture2Normal3 = .ok vb0 ∧
      IndexBuffer.new ((countingPass lines).numberOfTriangles * 3) = .ok ib0 ∧
      rebuildNormals sqrt (List.range (centerModel st.vertices).length)
        (centerModel st.vertices) st.triangles = .ok (rebuilt, ts) ∧
      (⟨[]⟩ : TriangleMeshInternalDepth α).Calculate sqrt ts
        (scaleVertices (uniformScale e) rebuilt) = .ok depth ∧
      packLoop (scaleVertices (uniformScale e) rebuilt) st.normals st.textureCoordinates ts 0
        vb0 ib0 = .ok (vb1, ib1) ∧
      depth.WriteDepthAsTextureCoordinates vb1 ts = .ok vb2 ∧
      g = ⟨some vb2, some ib1, some (uniformScale e), depth⟩ := by
  unfold LoadMesh at h
  simp only at h
  obtain ⟨st, hst, h⟩ := bind_eq_ok h
  obtain ⟨e, he, h⟩ := bind_eq_ok h
  obtain ⟨vb0, hvb, h⟩ := bind_eq_ok h
  obtain ⟨ib0, hib, h⟩ := bind_eq_ok h
  obtain ⟨⟨vs, ts⟩, hrb, h⟩ := bind_eq_ok h
  simp only at h
  obtain ⟨depth, hdepth, h⟩ := bind_eq_ok h
  obtain ⟨⟨vb1, ib1⟩, hpack, h⟩ := bind_eq_ok h
  simp only at h
  obtain ⟨vb2, hwd, h⟩ := bind_eq_ok h
  refine ⟨st, e, vb0, ib0, vs, ts, depth, vb1, ib1, vb2, hst, he, hvb, hib, hrb, hdepth, hpack,
    hwd, ?_⟩
  cases h
  rfl

theorem VertexBuffer_new_size {size : Nat} {format : VertexFormat} {vb : VertexBuffer α}
    (h : VertexBuffer.new size format = .ok vb) : vb.size = size := by
  unfold VertexBuffer.new at h
  split at h
  · cases h
  · cases h
    rfl

/-- The two buffers that a successful `LoadMesh` returns: their sizes, and the entries of the
index buffer. -/
theorem LoadMesh_buffers (atof : Str → α) (sqrt : α → α) (lines : List Str)
    (g : MeshGeometry α) (h : LoadMesh atof sqrt (some lines) = .ok g) :
    ∃ st vb ib, recordPass atof lines (RecordState.allocate (countingPass lines)) = .ok st ∧
      g.vertices = some vb ∧ g.indices = some ib ∧
      vb.size = (countingPass lines).numberOfTriangles * 3 * 8 ∧
      vb.rawStorage.length = (countingPass lines).numberOfTriangles * 3 * 8 ∧
      ib.size = (countingPass lines).numberOfTriangles * 3 ∧
      ib.rawStorage.length = (countingPass lines).numberOfTriangles * 3 ∧
      st.triangles.length = (countingPass lines).numberOfTriangles ∧
      ∀ i t, st.triangles[i]? = some t → ∀ v, v < 3 →
        0 < t.vertexIndices.get v ∧
        ib.rawStorage[3 * i + v]? = some ((t.vertexIndices.get v - 1) % 2 ^ 16) := by
  obtain ⟨st, e, vb0, ib0, rebuilt, ts, depth, vb1, ib1, vb2, hst, he, hvb, hib, hrb, hdepth,
    hpack, hwd, rfl⟩ := LoadMesh_all_stages atof sqrt lines g h
  obtain ⟨_, hidxmap⟩ := rebuildNormals_preserves sqrt _ _ _ _ _ hrb
  obtain ⟨hw0, _⟩ := VertexBuffer_new_eq_ok hvb
  have hz0 := VertexBuffer_new_size hvb
  obtain ⟨hiw0, hiz0⟩ := IndexBuffer_new_eq_ok hib
  obtain ⟨hw1, hz1, hf1, _, _⟩ := packLoop_spec _ _ _ _ _ _ _ _ _ hw0 hpack
  obtain ⟨hiw1, hiz1, _, hentries⟩ := packLoop_indices _ _ _ _ _ _ _ _ _ hiw0 hpack
  unfold TriangleMeshInternalDepth.WriteDepthAsTextureCoordinates at hwd
  split at hwd
  · cases hwd
  have hw2 := (writeDepthLoop_spec_sized depth vb1.GetVertexStride ts 0 vb1 vb2 hw1 hwd)
  have hz2 := writeDepthLoop_size _ _ _ _ _ _ hwd
  have hlen := (recordPass_written hst (fun j t _ hj => by
    simp [RecordState.allocate] at hj)).2.1
  have hlen2 : st.triangles.length = (countingPass lines).numberOfTriangles := by
    rw [hlen]
    simp [RecordState.allocate]
  refine ⟨st, vb2, ib1, hst, rfl, rfl, by omega, ?_, by omega, ?_, hlen2, ?_⟩
  · unfold VertexBuffer.WellSized at hw2
    omega
  · unfold IndexBuffer.WellSized at hiw1
    omega
  · intro i t ht v hv
    obtain ⟨t', ht', hidx⟩ := getElem?_of_map_eq ObjTriangle.vertexIndices hidxmap ht
    obtain ⟨idx, hgi, hentry⟩ := hentries i t' ht' v hv
    obtain ⟨_, hpos, hget⟩ := GetVertexIndex_eq_ok.1 hgi
    rw [hidx] at hget
    subst hget
    refine ⟨hpos, ?_⟩
    have hoff : (0 + i) * 3 + v = 3 * i + v := by omega
    rw [hoff, decrement_pos hpos] at hentry
    exact hentry

theorem cornerFile_count : countingPass cornerFile = ⟨0, 0, 1, 4⟩ := by decide

theorem cornerFile_record :
    recordPass (fun _ => (0 : ℚ)) cornerFile (RecordState.allocate ⟨0, 0, 1, 4⟩)
      = .ok ⟨[⟨0, 0, 0, 0, 0, 0⟩, ⟨0, 0, 0, 0, 0, 0⟩, ⟨0, 0, 0, 0, 0, 0⟩, ⟨0, 0, 0, 0, 0, 0⟩],
          [⟨0, 0, 0⟩], [⟨0, 0⟩],
          [⟨⟨2, 3, 4⟩, ⟨1, 1, 1⟩, ⟨1, 1, 1⟩, false, ⟨0, 0, 0⟩⟩], 0, 0, 4, 1⟩ := by
  decide

theorem cornerFile_center :
    centerModel [(⟨0, 0, 0, 0, 0, 0⟩ : ObjVertex ℚ), ⟨0, 0, 0, 0, 0, 0⟩, ⟨0, 0, 0, 0, 0, 0⟩,
      ⟨0, 0, 0, 0, 0, 0⟩] =
    [⟨0, 0, 0, 0, 0, 0⟩, ⟨0, 0, 0, 0, 0, 0⟩, ⟨0, 0, 0, 0, 0, 0⟩, ⟨0, 0, 0, 0, 0, 0⟩] := by
  simp [centerModel]

theorem cornerFile_extent :
    measureExtent [(⟨0, 0, 0, 0, 0, 0⟩ : ObjVertex ℚ), ⟨0, 0, 0, 0, 0, 0⟩, ⟨0, 0, 0, 0, 0, 0⟩,
        ⟨0, 0, 0, 0, 0, 0⟩]
      [⟨⟨2, 3, 4⟩, ⟨1, 1, 1⟩, ⟨1, 1, 1⟩, false, ⟨0, 0, 0⟩⟩] = .ok ⟨FLT_MIN, FLT_MIN, FLT_MIN⟩ := by
  have h : (0 : ℚ) ≤ FLT_MIN := le_of_lt FLT_MIN_pos
  simp [measureExtent, measureExtent.loop, measureTriangle, measureCorner,
    ObjTriangle.GetVertexIndex, Array3.get, decrement, elementAt, bind, Except.bind, pure,
    Except.pure, h]

/-- The file of four vertices and one face is loaded without a fault. -/
theorem cornerFile_loads :
    ∃ g, LoadMesh (fun _ => (0 : ℚ)) (fun x => x) (some cornerFile) = .ok g := by
  unfold LoadMesh
  simp only [cornerFile_count, cornerFile_record, cornerFile_center, cornerFile_extent,
    pointFile_scale, bind, Except.bind]
  simp [VertexBuffer.new, IndexBuffer.new, rebuildNormals, List.range, List.range.loop,
    CalculateVertexNormal, CalculateVertexNormal.loop,
    usesVertex, ObjTriangle.GetFaceNormal, positionAt, modifyAt, cross, Vector3.sub, Vector3.add,
    Vector3.div, ObjTriangle.GetVertexIndex, Array3.get, decrement, elementAt,
    Vector3.normalize, Vector3.length, Vector3.zero, scaleVertices,
    TriangleMeshInternalDepth.Calculate,
    distancesLoop, minimumDepthLoop, cornerPositions, RayTriangleCollision, Vector3.dot,
    Vector3.mul, packLoop, packCorner, ObjTriangle.GetTextureCoordinateIndex,
    ObjTriangle.GetNormalIndex, VertexBuffer.Set, IndexBuffer.Set,
    TriangleMeshInternalDepth.WriteDepthAsTextureCoordinates, assertThat,
    writeDepthLoop, writeDepthCorner, VertexBuffer.GetVertexStride, toIndexType, bind,
    Except.bind, pure, Except.pure]

/-- C21. For every successfully loaded mesh, every triangle `i` and corner `v`, the entry
`3 i + v` of the index buffer is the vertex index of the corner less 1, reduced modulo 65536 by
the conversion to the 16-bit `IndexType`: it is the 0-based vertex index for a 1-based index of
at most 65536, and it is not for an index above 65536.  The assignment of 65536 to an entry
stores 0. -/
theorem index_entry_is_truncated_to_16_bits (atof : Str → α) (sqrt : α → α) (lines : List Str)
    (g : MeshGeometry α) (h : LoadMesh atof sqrt (some lines) = .ok g) :
    (∃ st ib, recordPass atof lines (RecordState.allocate (countingPass lines)) = .ok st ∧
      g.indices = some ib ∧
      ∀ i t, st.triangles[i]? = some t → ∀ v, v < 3 →
        ib.rawStorage[3 * i + v]? = some ((t.vertexIndices.get v - 1) % 65536) ∧
        (t.vertexIndices.get v ≤ 65536 →
          ib.rawStorage[3 * i + v]? = some (t.vertexIndices.get v - 1)) ∧
        (65536 < t.vertexIndices.get v →
          ib.rawStorage[3 * i + v]? ≠ some (t.vertexIndices.get v - 1))) ∧
    IndexBuffer.Set ⟨3, [7, 7, 7]⟩ 0 65536 = .ok ⟨3, [0, 7, 7]⟩ := by
  refine ⟨?_, by decide⟩
  obtain ⟨st, vb, ib, hst, _, hib, _, _, _, _, _, hentries⟩ :=
    LoadMesh_buffers atof sqrt lines g h
  refine ⟨st, ib, hst, hib, ?_⟩
  intro i t ht v hv
  obtain ⟨hpos, hentry⟩ := hentries i t ht v hv
  have h16 : (2 : Nat) ^ 16 = 65536 := by norm_num
  rw [h16] at hentry
  refine ⟨hentry, ?_, ?_⟩
  · intro hle
    rw [hentry, Nat.mod_eq_of_lt (by omega)]
  · intro hgt heq
    rw [hentry] at heq
    have hlt := Nat.mod_lt (t.vertexIndices.get v - 1) (by norm_num : 65536 > 0)
    have := Option.some.inj heq
    omega

/-- Witness for C21: the file of one vertex and one face. -/
theorem index_entry_is_truncated_to_16_bits_witness :
    ∃ g, LoadMesh (fun _ => (0 : ℚ)) (fun x => x) (some pointFile) = .ok g ∧
      ∃ st ib, recordPass (fun _ => (0 : ℚ)) pointFile
          (RecordState.allocate (countingPass pointFile)) = .ok st ∧
        g.indices = some ib :=
  pointFile_loads.imp (fun g hg =>
    ⟨hg, (index_entry_is_truncated_to_16_bits (fun _ => (0 : ℚ)) (fun x => x) pointFile g hg).1.imp
      (fun _ h1 => h1.imp (fun _ h2 => ⟨h2.1, h2.2.1⟩))⟩)

/-- C22, evaluated on a file of four vertices and the face `f 2 3 4`: the mesh is loaded, the
vertex buffer has 24 floats, that is 3 packed corners, and the index buffer holds 1, 2, 3, the
vertex indices less 1.  The entry 3 written for corner 2 is not smaller than the number of
packed corners, and the vertex buffer has no float at the corner ordinal 3. -/
theorem index_entry_beyond_the_packed_corners :
    ∃ g vb ib, LoadMesh (fun _ => (0 : ℚ)) (fun x => x) (some cornerFile) = .ok g ∧
      g.vertices = some vb ∧ g.indices = some ib ∧
      vb.size / 8 = 3 ∧ 3 * (countingPass cornerFile).numberOfTriangles = 3 ∧
      ib.rawStorage[0]? = some 1 ∧ ib.rawStorage[1]? = some 2 ∧ ib.rawStorage[2]? = some 3 ∧
      vb.rawStorage[8 * 3]? = none := by
  obtain ⟨g, hg⟩ := cornerFile_loads
  obtain ⟨st, vb, ib, hst, hvb, hib, hsize, hlen, _, _, _, hentries⟩ :=
    LoadMesh_buffers (fun _ => (0 : ℚ)) (fun x => x) cornerFile g hg
  rw [cornerFile_count] at hst hsize hlen
  rw [cornerFile_record] at hst
  cases hst
  have e0 := (hentries 0 _ rfl 0 (by omega)).2
  have e1 := (hentries 0 _ rfl 1 (by omega)).2
  have e2 := (hentries 0 _ rfl 2 (by omega)).2
  simp only [Array3.get] at e0 e1 e2
  refine ⟨g, vb, ib, hg, hvb, hib, ?_, by decide, ?_, ?_, ?_, ?_⟩
  · simp [hsize]
  · simpa using e0
  · simpa using e1
  · simpa using e2
  · rw [List.getElem?_eq_none]
    simp [hlen]

end IndexBufferLemmas

/-! ## Vertex normals under the uniform rescale (C27) -/

section ScaleInvariance

variable {α : Type} [LinearOrderedField α]

theorem scaleVertices_eq_scalePositions (scale : α) (vertices : List (ObjVertex α)) :
    scaleVertices scale vertices = scalePositions (1 / (scale * 2)) vertices := rfl

theorem cornerPosition_scalePositions (k : α) (vertices : List (ObjVertex α))
    (t : ObjTriangle α) (j : Nat) :
    cornerPosition (scalePositions k vertices) t j =
      (cornerPosition vertices t j).map (fun p => p.mul k) := by
  unfold cornerPosition scalePositions
  rw [List.getElem?_map]
  cases vertices[t.vertexIndices.get j - 1]? with
  | none => rfl
  | some p => rfl

theorem edgeCross_mul (k : α) (p0 p1 p2 : Vector3 α) :
    edgeCross (p0.mul k) (p1.mul k) (p2.mul k) = (edgeCross p0 p1 p2).mul (k * k) := by
  simp only [edgeCross, Vector3.mul, Vector3.mk.injEq]
  refine ⟨?_, ?_, ?_⟩ <;> ring

theorem faceNormalIn_scalePositions (k : α) (vertices : List (ObjVertex α))
    (t : ObjTriangle α) :
    faceNormalIn (scalePositions k vertices) t = (faceNormalIn vertices t).mul (k * k) := by
  unfold faceNormalIn
  rw [cornerPosition_scalePositions, cornerPosition_scalePositions,
    cornerPosition_scalePositions]
  cases cornerPosition vertices t 0 with
  | none => simp [Vector3.zero, Vector3.mul]
  | some p0 =>
    cases cornerPosition vertices t 1 with
    | none => simp [Vector3.zero, Vector3.mul]
    | some p1 =>
      cases cornerPosition vertices t 2 with
      | none => simp [Vector3.zero, Vector3.mul]
      | some p2 => exact edgeCross_mul k p0 p1 p2

theorem vectorSum_map_mul (c : α) (l : List (Vector3 α)) :
    vectorSum (l.map (fun n => n.mul c)) = (vectorSum l).mul c := by
  simp only [vectorSum, Vector3.mul, List.map_map, Vector3.mk.injEq]
  refine ⟨?_, ?_, ?_⟩
  · exact List.sum_map_mul_right l (fun n => n.x) c
  · exact List.sum_map_mul_right l (fun n => n.y) c
  · exact List.sum_map_mul_right l (fun n => n.z) c

theorem sqrt_unique (sqrt : α → α) (hsqrt : ∀ x, 0 ≤ x → 0 ≤ sqrt x ∧ sqrt x * sqrt x = x)
    (x y : α) (hy : 0 ≤ y) (hxy : y * y = x) : sqrt x = y := by
  have hx : 0 ≤ x := by rw [← hxy]; exact mul_self_nonneg y
  obtain ⟨h0, h1⟩ := hsqrt x hx
  have h2 : sqrt x * sqrt x = y * y := by rw [h1, hxy]
  exact (mul_self_eq_mul_self_iff.1 h2).elim id (fun h => by
    have hle : sqrt x ≤ 0 := by rw [h]; exact neg_nonpos.2 hy
    have hz : sqrt x = 0 := le_antisymm hle h0
    rw [hz] at h
    have : y = 0 := by
      have := neg_eq_zero.1 h.symm
      exact this
    rw [hz, this])

/-- Over a square root that is exact on the non-negative numbers, `normalize` gives the same
vector for a vector and for its multiple by a positive factor. -/
theorem normalize_mul_pos (sqrt : α → α)
    (hsqrt : ∀ x, 0 ≤ x → 0 ≤ sqrt x ∧ sqrt x * sqrt x = x) (a : Vector3 α) (c : α)
    (hc : 0 < c) : (a.mul c).normalize sqrt = a.normalize sqrt := by
  have hnn : (0 : α) ≤ 0 + a.x * a.x + a.y * a.y + a.z * a.z := by
    nlinarith [mul_self_nonneg a.x, mul_self_nonneg a.y, mul_self_nonneg a.z]
  obtain ⟨hl0, hl⟩ := hsqrt _ hnn
  have hlen : sqrt (0 + a.x * c * (a.x * c) + a.y * c * (a.y * c) + a.z * c * (a.z * c)) =
      sqrt (0 + a.x * a.x + a.y * a.y + a.z * a.z) * c := by
    apply sqrt_unique sqrt hsqrt
    · exact mul_nonneg hl0 (le_of_lt hc)
    · have : sqrt (0 + a.x * a.x + a.y * a.y + a.z * a.z) * c *
          (sqrt (0 + a.x * a.x + a.y * a.y + a.z * a.z) * c) =
          sqrt (0 + a.x * a.x + a.y * a.y + a.z * a.z) *
            sqrt (0 + a.x * a.x + a.y * a.y + a.z * a.z) * (c * c) := by ring
      rw [this, hl]
      ring
  unfold Vector3.normalize Vector3.length
  simp only [Vector3.mul, hlen, Vector3.mk.injEq]
  exact ⟨mul_div_mul_right _ _ (ne_of_gt hc), mul_div_mul_right _ _ (ne_of_gt hc),
    mul_div_mul_right _ _ (ne_of_gt hc)⟩

theorem derivedNormal_scalePositions (sqrt : α → α)
    (hsqrt : ∀ x, 0 ≤ x → 0 ≤ sqrt x ∧ sqrt x * sqrt x = x) (k : α) (hk : 0 < k)
    (vertices : List (ObjVertex α)) (triangles : List (ObjTriangle α)) (i : Nat) :
    derivedNormal sqrt (scalePositions k vertices) triangles i =
      derivedNormal sqrt vertices triangles i := by
  unfold derivedNormal
  have hmap : (triangles.filter (touches i)).map (faceNormalIn (scalePositions k vertices)) =
      ((triangles.filter (touches i)).map (faceNormalIn vertices)).map
        (fun n => n.mul (k * k)) := by
    rw [List.map_map]
    apply List.map_congr_left
    intro t _
    exact faceNormalIn_scalePositions k vertices t
  rw [hmap, vectorSum_map_mul]
  have hdiv : ∀ (a : Vector3 α) (c n : α), (a.mul c).div n = (a.div n).mul c := by
    intro a c n
    simp only [Vector3.mul, Vector3.div, Vector3.mk.injEq]
    refine ⟨?_, ?_, ?_⟩ <;> ring
  rw [hdiv]
  exact normalize_mul_pos sqrt hsqrt _ _ (mul_pos hk hk)

theorem Coherent_of_fresh (vertices : List (ObjVertex α)) (t : ObjTriangle α)
    (hfresh : t.isFaceNormalComputedYet = false) (hin : IndicesWithin vertices.length t) :
    Coherent vertices t := by
  refine ⟨hin, fun h => ?_⟩
  rw [hfresh] at h
  cases h

theorem scalePositions_length (k : α) (vertices : List (ObjVertex α)) :
    (scalePositions k vertices).length = vertices.length := by
  simp [scalePositions]

/-- C27. Over a square root that is exact on the non-negative numbers, as the real one is, for
every vertex table, every triangle table with empty face-normal caches and vertex indices within
the vertex table, every vertex index `i` and every factor `k > 0`: the face normal of each
triangle over the positions multiplied by `k` is `k * k` times its face normal over the original
positions, and `CalculateVertexNormal(i)` returns the same vector on the scaled positions as on
the original ones; in particular on the table that the rescale of `LoadMesh` leaves for a
positive `scale`. -/
theorem vertex_normal_is_scale_invariant (sqrt : α → α)
    (hsqrt : ∀ x, 0 ≤ x → 0 ≤ sqrt x ∧ sqrt x * sqrt x = x) (k : α) (hk : 0 < k)
    (vertices : List (ObjVertex α)) (triangles : List (ObjTriangle α)) (i : Nat)
    (hfresh : ∀ t ∈ triangles, t.isFaceNormalComputedYet = false)
    (hin : ∀ t ∈ triangles, IndicesWithin vertices.length t) :
    (∀ t ∈ triangles, ∃ n t1 t2, t.GetFaceNormal vertices = .ok (n, t1) ∧
      t.GetFaceNormal (scalePositions k vertices) = .ok (n.mul (k * k), t2)) ∧
    (∃ normal ts1 ts2, CalculateVertexNormal sqrt i vertices triangles = .ok (normal, ts1) ∧
      CalculateVertexNormal sqrt i (scalePositions k vertices) triangles = .ok (normal, ts2) ∧
      ∀ scale : α, 0 < scale → ∃ ts3,
        CalculateVertexNormal sqrt i (scaleVertices scale vertices) triangles =
          .ok (normal, ts3)) := by
  have hco : ∀ t ∈ triangles, Coherent vertices t := fun t ht =>
    Coherent_of_fresh vertices t (hfresh t ht) (hin t ht)
  have hcos : ∀ c : α, ∀ t ∈ triangles, Coherent (scalePositions c vertices) t := fun c t ht =>
    Coherent_of_fresh _ t (hfresh t ht) (by rw [scalePositions_length]; exact hin t ht)
  constructor
  · intro t ht
    obtain ⟨t1, h1, _⟩ := GetFaceNormal_coherent vertices t (hco t ht)
    obtain ⟨t2, h2, _⟩ := GetFaceNormal_coherent (scalePositions k vertices) t (hcos k t ht)
    rw [faceNormalIn_scalePositions] at h2
    exact ⟨_, t1, t2, h1, h2⟩
  · obtain ⟨ts1, h1, _⟩ := CalculateVertexNormal_coherent sqrt i vertices triangles hco
    obtain ⟨ts2, h2, _⟩ := CalculateVertexNormal_coherent sqrt i (scalePositions k vertices)
      triangles (hcos k)
    rw [derivedNormal_scalePositions sqrt hsqrt k hk] at h2
    refine ⟨_, ts1, ts2, h1, h2, ?_⟩
    intro scale hscale
    obtain ⟨ts3, h3, _⟩ := CalculateVertexNormal_coherent sqrt i
      (scalePositions (1 / (scale * 2)) vertices) triangles (hcos _)
    rw [derivedNormal_scalePositions sqrt hsqrt _ (by positivity)] at h3
    exact ⟨ts3, h3⟩

/-- Witness for C27: over the real numbers and their square root, a triangle over three
vertices and the factor 2. -/
theorem vertex_normal_is_scale_invariant_witness :
    ∃ normal ts1 ts2, CalculateVertexNormal Real.sqrt 0
        [(⟨0, 0, 0, 0, 0, 0⟩ : ObjVertex ℝ), ⟨4, 0, 0, 0, 0, 0⟩, ⟨0, 8, 0, 0, 0, 0⟩]
        [⟨⟨1, 2, 3⟩, ⟨1, 1, 1⟩, ⟨1, 1, 1⟩, false, ⟨0, 0, 0⟩⟩] = .ok (normal, ts1) ∧
      CalculateVertexNormal Real.sqrt 0
        (scalePositions 2
          [(⟨0, 0, 0, 0, 0, 0⟩ : ObjVertex ℝ), ⟨4, 0, 0, 0, 0, 0⟩, ⟨0, 8, 0, 0, 0, 0⟩])
        [⟨⟨1, 2, 3⟩, ⟨1, 1, 1⟩, ⟨1, 1, 1⟩, false, ⟨0, 0, 0⟩⟩] = .ok (normal, ts2) :=
  (vertex_normal_is_scale_invariant Real.sqrt
    (fun x hx => ⟨Real.sqrt_nonneg x, Real.mul_self_sqrt hx⟩) 2 (by norm_num)
    [(⟨0, 0, 0, 0, 0, 0⟩ : ObjVertex ℝ), ⟨4, 0, 0, 0, 0, 0⟩, ⟨0, 8, 0, 0, 0, 0⟩]
    [⟨⟨1, 2, 3⟩, ⟨1, 1, 1⟩, ⟨1, 1, 1⟩, false, ⟨0, 0, 0⟩⟩] 0
    (by simp) (by decide)).2.imp
    (fun _ h1 => h1.imp (fun _ h2 => h2.imp (fun _ h3 => ⟨h3.1, h3.2.1⟩)))

end ScaleInvariance

/-! ## The values of the normal records (C30) -/

section NormalRecords

variable {α : Type} [LinearOrderedField α]

theorem countLine_sameButNormal (c : Tally) (a b : Str) (h : SameButNormal a b) :
    countLine c a = countLine c b := by
  rcases h with rfl | ⟨ha, hb⟩
  · rfl
  · unfold countLine
    rw [if_pos ha, if_pos hb]

theorem foldl_countLine_sameButNormal (ls ls' : List Str) (h : List.Forall₂ SameButNormal ls ls')
    (c : Tally) : ls.foldl countLine c = ls'.foldl countLine c := by
  induction h generalizing c with
  | nil => rfl
  | cons hab _ ih =>
    rw [List.foldl_cons, List.foldl_cons, countLine_sameButNormal c _ _ hab]
    exact ih _

theorem modifyAt_const {β : Type} (table : List β) (i : Nat) (x : β) :
    modifyAt table i (fun _ => .ok x) =
      if i < table.length then .ok (table.set i x) else .error .tableOverrun := by
  unfold modifyAt
  by_cases h : i < table.length
  · rw [if_pos h, List.getElem?_eq_getElem h]
  · rw [if_neg h, List.getElem?_eq_none (by omega)]

theorem map_bind_congr {β γ δ : Type} (g : γ → δ) (x : Except Fault β)
    (f : β → Except Fault γ) (f' : β → Except Fault δ) (h : ∀ a, f' a = g <$> f a) :
    (x >>= f') = g <$> (x >>= f) := by
  cases x with
  | error e => rfl
  | ok a => exact h a

omit [LinearOrderedField α] in
theorem recordFace_normals (buffer : Str) (s : RecordState α) (N : List (ObjNormal α)) :
    recordFace buffer { s with normals := N } =
      (fun r => { r with normals := N }) <$> recordFace buffer s := by
  unfold recordFace
  simp only
  refine map_bind_congr _ _ _ _ (fun _ => ?_)
  refine map_bind_congr _ _ _ _ (fun _ => ?_)
  refine map_bind_congr _ _ _ _ (fun _ => ?_)
  refine map_bind_congr _ _ _ _ (fun _ => ?_)
  refine map_bind_congr _ _ _ _ (fun _ => ?_)
  refine map_bind_congr _ _ _ _ (fun _ => ?_)
  refine map_bind_congr _ _ _ _ (fun _ => ?_)
  split
  · refine map_bind_congr _ _ _ _ (fun _ => ?_)
    refine map_bind_congr _ _ _ _ (fun _ => ?_)
    refine map_bind_congr _ _ _ _ (fun _ => ?_)
    rfl
  · rfl

omit [LinearOrderedField α] in
theorem recordLine_normals (atof : Str → α) (buffer : Str) (s : RecordState α)
    (N : List (ObjNormal α)) (h : ¬ buffer.take 2 = ['v', 'n']) :
    recordLine atof { s with normals := N } buffer =
      (fun r => { r with normals := N }) <$> recordLine atof s buffer := by
  unfold recordLine
  rw [if_neg h, if_neg h]
  split
  · simp only
    cases modifyAt s.textureCoordinates s.textureCoordinate
        (fun _ => .ok ⟨atof (streamWord buffer 1), atof (streamWord buffer 2)⟩) with
    | error e => rfl
    | ok x => rfl
  · split
    · simp only
      cases modifyAt s.vertices s.vertex (fun p => .ok { p with
          x := atof (streamWord buffer 1), y := atof (streamWord buffer 2),
          z := atof (streamWord buffer 3) }) with
      | error e => rfl
      | ok x => rfl
    · split
      · exact recordFace_normals buffer s N
      · rfl

omit [LinearOrderedField α] in
theorem recordLine_keeps_normals (atof : Str → α) (buffer : Str) (s r : RecordState α)
    (h : ¬ buffer.take 2 = ['v', 'n']) (hr : recordLine atof s buffer = .ok r) :
    r.normals = s.normals := by
  have hn := recordLine_normals atof buffer s s.normals h
  have hs : ({ s with normals := s.normals } : RecordState α) = s := rfl
  rw [hs, hr] at hn
  have h2 := congrArg RecordState.normals (Except.ok.inj hn)
  exact h2

omit [LinearOrderedField α] in
theorem recordLine_normal_record (atof : Str → α) (buffer : Str) (s : RecordState α)
    (h : buffer.take 2 = ['v', 'n']) :
    recordLine atof s buffer =
      if s.normal < s.normals.length then
        .ok { s with
          normals := s.normals.set s.normal ⟨atof (streamWord buffer 1),
            atof (streamWord buffer 2), atof (streamWord buffer 3)⟩
          normal := s.normal + 1 }
      else .error .tableOverrun := by
  unfold recordLine
  rw [if_pos h]
  simp only [modifyAt_const]
  by_cases hlt : s.normal < s.normals.length
  · simp only [if_pos hlt]
  · simp only [if_neg hlt]

omit [LinearOrderedField α] in
/-- One line of the record pass, on two states that agree but for the values of the normal
records and on two lines that are the same or both normal records: both runs stop with the same
fault, or both go on with states that agree in the same way. -/
theorem recordLine_agree (atof : Str → α) (a b : Str) (s s' : RecordState α)
    (hs : s.AgreeButNormals s') (hab : SameButNormal a b) :
    (∀ e, recordLine atof s a = .error e → recordLine atof s' b = .error e) ∧
    (∀ r, recordLine atof s a = .ok r →
      ∃ r', recordLine atof s' b = .ok r' ∧ r.AgreeButNormals r') := by
  obtain ⟨N, hN, rfl⟩ := hs
  by_cases ha : a.take 2 = ['v', 'n']
  · have hb : b.take 2 = ['v', 'n'] := by
      rcases hab with rfl | ⟨_, hb⟩
      · exact ha
      · exact hb
    rw [recordLine_normal_record atof a s ha, recordLine_normal_record atof b _ hb]
    simp only [hN]
    by_cases hlt : s.normal < s.normals.length
    · rw [if_pos hlt, if_pos hlt]
      refine ⟨fun e he => (by cases he), fun r hr => ?_⟩
      cases hr
      refine ⟨_, rfl, ?_⟩
      exact ⟨N.set s.normal _, by simp [hN], rfl⟩
    · rw [if_neg hlt, if_neg hlt]
      exact ⟨fun e he => he, fun r hr => by cases hr⟩
  · have hb : a = b := by
      rcases hab with rfl | ⟨h1, _⟩
      · rfl
      · exact absurd h1 ha
    subst hb
    rw [recordLine_normals atof a s N ha]
    constructor
    · intro e he
      rw [he]
      rfl
    · intro r hr
      rw [hr]
      refine ⟨_, rfl, ?_⟩
      refine ⟨N, ?_, rfl⟩
      rw [hN, recordLine_keeps_normals atof a s r ha hr]

omit [LinearOrderedField α] in
theorem recordPass_agree (atof : Str → α) (ls ls' : List Str)
    (h : List.Forall₂ SameButNormal ls ls') (s s' : RecordState α)
    (hs : s.AgreeButNormals s') :
    (∀ e, recordPass atof ls s = .error e → recordPass atof ls' s' = .error e) ∧
    (∀ r, recordPass atof ls s = .ok r →
      ∃ r', recordPass atof ls' s' = .ok r' ∧ r.AgreeButNormals r') := by
  induction h generalizing s s' with
  | nil =>
    refine ⟨fun e he => ?_, fun r hr => ?_⟩
    · unfold recordPass at he
      cases he
    · unfold recordPass at hr
      cases hr
      exact ⟨s', rfl, hs⟩
  | @cons a b la lb hab _ ih =>
    obtain ⟨herr, hok⟩ := recordLine_agree atof a b s s' hs hab
    unfold recordPass
    cases h1 : recordLine atof s a with
    | error e =>
      rw [herr e h1]
      exact ⟨fun e he => he, fun r hr => by cases hr⟩
    | ok s1 =>
      obtain ⟨s1', h1', hs1⟩ := hok s1 h1
      rw [h1']
      exact ih s1 s1' hs1

theorem packCorner_normals (vertices : List (ObjVertex α)) (normals normals' : List (ObjNormal α))
    (textureCoordinates : List (ObjTextureCoordinate α)) (i : Nat) (t : ObjTriangle α)
    (vb : VertexBuffer α) (v : Nat) (h : normals.length = normals'.length) :
    packCorner vertices normals textureCoordinates i t vb v =
      packCorner vertices normals' textureCoordinates i t vb v := by
  unfold packCorner
  rw [h]

/-- The packing loop reads of the table of the normal records only its size. -/
theorem packLoop_normals (vertices : List (ObjVertex α)) (normals normals' : List (ObjNormal α))
    (textureCoordinates : List (ObjTextureCoordinate α)) (triangles : List (ObjTriangle α))
    (i : Nat) (vb : VertexBuffer α) (ib : IndexBuffer) (h : normals.length = normals'.length) :
    packLoop vertices normals textureCoordinates triangles i vb ib =
      packLoop vertices normals' textureCoordinates triangles i vb ib := by
  induction triangles generalizing i vb ib with
  | nil => rfl
  | cons t rest ih =>
    unfold packLoop
    simp only [packCorner_normals vertices normals normals' textureCoordinates _ _ _ _ h, ih]

/-- C30. For every two inputs that are the same line for line, except that where the one has a
`vn` line the other has a `vn` line with other fields, `LoadMesh` stops with the same fault on
both or returns the same mesh for both: the same vertex buffer, the same index buffer, the same
scale and the same depth table. -/
theorem normal_records_do_not_influence_the_mesh (atof : Str → α) (sqrt : α → α)
    (ls ls' : List Str) (h : List.Forall₂ SameButNormal ls ls') :
    LoadMesh atof sqrt (some ls) = LoadMesh atof sqrt (some ls') := by
  have hcount : countingPass ls = countingPass ls' :=
    foldl_countLine_sameButNormal ls ls' h _
  obtain ⟨herr, hok⟩ := recordPass_agree atof ls ls' h
    (RecordState.allocate (countingPass ls)) (RecordState.allocate (countingPass ls))
    ⟨_, rfl, rfl⟩
  unfold LoadMesh
  simp only
  rw [← hcount]
  cases h1 : recordPass atof ls (RecordState.allocate (countingPass ls)) with
  | error e =>
    rw [herr e h1]
  | ok st =>
    obtain ⟨st', h1', N, hN, rfl⟩ := hok st h1
    rw [h1']
    have hp := fun (V : List (ObjVertex α)) TC T i vb ib =>
      packLoop_normals V st.normals N TC T i vb ib hN.symm
    simp only [ok_bind, hp]

/-- Witness for C30: two files of a normal record, a vertex and a face, with the normal records
`vn 1 2 3` and `vn 9 8 7`. -/
theorem normal_records_do_not_influence_the_mesh_witness :
    List.Forall₂ SameButNormal
      [("vn 1 2 3").toList, ("v 0 0 0").toList, ("f 1 1 1").toList]
      [("vn 9 8 7").toList, ("v 0 0 0").toList, ("f 1 1 1").toList] ∧
    LoadMesh (fun s => ((atoi.digits s 0 : Nat) : ℚ)) (fun x => x)
        (some [("vn 1 2 3").toList, ("v 0 0 0").toList, ("f 1 1 1").toList]) =
      LoadMesh (fun s => ((atoi.digits s 0 : Nat) : ℚ)) (fun x => x)
        (some [("vn 9 8 7").toList, ("v 0 0 0").toList, ("f 1 1 1").toList]) :=
  ⟨List.Forall₂.cons (Or.inr ⟨rfl, rfl⟩)
      (List.Forall₂.cons (Or.inl rfl) (List.Forall₂.cons (Or.inl rfl) List.Forall₂.nil)),
    normal_records_do_not_influence_the_mesh (fun s => ((atoi.digits s 0 : Nat) : ℚ)) (fun x => x) _ _
      (List.Forall₂.cons (Or.inr ⟨rfl, rfl⟩)
        (List.Forall₂.cons (Or.inl rfl) (List.Forall₂.cons (Or.inl rfl) List.Forall₂.nil)))⟩

end NormalRecords

/-! ## The rescale reaches one half -/

section RescalePeak

variable {α : Type} [LinearOrderedField α]

theorem maximumOf_nonneg (values : List α) : 0 ≤ maximumOf values := by
  induction values with
  | nil => exact le_refl _
  | cons a l ih =>
    rw [maximumOf_cons]
    exact le_trans ih (le_max_right _ _)

/-- A positive maximum of a list is one of its members. -/
theorem maximumOf_mem (values : List α) (h : 0 < maximumOf values) :
    maximumOf values ∈ values := by
  induction values with
  | nil => exact absurd h (lt_irrefl _)
  | cons a l ih =>
    rw [maximumOf_cons] at h ⊢
    rcases le_total a (maximumOf l) with hle | hle
    · rw [max_eq_right hle] at h ⊢
      exact List.mem_cons_of_mem _ (ih h)
    · rw [max_eq_left hle]
      exact List.mem_cons_self _ _

theorem le_maximumOf (values : List α) (a : α) (h : a ∈ values) : a ≤ maximumOf values := by
  induction values with
  | nil => cases h
  | cons b l ih =>
    rw [maximumOf_cons]
    rcases List.mem_cons.1 h with rfl | h
    · exact le_max_left _ _
    · exact le_trans (ih h) (le_max_right _ _)

theorem maximumOf_map_mul (values : List α) (k : α) (hk : 0 ≤ k) :
    maximumOf (values.map (fun a => a * k)) = maximumOf values * k := by
  induction values with
  | nil => simp [maximumOf]
  | cons a l ih =>
    rw [List.map_cons, maximumOf_cons, maximumOf_cons, ih, max_mul_of_nonneg _ _ hk]

theorem mem_cornerValues (f : ObjVertex α → α) (vertices : List (ObjVertex α))
    (triangles : List (ObjTriangle α)) (a : α) :
    a ∈ cornerValues f vertices triangles ↔
      ∃ t ∈ triangles, ∃ v, v < 3 ∧
        ∃ p, vertices[t.vertexIndices.get v - 1]? = some p ∧ |f p| = a := by
  simp only [cornerValues, List.mem_flatMap, List.mem_filterMap, Option.map_eq_some']
  constructor
  · rintro ⟨t, ht, v, hv, p, hp, rfl⟩
    refine ⟨t, ht, v, ?_, p, hp, rfl⟩
    simp at hv
    omega
  · rintro ⟨t, ht, v, hv, p, hp, rfl⟩
    refine ⟨t, ht, v, ?_, p, hp, rfl⟩
    simp
    omega

/-- The corner values of a coordinate of the rescaled table are those of the table, each
multiplied by the factor `1 / (scale * 2)` of the rescale. -/
theorem cornerValues_scaleVertices (f : ObjVertex α → α) (scale : α) (hs : 0 ≤ scale)
    (hf : ∀ p q : ObjVertex α, q.x = p.x * (1 / (scale * 2)) → q.y = p.y * (1 / (scale * 2)) →
      q.z = p.z * (1 / (scale * 2)) → f q = f p * (1 / (scale * 2)))
    (vertices : List (ObjVertex α)) (triangles : List (ObjTriangle α)) :
    cornerValues f (scaleVertices scale vertices) triangles
      = (cornerValues f vertices triangles).map (fun a => a * (1 / (scale * 2))) := by
  have hk : (0 : α) ≤ 1 / (scale * 2) := by positivity
  unfold cornerValues
  rw [List.map_flatMap]
  congr 1
  funext t
  rw [List.map_filterMap]
  congr 1
  funext v
  rw [scaleVertices_getElem?, Option.map_map, Option.map_map]
  congr 1
  funext p
  simp only [Function.comp]
  rw [hf p _ rfl rfl rfl, abs_mul, abs_of_nonneg hk]

/-- The largest absolute corner coordinate of the rescaled table is that of the table multiplied
by the factor of the rescale. -/
theorem largestCoordinate_scaleVertices (scale : α) (hs : 0 ≤ scale)
    (vertices : List (ObjVertex α)) (triangles : List (ObjTriangle α)) :
    largestCoordinate (scaleVertices scale vertices) triangles
      = largestCoordinate vertices triangles * (1 / (scale * 2)) := by
  have hk : (0 : α) ≤ 1 / (scale * 2) := by positivity
  unfold largestCoordinate
  rw [cornerValues_scaleVertices (fun p => p.x) scale hs (fun _ _ h _ _ => h),
    cornerValues_scaleVertices (fun p => p.y) scale hs (fun _ _ _ h _ => h),
    cornerValues_scaleVertices (fun p => p.z) scale hs (fun _ _ _ _ h => h),
    maximumOf_map_mul _ _ hk, maximumOf_map_mul _ _ hk, maximumOf_map_mul _ _ hk,
    max_mul_of_nonneg _ _ hk, max_mul_of_nonneg _ _ hk]

theorem largestCoordinate_nonneg (vertices : List (ObjVertex α))
    (triangles : List (ObjTriangle α)) : 0 ≤ largestCoordinate vertices triangles :=
  le_trans (maximumOf_nonneg _) (le_max_left _ _)

/-- The scale is the largest absolute corner coordinate, floored at one half. -/
theorem uniformScale_largestCoordinate (vertices : List (ObjVertex α))
    (triangles : List (ObjTriangle α)) (e : Extent α)
    (h : measureExtent vertices triangles = .ok e) :
    uniformScale e = max (1 / 2) (largestCoordinate vertices triangles) :=
  uniformScale_value vertices triangles e h

/-- A positive largest corner coordinate is the absolute coordinate of a corner. -/
theorem largestCoordinate_attained (vertices : List (ObjVertex α))
    (triangles : List (ObjTriangle α)) (h : 0 < largestCoordinate vertices triangles) :
    ∃ t ∈ triangles, ∃ v, v < 3 ∧ ∃ p, vertices[t.vertexIndices.get v - 1]? = some p ∧
      (|p.x| = largestCoordinate vertices triangles ∨
        |p.y| = largestCoordinate vertices triangles ∨
        |p.z| = largestCoordinate vertices triangles) := by
  unfold largestCoordinate at h ⊢
  rcases max_choice (maximumOf (cornerValues (fun p => p.x) vertices triangles))
    (max (maximumOf (cornerValues (fun p => p.y) vertices triangles))
      (maximumOf (cornerValues (fun p => p.z) vertices triangles))) with hx | hyz
  · rw [hx] at h ⊢
    obtain ⟨t, ht, v, hv, p, hp, hval⟩ := (mem_cornerValues _ _ _ _).1 (maximumOf_mem _ h)
    exact ⟨t, ht, v, hv, p, hp, Or.inl hval⟩
  · rw [hyz] at h ⊢
    rcases max_choice (maximumOf (cornerValues (fun p => p.y) vertices triangles))
      (maximumOf (cornerValues (fun p => p.z) vertices triangles)) with hy | hz
    · rw [hy] at h ⊢
      obtain ⟨t, ht, v, hv, p, hp, hval⟩ := (mem_cornerValues _ _ _ _).1 (maximumOf_mem _ h)
      exact ⟨t, ht, v, hv, p, hp, Or.inr (Or.inl hval)⟩
    · rw [hz] at h ⊢
      obtain ⟨t, ht, v, hv, p, hp, hval⟩ := (mem_cornerValues _ _ _ _).1 (maximumOf_mem _ h)
      exact ⟨t, ht, v, hv, p, hp, Or.inr (Or.inr hval)⟩

/-- Every absolute coordinate of a corner is at most the largest absolute corner coordinate. -/
theorem le_largestCoordinate (vertices : List (ObjVertex α)) (triangles : List (ObjTriangle α))
    (t : ObjTriangle α) (ht : t ∈ triangles) (v : Nat) (hv : v < 3) (p : ObjVertex α)
    (hp : vertices[t.vertexIndices.get v - 1]? = some p) :
    |p.x| ≤ largestCoordinate vertices triangles ∧ |p.y| ≤ largestCoordinate vertices triangles ∧
      |p.z| ≤ largestCoordinate vertices triangles := by
  have hx := le_maximumOf _ _ ((mem_cornerValues (fun q => q.x) vertices triangles _).2
    ⟨t, ht, v, hv, p, hp, rfl⟩)
  have hy := le_maximumOf _ _ ((mem_cornerValues (fun q => q.y) vertices triangles _).2
    ⟨t, ht, v, hv, p, hp, rfl⟩)
  have hz := le_maximumOf _ _ ((mem_cornerValues (fun q => q.z) vertices triangles _).2
    ⟨t, ht, v, hv, p, hp, rfl⟩)
  unfold largestCoordinate
  exact ⟨le_trans hx (le_max_left _ _),
    le_trans hy (le_trans (le_max_left _ _) (le_max_right _ _)),
    le_trans hz (le_trans (le_max_right _ _) (le_max_right _ _))⟩

/-- The positions that a successful `LoadMesh` packs: the mesh has a triangle, and the block of
corner `v` of triangle `i` holds at `+0..2` the position of the vertex that the corner refers to in
the recentered and rescaled table. -/
theorem LoadMesh_packed_positions (atof : Str → α) (sqrt : α → α) (lines : List Str)
    (g : MeshGeometry α) (h : LoadMesh atof sqrt (some lines) = .ok g) :
    ∃ st e vb, recordPass atof lines (RecordState.allocate (countingPass lines)) = .ok st ∧
      measureExtent (centerModel st.vertices) st.triangles = .ok e ∧
      g.vertices = some vb ∧ st.triangles ≠ [] ∧
      ∀ i t, st.triangles[i]? = some t → ∀ v, v < 3 →
        ∃ p, CornerAt (scaleVertices (uniformScale e) (centerModel st.vertices)) t v p ∧
          vb.rawStorage[24 * i + 8 * v + 0]? = some p.x ∧
          vb.rawStorage[24 * i + 8 * v + 1]? = some p.y ∧
          vb.rawStorage[24 * i + 8 * v + 2]? = some p.z := by
  obtain ⟨st, e, vb0, ib0, rebuilt, ts, depth, vb1, ib1, vb2, hst, he, hvb, hrb, hdepth, hpack,
    hwd, rfl⟩ := LoadMesh_stages atof sqrt lines g h
  obtain ⟨hposmap, hidxmap⟩ := rebuildNormals_preserves sqrt _ _ _ _ _ hrb
  obtain ⟨hw0, hf0⟩ := VertexBuffer_new_eq_ok hvb
  obtain ⟨hw1, _, hf1, _, hpacked⟩ := packLoop_spec _ _ _ _ _ _ _ _ _ hw0 hpack
  unfold TriangleMeshInternalDepth.WriteDepthAsTextureCoordinates at hwd
  split at hwd
  · cases hwd
  have hstride : vb1.GetVertexStride = 8 := by
    unfold VertexBuffer.GetVertexStride
    rw [hf1, hf0]
  rw [hstride] at hwd
  obtain ⟨hw2, hframe, _⟩ := writeDepthLoop_spec _ _ _ _ _ hw1 hwd
  have hlen := (recordPass_written hst (fun j t _ hj => by
    simp [RecordState.allocate] at hj)).2.1
  have hcount : 0 < (countingPass lines).numberOfTriangles := by
    unfold VertexBuffer.new at hvb
    split at hvb
    · cases hvb
    · omega
  have hne : st.triangles ≠ [] := by
    intro hnil
    rw [hnil] at hlen
    simp [RecordState.allocate] at hlen
    omega
  refine ⟨st, e, vb2, hst, he, rfl, hne, ?_⟩
  intro i t ht v hv
  obtain ⟨t', ht', hidx⟩ := getElem?_of_map_eq ObjTriangle.vertexIndices hidxmap ht
  obtain ⟨pf, ⟨idx, hgi, hpf⟩, hholds⟩ := hpacked i t' ht' v hv
  obtain ⟨_, hpos, hget⟩ := GetVertexIndex_eq_ok.1 hgi
  rw [hidx] at hget
  subst hget
  rw [decrement_pos hpos] at hpf
  rw [scaleVertices_getElem?] at hpf
  cases hq : rebuilt[t.vertexIndices.get v - 1]? with
  | none => rw [hq] at hpf; cases hpf
  | some q =>
    rw [hq] at hpf
    simp only [Option.map_some', Option.some.injEq] at hpf
    subst hpf
    obtain ⟨c, hc, hcq⟩ := getElem?_of_map_eq ObjVertex.position hposmap.symm hq
    simp only [ObjVertex.position, Prod.mk.injEq] at hcq
    have hbase : (0 + i) * 24 + v * 8 = 24 * i + 8 * v := by omega
    rw [hbase] at hholds
    have hholds2 := HoldsCorner_of_frame
      (fun off h1 h2 h3 => hframe off (Or.inl (by omega))) hholds
    obtain ⟨k0, k1, k2, _, _, _⟩ := hholds2
    simp only at k0 k1 k2
    have hsc := scaleVertices_getElem? (uniformScale e) (centerModel st.vertices)
      (t.vertexIndices.get v - 1)
    rw [hc, Option.map_some'] at hsc
    rw [← decrement_pos hpos] at hsc
    refine ⟨_, ⟨t.vertexIndices.get v, GetVertexIndex_eq_ok.2 ⟨hv, hpos, rfl⟩, hsc⟩, ?_, ?_, ?_⟩
    · rw [k0, hcq.1]
    · rw [k1, hcq.2.1]
    · rw [k2, hcq.2.2]

/-- C31. The rescale bounds positions to half the documented range. For every mesh on whose
recentered table the extent loop succeeds, every position component of every triangle corner of
the rescaled table lies in `[-1/2, 1/2]`; when the largest absolute recentered coordinate over all
triangle corners is at least 0.5, the largest absolute coordinate over all triangle corners of the
rescaled table is exactly 1/2 (so it never reaches 1), and it is the absolute value of a
coordinate of a corner; and when `LoadMesh` loads a file with this vertex table and these
triangles, the mesh has at least one triangle and the position floats packed for corner `v` of
triangle `i`, at the offsets `24 i + 8 v + 0..2` of the vertex buffer, are the coordinates of that
corner in the rescaled table. -/
theorem rescale_peaks_at_one_half (vertices : List (ObjVertex α))
    (triangles : List (ObjTriangle α)) (e : Extent α)
    (he : measureExtent (centerModel vertices) triangles = .ok e) :
    (∀ t ∈ triangles, ∀ v, v < 3 →
      ∃ p, CornerAt (scaleVertices (uniformScale e) (centerModel vertices)) t v p ∧
        |p.x| ≤ 1 / 2 ∧ |p.y| ≤ 1 / 2 ∧ |p.z| ≤ 1 / 2) ∧
    (1 / 2 ≤ largestCoordinate (centerModel vertices) triangles →
      largestCoordinate (scaleVertices (uniformScale e) (centerModel vertices)) triangles
        = 1 / 2 ∧
      ∃ t ∈ triangles, ∃ v, v < 3 ∧
        ∃ p, CornerAt (scaleVertices (uniformScale e) (centerModel vertices)) t v p ∧
          max |p.x| (max |p.y| |p.z|) = 1 / 2) ∧
    (∀ (atof : Str → α) (sqrt : α → α) (lines : List Str) (g : MeshGeometry α)
        (st : RecordState α),
      LoadMesh atof sqrt (some lines) = .ok g →
      recordPass atof lines (RecordState.allocate (countingPass lines)) = .ok st →
      st.vertices = vertices → st.triangles = triangles →
      triangles ≠ [] ∧
      ∃ vb, g.vertices = some vb ∧
        ∀ i t, triangles[i]? = some t → ∀ v, v < 3 →
          ∃ p, CornerAt (scaleVertices (uniformScale e) (centerModel vertices)) t v p ∧
            vb.rawStorage[24 * i + 8 * v + 0]? = some p.x ∧
            vb.rawStorage[24 * i + 8 * v + 1]? = some p.y ∧
            vb.rawStorage[24 * i + 8 * v + 2]? = some p.z) := by
  have hwithin := measureExtent_loop_within _ _ _ _ he
  have hbound : ∀ t ∈ triangles, ∀ v, v < 3 →
      ∃ p, CornerAt (scaleVertices (uniformScale e) (centerModel vertices)) t v p ∧
        |p.x| ≤ 1 / 2 ∧ |p.y| ≤ 1 / 2 ∧ |p.z| ≤ 1 / 2 := by
    intro t ht v hv
    have hin : IndicesWithin (scaleVertices (uniformScale e) (centerModel vertices)).length t := by
      rw [scaleVertices_length]
      exact hwithin t ht
    obtain ⟨p, hp⟩ := cornerAt_of_indicesWithin _ t hin v hv
    exact ⟨p, hp, scaled_corner_bounds (centerModel vertices) (centerModel vertices)
      triangles triangles e he rfl rfl t ht v p hp⟩
  refine ⟨hbound, ?_, ?_⟩
  · intro hhalf
    have hscale : uniformScale e = largestCoordinate (centerModel vertices) triangles := by
      rw [uniformScale_largestCoordinate _ _ _ he, max_eq_right hhalf]
    have hpos : (0 : α) < largestCoordinate (centerModel vertices) triangles :=
      lt_of_lt_of_le (by norm_num) hhalf
    have hvalue : largestCoordinate (scaleVertices (uniformScale e) (centerModel vertices))
        triangles = 1 / 2 := by
      rw [largestCoordinate_scaleVertices _ (le_trans (by norm_num) (uniformScale_ge_half e)),
        hscale]
      field_simp
    refine ⟨hvalue, ?_⟩
    obtain ⟨t, ht, v, hv, p, hp, hval⟩ := largestCoordinate_attained
      (scaleVertices (uniformScale e) (centerModel vertices)) triangles
      (by rw [hvalue]; norm_num)
    rw [hvalue] at hval
    have hidx := (hwithin t ht v hv).1
    have hc : CornerAt (scaleVertices (uniformScale e) (centerModel vertices)) t v p :=
      ⟨t.vertexIndices.get v, GetVertexIndex_eq_ok.2 ⟨hv, hidx, rfl⟩, by
        rw [decrement_pos hidx]; exact hp⟩
    obtain ⟨hx, hy, hz⟩ := scaled_corner_bounds (centerModel vertices) (centerModel vertices)
      triangles triangles e he rfl rfl t ht v p hc
    refine ⟨t, ht, v, hv, p, hc, le_antisymm (max_le hx (max_le hy hz)) ?_⟩
    rcases hval with h1 | h1 | h1
    · rw [← h1]
      exact le_max_left _ _
    · rw [← h1]
      exact le_trans (le_max_left _ _) (le_max_right _ _)
    · rw [← h1]
      exact le_trans (le_max_right _ _) (le_max_right _ _)
  · intro atof sqrt lines g st hload hst hv ht
    obtain ⟨st', e', vb, hst', he', hvb, hne, hpacked⟩ :=
      LoadMesh_packed_positions atof sqrt lines g hload
    rw [hst] at hst'
    cases hst'
    rw [hv, ht] at he'
    rw [he] at he'
    cases he'
    rw [ht] at hne hpacked
    rw [hv] at hpacked
    exact ⟨hne, vb, hvb, hpacked⟩

theorem triangleFile_count : countingPass triangleFile = ⟨0, 0, 1, 3⟩ := by decide

theorem triangleFile_record :
    recordPass (fun s => ((atoi.digits s 0 : Nat) : ℚ)) triangleFile
        (RecordState.allocate ⟨0, 0, 1, 3⟩)
      = .ok ⟨[⟨0, 0, 0, 0, 0, 0⟩, ⟨4, 0, 0, 0, 0, 0⟩, ⟨0, 8, 0, 0, 0, 0⟩],
          [⟨0, 0, 0⟩], [⟨0, 0⟩],
          [⟨⟨1, 2, 3⟩, ⟨1, 1, 1⟩, ⟨1, 1, 1⟩, false, ⟨0, 0, 0⟩⟩], 0, 0, 3, 1⟩ := by
  decide

theorem triangleFile_center :
    centerModel [(⟨0, 0, 0, 0, 0, 0⟩ : ObjVertex ℚ), ⟨4, 0, 0, 0, 0, 0⟩, ⟨0, 8, 0, 0, 0, 0⟩] =
    [⟨-4 / 3, -8 / 3, 0, 0, 0, 0⟩, ⟨8 / 3, -8 / 3, 0, 0, 0, 0⟩, ⟨-4 / 3, 16 / 3, 0, 0, 0, 0⟩] := by
  norm_num [centerModel]

theorem triangleFile_extent :
    measureExtent [(⟨-4 / 3, -8 / 3, 0, 0, 0, 0⟩ : ObjVertex ℚ), ⟨8 / 3, -8 / 3, 0, 0, 0, 0⟩,
        ⟨-4 / 3, 16 / 3, 0, 0, 0, 0⟩]
      [⟨⟨1, 2, 3⟩, ⟨1, 1, 1⟩, ⟨1, 1, 1⟩, false, ⟨0, 0, 0⟩⟩]
      = .ok ⟨8 / 3, 16 / 3, FLT_MIN⟩ := by
  have h : (0 : ℚ) ≤ FLT_MIN := le_of_lt FLT_MIN_pos
  have h2 : (FLT_MIN : ℚ) ≤ 4 / 3 := le_trans FLT_MIN_le_half (by norm_num)
  have h3 : (FLT_MIN : ℚ) ≤ 8 / 3 := le_trans FLT_MIN_le_half (by norm_num)
  norm_num [measureExtent, measureExtent.loop, measureTriangle, measureCorner,
    ObjTriangle.GetVertexIndex, Array3.get, decrement, elementAt, bind, Except.bind, pure,
    Except.pure, h, h2, h3, abs_of_nonneg, abs_of_neg]

theorem triangleFile_scale : uniformScale (⟨8 / 3, 16 / 3, FLT_MIN⟩ : Extent ℚ) = 16 / 3 := by
  have h : (FLT_MIN : ℚ) ≤ 16 / 3 := le_trans FLT_MIN_le_half (by norm_num)
  norm_num [uniformScale, h]

/-- The file of three vertices and one face is loaded without a fault. -/
theorem triangleFile_loads :
    ∃ g, LoadMesh (fun s => ((atoi.digits s 0 : Nat) : ℚ)) (fun x => x) (some triangleFile)
      = .ok g := by
  unfold LoadMesh
  simp only [triangleFile_count, triangleFile_record, triangleFile_center, triangleFile_extent,
    triangleFile_scale, bind, Except.bind]
  norm_num [VertexBuffer.new, IndexBuffer.new, rebuildNormals, List.range, List.range.loop,
    CalculateVertexNormal, CalculateVertexNormal.loop,
    usesVertex, ObjTriangle.GetFaceNormal, positionAt, modifyAt, cross, Vector3.sub, Vector3.add,
    Vector3.div, ObjTriangle.GetVertexIndex, Array3.get, decrement, elementAt,
    Vector3.normalize, Vector3.length, Vector3.zero, scaleVertices,
    TriangleMeshInternalDepth.Calculate,
    distancesLoop, minimumDepthLoop, cornerPositions, RayTriangleCollision, Vector3.dot,
    Vector3.mul, packLoop, packCorner, ObjTriangle.GetTextureCoordinateIndex,
    ObjTriangle.GetNormalIndex, VertexBuffer.Set, IndexBuffer.Set,
    TriangleMeshInternalDepth.WriteDepthAsTextureCoordinates, assertThat,
    writeDepthLoop, writeDepthCorner, VertexBuffer.GetVertexStride, toIndexType, bind,
    Except.bind, pure, Except.pure]

theorem triangleFile_largest :
    largestCoordinate [(⟨-4 / 3, -8 / 3, 0, 0, 0, 0⟩ : ObjVertex ℚ), ⟨8 / 3, -8 / 3, 0, 0, 0, 0⟩,
        ⟨-4 / 3, 16 / 3, 0, 0, 0, 0⟩]
      [⟨⟨1, 2, 3⟩, ⟨1, 1, 1⟩, ⟨1, 1, 1⟩, false, ⟨0, 0, 0⟩⟩] = 16 / 3 := by
  have c0 : CornerAt [(⟨-4 / 3, -8 / 3, 0, 0, 0, 0⟩ : ObjVertex ℚ), ⟨8 / 3, -8 / 3, 0, 0, 0, 0⟩,
      ⟨-4 / 3, 16 / 3, 0, 0, 0, 0⟩] ⟨⟨1, 2, 3⟩, ⟨1, 1, 1⟩, ⟨1, 1, 1⟩, false, ⟨0, 0, 0⟩⟩ 0
      ⟨-4 / 3, -8 / 3, 0, 0, 0, 0⟩ := ⟨1, rfl, rfl⟩
  have c1 : CornerAt [(⟨-4 / 3, -8 / 3, 0, 0, 0, 0⟩ : ObjVertex ℚ), ⟨8 / 3, -8 / 3, 0, 0, 0, 0⟩,
      ⟨-4 / 3, 16 / 3, 0, 0, 0, 0⟩] ⟨⟨1, 2, 3⟩, ⟨1, 1, 1⟩, ⟨1, 1, 1⟩, false, ⟨0, 0, 0⟩⟩ 1
      ⟨8 / 3, -8 / 3, 0, 0, 0, 0⟩ := ⟨2, rfl, rfl⟩
  have c2 : CornerAt [(⟨-4 / 3, -8 / 3, 0, 0, 0, 0⟩ : ObjVertex ℚ), ⟨8 / 3, -8 / 3, 0, 0, 0, 0⟩,
      ⟨-4 / 3, 16 / 3, 0, 0, 0, 0⟩] ⟨⟨1, 2, 3⟩, ⟨1, 1, 1⟩, ⟨1, 1, 1⟩, false, ⟨0, 0, 0⟩⟩ 2
      ⟨-4 / 3, 16 / 3, 0, 0, 0, 0⟩ := ⟨3, rfl, rfl⟩
  unfold largestCoordinate
  rw [cornerValues_cons _ _ _ _ _ _ _ c0 c1 c2, cornerValues_cons _ _ _ _ _ _ _ c0 c1 c2,
    cornerValues_cons _ _ _ _ _ _ _ c0 c1 c2]
  norm_num [cornerValues, maximumOf, abs_of_nonneg, abs_of_neg]

/-- Witness for C31: the triangle over `(0,0,0)`, `(4,0,0)`, `(0,8,0)`, whose largest absolute
recentered coordinate is 16/3, and the file of it, which `LoadMesh` loads: the float packed for
the `y` of its last corner has the absolute value 1/2. -/
theorem rescale_peaks_at_one_half_witness :
    measureExtent
        (centerModel [(⟨0, 0, 0, 0, 0, 0⟩ : ObjVertex ℚ), ⟨4, 0, 0, 0, 0, 0⟩, ⟨0, 8, 0, 0, 0, 0⟩])
        [⟨⟨1, 2, 3⟩, ⟨1, 1, 1⟩, ⟨1, 1, 1⟩, false, ⟨0, 0, 0⟩⟩] = .ok ⟨8 / 3, 16 / 3, FLT_MIN⟩ ∧
    (1 / 2 : ℚ) ≤ largestCoordinate
        (centerModel [(⟨0, 0, 0, 0, 0, 0⟩ : ObjVertex ℚ), ⟨4, 0, 0, 0, 0, 0⟩, ⟨0, 8, 0, 0, 0, 0⟩])
        [⟨⟨1, 2, 3⟩, ⟨1, 1, 1⟩, ⟨1, 1, 1⟩, false, ⟨0, 0, 0⟩⟩] ∧
    largestCoordinate
        (scaleVertices (uniformScale (⟨8 / 3, 16 / 3, FLT_MIN⟩ : Extent ℚ))
          (centerModel [(⟨0, 0, 0, 0, 0, 0⟩ : ObjVertex ℚ), ⟨4, 0, 0, 0, 0, 0⟩,
            ⟨0, 8, 0, 0, 0, 0⟩]))
        [⟨⟨1, 2, 3⟩, ⟨1, 1, 1⟩, ⟨1, 1, 1⟩, false, ⟨0, 0, 0⟩⟩] = 1 / 2 ∧
    ∃ g vb, LoadMesh (fun s => ((atoi.digits s 0 : Nat) : ℚ)) (fun x => x) (some triangleFile)
        = .ok g ∧
      g.vertices = some vb ∧ ∃ x, vb.rawStorage[17]? = some x ∧ |x| = 1 / 2 := by
  have he : measureExtent
      (centerModel [(⟨0, 0, 0, 0, 0, 0⟩ : ObjVertex ℚ), ⟨4, 0, 0, 0, 0, 0⟩, ⟨0, 8, 0, 0, 0, 0⟩])
      [⟨⟨1, 2, 3⟩, ⟨1, 1, 1⟩, ⟨1, 1, 1⟩, false, ⟨0, 0, 0⟩⟩] = .ok ⟨8 / 3, 16 / 3, FLT_MIN⟩ := by
    rw [triangleFile_center]
    exact triangleFile_extent
  have hl : (1 / 2 : ℚ) ≤ largestCoordinate
      (centerModel [(⟨0, 0, 0, 0, 0, 0⟩ : ObjVertex ℚ), ⟨4, 0, 0, 0, 0, 0⟩, ⟨0, 8, 0, 0, 0, 0⟩])
      [⟨⟨1, 2, 3⟩, ⟨1, 1, 1⟩, ⟨1, 1, 1⟩, false, ⟨0, 0, 0⟩⟩] := by
    rw [triangleFile_center, triangleFile_largest]
    norm_num
  have h := rescale_peaks_at_one_half
    [(⟨0, 0, 0, 0, 0, 0⟩ : ObjVertex ℚ), ⟨4, 0, 0, 0, 0, 0⟩, ⟨0, 8, 0, 0, 0, 0⟩]
    [⟨⟨1, 2, 3⟩, ⟨1, 1, 1⟩, ⟨1, 1, 1⟩, false, ⟨0, 0, 0⟩⟩] _ he
  refine ⟨he, hl, (h.2.1 hl).1, ?_⟩
  obtain ⟨g, hg⟩ := triangleFile_loads
  obtain ⟨_, vb, hvb, hpacked⟩ := h.2.2 _ _ _ g _ hg
    (by rw [triangleFile_count]; exact triangleFile_record) rfl rfl
  obtain ⟨p, ⟨idx, hgi, hp⟩, _, hy, _⟩ := hpacked 0 _ rfl 2 (by decide)
  obtain ⟨_, _, hidx⟩ := GetVertexIndex_eq_ok.1 hgi
  have hidx3 : idx = 3 := hidx.symm
  subst hidx3
  rw [triangleFile_scale, triangleFile_center] at hp
  have hpy : p.y = 1 / 2 := by
    have hp2 : (⟨-4 / 3 * (1 / (16 / 3 * 2)), 16 / 3 * (1 / (16 / 3 * 2)),
        0 * (1 / (16 / 3 * 2)), 0, 0, 0⟩ : ObjVertex ℚ) = p :=
      Option.some.inj hp
    rw [← hp2]
    norm_num
  refine ⟨g, vb, hg, hvb, p.y, hy, ?_⟩
  rw [hpy]
  norm_num

end RescalePeak

end GlGoodies
